import Mathlib

/-!
# The IN-set core of `src/Interpreters/Set.cpp`

A shallow embedding of `DB::Set` (build with `setHeader` / `insertFromColumns`, bulk
probe with `execute`) together with the small part of the column runtime it touches.

Conventions of the embedding

* A `UInt8` container (`ColumnUInt8::Container`, `NullMap`) is a `List Nat`; a byte is
  "set" when it is non-zero, exactly as the C++ tests `if ((*null_map)[i])`.
* A nullable pointer (`ConstNullMapPtr`, `ColumnPtr` that may be null,
  `ColumnUInt8::Container *`) is an `Option`.
* A member function that can throw returns `Except ErrorCodes _`; a member function
  that mutates the `Set` before it may throw returns the new `Set` next to the outcome.
* The reader/writer lock and the cast cache carry no data and are not modelled.
-/

set_option autoImplicit false

namespace DB

/-! ## Error codes -/

/-- The error codes `Set.cpp` raises itself (`namespace ErrorCodes`), the
`std::out_of_range` of `std::vector::at`, and the code of an exception raised inside a
cast (which `execute` lets through untouched). -/
inductive ErrorCodes
  | LOGICAL_ERROR
  | SET_SIZE_LIMIT_EXCEEDED
  | TYPE_MISMATCH
  | NUMBER_OF_COLUMNS_DOESNT_MATCH
  | STD_OUT_OF_RANGE
  | CANNOT_CONVERT_TYPE
  deriving DecidableEq, Repr

deriving instance DecidableEq for Except

/-! ## Values, types and columns (the column runtime, as far as `Set.cpp` uses it) -/

/-- Modelled from the spec: `Field` of `Core/Field.h`, the value of one cell
(`Column::get(row, &field_out)`); `Null` is SQL NULL. -/
inductive Field
  | Null
  | Int64 (v : Int)
  | String (s : String)
  deriving DecidableEq, Repr

/-- Modelled from the spec: `TypeIndex`, what `IColumn::getDataType()` returns. -/
inductive TypeIndex
  | UInt8
  | Int64
  | Date
  | DateTime
  | DateTime64
  | String
  | Nullable
  | LowCardinality
  deriving DecidableEq, Repr

/-- Modelled from the spec: `IDataType` with the introspection `Set.cpp` consumes
(`remove_nullable`, `is_nullable`, `can_be_inside_nullable`, `equals`,
low-cardinality introspection, DateTime64 introspection yielding `scale`). -/
inductive DataType
  | UInt8
  | Int64
  | Date
  | DateTime
  | DateTime64 (scale : Nat)
  | String
  | Nullable (nested : DataType)
  | LowCardinality (dictionary : DataType)
  deriving DecidableEq, Repr

/-- Modelled from the spec: `IColumn`. `vector` stands for `ColumnVector<T>` and
`ColumnDecimal<T>` (the column of a `DateTime64` is `vector .DateTime64 _`), `nullable`
for `ColumnNullable` (nested column and null map), `const` for `ColumnConst` (a one-row
column and a row count), `lowCardinality` for `ColumnLowCardinality` (dictionary and
one index per row). -/
inductive Column
  | vector (type : TypeIndex) (data : List Int)
  | string (data : List String)
  | nullable (nested : Column) (null_map : List Nat)
  | const (data : Column) (s : Nat)
  | lowCardinality (dictionary : Column) (indexes : List Nat)
  deriving DecidableEq, Repr

/-- `ColumnWithTypeAndName`. -/
structure ColumnWithTypeAndName where
  column : Column
  type : DataType
  name : String
  deriving DecidableEq, Repr

namespace DataType

/-- `IDataType::isNullable()`: only a top-level `Nullable`. -/
def isNullable : DataType → Bool
  | Nullable _ => true
  | _ => false

/-- `IDataType::canBeInsideNullable()`. -/
def canBeInsideNullable : DataType → Bool
  | Nullable _ => false
  | LowCardinality _ => false
  | _ => true

/-- `removeNullable(type)`: strips one outer `Nullable`. -/
def removeNullable : DataType → DataType
  | Nullable t => t
  | t => t

/-- `recursiveRemoveLowCardinality(type)`. -/
def recursiveRemoveLowCardinality : DataType → DataType
  | LowCardinality t => recursiveRemoveLowCardinality t
  | Nullable t => Nullable (recursiveRemoveLowCardinality t)
  | t => t

end DataType

namespace Column

/-- `IColumn::size()`. -/
def size : Column → Nat
  | vector _ d => d.length
  | string d => d.length
  | nullable n _ => n.size
  | const _ s => s
  | lowCardinality _ idx => idx.length

/-- `IColumn::getDataType()`; a `ColumnConst` answers for its data column. -/
def getDataType : Column → TypeIndex
  | vector t _ => t
  | string _ => TypeIndex.String
  | nullable _ _ => TypeIndex.Nullable
  | const d _ => d.getDataType
  | lowCardinality _ _ => TypeIndex.LowCardinality

/-- `IColumn::get(row, field)` / `operator[]`: the value of one cell. A row of a
nullable column whose null-map byte is set is `Null`. -/
def get : Column → Nat → Field
  | vector _ d, i => Field.Int64 (d.getD i 0)
  | string d, i => Field.String (d.getD i "")
  | nullable n m, i => if m.getD i 0 ≠ 0 then Field.Null else n.get i
  | const d _, _ => d.get 0
  | lowCardinality dict idx, i => dict.get (idx.getD i 0)

/-- `IColumn::replicate` as `ColumnConst::convertToFullColumn` uses it: row 0 of the
column repeated `s` times. -/
def replicateRow0 : Column → Nat → Column
  | vector t d, s => vector t (List.replicate s (d.getD 0 0))
  | string d, s => string (List.replicate s (d.getD 0 ""))
  | nullable n m, s => nullable (n.replicateRow0 s) (List.replicate s (m.getD 0 0))
  | const d _, s => const d s
  | lowCardinality dict idx, s => lowCardinality dict (List.replicate s (idx.getD 0 0))

/-- `IColumn::convertToFullColumnIfConst()`. -/
def convertToFullColumnIfConst : Column → Column
  | const d s => d.replicateRow0 s
  | c => c

/-- `IColumn::index` as `ColumnLowCardinality::convertToFullColumn` uses it: the
dictionary rows picked by the indexes. -/
def index : Column → List Nat → Column
  | vector t d, idx => vector t (idx.map fun j => d.getD j 0)
  | string d, idx => string (idx.map fun j => d.getD j "")
  | nullable n m, idx => nullable (n.index idx) (idx.map fun j => m.getD j 0)
  | const d _, idx => const d idx.length
  | lowCardinality dict ix, idx => lowCardinality dict (idx.map fun j => ix.getD j 0)

/-- `IColumn::convertToFullColumnIfLowCardinality()`. -/
def convertToFullColumnIfLowCardinality : Column → Column
  | lowCardinality dict idx => dict.index idx
  | c => c

/-- `IColumn::convertToFullIfNeeded()`: constants and low-cardinality columns are
materialised. -/
def convertToFullIfNeeded (c : Column) : Column :=
  c.convertToFullColumnIfConst.convertToFullColumnIfLowCardinality

/-- `removeNullable(column)`: the nested column of a `ColumnNullable`, else the column. -/
def removeNullable : Column → Column
  | nullable n _ => n
  | c => c

/-- `IColumn::filter(filt, result_size_hint)`: the rows whose filter byte is set; the
hint only sizes the allocation. -/
def filter : Column → List Nat → Nat → Column
  | vector t d, f, _ =>
      vector t ((d.zip f).filterMap fun p => if p.2 ≠ 0 then some p.1 else none)
  | string d, f, _ =>
      string ((d.zip f).filterMap fun p => if p.2 ≠ 0 then some p.1 else none)
  | nullable n m, f, hint =>
      nullable (n.filter f hint)
        ((m.zip f).filterMap fun p => if p.2 ≠ 0 then some p.1 else none)
  | const d s, f, _ => const d ((f.take s).filter fun b => b ≠ 0).length
  | lowCardinality dict idx, f, _ =>
      lowCardinality dict ((idx.zip f).filterMap fun p => if p.2 ≠ 0 then some p.1 else none)

/-- `IColumn::insertDefault()`; the default of a nullable column is NULL. -/
def insertDefault : Column → Column
  | vector t d => vector t (d ++ [0])
  | string d => string (d ++ [""])
  | nullable n m => nullable n.insertDefault (m ++ [1])
  | const d s => const d (s + 1)
  | lowCardinality dict idx => lowCardinality dict (idx ++ [0])

/-- `IColumn::insert(field)`. A field of the wrong kind is a bad `Field::get`. -/
def insert : Column → Field → Except ErrorCodes Column
  | vector t d, Field.Int64 v => .ok (vector t (d ++ [v]))
  | string d, Field.String v => .ok (string (d ++ [v]))
  | nullable n m, Field.Null => .ok (nullable n.insertDefault (m ++ [1]))
  | nullable n m, f =>
      match n.insert f with
      | .ok n1 => .ok (nullable n1 (m ++ [0]))
      | .error e => .error e
  | _, _ => .error ErrorCodes.LOGICAL_ERROR

/-- `IColumn::insertRangeFrom(src, start, length)`; `src` must be a column of the same
class (`assert_cast`). -/
def insertRangeFrom : Column → Column → Nat → Nat → Except ErrorCodes Column
  | vector t d, vector _ d1, start, len => .ok (vector t (d ++ (d1.drop start).take len))
  | string d, string d1, start, len => .ok (string (d ++ (d1.drop start).take len))
  | nullable n m, nullable n1 m1, start, len =>
      match n.insertRangeFrom n1 start len with
      | .ok n2 => .ok (nullable n2 (m ++ (m1.drop start).take len))
      | .error e => .error e
  | _, _, _, _ => .error ErrorCodes.LOGICAL_ERROR

end Column

/-- `IDataType::createColumn()`: an empty column of the type. -/
def DataType.createColumn : DataType → Column
  | DataType.UInt8 => Column.vector TypeIndex.UInt8 []
  | DataType.Int64 => Column.vector TypeIndex.Int64 []
  | DataType.Date => Column.vector TypeIndex.Date []
  | DataType.DateTime => Column.vector TypeIndex.DateTime []
  | DataType.DateTime64 _ => Column.vector TypeIndex.DateTime64 []
  | DataType.String => Column.string []
  | DataType.Nullable t => Column.nullable t.createColumn []
  | DataType.LowCardinality t => Column.lowCardinality t.createColumn []

/-! ## The hash-set variants (`SetVariants`) and the size limits -/

/-- Modelled from the spec: `SetVariants::Type`, the closed family of storage layouts
of §4.1 (`fixed_width_<w>`, `string_keys`, `packed_<W>`, `serialized_keys`). -/
inductive SetVariantsType
  | EMPTY
  | fixed_width (w : Nat)
  | string_keys
  | packed (W : Nat)
  | serialized_keys
  deriving DecidableEq, Repr

/-- Modelled from the spec: `SetVariants`. Whatever the layout, the hash table is the
list of the distinct key tuples emplaced so far; a key tuple is the row of the key
columns, cell by cell. -/
structure SetVariants where
  type : SetVariantsType
  keys : List (List Field)
  deriving DecidableEq, Repr

namespace SetVariants

/-- `SetVariants::empty()`. -/
def empty (data : SetVariants) : Bool :=
  decide (data.type = SetVariantsType.EMPTY)

/-- `SetVariants::init(type)`: records the layout and creates its empty hash table. -/
def init (_data : SetVariants) (type : SetVariantsType) : SetVariants :=
  { type := type, keys := [] }

/-- `SetVariants::getTotalRowCount()`. -/
def getTotalRowCount (data : SetVariants) : Nat :=
  data.keys.length

/-- The byte width of a fixed-width numeric column, if it is one. -/
def fixedWidth : Column → Option Nat
  | Column.vector TypeIndex.UInt8 _ => some 1
  | Column.vector TypeIndex.Date _ => some 2
  | Column.vector TypeIndex.DateTime _ => some 4
  | Column.vector TypeIndex.Int64 _ => some 8
  | Column.vector TypeIndex.DateTime64 _ => some 8
  | _ => none

/-- The total width of the columns when every one of them is fixed-width. -/
def totalWidth : List Column → Option Nat
  | [] => some 0
  | c :: cs =>
      match fixedWidth c, totalWidth cs with
      | some w, some W => some (w + W)
      | _, _ => none

/-- Modelled from the spec: `SetVariants::chooseMethod`, the selection policy of §4.1. -/
def chooseMethod : List Column → SetVariantsType
  | [] => SetVariantsType.EMPTY
  | [c] =>
      match fixedWidth c, c with
      | some w, _ => SetVariantsType.fixed_width w
      | none, Column.string _ => SetVariantsType.string_keys
      | none, _ => SetVariantsType.serialized_keys
  | cs =>
      match totalWidth cs with
      | some W => if W ≤ 32 then SetVariantsType.packed W else SetVariantsType.serialized_keys
      | none => SetVariantsType.serialized_keys

/-- The key tuple of row `i` of the key columns (what `Method::State` reads). -/
def keyAt (key_columns : List Column) (i : Nat) : List Field :=
  key_columns.map fun c => c.get i

/-- Modelled from the spec: `state.emplaceKey(method.data, i, pool)`, the primitive
`emplace(state, row) → {inserted}`: the key is added unless it is already there. -/
def emplaceKey (data : SetVariants) (key_columns : List Column) (i : Nat) : SetVariants × Bool :=
  if keyAt key_columns i ∈ data.keys then (data, false)
  else ({ data with keys := data.keys ++ [keyAt key_columns i] }, true)

/-- Modelled from the spec: `state.findKey(method.data, i, pool)`, the primitive
`find(state, row) → {found}`. -/
def findKey (data : SetVariants) (key_columns : List Column) (i : Nat) : Bool :=
  decide (keyAt key_columns i ∈ data.keys)

end SetVariants

/-- `OverflowMode`. -/
inductive OverflowMode
  | THROW
  | BREAK
  deriving DecidableEq, Repr

/-- `SizeLimits`. -/
structure SizeLimits where
  max_rows : Nat
  max_bytes : Nat
  overflow_mode : OverflowMode
  deriving DecidableEq, Repr

/-- Modelled from the spec: `SizeLimits::check(rows, bytes, what, code)`, §4.2 step 8:
if `row_count() > max_rows` or `byte_count() > max_bytes`, fail in throw mode and
return `false` in break mode. -/
def SizeLimits.check (limits : SizeLimits) (rows bytes : Nat) (code : ErrorCodes) :
    Except ErrorCodes Bool :=
  if rows > limits.max_rows ∨ bytes > limits.max_bytes then
    match limits.overflow_mode with
    | OverflowMode.THROW => .error code
    | OverflowMode.BREAK => .ok false
  else .ok true

/-- The collaborators `Set.cpp` consumes as opaque operations: the two casts of
`Interpreters/castColumn.h` (they may throw) and the byte size of a hash table. -/
structure External where
  castColumnAccurate : ColumnWithTypeAndName → DataType → Except ErrorCodes Column
  castColumnAccurateOrNull : ColumnWithTypeAndName → DataType → Except ErrorCodes Column
  getTotalByteCount : SetVariants → Nat

/-! ## Null maps (`DataTypes/NullableUtils`) -/

/-- The loop `for (i < mutable_null_map.size()) mutable_null_map[i] |= other_null_map[i]`. -/
def orNullMap : List Nat → List Nat → List Nat
  | [], _ => []
  | a :: as, [] => a :: orNullMap as []
  | a :: as, b :: bs => (a ||| b) :: orNullMap as bs

/-- Modelled from the spec: `extractNestedColumnsAndNullMap(key_columns, null_map)`:
every nullable key column is replaced by its nested column and the null maps are
combined (a row with any NULL component is marked). Returns the new key columns and
the null-map holder, which `null_map` points into (both null when no key is nullable). -/
def extractNestedColumnsAndNullMap : List Column → List Column × Option (List Nat)
  | [] => ([], none)
  | Column.nullable n m :: cs =>
      match extractNestedColumnsAndNullMap cs with
      | (ks, none) => (n :: ks, some m)
      | (ks, some h) => (n :: ks, some (orNullMap m h))
  | c :: cs =>
      match extractNestedColumnsAndNullMap cs with
      | (ks, h) => (c :: ks, h)

/-! ## `Set`: the build phase -/

/-- The data members of `DB::Set` (`Interpreters/Set.h`); `rwlock`, `cast_cache` and
`key_sizes` carry nothing the embedding reads. -/
structure Set where
  limits : SizeLimits
  max_elements_to_fill : Nat
  transform_null_in : Bool
  keys_size : Nat
  data_types : List DataType
  set_elements_types : List DataType
  data : SetVariants
  fill_set_elements : Bool
  set_elements : List Column
  is_created : Bool
  deriving DecidableEq, Repr

/-- `SetKeyColumns` (`Interpreters/Set.h`): what one insert keeps alive. -/
structure SetKeyColumns where
  key_columns : List Column
  materialized_columns : List Column
  null_map_holder : Option (List Nat)
  filter : Option (List Nat)
  deriving DecidableEq, Repr

/-- A default-constructed `SetKeyColumns holder`. -/
def SetKeyColumns.new : SetKeyColumns :=
  { key_columns := [], materialized_columns := [], null_map_holder := none, filter := none }

/-- `Set::insertFromBlockImplCase<Method, has_null_map, build_filter>`: the loop over
the rows. A row marked by the null map is skipped (its filter byte cleared), any other
row is emplaced and its filter byte records whether it was new. -/
def insertFromBlockImplCase (has_null_map build_filter : Bool) (method : SetVariants)
    (key_columns : List Column) (rows : Nat) (null_map : List Nat) (out_filter : List Nat) :
    SetVariants × List Nat :=
  Nat.fold
    (fun i (st : SetVariants × List Nat) =>
      if has_null_map && decide (null_map.getD i 0 ≠ 0) then
        (st.1, if build_filter then st.2.set i 0 else st.2)
      else
        let emplace_result := st.1.emplaceKey key_columns i
        (emplace_result.1,
          if build_filter then st.2.set i (if emplace_result.2 then 1 else 0) else st.2))
    rows (method, out_filter)

/-- `Set::insertFromBlockImpl<Method>`: picks the template instance from which of the
two pointers are set. -/
def insertFromBlockImpl (method : SetVariants) (key_columns : List Column) (rows : Nat)
    (null_map : Option (List Nat)) (out_filter : Option (List Nat)) :
    SetVariants × Option (List Nat) :=
  match null_map, out_filter with
  | some nm, some f =>
      let r := insertFromBlockImplCase true true method key_columns rows nm f
      (r.1, some r.2)
  | some nm, none =>
      ((insertFromBlockImplCase true false method key_columns rows nm []).1, none)
  | none, some f =>
      let r := insertFromBlockImplCase false true method key_columns rows [] f
      (r.1, some r.2)
  | none, none =>
      ((insertFromBlockImplCase false false method key_columns rows [] []).1, none)

namespace Set

/-- Modelled from the spec: the constructor `Set(limits, max_elements_to_fill,
transform_null_in)` of `Interpreters/Set.h`: nothing built, `storage_variant` empty. -/
def create (limits : SizeLimits) (max_elements_to_fill : Nat) (transform_null_in : Bool) : Set :=
  { limits := limits
    max_elements_to_fill := max_elements_to_fill
    transform_null_in := transform_null_in
    keys_size := 0
    data_types := []
    set_elements_types := []
    data := { type := SetVariantsType.EMPTY, keys := [] }
    fill_set_elements := false
    set_elements := []
    is_created := false }

/-- `Set::getElementTypes(types, transform_null_in)`. -/
def getElementTypes (types : List DataType) (transform_null_in : Bool) : List DataType :=
  types.map fun type =>
    let type1 := match type with
      | DataType.LowCardinality dict => dict
      | t => t
    if !transform_null_in then type1.removeNullable else type1

/-- The key column `setHeader` remembers for one header entry: the constant is
materialised, and so is a low-cardinality column when the type is low-cardinality. -/
def headerKeyColumn (h : ColumnWithTypeAndName) : Column :=
  match h.type with
  | DataType.LowCardinality _ =>
      h.column.convertToFullColumnIfConst.convertToFullColumnIfLowCardinality
  | _ => h.column.convertToFullColumnIfConst

/-- The type `setHeader` remembers for one header entry: the dictionary type of a
low-cardinality type, else the type. -/
def headerDataType (h : ColumnWithTypeAndName) : DataType :=
  match h.type with
  | DataType.LowCardinality dict => dict
  | t => t

/-- `Set::setHeader(header)`. Returns at once when the storage variant is already
chosen. -/
def setHeader (s : Set) (header : List ColumnWithTypeAndName) : Set :=
  if !s.data.empty then s
  else
    let key_columns := header.map headerKeyColumn
    let data_types := s.data_types ++ header.map headerDataType
    let set_elements_types := s.set_elements_types ++ header.map headerDataType
    if !s.transform_null_in then
      { s with
        keys_size := header.length
        data_types := data_types.map DataType.removeNullable
        set_elements_types := set_elements_types.map DataType.removeNullable
        data := s.data.init
          (SetVariants.chooseMethod (extractNestedColumnsAndNullMap key_columns).1) }
    else
      { s with
        keys_size := header.length
        data_types := data_types
        set_elements_types := set_elements_types
        data := s.data.init (SetVariants.chooseMethod key_columns) }

/-- `Set::fillSetElements()`. -/
def fillSetElements (s : Set) : Set :=
  { s with
    fill_set_elements := true
    set_elements := s.set_elements ++ s.set_elements_types.map DataType.createColumn }

/-- `Set::finishInsert()` of `Interpreters/Set.h`: marks the set built. -/
def finishInsert (s : Set) : Set :=
  { s with is_created := true }

/-- `Set::getTotalRowCount()`. -/
def getTotalRowCount (s : Set) : Nat :=
  s.data.getTotalRowCount

/-- `Set::getTotalByteCount()`. -/
def getTotalByteCount (ext : External) (s : Set) : Nat :=
  ext.getTotalByteCount s.data

/-- `Set::insertFromColumns(columns, holder)`: materialises the key columns, extracts
the null map when `transform_null_in` is off, inserts the rows, and only then checks the
limits. The `Set` it returns is the state left behind, also when the call throws. -/
def insertFromColumnsHolder (ext : External) (s : Set) (columns : List Column)
    (holder : SetKeyColumns) : Set × SetKeyColumns × Except ErrorCodes Bool :=
  if s.data.empty then (s, holder, .error ErrorCodes.LOGICAL_ERROR)
  else if columns.length < s.keys_size then (s, holder, .error ErrorCodes.STD_OUT_OF_RANGE)
  else
    match columns with
    | [] => (s, holder, .error ErrorCodes.STD_OUT_OF_RANGE)
    | c0 :: _ =>
        let materialized := (columns.take s.keys_size).map Column.convertToFullIfNeeded
        let rows := c0.size
        let extracted : List Column × Option (List Nat) :=
          if !s.transform_null_in then
            extractNestedColumnsAndNullMap (holder.key_columns ++ materialized)
          else (holder.key_columns ++ materialized, none)
        let holder1 : SetKeyColumns :=
          { holder with
            materialized_columns := holder.materialized_columns ++ materialized
            key_columns := extracted.1 }
        let inserted : SetVariants × Option (List Nat) :=
          match s.data.type with
          | SetVariantsType.EMPTY => (s.data, holder1.filter)
          | _ => insertFromBlockImpl s.data holder1.key_columns rows extracted.2 holder1.filter
        let s1 : Set := { s with data := inserted.1 }
        (s1, { holder1 with filter := inserted.2 },
          s.limits.check s1.data.getTotalRowCount (ext.getTotalByteCount s1.data)
            ErrorCodes.SET_SIZE_LIMIT_EXCEEDED)

/-- The body of the loop of `Set::appendSetElements` for key `i`: the distinct rows of
the key column are appended to the retained column, then one NULL when
`transform_null_in` is on and the holder has a null map. -/
def appendSetElement (s : Set) (holder : SetKeyColumns) (rows : Nat) (key_column : Column)
    (set_element : Column) : Except ErrorCodes Column :=
  let filtered_column := key_column.filter (holder.filter.getD []) rows
  let appended : Except ErrorCodes Column :=
    if set_element.size = 0 then .ok filtered_column
    else set_element.insertRangeFrom filtered_column 0 filtered_column.size
  match appended with
  | .error e => .error e
  | .ok col =>
      if s.transform_null_in && holder.null_map_holder.isSome then col.insert Field.Null
      else .ok col

/-- The loop of `Set::appendSetElements` over the keys, first error wins. -/
def appendSetElementsLoop (s : Set) (holder : SetKeyColumns) (rows : Nat) :
    List Column → List Column → Except ErrorCodes (List Column)
  | k :: ks, e :: es =>
      match appendSetElement s holder rows k e with
      | .error err => .error err
      | .ok col =>
          match appendSetElementsLoop s holder rows ks es with
          | .error err => .error err
          | .ok cols => .ok (col :: cols)
  | _, _ => .ok []

/-- `Set::appendSetElements(holder)`. -/
def appendSetElements (s : Set) (holder : SetKeyColumns) : Set × Except ErrorCodes Unit :=
  if holder.key_columns.length ≠ s.keys_size ∨ s.set_elements.length ≠ s.keys_size then
    (s, .error ErrorCodes.LOGICAL_ERROR)
  else
    match holder.key_columns with
    | [] => (s, .error ErrorCodes.STD_OUT_OF_RANGE)
    | k0 :: _ =>
        match appendSetElementsLoop s holder k0.size holder.key_columns s.set_elements with
        | .error e => (s, .error e)
        | .ok cols => ({ s with set_elements := cols }, .ok ())

/-- `Set::insertFromColumns(columns)`: inserts the block, then either drops the retained
columns (cap exceeded) or appends the block's distinct rows to them. -/
def insertFromColumns (ext : External) (s : Set) (columns : List Column) :
    Set × Except ErrorCodes Bool :=
  match columns with
  | [] => (s, .error ErrorCodes.STD_OUT_OF_RANGE)
  | c0 :: _ =>
      let rows := c0.size
      let holder : SetKeyColumns :=
        { SetKeyColumns.new with
          filter := if s.fill_set_elements then some (List.replicate rows 0) else none }
      match s.insertFromColumnsHolder ext columns holder with
      | (s1, _, .error e) => (s1, .error e)
      | (s1, holder1, .ok inserted) =>
          if inserted && s1.fill_set_elements then
            if decide (s1.max_elements_to_fill ≠ 0) &&
                decide (s1.max_elements_to_fill < s1.data.getTotalRowCount) then
              ({ s1 with fill_set_elements := false, set_elements := [] }, .ok inserted)
            else
              match s1.appendSetElements holder1 with
              | (s2, .error e) => (s2, .error e)
              | (s2, .ok _) => (s2, .ok inserted)
          else (s1, .ok inserted)

/-- `Set::insertFromBlock(columns)`. -/
def insertFromBlock (ext : External) (s : Set) (columns : List ColumnWithTypeAndName) :
    Set × Except ErrorCodes Bool :=
  s.insertFromColumns ext (columns.map fun c => c.column)

end Set

/-! ## `Set`: the query phase -/

/-- Modelled from the spec: `common::exp10_i32(scale)`, the `10^s` of §4.3 (the scale
of a `DateTime64` is at most 9). -/
def exp10_i32 (x : Nat) : Int :=
  10 ^ x

/-- `isDateTime64(type_index)`. -/
def isDateTime64 (t : TypeIndex) : Bool :=
  decide (t = TypeIndex.DateTime64)

/-- `checkDateTimePrecision(column_to_cast)`: one byte per row, set when the value has
digits below the second. -/
def checkDateTimePrecision (column_to_cast : ColumnWithTypeAndName) :
    Except ErrorCodes (List Nat) :=
  let original_nested_column :=
    match column_to_cast.column with
    | Column.nullable n _ => n
    | c => c
  match original_nested_column with
  | Column.vector TypeIndex.DateTime64 original_data =>
      match column_to_cast.type with
      | DataType.DateTime64 scale =>
          if scale ≥ 1 then
            .ok (original_data.map fun value =>
              if Int.tmod value (exp10_i32 scale) ≠ 0 then 1 else 0)
          else .ok (List.replicate original_data.length 0)
      | _ => .error ErrorCodes.LOGICAL_ERROR
  | _ => .error ErrorCodes.LOGICAL_ERROR

/-- `mergeNullMaps(null_map_column1, null_map_column2)`. -/
def mergeNullMaps (null_map_column1 null_map_column2 : Option (List Nat)) :
    Except ErrorCodes (Option (List Nat)) :=
  match null_map_column1, null_map_column2 with
  | none, m2 => .ok m2
  | m1, none => .ok m1
  | some null_map1, some null_map2 =>
      if null_map1.length ≠ null_map2.length then .error ErrorCodes.LOGICAL_ERROR
      else
        .ok (some ((List.range null_map1.length).map fun i =>
          if null_map1.getD i 0 ≠ 0 ∨ null_map2.getD i 0 ≠ 0 then 1 else 0))

/-- The locals of the loop of `Set::execute` that outlive one iteration. -/
structure ExecuteState where
  key_columns : List Column
  null_map_holder : Option (List Nat)
  null_map : Option (List Nat)
  deriving DecidableEq, Repr

namespace Set

/-- `Set::processDateTime64Column(column_to_cast, result, null_map_holder, null_map)`:
returns the new `result`, `null_map_holder` and `null_map`. -/
def processDateTime64Column (s : Set) (column_to_cast : ColumnWithTypeAndName)
    (result : Column) (null_map_holder null_map : Option (List Nat)) :
    Except ErrorCodes (Column × Option (List Nat) × Option (List Nat)) :=
  match checkDateTimePrecision column_to_cast with
  | .error e => .error e
  | .ok filtered_null_map_column =>
      let nested_result_column := result.removeNullable
      let existing_null_map_column : Option (List Nat) :=
        match result with
        | Column.nullable _ m => some m
        | _ => none
      if s.transform_null_in then
        let merged : Except ErrorCodes (Option (List Nat)) :=
          match null_map_holder with
          | none => .ok (some filtered_null_map_column)
          | some h => mergeNullMaps (some h) (some filtered_null_map_column)
        match merged with
        | .error e => .error e
        | .ok none => .error ErrorCodes.LOGICAL_ERROR
        | .ok (some h) => .ok (result, some h, some h)
      else
        match mergeNullMaps existing_null_map_column (some filtered_null_map_column) with
        | .error e => .error e
        | .ok none => .error ErrorCodes.LOGICAL_ERROR
        | .ok (some merged_null_map_column) =>
            .ok (Column.nullable nested_result_column merged_null_map_column,
              null_map_holder, null_map)

/-- The cast of one probe column in the loop of `Set::execute`: the new `result`,
`null_map_holder` and `null_map`. -/
def executeCast (ext : External) (s : Set) (column_to_cast : ColumnWithTypeAndName)
    (data_type : DataType) (null_map_holder null_map : Option (List Nat)) :
    Except ErrorCodes (Column × Option (List Nat) × Option (List Nat)) :=
  if !s.transform_null_in && data_type.canBeInsideNullable then
    match ext.castColumnAccurateOrNull column_to_cast data_type with
    | .error e => .error e
    | .ok result => .ok (result, null_map_holder, null_map)
  else if s.transform_null_in && column_to_cast.type.isNullable && !data_type.isNullable then
    match column_to_cast.type, column_to_cast.column with
    | DataType.Nullable nested_type, Column.nullable nested other_null_map =>
        match ext.castColumnAccurate
            { column := nested, type := nested_type, name := column_to_cast.name } data_type with
        | .error e => .error e
        | .ok result =>
            let holder : List Nat :=
              match null_map_holder with
              | none => other_null_map
              | some mutable_null_map => orNullMap mutable_null_map other_null_map
            .ok (result, some holder, some holder)
    | _, _ => .error ErrorCodes.LOGICAL_ERROR
  else
    match ext.castColumnAccurate column_to_cast data_type with
    | .error e => .error e
    | .ok result => .ok (result, null_map_holder, null_map)

/-- One iteration of the loop of `Set::execute` over the key positions. -/
def executeColumn (ext : External) (s : Set) (column_before_cast : ColumnWithTypeAndName)
    (data_type : DataType) (st : ExecuteState) : Except ErrorCodes ExecuteState :=
  let column_to_cast : ColumnWithTypeAndName :=
    { column := column_before_cast.column.convertToFullColumnIfConst
      type := column_before_cast.type
      name := column_before_cast.name }
  match s.executeCast ext column_to_cast data_type st.null_map_holder st.null_map with
  | .error e => .error e
  | .ok (result, null_map_holder, null_map) =>
      if isDateTime64 column_to_cast.column.getDataType &&
          !isDateTime64 result.removeNullable.getDataType then
        match s.processDateTime64Column column_to_cast result null_map_holder null_map with
        | .error e => .error e
        | .ok (result1, null_map_holder1, null_map1) =>
            .ok { key_columns := st.key_columns ++ [result1]
                  null_map_holder := null_map_holder1
                  null_map := null_map1 }
      else
        .ok { key_columns := st.key_columns ++ [result]
              null_map_holder := null_map_holder
              null_map := null_map }

/-- The loop `for (i < num_key_columns)` of `Set::execute`, `data_types[i]` next to
`columns.at(i)`. -/
def executeLoop (ext : External) (s : Set) :
    List ColumnWithTypeAndName → List DataType → ExecuteState → Except ErrorCodes ExecuteState
  | c :: cs, t :: ts, st =>
      match s.executeColumn ext c t st with
      | .error e => .error e
      | .ok st1 => executeLoop ext s cs ts st1
  | _, _, st => .ok st

/-- The part of `Set::execute` between `checkColumnsNumber` and `executeOrdinary`: the
key columns to probe with and the null map `executeOrdinary` receives. -/
def executeKeyColumns (ext : External) (s : Set) (columns : List ColumnWithTypeAndName) :
    Except ErrorCodes (List Column × Option (List Nat)) :=
  match s.executeLoop ext columns s.data_types
      { key_columns := [], null_map_holder := none, null_map := none } with
  | .error e => .error e
  | .ok st =>
      if !s.transform_null_in then .ok (extractNestedColumnsAndNullMap st.key_columns)
      else .ok (st.key_columns, st.null_map)

/-- `Set::executeImplCase<Method, has_null_map>`: the loop over the rows. -/
def executeImplCase (has_null_map : Bool) (method : SetVariants) (key_columns : List Column)
    (vec_res : List Nat) (negative : Bool) (rows : Nat) (null_map : List Nat) : List Nat :=
  Nat.fold
    (fun i (vec : List Nat) =>
      if has_null_map && decide (null_map.getD i 0 ≠ 0) then
        vec.set i negative.toNat
      else
        let find_result := method.findKey key_columns i
        vec.set i (xor negative find_result).toNat)
    rows vec_res

/-- `Set::executeImpl<Method>`. -/
def executeImpl (method : SetVariants) (key_columns : List Column) (vec_res : List Nat)
    (negative : Bool) (rows : Nat) (null_map : Option (List Nat)) : List Nat :=
  match null_map with
  | some nm => executeImplCase true method key_columns vec_res negative rows nm
  | none => executeImplCase false method key_columns vec_res negative rows []

/-- `Set::executeOrdinary(key_columns, vec_res, negative, null_map)`; the `EMPTY`
variant leaves `vec_res` as it found it. -/
def executeOrdinary (s : Set) (key_columns : List Column) (vec_res : List Nat)
    (negative : Bool) (null_map : Option (List Nat)) : List Nat :=
  let rows :=
    match key_columns with
    | k0 :: _ => k0.size
    | [] => 0
  match s.data.type with
  | SetVariantsType.EMPTY => vec_res
  | _ => executeImpl s.data key_columns vec_res negative rows null_map

/-- `Set::checkColumnsNumber(num_key_columns)`. -/
def checkColumnsNumber (s : Set) (num_key_columns : Nat) : Except ErrorCodes Unit :=
  if s.data_types.length ≠ num_key_columns then
    .error ErrorCodes.NUMBER_OF_COLUMNS_DOESNT_MATCH
  else .ok ()

/-- `Set::execute(columns, negative)`. `vec_res.resize(n)` leaves the bytes unwritten;
the embedding starts them at 0 and every path that returns them overwrites them. -/
def execute (ext : External) (s : Set) (columns : List ColumnWithTypeAndName)
    (negative : Bool) : Except ErrorCodes (List Nat) :=
  match columns with
  | [] => .error ErrorCodes.LOGICAL_ERROR
  | c0 :: _ =>
      let vec_res := List.replicate c0.column.size 0
      if vec_res.isEmpty then .ok vec_res
      else if s.data_types.isEmpty then
        if negative then .ok (List.replicate vec_res.length 1)
        else .ok (List.replicate vec_res.length 0)
      else
        match s.checkColumnsNumber columns.length with
        | .error e => .error e
        | .ok _ =>
            match s.executeKeyColumns ext columns with
            | .error e => .error e
            | .ok (key_columns, null_map) =>
                .ok (s.executeOrdinary key_columns vec_res negative null_map)

/-- `Set::checkIsCreated()`. -/
def checkIsCreated (s : Set) : Except ErrorCodes Unit :=
  if !s.is_created then .error ErrorCodes.LOGICAL_ERROR else .ok ()

/-- `Set::hasNull()`. -/
def hasNull (ext : External) (s : Set) : Except ErrorCodes Bool :=
  match s.checkIsCreated with
  | .error e => .error e
  | .ok _ =>
      if !s.transform_null_in then .ok false
      else if s.data_types.length ≠ 1 then .ok false
      else
        match s.data_types with
        | [data_type0] =>
            if !data_type0.isNullable then .ok false
            else
              match data_type0.createColumn.insert Field.Null with
              | .error e => .error e
              | .ok col =>
                  match s.execute ext
                      [{ column := col, type := data_type0, name := "" }] false with
                  | .error e => .error e
                  | .ok res => .ok (decide (res.getD 0 0 ≠ 0))
        | _ => .ok false

/-- `Set::empty()`. -/
def empty (s : Set) : Bool :=
  s.data.empty

end Set

/-! ## Notions used to state the properties -/

/-- The contract of the casts the embedding relies on for row counts: a cast that
returns a column returns one with as many rows as its argument. -/
def External.KeepsSize (ext : External) : Prop :=
  (∀ c t r, ext.castColumnAccurate c t = .ok r → r.size = c.column.size) ∧
  (∀ c t r, ext.castColumnAccurateOrNull c t = .ok r → r.size = c.column.size)

/-- The header has been set: the key types are recorded, one per key, and the storage
variant is chosen. -/
def Set.HeaderSet (s : Set) : Prop :=
  s.data_types ≠ [] ∧ s.keys_size = s.data_types.length ∧ s.data.type ≠ SetVariantsType.EMPTY

instance (s : Set) : Decidable s.HeaderSet := by
  unfold Set.HeaderSet; infer_instance

/-- Whether the null map handed to `executeOrdinary` marks row `i`. -/
def nullMapMarks (null_map : Option (List Nat)) (i : Nat) : Bool :=
  match null_map with
  | some nm => decide (nm.getD i 0 ≠ 0)
  | none => false

/-- The value `executeImplCase` writes for row `i`. -/
def executeRow (has_null_map : Bool) (method : SetVariants) (key_columns : List Column)
    (negative : Bool) (null_map : List Nat) (i : Nat) : Nat :=
  if has_null_map && decide (null_map.getD i 0 ≠ 0) then negative.toNat
  else (xor negative (method.findKey key_columns i)).toNat

/-- The keys `insertFromBlockImpl` emplaces, in row order: the key tuple of every row
of the key columns that the null map does not mark. -/
def blockRowKeys (key_columns : List Column) (rows : Nat) (null_map : Option (List Nat)) :
    List (List Field) :=
  (List.range rows).filterMap fun i =>
    if nullMapMarks null_map i then none else some (SetVariants.keyAt key_columns i)

/-- Emplacing a list of keys one after the other into the list of stored keys. -/
def emplaceAll (keys new : List (List Field)) : List (List Field) :=
  new.foldl (fun acc k => if k ∈ acc then acc else acc ++ [k]) keys

/-- The key columns of an insert block as full columns: the first `keys_size` columns,
constants and low-cardinality columns materialised. -/
def Set.blockKeyColumns (s : Set) (columns : List Column) : List Column :=
  (columns.take s.keys_size).map Column.convertToFullIfNeeded

/-- The key columns and the null map `insertFromColumns` derives from a block: the first
`keys_size` columns, materialised, and with `transform_null_in` off their nested columns
and combined null map. -/
def Set.insertKeyColumns (s : Set) (columns : List Column) : List Column × Option (List Nat) :=
  if !s.transform_null_in then extractNestedColumnsAndNullMap (s.blockKeyColumns columns)
  else (s.blockKeyColumns columns, none)

/-- The number of rows of a block, `columns.at(0)->size()`. -/
def blockRows (columns : List Column) : Nat :=
  match columns with
  | c0 :: _ => c0.size
  | [] => 0

/-- The null map `insertFromBlockImplCase` reads, as the pointer it stands for. -/
def implCaseNullMap (has_null_map : Bool) (null_map : List Nat) : Option (List Nat) :=
  if has_null_map then some null_map else none

/-- The hash table after a block went in: the keys of the rows the null map does not
mark are emplaced, in row order. -/
def Set.dataWithBlock (s : Set) (columns : List Column) : SetVariants :=
  { s.data with
    keys := emplaceAll s.data.keys
      (blockRowKeys (s.insertKeyColumns columns).1 (blockRows columns)
        (s.insertKeyColumns columns).2) }

/-- Inserting a sequence of blocks one after the other, whatever each call returns. -/
def Set.insertBlocks (ext : External) (s : Set) (blocks : List (List Column)) : Set :=
  blocks.foldl (fun acc columns => (acc.insertFromColumns ext columns).1) s

/-- A column of one of the plain classes, `ColumnVector`/`ColumnDecimal` or
`ColumnString`. -/
def Column.isPlain : Column → Bool
  | Column.vector _ _ => true
  | Column.string _ => true
  | _ => false

/-- A full column as the hash methods take it: a plain column, or a `ColumnNullable`
over a plain column whose null map has one byte per row. -/
def Column.isFull : Column → Bool
  | Column.nullable n m => n.isPlain && decide (m.length = n.size)
  | c => c.isPlain

/-- `IColumn::isNullAt(row)`. -/
def Column.isNullAt : Column → Nat → Bool
  | Column.nullable _ m, i => decide (m.getD i 0 ≠ 0)
  | Column.const d _, _ => d.isNullAt 0
  | Column.lowCardinality dict idx, i => dict.isNullAt (idx.getD i 0)
  | _, _ => false

/-- A well-formed insert block: it has the key columns, and each of them is a full
column with the row count of the block. -/
def Set.BlockWellFormed (s : Set) (columns : List Column) : Prop :=
  s.keys_size ≤ columns.length ∧ columns ≠ [] ∧
    ∀ c ∈ s.blockKeyColumns columns, c.isFull = true ∧ c.size = blockRows columns

/-- The rows of an insert block, one tuple of cells per row, in row order. -/
def Set.blockRowList (s : Set) (columns : List Column) : List (List Field) :=
  (List.range (blockRows columns)).map (SetVariants.keyAt (s.blockKeyColumns columns))

/-- The null filter of the build (§4.2): with `transform_null_in` off a row with a NULL
component is excluded from insertion. -/
def Set.passesNullFilter (s : Set) (row : List Field) : Bool :=
  s.transform_null_in || !row.contains Field.Null

/-- The rows of an insert block that the null filter lets through. -/
def Set.insertedRows (s : Set) (columns : List Column) : List (List Field) :=
  (s.blockRowList columns).filter s.passesNullFilter

instance (s : Set) (columns : List Column) : Decidable (s.BlockWellFormed columns) := by
  unfold Set.BlockWellFormed; infer_instance

/-- The probe column `execute` casts: the constant materialised (`column_to_cast`). -/
def probeColumn (c : ColumnWithTypeAndName) : ColumnWithTypeAndName :=
  { column := c.column.convertToFullColumnIfConst, type := c.type, name := c.name }

/-- The number of rows of a probe block, `columns.at(0).column->size()`. -/
def probeRows (columns : List ColumnWithTypeAndName) : Nat :=
  match columns with
  | c0 :: _ => c0.column.size
  | [] => 0

/-- Row `i` of a probe block, one cell per column. -/
def probeRow (columns : List ColumnWithTypeAndName) (i : Nat) : List Field :=
  SetVariants.keyAt (columns.map fun c => (probeColumn c).column) i

/-- The casts are the identity on a column cast to its own type: the accurate cast
returns the column, the cast-or-null the column wrapped nullable with no NULL. -/
def External.IdentityOn (ext : External) (c : ColumnWithTypeAndName) : Prop :=
  ext.castColumnAccurate c c.type = .ok c.column ∧
    (c.type.canBeInsideNullable = true →
      ext.castColumnAccurateOrNull c c.type
        = .ok (Column.nullable c.column (List.replicate c.column.size 0)))

instance (ext : External) (c : ColumnWithTypeAndName) : Decidable (ext.IdentityOn c) := by
  unfold External.IdentityOn; infer_instance

/-- A well-formed probe block of the key types: one column per key, typed as the key,
each a full column with the row count of the block, plain when its type is not
nullable. -/
def Set.ProbeOfKeyTypes (s : Set) (columns : List ColumnWithTypeAndName) : Prop :=
  columns.map (fun c => c.type) = s.data_types ∧
    ∀ c ∈ columns, (probeColumn c).column.isFull = true ∧
      (probeColumn c).column.size = probeRows columns ∧
      (c.type.isNullable = false → (probeColumn c).column.isPlain = true)

instance (s : Set) (columns : List ColumnWithTypeAndName) :
    Decidable (s.ProbeOfKeyTypes columns) := by
  unfold Set.ProbeOfKeyTypes; infer_instance

/-- The key column `execute` ends up with for a probe column when the casts are the
identity. -/
def Set.identityKeyColumn (s : Set) (c : ColumnWithTypeAndName) : Column :=
  if !s.transform_null_in && c.type.canBeInsideNullable then
    Column.nullable (probeColumn c).column (List.replicate (probeColumn c).column.size 0)
  else (probeColumn c).column

/-- The one-row block `[NULL]` of a nullable key type that `hasNull` probes with:
`data_types[0]->createColumn()` after `insert(Field())`. -/
def nullProbe (t : DataType) : ColumnWithTypeAndName :=
  { column := Column.nullable t.removeNullable.createColumn.insertDefault [1]
    type := t
    name := "" }

/-- A column whose null map, if it is a `ColumnNullable`, has one byte per row. -/
def Column.wellFormed : Column → Prop
  | Column.nullable n m => m.length = n.size
  | _ => True

instance (c : Column) : Decidable c.wellFormed := by
  cases c <;> unfold Column.wellFormed <;> infer_instance

/-- The contract of the casts on the shape of their results: on a well-formed column, a
cast that returns a `ColumnNullable` returns one whose null map has one byte per row. -/
def External.ResultsWellFormed (ext : External) : Prop :=
  (∀ c t r, ext.castColumnAccurate c t = .ok r → c.column.wellFormed → r.wellFormed) ∧
  (∀ c t r, ext.castColumnAccurateOrNull c t = .ok r → c.column.wellFormed → r.wellFormed)

/-- A well-formed probe block: every column has the row count of the block and, when it
is nullable, one null-map byte per row. -/
def ProbeWellFormed (columns : List ColumnWithTypeAndName) : Prop :=
  ∀ c ∈ columns, c.column.size = probeRows columns ∧ (probeColumn c).column.wellFormed

instance (columns : List ColumnWithTypeAndName) : Decidable (ProbeWellFormed columns) := by
  unfold ProbeWellFormed; infer_instance

/-- The contract of the casts on NULL: where the argument is NULL, a cast that returns a
column returns a `ColumnNullable` that is NULL there too. -/
def External.KeepsNulls (ext : External) : Prop :=
  (∀ c t r, ext.castColumnAccurate c t = .ok r → ∀ i, c.column.isNullAt i = true →
    ∃ n m, r = Column.nullable n m ∧ m.getD i 0 ≠ 0) ∧
  (∀ c t r, ext.castColumnAccurateOrNull c t = .ok r → ∀ i, c.column.isNullAt i = true →
    ∃ n m, r = Column.nullable n m ∧ m.getD i 0 ≠ 0)

/-- A key type that is not `DateTime64`, nullable or not. -/
def DataType.notDateTime64 (t : DataType) : Prop :=
  ∀ scale, t.removeNullable ≠ DataType.DateTime64 scale

instance (t : DataType) : Decidable t.notDateTime64 := by
  unfold DataType.notDateTime64
  cases h : t.removeNullable with
  | DateTime64 sc => exact isFalse (fun hall => hall sc rfl)
  | _ => exact isTrue (fun sc hsc => by cases hsc)

/-- The contract of the casts on the class of their results: a cast to a type that is
not `DateTime64` does not return a `DateTime64` column. -/
def External.TypedResults (ext : External) : Prop :=
  (∀ c t r, ext.castColumnAccurate c t = .ok r → t.notDateTime64 →
    isDateTime64 r.removeNullable.getDataType = false) ∧
  (∀ c t r, ext.castColumnAccurateOrNull c t = .ok r → t.notDateTime64 →
    isDateTime64 r.removeNullable.getDataType = false)

/-- The precision-loss test of `checkDateTimePrecision` for one value:
`value % scale_multiplier != 0`. -/
def losesPrecision (scale : Nat) (value : Int) : Prop :=
  Int.tmod value (exp10_i32 scale) ≠ 0

instance (scale : Nat) (value : Int) : Decidable (losesPrecision scale value) := by
  unfold losesPrecision; infer_instance

/-- The query null map of the loop of `execute` marks row `i`: holder and pointer agree
and the byte of row `i` is set. -/
def ExecuteState.marks (st : ExecuteState) (i : Nat) : Prop :=
  ∃ h, st.null_map = some h ∧ st.null_map_holder = some h ∧ i < h.length ∧ h.getD i 0 ≠ 0

/-! ## A small instance of the collaborators -/

/-- `IDataType::getTypeId()`: the class of the columns of a type. -/
def DataType.getTypeId : DataType → TypeIndex
  | DataType.UInt8 => TypeIndex.UInt8
  | DataType.Int64 => TypeIndex.Int64
  | DataType.Date => TypeIndex.Date
  | DataType.DateTime => TypeIndex.DateTime
  | DataType.DateTime64 _ => TypeIndex.DateTime64
  | DataType.String => TypeIndex.String
  | DataType.Nullable _ => TypeIndex.Nullable
  | DataType.LowCardinality _ => TypeIndex.LowCardinality

/-- The cell conversion of the small cast instance, on a column of the source type: the
identity between equal types, and `DateTime64(s)` to `DateTime` by dropping the
sub-second digits. -/
def scenarioConvert (src dst : DataType) (col : Column) : Option Column :=
  if col.isPlain = false ∨ col.getDataType ≠ src.getTypeId then none
  else if src = dst then some col
  else
    match src, dst, col with
    | DataType.DateTime64 sc, DataType.DateTime, Column.vector TypeIndex.DateTime64 d =>
        some (Column.vector TypeIndex.DateTime (d.map fun v => v / 10 ^ sc))
    | _, _, _ => none

/-- The accurate cast of the small instance: it throws when the cells cannot be
converted or a NULL has to go into a non-nullable type. -/
def scenarioCastAccurate (c : ColumnWithTypeAndName) (t : DataType) : Except ErrorCodes Column :=
  match c.column, c.type, t with
  | Column.nullable n m, DataType.Nullable a, DataType.Nullable b =>
      match scenarioConvert a b n with
      | some r => .ok (Column.nullable r m)
      | none => .error ErrorCodes.CANNOT_CONVERT_TYPE
  | Column.nullable n m, DataType.Nullable a, b =>
      if m.all (fun x => decide (x = 0)) then
        match scenarioConvert a b n with
        | some r => .ok r
        | none => .error ErrorCodes.CANNOT_CONVERT_TYPE
      else .error ErrorCodes.CANNOT_CONVERT_TYPE
  | col, a, DataType.Nullable b =>
      match scenarioConvert a b col with
      | some r => .ok (Column.nullable r (List.replicate r.size 0))
      | none => .error ErrorCodes.CANNOT_CONVERT_TYPE
  | col, a, b =>
      match scenarioConvert a b col with
      | some r => .ok r
      | none => .error ErrorCodes.CANNOT_CONVERT_TYPE

/-- The cast-or-null of the small instance: the result is nullable and keeps the NULLs
of its argument; it throws when the type pair has no conversion. -/
def scenarioCastAccurateOrNull (c : ColumnWithTypeAndName) (t : DataType) :
    Except ErrorCodes Column :=
  match c.column, c.type with
  | Column.nullable n m, DataType.Nullable a =>
      match scenarioConvert a t.removeNullable n with
      | some r => .ok (Column.nullable r m)
      | none => .error ErrorCodes.CANNOT_CONVERT_TYPE
  | col, a =>
      match scenarioConvert a t.removeNullable col with
      | some r => .ok (Column.nullable r (List.replicate r.size 0))
      | none => .error ErrorCodes.CANNOT_CONVERT_TYPE

/-- The small instance: the two casts above, and eight bytes per stored key cell. -/
def scenarioExternal : External :=
  { castColumnAccurate := scenarioCastAccurate
    castColumnAccurateOrNull := scenarioCastAccurateOrNull
    getTotalByteCount := fun data => 8 * (data.keys.map List.length).sum }

/-- Limits no scenario reaches. -/
def scenarioLimits : SizeLimits :=
  { max_rows := 1000, max_bytes := 1000000, overflow_mode := OverflowMode.THROW }

/-- An `Int64` column with its type. -/
def int64Column (data : List Int) : ColumnWithTypeAndName :=
  { column := Column.vector TypeIndex.Int64 data, type := DataType.Int64, name := "" }

/-- Scenario S1: the set built from `{1,2,3,5,8}` as `Int64`. -/
def scenarioS1 : Set :=
  (((Set.create scenarioLimits 0 false).setHeader [int64Column []]).insertFromColumns
    scenarioExternal [Column.vector TypeIndex.Int64 [1, 2, 3, 5, 8]]).1

/-- A set with one `Int64` key that holds `{1}` and breaks off above two rows. -/
def scenarioTight : Set :=
  (((Set.create { max_rows := 2, max_bytes := 1000000, overflow_mode := OverflowMode.BREAK }
      0 false).setHeader [int64Column []]).insertFromColumns
    scenarioExternal [Column.vector TypeIndex.Int64 [1]]).1

/-- A `Nullable(Int64)` column with its type. -/
def nullableInt64Column (data : List Int) (null_map : List Nat) : ColumnWithTypeAndName :=
  { column := Column.nullable (Column.vector TypeIndex.Int64 data) null_map
    type := DataType.Nullable DataType.Int64
    name := "" }

/-- The header of scenario S2: `transform_null_in = false`, key type `Nullable(Int64)`. -/
def scenarioS2Header : Set :=
  (Set.create scenarioLimits 0 false).setHeader [nullableInt64Column [] []]

/-- Scenario S2: the set built from `{1, NULL, 3}`. -/
def scenarioS2 : Set :=
  scenarioS2Header.insertBlocks scenarioExternal
    [[Column.nullable (Column.vector TypeIndex.Int64 [1, 0, 3]) [0, 1, 0]]]

/-- The header of scenario S3: `transform_null_in = true`, key type `Nullable(Int64)`. -/
def scenarioS3Header : Set :=
  (Set.create scenarioLimits 0 true).setHeader [nullableInt64Column [] []]

/-- Scenario S3: the set built from `{1, NULL}`, marked built. -/
def scenarioS3 : Set :=
  (scenarioS3Header.insertBlocks scenarioExternal
    [[Column.nullable (Column.vector TypeIndex.Int64 [1, 0]) [0, 1]]]).finishInsert

/-- A `DateTime64(scale)` column with its type. -/
def dateTime64Column (scale : Nat) (data : List Int) : ColumnWithTypeAndName :=
  { column := Column.vector TypeIndex.DateTime64 data
    type := DataType.DateTime64 scale
    name := "" }

/-- Scenario S4: key type `DateTime`, the set built from `{2024-01-01 00:00:00}`, that is
1704067200 seconds. -/
def scenarioS4 : Set :=
  ((Set.create scenarioLimits 0 false).setHeader
      [{ column := Column.vector TypeIndex.DateTime [], type := DataType.DateTime, name := "" }]
    ).insertBlocks scenarioExternal [[Column.vector TypeIndex.DateTime [1704067200]]]

/-- A set with `transform_null_in` on and key type `Nullable(DateTime64(3))` that holds
the value 1500, one and a half seconds. -/
def scenarioNullableDateTime64 : Set :=
  ((Set.create scenarioLimits 0 true).setHeader
      [{ column := Column.nullable (Column.vector TypeIndex.DateTime64 []) []
         type := DataType.Nullable (DataType.DateTime64 3), name := "" }]
    ).insertBlocks scenarioExternal
      [[Column.nullable (Column.vector TypeIndex.DateTime64 [1500]) [0]]]


/-! ## `Set`: the type checks -/

/-- What a call of a `void` member function can do: return, throw, or read a
`std::vector` through `operator[]` at an index that is not below its size (undefined
behaviour in C++). -/
inductive CallOutcome
  | returned
  | thrown (code : ErrorCodes)
  | out_of_bounds_read
  deriving DecidableEq, Repr

namespace Set

/-- `Set::areTypesEqual(set_type_idx, other_type)`; `IDataType::equals` is equality of
the types. -/
def areTypesEqual (s : Set) (set_type_idx : Nat) (other_type : DataType) : Bool :=
  if set_type_idx ≥ s.data_types.length then false
  else
    match s.data_types[set_type_idx]? with
    | some data_type =>
        decide (data_type.recursiveRemoveLowCardinality.removeNullable
          = other_type.recursiveRemoveLowCardinality.removeNullable)
    | none => false

/-- `Set::checkTypesEqual(set_type_idx, other_type)`. The arguments of the `throw`
expression are evaluated before the exception exists, and the last of them is
`data_types[set_type_idx]->getName()`. -/
def checkTypesEqual (s : Set) (set_type_idx : Nat) (other_type : DataType) : CallOutcome :=
  if !s.areTypesEqual set_type_idx other_type then
    match s.data_types[set_type_idx]? with
    | some _ => CallOutcome.thrown ErrorCodes.TYPE_MISMATCH
    | none => CallOutcome.out_of_bounds_read
  else CallOutcome.returned

end Set

/-! ## Notions for the retained columns -/

/-- The entries of `d` whose filter byte is set, in order (what `IColumn::filter` keeps). -/
def filterBy {α : Type} (f : List Nat) (d : List α) : List α :=
  (d.zip f).filterMap fun p => if p.2 ≠ 0 then some p.1 else none

/-- The cells of a column, in row order. -/
def Column.rows (c : Column) : List Field :=
  (List.range c.size).map c.get

/-- The retained tuples: the retained columns read across, row by row. -/
def Set.retainedRows (s : Set) : List (List Field) :=
  (List.range (blockRows s.set_elements)).map (SetVariants.keyAt s.set_elements)

/-- The filter byte the build loop writes for row `i`: 0 for a row the null map marks
and for a row whose key is already stored when the loop reaches it, 1 for a row whose
key is new. -/
def insertedFilterByte (keys : List (List Field)) (key_columns : List Column)
    (null_map : Option (List Nat)) (i : Nat) : Nat :=
  if nullMapMarks null_map i then 0
  else if SetVariants.keyAt key_columns i
      ∈ emplaceAll keys (blockRowKeys key_columns i null_map) then 0
  else 1

/-- The holder `insertFromColumns(columns)` passes on to `appendSetElements` when the
elements are retained: the key columns of the block and the filter of its new rows. -/
def Set.retainHolder (s : Set) (columns : List Column) : SetKeyColumns :=
  { key_columns := (s.insertKeyColumns columns).1
    materialized_columns := s.blockKeyColumns columns
    null_map_holder := none
    filter := some ((List.range (blockRows columns)).map
      (insertedFilterByte s.data.keys (s.insertKeyColumns columns).1
        (s.insertKeyColumns columns).2)) }

/-- The key columns of an insert block all have the row count of the block. -/
def Set.BlockAligned (s : Set) (columns : List Column) : Prop :=
  ∀ c ∈ s.blockKeyColumns columns, c.size = blockRows columns

instance (s : Set) (columns : List Column) : Decidable (s.BlockAligned columns) := by
  unfold Set.BlockAligned; infer_instance

/-- The retained columns are in step with the hash table: while the elements are
retained every retained column has one row per stored key, and there is no retained
column otherwise; an unchosen storage variant holds no key. -/
def Set.RetainedInStep (s : Set) : Prop :=
  (s.data.type = SetVariantsType.EMPTY → s.data.keys = []) ∧
    (s.fill_set_elements = false → s.set_elements = []) ∧
    (s.fill_set_elements = true → ∀ c ∈ s.set_elements, c.size = s.getTotalRowCount)

/-- The retained columns hold the stored keys: there is one retained column per key,
each empty or a full column, and column `i` holds cell `i` of the stored keys, in the
order they were stored; every stored key has one cell per key column. -/
def Set.RetainedAreKeys (s : Set) : Prop :=
  s.set_elements.length = s.keys_size ∧
    (s.keys_size = 0 → s.data.type = SetVariantsType.EMPTY ∧ s.data.keys = []) ∧
    (∀ k ∈ s.data.keys, k.length = s.keys_size) ∧
    (∀ c ∈ s.set_elements, c.size = 0 ∨ c.isFull = true) ∧
    (∀ (i : Nat) (e : Column), s.set_elements[i]? = some e →
      e.rows = s.data.keys.map (fun key => key.getD i Field.Null))

/-- One call of the build interface of `Set`. -/
inductive BuildCall
  | setHeader (header : List ColumnWithTypeAndName)
  | fillSetElements
  | insertFromColumns (columns : List Column)
  deriving DecidableEq, Repr

/-- The state a call of the build interface leaves and what it returns (`true` for the
two `void` calls). -/
def Set.call (ext : External) (s : Set) : BuildCall → Set × Except ErrorCodes Bool
  | BuildCall.setHeader header => (s.setHeader header, .ok true)
  | BuildCall.fillSetElements => (s.fillSetElements, .ok true)
  | BuildCall.insertFromColumns columns => s.insertFromColumns ext columns

/-- A sequence of calls of the build interface, one after the other, up to the first
that throws. -/
def Set.calls (ext : External) (s : Set) : List BuildCall → Set × Except ErrorCodes Unit
  | [] => (s, .ok ())
  | c :: cs =>
      match s.call ext c with
      | (s1, .error e) => (s1, .error e)
      | (s1, .ok _) => s1.calls ext cs

/-- A call that keeps the retained columns in step with the hash table: `setHeader`
always; `fillSetElements` while the set holds no row; `insertFromColumns` on a block
with aligned key columns when it returns `true`. -/
def Set.callRetains (ext : External) (s : Set) : BuildCall → Prop
  | BuildCall.setHeader _ => True
  | BuildCall.fillSetElements => s.getTotalRowCount = 0
  | BuildCall.insertFromColumns columns =>
      s.BlockAligned columns ∧ (s.insertFromColumns ext columns).2 = .ok true

/-- Every call of the sequence keeps the retained columns in step, each in the state
the calls before it leave. -/
def Set.callsRetain (ext : External) (s : Set) : List BuildCall → Prop
  | [] => True
  | c :: cs => s.callRetains ext c ∧ (s.call ext c).1.callsRetain ext cs

/-- Every block of the sequence is well formed and its insert returns `true`, each in
the state the inserts before it leave. -/
def Set.insertsPass (ext : External) (s : Set) : List (List Column) → Prop
  | [] => True
  | b :: bs =>
      s.BlockWellFormed b ∧ (s.insertFromColumns ext b).2 = .ok true ∧
        (s.insertFromColumns ext b).1.insertsPass ext bs

instance (ext : External) (s : Set) (c : BuildCall) : Decidable (s.callRetains ext c) := by
  cases c <;> unfold Set.callRetains <;> infer_instance

/-- Deciding `callsRetain`, call by call. -/
def Set.decideCallsRetain (ext : External) :
    (s : Set) → (calls : List BuildCall) → Decidable (s.callsRetain ext calls)
  | _, [] => isTrue trivial
  | s, c :: cs =>
      @instDecidableAnd _ _ _ (Set.decideCallsRetain ext (s.call ext c).1 cs)

instance (ext : External) (s : Set) (calls : List BuildCall) :
    Decidable (s.callsRetain ext calls) :=
  Set.decideCallsRetain ext s calls

/-- Deciding `insertsPass`, block by block. -/
def Set.decideInsertsPass (ext : External) :
    (s : Set) → (blocks : List (List Column)) → Decidable (s.insertsPass ext blocks)
  | _, [] => isTrue trivial
  | s, b :: bs =>
      @instDecidableAnd _ _ _
        (@instDecidableAnd _ _ _ (Set.decideInsertsPass ext (s.insertFromColumns ext b).1 bs))

instance (ext : External) (s : Set) (blocks : List (List Column)) :
    Decidable (s.insertsPass ext blocks) :=
  Set.decideInsertsPass ext s blocks

/-! ## Small instances for the retained columns -/

/-- Limits of two rows in break mode. -/
def scenarioBreakLimits : SizeLimits :=
  { max_rows := 2, max_bytes := 1000000, overflow_mode := OverflowMode.BREAK }

/-- One `Int64` key, the elements retained, then the block `{1, 2, 3}` under limits of
two rows in break mode. -/
def scenarioBreakCalls : List BuildCall :=
  [BuildCall.setHeader [int64Column []], BuildCall.fillSetElements,
    BuildCall.insertFromColumns [Column.vector TypeIndex.Int64 [1, 2, 3]]]

/-- One `Int64` key, the block `{1, 2}`, and only then the request to retain the
elements. -/
def scenarioLateFillCalls : List BuildCall :=
  [BuildCall.setHeader [int64Column []],
    BuildCall.insertFromColumns [Column.vector TypeIndex.Int64 [1, 2]],
    BuildCall.fillSetElements]

/-- Two keys, `Int64` and `String`, the elements retained, then two blocks that share a
row. -/
def scenarioRetainCalls : List BuildCall :=
  [BuildCall.setHeader
      [int64Column [], { column := Column.string [], type := DataType.String, name := "" }],
    BuildCall.fillSetElements,
    BuildCall.insertFromColumns
      [Column.vector TypeIndex.Int64 [1, 2, 1], Column.string ["a", "b", "a"]],
    BuildCall.insertFromColumns
      [Column.vector TypeIndex.Int64 [2, 3], Column.string ["b", "c"]]]

/-- One `Int64` key, at most two elements retained, the header set and the retention
requested. -/
def scenarioCapHeader : Set :=
  ((Set.create scenarioLimits 2 false).setHeader [int64Column []]).fillSetElements

/-- The set of `scenarioCapHeader` after the block `{1, 2}`. -/
def scenarioCap : Set :=
  (scenarioCapHeader.insertFromColumns scenarioExternal
    [Column.vector TypeIndex.Int64 [1, 2]]).1

/-- The header of scenario S2 with the retention of the elements requested. -/
def scenarioS2Retain : Set :=
  ((Set.create scenarioLimits 0 false).setHeader [nullableInt64Column [] []]).fillSetElements

/-- Two blocks of `Nullable(Int64)`: `{1, NULL, 3, 1}` and `{3, 0, NULL}`. -/
def scenarioS2Blocks : List (List Column) :=
  [[Column.nullable (Column.vector TypeIndex.Int64 [1, 0, 3, 1]) [0, 1, 0, 0]],
    [Column.nullable (Column.vector TypeIndex.Int64 [3, 0, 0]) [0, 0, 1]]]


/-! ## The column runtime, as far as `MergeTreeSetIndex` uses it -/

/-- The three-way comparison of two byte strings as `memcmp` orders them. -/
def compareBytes : List Nat → List Nat → Int
  | [], [] => 0
  | [], _ :: _ => -1
  | _ :: _, [] => 1
  | a :: as, b :: bs => if a < b then -1 else if b < a then 1 else compareBytes as bs

/-- Modelled from the spec: the typed comparison of two cells behind
`IColumn::compareAt(n, m, rhs, nulls_direction)`: integers by value, strings as byte
strings (code point by code point, the order of their UTF-8 bytes), and a NULL against a
value by `nulls_direction` (1: NULL is the larger). Cells of different classes do not meet
in one column; they are ordered by class here. -/
def Field.compare (a b : Field) (nulls_direction : Int) : Int :=
  match a, b with
  | Field.Null, Field.Null => 0
  | Field.Null, _ => nulls_direction
  | _, Field.Null => -nulls_direction
  | Field.Int64 x, Field.Int64 y => if x < y then -1 else if y < x then 1 else 0
  | Field.String x, Field.String y =>
      compareBytes (x.data.map Char.toNat) (y.data.map Char.toNat)
  | Field.Int64 _, Field.String _ => -1
  | Field.String _, Field.Int64 _ => 1

namespace Column

/-- Modelled from the spec: `IColumn::compareAt(n, m, rhs, nulls_direction)`, row `n` of
the column against row `m` of `rhs`: negative, zero or positive. -/
def compareAt (c : Column) (n m : Nat) (rhs : Column) (nulls_direction : Int) : Int :=
  Field.compare (c.get n) (rhs.get m) nulls_direction

/-- `IColumn::cloneEmpty()`: a column of the same class without rows. -/
def cloneEmpty : Column → Column
  | vector t _ => vector t []
  | string _ => string []
  | nullable n _ => nullable n.cloneEmpty []
  | const d _ => const d 0
  | lowCardinality dict _ => lowCardinality dict []

/-- `IColumn::empty()`. -/
def empty (c : Column) : Bool :=
  decide (c.size = 0)

/-- `IColumn::popBack(n)`: the last `n` rows removed. -/
def popBack : Column → Nat → Column
  | vector t d, n => vector t (d.take (d.length - n))
  | string d, n => string (d.take (d.length - n))
  | nullable c m, n => nullable (c.popBack n) (m.take (m.length - n))
  | const d s, n => const d (s - n)
  | lowCardinality dict idx, n => lowCardinality dict (idx.take (idx.length - n))

end Column

/-- The comparison of two rows of a block under a sort description that takes every
column in order, ascending, NULLs last (`sort_description.emplace_back(name, 1, 1)`). -/
def compareRows : List Column → Nat → Nat → Int
  | [], _, _ => 0
  | c :: cs, a, b =>
      if c.compareAt a b c 1 ≠ 0 then c.compareAt a b c 1 else compareRows cs a b

/-- Modelled from the spec: `sortBlock(block, description)` of `Interpreters/sortBlock.h`
for that description: the rows of the columns jointly sorted by lexicographic row order,
stable and ascending (§4.4 step 4). The permutation of the rows is computed once and
applied to every column. -/
def sortBlock (columns : List Column) : List Column :=
  columns.map fun c =>
    c.index (List.insertionSort (fun a b => compareRows columns a b ≤ 0)
      (List.range (blockRows columns)))

/-! ## The key-range layer (`Storages/MergeTree/KeyCondition.h`) -/

/-- Modelled from the spec: `FieldRef`, the endpoint of a `Range`: a `Field`, which for
an endpoint may also be one of the two infinity sentinels. -/
inductive FieldRef
  | NegativeInfinity
  | PositiveInfinity
  | value (x : Field)
  deriving DecidableEq, Repr

/-- `Field::isNegativeInfinity()`. -/
def FieldRef.isNegativeInfinity : FieldRef → Bool
  | FieldRef.NegativeInfinity => true
  | _ => false

/-- `Field::isPositiveInfinity()`. -/
def FieldRef.isPositiveInfinity : FieldRef → Bool
  | FieldRef.PositiveInfinity => true
  | _ => false

/-- Modelled from the spec: `Range { left, right, left_included, right_included }`. -/
structure Range where
  left : FieldRef
  right : FieldRef
  left_included : Bool
  right_included : Bool
  deriving DecidableEq, Repr

/-- The chain of monotonic functions of a mapping entry; the functions are opaque and
stand here as numbers. -/
abbrev MonotonicFunctionsChain := List Nat

/-- Modelled from the spec: `BoolMask { can_be_true, can_be_false }`. -/
structure BoolMask where
  can_be_true : Bool
  can_be_false : Bool
  deriving DecidableEq, Repr

/-! ## `MergeTreeSetIndex` -/

/-- `MergeTreeSetIndex::KeyTuplePositionMapping`. -/
structure KeyTuplePositionMapping where
  tuple_index : Nat
  key_index : Nat
  functions : MonotonicFunctionsChain
  deriving DecidableEq, Repr

/-- Modelled from the spec: `FieldValue` of `Interpreters/Set.h`, a range endpoint: the
sentinel in `value`, or (when `value` is the null `Field`) the one row of `column`. -/
structure FieldValue where
  value : FieldRef
  column : Column
  deriving DecidableEq, Repr

namespace FieldValue

/-- The constructor `FieldValue(MutableColumnPtr && column_)`. -/
def create (column : Column) : FieldValue :=
  { value := FieldRef.value Field.Null, column := column }

/-- `FieldValue::isNegativeInfinity()`. -/
def isNegativeInfinity (v : FieldValue) : Bool :=
  v.value.isNegativeInfinity

/-- `FieldValue::isPositiveInfinity()`. -/
def isPositiveInfinity (v : FieldValue) : Bool :=
  v.value.isPositiveInfinity

/-- `FieldValue::isNormal()`. -/
def isNormal (v : FieldValue) : Bool :=
  !v.value.isPositiveInfinity && !v.value.isNegativeInfinity

/-- `FieldValue::update(x)`. -/
def update (v : FieldValue) (x : FieldRef) : Except ErrorCodes FieldValue :=
  match x with
  | FieldRef.value f =>
      let column := if !v.column.empty then v.column.popBack 1 else v.column
      match column.insert f with
      | .error e => .error e
      | .ok column1 => .ok { value := FieldRef.value Field.Null, column := column1 }
  | infinity => .ok { v with value := infinity }

end FieldValue

/-- The data members of `MergeTreeSetIndex` (`Interpreters/Set.h`). -/
structure MergeTreeSetIndex where
  has_all_keys : Bool
  indexes_mapping : List KeyTuplePositionMapping
  ordered_set : List Column
  deriving DecidableEq, Repr

/-- The order of `::sort` in the constructor:
`std::tie(l.key_index, l.tuple_index) < std::tie(r.key_index, r.tuple_index)`, as the
non-strict order an ascending sort arranges by. -/
def mappingLE (l r : KeyTuplePositionMapping) : Prop :=
  l.key_index < r.key_index ∨ (l.key_index = r.key_index ∧ l.tuple_index ≤ r.tuple_index)

instance (l r : KeyTuplePositionMapping) : Decidable (mappingLE l r) := by
  unfold mappingLE; infer_instance

/-- The loop of `std::unique`: `kept` is the last entry kept so far; an entry that `pred`
relates to it is dropped, any other entry is kept and becomes `kept`. -/
def uniqueLoop {α : Type} (pred : α → α → Bool) (kept : α) : List α → List α
  | [] => []
  | b :: l => if pred kept b then uniqueLoop pred kept l else b :: uniqueLoop pred b l

/-- `std::unique(first, last, pred)` with `erase`: of every run of consecutive entries
that `pred` relates to the first of the run, only the first is kept. -/
def unique {α : Type} (pred : α → α → Bool) : List α → List α
  | [] => []
  | a :: l => a :: uniqueLoop pred a l

namespace MergeTreeSetIndex

/-- The entries of the mapping after `::sort` and `std::unique` in the constructor. -/
def normalizedMapping (indexes_mapping_ : List KeyTuplePositionMapping) :
    List KeyTuplePositionMapping :=
  unique (fun l r => decide (l.key_index = r.key_index))
    (List.insertionSort mappingLE indexes_mapping_)

/-- The constructor `MergeTreeSetIndex(set_elements, indexes_mapping_)`. `has_all_keys`
is set in the initialiser list, from the mapping as it is passed in.
`set_elements[i]` beyond the size is undefined behaviour in C++; an empty column is read
there. -/
def create (set_elements : List Column) (indexes_mapping_ : List KeyTuplePositionMapping) :
    MergeTreeSetIndex :=
  { has_all_keys := decide (set_elements.length = indexes_mapping_.length)
    indexes_mapping := normalizedMapping indexes_mapping_
    ordered_set := sortBlock ((normalizedMapping indexes_mapping_).map fun m =>
      set_elements.getD m.tuple_index (Column.vector TypeIndex.UInt8 [])) }

/-- Modelled from the spec: `MergeTreeSetIndex::size()` of `Interpreters/Set.h`, the row
count of the ordered columns, `ordered_set.at(0)->size()`. -/
def size (index : MergeTreeSetIndex) : Except ErrorCodes Nat :=
  match index.ordered_set with
  | c :: _ => .ok c.size
  | [] => .error ErrorCodes.STD_OUT_OF_RANGE

/-- The lambda `compare(lhs, rhs, row)` of `checkInRange`: negative, zero or positive
as row `row` of `lhs` is below, equal to or above the endpoint. -/
def compare (lhs : Column) (rhs : FieldValue) (row : Nat) : Int :=
  if rhs.isNegativeInfinity then 1
  else if rhs.isPositiveInfinity then
    if lhs.get row = Field.Null then 0 else -1
  else lhs.compareAt row 0 rhs.column 1

/-- The lambda `less(row, point)` of `checkInRange`, over the ordered columns. -/
def less : List Column → List FieldValue → Nat → Bool
  | c :: cs, p :: ps, row =>
      if compare c p row ≠ 0 then decide (compare c p row < 0) else less cs ps row
  | _, _, _ => false

/-- The lambda `equals(row, point)` of `checkInRange`, over the ordered columns. -/
def equals : List Column → List FieldValue → Nat → Bool
  | c :: cs, p :: ps, row =>
      if compare c p row ≠ 0 then false else equals cs ps row
  | _, _, _ => true

/-- The binary search of `std::lower_bound(first, last, value, comp)` over the indices
`first, first + 1, ...` with `len` of them left; `fuel` bounds the halvings. -/
def lowerBoundLoop (comp : Nat → Bool) : Nat → Nat → Nat → Nat
  | 0, first, _ => first
  | fuel + 1, first, len =>
      if len = 0 then first
      else if comp (first + len / 2) then
        lowerBoundLoop comp fuel (first + len / 2 + 1) (len - len / 2 - 1)
      else lowerBoundLoop comp fuel first (len / 2)

/-- `std::lower_bound(indices.begin(), indices.end(), point, less)` over
`indices = range(0, size)`: the first index whose row is not below the point. -/
def lower_bound (comp : Nat → Bool) (size : Nat) : Nat :=
  lowerBoundLoop comp size 0 size

/-- The loop of `checkInRange` that decides `one_element_range`. -/
def oneElementRange : List FieldValue → List FieldValue → Bool
  | left :: ls, right :: rs =>
      if left.isNormal && right.isNormal then
        if 0 ≠ left.column.compareAt 0 0 right.column 1 then false
        else oneElementRange ls rs
      else if (left.isPositiveInfinity && right.isPositiveInfinity) ||
          (left.isNegativeInfinity && right.isNegativeInfinity) then oneElementRange ls rs
      else false
  | _, _ => true

/-- The first loops of `checkInRange`: the two points and whether every axis includes
its left and its right end; `none` when a chain of functions cannot be applied to a
range. `key_ranges[i]` and `data_types[i]` beyond the size are undefined behaviour in
C++ and an error here. -/
def checkInRangePoints
    (applyMonotonicFunctionsChainToRange :
      Range → MonotonicFunctionsChain → DataType → Bool → Option Range)
    (key_ranges : List Range) (data_types : List DataType) (single_point : Bool) :
    List KeyTuplePositionMapping → List Column → List FieldValue → List FieldValue →
      Bool → Bool → Except ErrorCodes (Option (List FieldValue × List FieldValue × Bool × Bool))
  | m :: ms, c :: cs, left_point, right_point, left_included, right_included =>
      match key_ranges[m.key_index]?, data_types[m.key_index]? with
      | some key_range, some data_type =>
          match applyMonotonicFunctionsChainToRange key_range m.functions data_type
              single_point with
          | none => .ok none
          | some new_range =>
              match (FieldValue.create c.cloneEmpty).update new_range.left with
              | .error e => .error e
              | .ok left =>
                  match (FieldValue.create c.cloneEmpty).update new_range.right with
                  | .error e => .error e
                  | .ok right =>
                      checkInRangePoints applyMonotonicFunctionsChainToRange key_ranges
                        data_types single_point ms cs (left_point ++ [left])
                        (right_point ++ [right])
                        (left_included && new_range.left_included)
                        (right_included && new_range.right_included)
      | _, _ => .error ErrorCodes.STD_OUT_OF_RANGE
  | _, _, left_point, right_point, left_included, right_included =>
      .ok (some (left_point, right_point, left_included, right_included))

/-- The part of `checkInRange` after the points are built: the two lower bounds and
the decision. -/
def checkInRangeDecide (index : MergeTreeSetIndex) (size : Nat)
    (left_point right_point : List FieldValue) (left_included right_included : Bool) :
    BoolMask :=
  let left_lower := lower_bound (less index.ordered_set left_point) size
  let right_lower := lower_bound (less index.ordered_set right_point) size
  if oneElementRange left_point right_point && index.has_all_keys then
    if !left_included || !right_included then { can_be_true := false, can_be_false := true }
    else if decide (left_lower ≠ size) && equals index.ordered_set left_point left_lower then
      { can_be_true := true, can_be_false := false }
    else { can_be_true := false, can_be_false := true }
  else if left_lower + 1 < right_lower then { can_be_true := true, can_be_false := true }
  else if left_lower + 1 = right_lower then
    if left_included || !equals index.ordered_set left_point left_lower then
      { can_be_true := true, can_be_false := true }
    else
      { can_be_true := right_included && decide (right_lower ≠ size) &&
          equals index.ordered_set right_point right_lower
        can_be_false := true }
  else
    { can_be_true := right_included && decide (right_lower ≠ size) &&
        equals index.ordered_set right_point right_lower
      can_be_false := true }

/-- `MergeTreeSetIndex::checkInRange(key_ranges, data_types, single_point)`;
`KeyCondition::applyMonotonicFunctionsChainToRange` is a parameter. -/
def checkInRange
    (applyMonotonicFunctionsChainToRange :
      Range → MonotonicFunctionsChain → DataType → Bool → Option Range)
    (index : MergeTreeSetIndex) (key_ranges : List Range) (data_types : List DataType)
    (single_point : Bool) : Except ErrorCodes BoolMask :=
  match checkInRangePoints applyMonotonicFunctionsChainToRange key_ranges data_types
      single_point index.indexes_mapping index.ordered_set [] [] true true with
  | .error e => .error e
  | .ok none => .ok { can_be_true := true, can_be_false := true }
  | .ok (some (left_point, right_point, left_included, right_included)) =>
      match index.size with
      | .error e => .error e
      | .ok size =>
          .ok (index.checkInRangeDecide size left_point right_point left_included
            right_included)

/-- `MergeTreeSetIndex::hasMonotonicFunctionsChain()`. -/
def hasMonotonicFunctionsChain (index : MergeTreeSetIndex) : Bool :=
  index.indexes_mapping.any fun mapping => !mapping.functions.isEmpty

end MergeTreeSetIndex

/-! ## Notions used to state the properties of the index -/

/-- The cell an endpoint stands for when it is compared with a cell: its value, and for
`+Inf` the NULL, which is what `+Inf` compares equal to. -/
def FieldRef.toField : FieldRef → Field
  | FieldRef.value x => x
  | _ => Field.Null

/-- The order of the endpoints: `-Inf` below everything, the values in the order of
their cells with NULL last, `+Inf` with the NULL. -/
def FieldRef.compare (a b : FieldRef) : Int :=
  match a, b with
  | FieldRef.NegativeInfinity, FieldRef.NegativeInfinity => 0
  | FieldRef.NegativeInfinity, _ => -1
  | _, FieldRef.NegativeInfinity => 1
  | a, b => Field.compare a.toField b.toField 1

/-- The endpoint a `FieldValue` holds. -/
def FieldValue.toRef (v : FieldValue) : FieldRef :=
  if v.isNegativeInfinity then FieldRef.NegativeInfinity
  else if v.isPositiveInfinity then FieldRef.PositiveInfinity
  else FieldRef.value (v.column.get 0)

/-- The lexicographic comparison of two tuples of cells, NULL ordered last. -/
def compareTuples : List Field → List Field → Int
  | a :: as, b :: bs =>
      if Field.compare a b 1 ≠ 0 then Field.compare a b 1 else compareTuples as bs
  | _, _ => 0

/-- A tuple of cells is lexicographically below a point. -/
def lessPoint : List Field → List FieldRef → Bool
  | a :: as, x :: xs =>
      if FieldRef.compare (FieldRef.value a) x ≠ 0 then
        decide (FieldRef.compare (FieldRef.value a) x < 0)
      else lessPoint as xs
  | _, _ => false

/-- A tuple of cells equals a point, cell by cell. -/
def equalsPoint : List Field → List FieldRef → Bool
  | a :: as, x :: xs =>
      if FieldRef.compare (FieldRef.value a) x ≠ 0 then false else equalsPoint as xs
  | _, _ => true

/-- The rows of a list of columns read across, in row order; the row count is that of
the first column. -/
def tupleRows (columns : List Column) : List (List Field) :=
  (List.range (blockRows columns)).map (SetVariants.keyAt columns)

/-- A cell is within a range: not below the left end and not above the right end, an
end it equals being included. -/
def Range.holds (range : Range) (cell : Field) : Prop :=
  (0 < FieldRef.compare (FieldRef.value cell) range.left ∨
      (range.left_included = true ∧ FieldRef.compare (FieldRef.value cell) range.left = 0)) ∧
    (FieldRef.compare (FieldRef.value cell) range.right < 0 ∨
      (range.right_included = true ∧ FieldRef.compare (FieldRef.value cell) range.right = 0))

instance (range : Range) (cell : Field) : Decidable (range.holds cell) := by
  unfold Range.holds; infer_instance

/-- The range is not empty by its ends alone: the left end is below the right end, or
they are equal and both included. -/
def Range.proper (range : Range) : Prop :=
  FieldRef.compare range.left range.right < 0 ∨
    (FieldRef.compare range.left range.right = 0 ∧ range.left_included = true ∧
      range.right_included = true)

instance (range : Range) : Decidable range.proper := by
  unfold Range.proper; infer_instance

/-- An endpoint a column can hold: a sentinel, or a value that `insert` accepts into a
column of its class. -/
def Column.accepts (c : Column) (x : FieldRef) : Bool :=
  match x with
  | FieldRef.value f =>
      match c.cloneEmpty.insert f with
      | .ok _ => true
      | .error _ => false
  | _ => true

/-- The contract of `applyMonotonicFunctionsChainToRange` the properties rely on: an
empty chain of functions leaves the range as it is. -/
def ChainIdentity
    (applyMonotonicFunctionsChainToRange :
      Range → MonotonicFunctionsChain → DataType → Bool → Option Range) : Prop :=
  ∀ range data_type single_point,
    applyMonotonicFunctionsChainToRange range [] data_type single_point = some range

namespace MergeTreeSetIndex

/-- The row count of the ordered columns. -/
def rows (index : MergeTreeSetIndex) : Nat :=
  blockRows index.ordered_set

/-- Row `row` of the ordered columns, read across. -/
def tuple (index : MergeTreeSetIndex) (row : Nat) : List Field :=
  SetVariants.keyAt index.ordered_set row

/-- The ordered columns are sorted: every row is at most the row after it in the
lexicographic order of the tuples. -/
def Sorted (index : MergeTreeSetIndex) : Prop :=
  ∀ row, row + 1 < index.rows → compareTuples (index.tuple row) (index.tuple (row + 1)) ≤ 0

/-- The ordered columns are strictly sorted: no tuple occurs twice. -/
def StrictlySorted (index : MergeTreeSetIndex) : Prop :=
  ∀ row, row + 1 < index.rows → compareTuples (index.tuple row) (index.tuple (row + 1)) < 0

/-- The index has one ordered column per mapping entry, no entry has a chain of
functions, and every entry names a key that has a range and a type. -/
def PlainFor (index : MergeTreeSetIndex) (key_ranges : List Range)
    (data_types : List DataType) : Prop :=
  index.ordered_set.length = index.indexes_mapping.length ∧
    ∀ m ∈ index.indexes_mapping,
      m.functions = [] ∧ m.key_index < key_ranges.length ∧ m.key_index < data_types.length

/-- The range of axis `i` of the index: the range of the key the mapping entry names. -/
def axisRanges (index : MergeTreeSetIndex) (key_ranges : List Range) : List Range :=
  index.indexes_mapping.filterMap fun m => key_ranges[m.key_index]?

/-- Row `row` lies in the hyperrectangle of the ranges: on every axis its cell is within
the range of that axis. -/
def inHyperrectangle (index : MergeTreeSetIndex) (key_ranges : List Range) (row : Nat) : Prop :=
  List.Forall₂ (fun cell (range : Range) => range.holds cell) (index.tuple row)
    (index.axisRanges key_ranges)

/-- The ends of the ranges are of the classes of the ordered columns: every ordered
column can hold both ends of the range of its axis. -/
def Typed (index : MergeTreeSetIndex) (key_ranges : List Range) : Prop :=
  List.Forall₂ (fun (c : Column) (range : Range) =>
      c.accepts range.left = true ∧ c.accepts range.right = true)
    index.ordered_set (index.axisRanges key_ranges)

/-- Row `row` lies between the two points in the lexicographic order of the tuples: it
is not below the left point, it equals the left point only if every axis includes its
left end, and it is below the right point or equals it with every axis including its
right end. -/
def inLexInterval (index : MergeTreeSetIndex) (key_ranges : List Range) (row : Nat) : Prop :=
  lessPoint (index.tuple row) ((index.axisRanges key_ranges).map fun r => r.left) = false ∧
    (((index.axisRanges key_ranges).all fun r => r.left_included) = true ∨
      equalsPoint (index.tuple row) ((index.axisRanges key_ranges).map fun r => r.left)
        = false) ∧
    (lessPoint (index.tuple row) ((index.axisRanges key_ranges).map fun r => r.right) = true ∨
      (((index.axisRanges key_ranges).all fun r => r.right_included) = true ∧
        equalsPoint (index.tuple row) ((index.axisRanges key_ranges).map fun r => r.right)
          = true))

instance (index : MergeTreeSetIndex) (key_ranges : List Range) (row : Nat) :
    Decidable (index.inLexInterval key_ranges row) := by
  unfold inLexInterval; infer_instance

instance (index : MergeTreeSetIndex) : Decidable index.Sorted :=
  decidable_of_iff
    (∀ row, row < index.rows - 1 →
      compareTuples (index.tuple row) (index.tuple (row + 1)) ≤ 0)
    ⟨fun h row hrow => h row (by omega), fun h row hrow => h row (by omega)⟩

instance (index : MergeTreeSetIndex) : Decidable index.StrictlySorted :=
  decidable_of_iff
    (∀ row, row < index.rows - 1 →
      compareTuples (index.tuple row) (index.tuple (row + 1)) < 0)
    ⟨fun h row hrow => h row (by omega), fun h row hrow => h row (by omega)⟩

instance (index : MergeTreeSetIndex) (key_ranges : List Range) (data_types : List DataType) :
    Decidable (index.PlainFor key_ranges data_types) := by
  unfold PlainFor; infer_instance

instance (index : MergeTreeSetIndex) (key_ranges : List Range) :
    Decidable (index.Typed key_ranges) := by
  unfold Typed; infer_instance

instance (index : MergeTreeSetIndex) (key_ranges : List Range) (row : Nat) :
    Decidable (index.inHyperrectangle key_ranges row) := by
  unfold inHyperrectangle; infer_instance

/-- The columns of the retained set the index is built over, one per mapping entry. -/
def projectedColumns (index : MergeTreeSetIndex) (set_elements : List Column) : List Column :=
  index.indexes_mapping.map fun m =>
    set_elements.getD m.tuple_index (Column.vector TypeIndex.UInt8 [])

end MergeTreeSetIndex

/-- The chain application of the small instance: an empty chain leaves the range, any
other chain fails. -/
def scenarioApplyChain : Range → MonotonicFunctionsChain → DataType → Bool → Option Range :=
  fun range functions _ _ => if functions.isEmpty then some range else none

/-- The range of an `Int64` key between two values. -/
def int64Range (left right : Int) (left_included right_included : Bool) : Range :=
  { left := FieldRef.value (Field.Int64 left), right := FieldRef.value (Field.Int64 right)
    left_included := left_included, right_included := right_included }

/-- The range of a `String` key between two values. -/
def stringRange (left right : String) (left_included right_included : Bool) : Range :=
  { left := FieldRef.value (Field.String left), right := FieldRef.value (Field.String right)
    left_included := left_included, right_included := right_included }

/-- The mapping of two keys to the two positions of a tuple, without functions. -/
def scenarioPairMapping : List KeyTuplePositionMapping :=
  [{ tuple_index := 0, key_index := 0, functions := [] },
    { tuple_index := 1, key_index := 1, functions := [] }]

/-- Scenario S5: the index over the retained rows `(3,'c'), (1,'a'), (2,'b')` with both
keys mapped; its ordered columns are `(1,'a'), (2,'b'), (3,'c')`. -/
def scenarioS5Index : MergeTreeSetIndex :=
  MergeTreeSetIndex.create
    [Column.vector TypeIndex.Int64 [3, 1, 2], Column.string ["c", "a", "b"]]
    scenarioPairMapping

/-- The key types of scenario S5. -/
def scenarioS5Types : List DataType :=
  [DataType.Int64, DataType.String]

/-- The retained columns of `(a, a) IN ((1, 2), (3, 4))`: the rows `(1, 2)` and `(3, 4)`. -/
def scenarioRepeatedKeyElements : List Column :=
  [Column.vector TypeIndex.Int64 [1, 3], Column.vector TypeIndex.Int64 [2, 4]]

/-- The mapping of `(a, a) IN ((1, 2), (3, 4))` over the primary key `a`: both positions
of the tuple hold the key of index 0. -/
def scenarioRepeatedKeyMapping : List KeyTuplePositionMapping :=
  [{ tuple_index := 0, key_index := 0, functions := [] },
    { tuple_index := 1, key_index := 0, functions := [] }]

/-- The index of `(a, a) IN ((1, 2), (3, 4))` over the primary key `a`. -/
def scenarioRepeatedKeyIndex : MergeTreeSetIndex :=
  MergeTreeSetIndex.create scenarioRepeatedKeyElements scenarioRepeatedKeyMapping

/-- The index over the one retained row `(1, 5)` with both keys mapped. -/
def scenarioOneRowIndex : MergeTreeSetIndex :=
  MergeTreeSetIndex.create
    [Column.vector TypeIndex.Int64 [1], Column.vector TypeIndex.Int64 [5]] scenarioPairMapping

/-- The index over the retained rows `(5, 1), (5, 2)` with only the first position of the
tuple mapped to a key; its one ordered column is `5, 5`. -/
def scenarioFirstKeyIndex : MergeTreeSetIndex :=
  MergeTreeSetIndex.create
    [Column.vector TypeIndex.Int64 [5, 5], Column.vector TypeIndex.Int64 [1, 2]]
    [{ tuple_index := 0, key_index := 0, functions := [] }]

/-- The index over the retained rows `(3, 0), (7, 0)` with only the first position of the
tuple mapped to a key; its one ordered column is `3, 7`. -/
def scenarioTwoValueIndex : MergeTreeSetIndex :=
  MergeTreeSetIndex.create
    [Column.vector TypeIndex.Int64 [3, 7], Column.vector TypeIndex.Int64 [0, 0]]
    [{ tuple_index := 0, key_index := 0, functions := [] }]


/-! ## Notions and small instances for the probe null map and the index mapping -/

/-- Row `i` is NULL in a probe column that takes the special case of `execute`: the
type of the column is `Nullable` and the key type it faces is not. -/
def Set.nullInNullableProbe (s : Set) (columns : List ColumnWithTypeAndName) (i : Nat) : Prop :=
  ∃ p ∈ columns.zip s.data_types,
    p.1.type.isNullable = true ∧ p.2.isNullable = false ∧
      (probeColumn p.1).column.isNullAt i = true

instance (s : Set) (columns : List ColumnWithTypeAndName) (i : Nat) :
    Decidable (s.nullInNullableProbe columns i) := by
  unfold Set.nullInNullableProbe; infer_instance

/-- Three retained columns, the rows `(3, 10, 5)` and `(1, 20, 4)`. -/
def scenarioShuffledElements : List Column :=
  [Column.vector TypeIndex.Int64 [3, 1], Column.vector TypeIndex.Int64 [10, 20],
    Column.vector TypeIndex.Int64 [5, 4]]

/-- A mapping out of order in which the key of index 1 occurs at the positions 2 and 0
of the tuple and the key of index 0 at position 1. -/
def scenarioShuffledMapping : List KeyTuplePositionMapping :=
  [{ tuple_index := 2, key_index := 1, functions := [] },
    { tuple_index := 1, key_index := 0, functions := [] },
    { tuple_index := 0, key_index := 1, functions := [] }]

/-- The key column the claim describes for a probe column under `transform_null_in`:
where the type of the column is `Nullable` and the key type is not, the accurate cast of
the inner (nested) values to the key type; elsewhere the accurate cast of the column. -/
def castInnerValues (ext : External) (c : ColumnWithTypeAndName) (t : DataType) :
    Except ErrorCodes Column :=
  if c.type.isNullable && !t.isNullable then
    match c.type, (probeColumn c).column with
    | DataType.Nullable nested_type, Column.nullable nested _ =>
        ext.castColumnAccurate { column := nested, type := nested_type, name := c.name } t
    | _, _ => .error ErrorCodes.LOGICAL_ERROR
  else ext.castColumnAccurate (probeColumn c) t

/-- A set with `transform_null_in` on and the key types `Int64`, `DateTime` that holds the
row `(1, 2024-01-01 00:00:00)`. -/
def scenarioInt64DateTime : Set :=
  ((Set.create scenarioLimits 0 true).setHeader
      [{ column := Column.vector TypeIndex.Int64 [], type := DataType.Int64, name := "" },
        { column := Column.vector TypeIndex.DateTime [], type := DataType.DateTime, name := "" }]
    ).insertBlocks scenarioExternal
      [[Column.vector TypeIndex.Int64 [1], Column.vector TypeIndex.DateTime [1704067200]]]

/-- A probe of `scenarioInt64DateTime`: the `Nullable(Int64)` column `1, NULL` next to
the `DateTime64(3)` column `…00.500, …00.000`. -/
def scenarioInt64DateTimeProbe : List ColumnWithTypeAndName :=
  [nullableInt64Column [1, 0] [0, 1], dateTime64Column 3 [1704067200500, 1704067200000]]

/-- A set with `transform_null_in` on and the key types `Int64`, `Int64` that holds the
row `(1, 2)`. -/
def scenarioInt64Pair : Set :=
  ((Set.create scenarioLimits 0 true).setHeader [int64Column [], int64Column []]
    ).insertBlocks scenarioExternal
      [[Column.vector TypeIndex.Int64 [1], Column.vector TypeIndex.Int64 [2]]]

/-- A probe of `scenarioInt64Pair` with two `Nullable(Int64)` columns: the rows `(1, 2)`,
`(NULL, 2)`, `(1, NULL)` and `(1, 3)`. -/
def scenarioInt64PairProbe : List ColumnWithTypeAndName :=
  [nullableInt64Column [1, 0, 1, 1] [0, 1, 0, 0], nullableInt64Column [2, 2, 0, 3] [0, 0, 1, 0]]

/-- The key indexes that occur in a mapping, each once, in ascending order. -/
def mappedKeyIndexes (indexes_mapping_ : List KeyTuplePositionMapping) : List Nat :=
  List.insertionSort (fun a b => a ≤ b) (indexes_mapping_.map fun m => m.key_index).dedup

/-- The smallest tuple index a mapping gives for the key of index `key_index` (0 when the
key does not occur). -/
def firstTupleIndex (indexes_mapping_ : List KeyTuplePositionMapping) (key_index : Nat) : Nat :=
  (((indexes_mapping_.filter fun m => decide (m.key_index = key_index)).map
    fun m => m.tuple_index).min?).getD 0

/-- The projected retained columns of §4.4, read off the arguments of the constructor:
for every key index that occurs in the mapping passed in, in ascending order, the
retained column at the smallest tuple index the mapping gives for that key. A tuple index
beyond the retained columns is undefined behaviour in C++; an empty column stands there. -/
def projectedRetainedColumns (set_elements : List Column)
    (indexes_mapping_ : List KeyTuplePositionMapping) : List Column :=
  (mappedKeyIndexes indexes_mapping_).map fun key_index =>
    set_elements.getD (firstTupleIndex indexes_mapping_ key_index)
      (Column.vector TypeIndex.UInt8 [])

/-- Three retained columns out of order, the rows `(3, 20, 5)` and `(1, 10, 4)`. -/
def scenarioUnsortedElements : List Column :=
  [Column.vector TypeIndex.Int64 [3, 1], Column.vector TypeIndex.Int64 [20, 10],
    Column.vector TypeIndex.Int64 [5, 4]]


/-! ## Basic facts about the column runtime -/

theorem Column.size_replicateRow0 (c : Column) (s : Nat) : (c.replicateRow0 s).size = s := by
  induction c with
  | vector t d => simp [Column.replicateRow0, Column.size]
  | string d => simp [Column.replicateRow0, Column.size]
  | nullable n m ih => simpa [Column.replicateRow0, Column.size] using ih
  | const d s1 _ => simp [Column.replicateRow0, Column.size]
  | lowCardinality dict idx _ => simp [Column.replicateRow0, Column.size]

theorem Column.size_convertToFullColumnIfConst (c : Column) :
    c.convertToFullColumnIfConst.size = c.size := by
  cases c <;> simp [Column.convertToFullColumnIfConst, Column.size, Column.size_replicateRow0]

theorem Column.size_removeNullable (c : Column) : c.removeNullable.size = c.size := by
  cases c <;> simp [Column.removeNullable, Column.size]

/-- The loop `for (i < rows) vec[i] = val(i)`. -/
theorem fold_set_length (val : Nat → Nat) (rows : Nat) (vec : List Nat) :
    (Nat.fold (fun i (v : List Nat) => v.set i (val i)) rows vec).length = vec.length := by
  induction rows with
  | zero => rfl
  | succ n ih => simp [Nat.fold, ih]

theorem fold_set_getD (val : Nat → Nat) (rows : Nat) (vec : List Nat) (i : Nat)
    (hi : i < vec.length) :
    (Nat.fold (fun i (v : List Nat) => v.set i (val i)) rows vec).getD i 0
      = if i < rows then val i else vec.getD i 0 := by
  induction rows with
  | zero => simp [Nat.fold]
  | succ n ih =>
    have hlen := fold_set_length val n vec
    simp only [Nat.fold]
    by_cases hin : i = n
    · subst hin
      simp [List.getD_eq_getElem?_getD, hlen, hi]
    · have h1 : (i < n + 1) ↔ (i < n) := by omega
      simp only [h1, ← ih]
      simp [List.getD_eq_getElem?_getD, List.getElem?_set, Ne.symm hin]

theorem executeImplCase_eq (has_null_map : Bool) (method : SetVariants)
    (key_columns : List Column) (vec_res : List Nat) (negative : Bool) (rows : Nat)
    (null_map : List Nat) :
    Set.executeImplCase has_null_map method key_columns vec_res negative rows null_map
      = Nat.fold (fun i (v : List Nat) =>
          v.set i (executeRow has_null_map method key_columns negative null_map i))
          rows vec_res := by
  unfold Set.executeImplCase executeRow
  congr 1
  funext i v
  split <;> rfl

theorem executeImplCase_length (has_null_map : Bool) (method : SetVariants)
    (key_columns : List Column) (vec_res : List Nat) (negative : Bool) (rows : Nat)
    (null_map : List Nat) :
    (Set.executeImplCase has_null_map method key_columns vec_res negative rows null_map).length
      = vec_res.length := by
  rw [executeImplCase_eq, fold_set_length]

theorem executeImplCase_getD (has_null_map : Bool) (method : SetVariants)
    (key_columns : List Column) (vec_res : List Nat) (negative : Bool) (rows : Nat)
    (null_map : List Nat) (i : Nat) (hi : i < vec_res.length) :
    (Set.executeImplCase has_null_map method key_columns vec_res negative rows null_map).getD i 0
      = if i < rows then executeRow has_null_map method key_columns negative null_map i
        else vec_res.getD i 0 := by
  rw [executeImplCase_eq, fold_set_getD _ _ _ _ hi]


/-! ## The shape of the key columns `execute` probes with -/

theorem Set.executeCast_size (ext : External) (s : Set) (hext : ext.KeepsSize)
    (c : ColumnWithTypeAndName) (t : DataType) (h n : Option (List Nat))
    (r : Column) (h1 n1 : Option (List Nat))
    (hc : s.executeCast ext c t h n = .ok (r, h1, n1)) : r.size = c.column.size := by
  unfold Set.executeCast at hc
  split at hc
  · split at hc
    · cases hc
    · next res hres =>
      cases hc
      exact hext.2 _ _ _ hres
  · split at hc
    · split at hc
      · next nested_type nested other hty hcol =>
        split at hc
        · cases hc
        · next res hres =>
          cases hc
          have := hext.1 _ _ _ hres
          simp only at this
          rw [this, hcol, Column.size]
      · cases hc
    · split at hc
      · cases hc
      · next res hres =>
        cases hc
        exact hext.1 _ _ _ hres

theorem Set.processDateTime64Column_size (s : Set) (c : ColumnWithTypeAndName)
    (result : Column) (h n : Option (List Nat)) (r : Column) (h1 n1 : Option (List Nat))
    (hp : s.processDateTime64Column c result h n = .ok (r, h1, n1)) : r.size = result.size := by
  unfold Set.processDateTime64Column at hp
  split at hp
  · cases hp
  · simp only at hp
    split at hp
    · split at hp
      · cases hp
      · cases hp
      · cases hp; rfl
    · split at hp
      · cases hp
      · cases hp
      · cases hp
        simp [Column.size, Column.size_removeNullable]

theorem Set.executeColumn_size (ext : External) (s : Set) (hext : ext.KeepsSize)
    (c : ColumnWithTypeAndName) (t : DataType) (st st1 : ExecuteState)
    (hc : s.executeColumn ext c t st = .ok st1) :
    ∃ r, st1.key_columns = st.key_columns ++ [r] ∧ r.size = c.column.size := by
  unfold Set.executeColumn at hc
  simp only at hc
  split at hc
  · cases hc
  · next result h1 n1 hcast =>
    have hsz := Set.executeCast_size ext s hext _ _ _ _ _ _ _ hcast
    simp only [Column.size_convertToFullColumnIfConst] at hsz
    split at hc
    · split at hc
      · cases hc
      · next r2 h2 n2 hproc =>
        cases hc
        refine ⟨r2, rfl, ?_⟩
        rw [Set.processDateTime64Column_size s _ _ _ _ _ _ _ hproc, hsz]
    · cases hc
      exact ⟨result, rfl, hsz⟩

theorem Set.executeLoop_sizes (ext : External) (s : Set) (hext : ext.KeepsSize)
    (cols : List ColumnWithTypeAndName) :
    ∀ (types : List DataType) (st st1 : ExecuteState), cols.length = types.length →
      s.executeLoop ext cols types st = .ok st1 →
      st1.key_columns.map Column.size
        = st.key_columns.map Column.size ++ cols.map (fun c => c.column.size) := by
  induction cols with
  | nil =>
    intro types st st1 _ h
    cases types <;> simp [Set.executeLoop] at h <;> simp [h]
  | cons c cs ih =>
    intro types st st1 hlen h
    cases types with
    | nil => simp at hlen
    | cons t ts =>
      simp only [Set.executeLoop] at h
      split at h
      · cases h
      · next st2 hcol =>
        obtain ⟨r, hr, hsz⟩ := Set.executeColumn_size ext s hext c t st st2 hcol
        have := ih ts st2 st1 (by simpa using hlen) h
        rw [this, hr]
        simp [hsz]

theorem extractNestedColumnsAndNullMap_sizes (cs : List Column) :
    (extractNestedColumnsAndNullMap cs).1.map Column.size = cs.map Column.size := by
  induction cs with
  | nil => rfl
  | cons c cs ih =>
    cases c with
    | nullable n m =>
      simp only [extractNestedColumnsAndNullMap]
      split <;> simp_all [Column.size]
    | vector t d => simpa [extractNestedColumnsAndNullMap] using ih
    | string d => simpa [extractNestedColumnsAndNullMap] using ih
    | const d s => simpa [extractNestedColumnsAndNullMap] using ih
    | lowCardinality d idx => simpa [extractNestedColumnsAndNullMap] using ih

theorem Set.executeKeyColumns_sizes (ext : External) (s : Set) (hext : ext.KeepsSize)
    (cols : List ColumnWithTypeAndName) (hlen : cols.length = s.data_types.length)
    (key_columns : List Column) (null_map : Option (List Nat))
    (h : s.executeKeyColumns ext cols = .ok (key_columns, null_map)) :
    key_columns.map Column.size = cols.map (fun c => c.column.size) := by
  unfold Set.executeKeyColumns at h
  split at h
  · cases h
  · next st hloop =>
    have hsz := Set.executeLoop_sizes ext s hext cols _ _ _ hlen hloop
    simp only [List.map_nil, List.nil_append] at hsz
    split at h
    · have h2 : extractNestedColumnsAndNullMap st.key_columns = (key_columns, null_map) := by
        injection h
      have := extractNestedColumnsAndNullMap_sizes st.key_columns
      rw [h2, hsz] at this
      exact this
    · cases h
      exact hsz


/-! ## The small instance keeps the contracts -/

theorem scenarioConvert_size (src dst : DataType) (col r : Column)
    (h : scenarioConvert src dst col = some r) : r.size = col.size := by
  unfold scenarioConvert at h
  split at h
  · cases h
  · split at h
    · cases h; rfl
    · split at h
      · cases h; simp [Column.size]
      · cases h

theorem scenarioCastAccurate_size (c : ColumnWithTypeAndName) (t : DataType) (r : Column)
    (h : scenarioCastAccurate c t = .ok r) : r.size = c.column.size := by
  unfold scenarioCastAccurate at h
  split at h <;> (try split at h) <;> (try split at h) <;>
    first
    | (cases h; done)
    | (cases h
       have hs := scenarioConvert_size _ _ _ _ (by assumption)
       simp_all [Column.size])

theorem scenarioCastAccurateOrNull_size (c : ColumnWithTypeAndName) (t : DataType)
    (r : Column) (h : scenarioCastAccurateOrNull c t = .ok r) : r.size = c.column.size := by
  unfold scenarioCastAccurateOrNull at h
  split at h <;> split at h <;>
    first
    | (cases h; done)
    | (cases h
       have hs := scenarioConvert_size _ _ _ _ (by assumption)
       simp_all [Column.size])

theorem scenarioExternal_keepsSize : scenarioExternal.KeepsSize :=
  ⟨scenarioCastAccurate_size, scenarioCastAccurateOrNull_size⟩


/-! ## The build loop -/

theorem mem_emplaceAll (new keys : List (List Field)) (k : List Field) :
    k ∈ emplaceAll keys new ↔ k ∈ keys ∨ k ∈ new := by
  induction new generalizing keys with
  | nil => simp [emplaceAll]
  | cons a as ih =>
    have h : emplaceAll keys (a :: as)
        = emplaceAll (if a ∈ keys then keys else keys ++ [a]) as := rfl
    rw [h, ih]
    by_cases ha : a ∈ keys
    · simp only [if_pos ha, List.mem_cons]
      constructor
      · rintro (h | h)
        · exact Or.inl h
        · exact Or.inr (Or.inr h)
      · rintro (h | h | h)
        · exact Or.inl h
        · exact Or.inl (h ▸ ha)
        · exact Or.inr h
    · simp only [if_neg ha, List.mem_append, List.mem_singleton, List.mem_cons]
      tauto

theorem emplaceAll_append (keys a b : List (List Field)) :
    emplaceAll keys (a ++ b) = emplaceAll (emplaceAll keys a) b := by
  simp [emplaceAll, List.foldl_append]

theorem blockRowKeys_succ (key_columns : List Column) (n : Nat) (null_map : Option (List Nat)) :
    blockRowKeys key_columns (n + 1) null_map
      = blockRowKeys key_columns n null_map ++
          (if nullMapMarks null_map n then [] else [SetVariants.keyAt key_columns n]) := by
  unfold blockRowKeys
  rw [List.range_succ, List.filterMap_append]
  congr 1
  by_cases h : nullMapMarks null_map n = true <;> simp [h]

theorem SetVariants.emplaceKey_fst (data : SetVariants) (key_columns : List Column) (i : Nat) :
    (data.emplaceKey key_columns i).1
      = { data with keys := emplaceAll data.keys [SetVariants.keyAt key_columns i] } := by
  unfold SetVariants.emplaceKey emplaceAll
  by_cases h : SetVariants.keyAt key_columns i ∈ data.keys <;> simp [h]

theorem insertFromBlockImplCase_keys (has_null_map build_filter : Bool) (method : SetVariants)
    (key_columns : List Column) (rows : Nat) (null_map out_filter : List Nat) :
    (insertFromBlockImplCase has_null_map build_filter method key_columns rows null_map
        out_filter).1
      = { method with
          keys := emplaceAll method.keys
            (blockRowKeys key_columns rows (implCaseNullMap has_null_map null_map)) } := by
  unfold insertFromBlockImplCase
  induction rows with
  | zero => simp [Nat.fold, blockRowKeys, emplaceAll]
  | succ n ih =>
    simp only [Nat.fold]
    rw [blockRowKeys_succ, emplaceAll_append]
    have hmark : nullMapMarks (implCaseNullMap has_null_map null_map) n
        = (has_null_map && decide (null_map.getD n 0 ≠ 0)) := by
      cases has_null_map <;> simp [implCaseNullMap, nullMapMarks]
    rw [hmark]
    by_cases hm : (has_null_map && decide (null_map.getD n 0 ≠ 0)) = true
    · simp only [hm, if_true]
      rw [ih]
      simp [emplaceAll]
    · simp only [hm, if_false]
      rw [SetVariants.emplaceKey_fst, ih]
      simp

theorem insertFromBlockImpl_keys (method : SetVariants) (key_columns : List Column)
    (rows : Nat) (null_map out_filter : Option (List Nat)) :
    (insertFromBlockImpl method key_columns rows null_map out_filter).1
      = { method with
          keys := emplaceAll method.keys (blockRowKeys key_columns rows null_map) } := by
  unfold insertFromBlockImpl
  cases null_map <;> cases out_filter <;>
    simp [insertFromBlockImplCase_keys, implCaseNullMap]

theorem Set.insertFromColumnsHolder_fst (ext : External) (s : Set) (columns : List Column)
    (holder : SetKeyColumns) (hdata : s.data.type ≠ SetVariantsType.EMPTY)
    (hlen : s.keys_size ≤ columns.length) (hcols : columns ≠ [])
    (hholder : holder.key_columns = []) :
    (s.insertFromColumnsHolder ext columns holder).1
      = { s with data := s.dataWithBlock columns } := by
  cases columns with
  | nil => exact absurd rfl hcols
  | cons c0 cs =>
    unfold Set.insertFromColumnsHolder
    have h1 : s.data.empty = false := by
      simp [SetVariants.empty, hdata]
    have h2 : ¬ (c0 :: cs).length < s.keys_size := by omega
    simp only [h1, Bool.false_eq_true, if_false, h2, hholder, List.nil_append]
    have hins : ∀ (kc : List Column) (nm f : Option (List Nat)),
        (match s.data.type with
          | SetVariantsType.EMPTY => (s.data, f)
          | _ => insertFromBlockImpl s.data kc c0.size nm f).1
        = { s.data with keys := emplaceAll s.data.keys (blockRowKeys kc c0.size nm) } := by
      intro kc nm f
      cases hty : s.data.type with
      | EMPTY => exact absurd hty hdata
      | _ => simp only [insertFromBlockImpl_keys]
    first
      | simp only [hins]
      | simp only [insertFromBlockImpl_keys]
    unfold Set.dataWithBlock Set.insertKeyColumns blockRows
    cases s.transform_null_in <;> rfl

theorem Set.insertFromColumnsHolder_outcome (ext : External) (s : Set) (columns : List Column)
    (holder : SetKeyColumns) (hdata : s.data.type ≠ SetVariantsType.EMPTY)
    (hlen : s.keys_size ≤ columns.length) (hcols : columns ≠ [])
    (hholder : holder.key_columns = []) :
    (s.insertFromColumnsHolder ext columns holder).2.2
      = s.limits.check (s.dataWithBlock columns).getTotalRowCount
          (ext.getTotalByteCount (s.dataWithBlock columns))
          ErrorCodes.SET_SIZE_LIMIT_EXCEEDED := by
  have hfst := Set.insertFromColumnsHolder_fst ext s columns holder hdata hlen hcols hholder
  cases columns with
  | nil => exact absurd rfl hcols
  | cons c0 cs =>
    unfold Set.insertFromColumnsHolder at hfst ⊢
    have h1 : s.data.empty = false := by
      simp [SetVariants.empty, hdata]
    have h2 : ¬ (c0 :: cs).length < s.keys_size := by omega
    simp only [h1, Bool.false_eq_true, if_false, h2] at hfst ⊢
    have hd := congrArg Set.data hfst
    simp only at hd
    rw [hd]

theorem Set.appendSetElements_frame (s : Set) (holder : SetKeyColumns) :
    ∃ se, (s.appendSetElements holder).1 = { s with set_elements := se } := by
  unfold Set.appendSetElements
  split
  · exact ⟨s.set_elements, rfl⟩
  · split
    · exact ⟨s.set_elements, rfl⟩
    · split
      · exact ⟨s.set_elements, rfl⟩
      · exact ⟨_, rfl⟩

/-- The state `insertFromColumns(columns)` leaves behind, whatever it returns: the
block is in the hash table, and only the retained columns and their switch may have
changed besides. -/
theorem Set.insertFromColumns_fst (ext : External) (s : Set) (columns : List Column)
    (hdata : s.data.type ≠ SetVariantsType.EMPTY)
    (hlen : s.keys_size ≤ columns.length) (hcols : columns ≠ []) :
    ∃ fse se, (s.insertFromColumns ext columns).1
      = { s with data := s.dataWithBlock columns, fill_set_elements := fse,
                 set_elements := se } := by
  cases columns with
  | nil => exact absurd rfl hcols
  | cons c0 cs =>
    unfold Set.insertFromColumns
    simp only
    generalize hh : ({ SetKeyColumns.new with
        filter := if s.fill_set_elements = true then some (List.replicate c0.size 0)
          else none } : SetKeyColumns) = holder
    have hk : holder.key_columns = [] := by subst hh; rfl
    have hfst := Set.insertFromColumnsHolder_fst ext s (c0 :: cs) holder hdata hlen hcols hk
    rcases hres : s.insertFromColumnsHolder ext (c0 :: cs) holder with ⟨s1, holder1, r⟩
    rw [hres] at hfst
    simp only at hfst
    subst hfst
    cases r with
    | error e => exact ⟨_, _, rfl⟩
    | ok inserted =>
      simp only
      split
      · split
        · exact ⟨_, _, rfl⟩
        · obtain ⟨se, hse⟩ := Set.appendSetElements_frame
            { s with data := s.dataWithBlock (c0 :: cs) } holder1
          split
          · next s2 e heq =>
            rw [heq] at hse
            simp only at hse
            subst hse
            exact ⟨_, _, rfl⟩
          · next s2 u heq =>
            rw [heq] at hse
            simp only at hse
            subst hse
            exact ⟨_, _, rfl⟩
      · exact ⟨_, _, rfl⟩

theorem Set.insertFromColumns_data (ext : External) (s : Set) (columns : List Column)
    (hdata : s.data.type ≠ SetVariantsType.EMPTY)
    (hlen : s.keys_size ≤ columns.length) (hcols : columns ≠ []) :
    (s.insertFromColumns ext columns).1.data = s.dataWithBlock columns := by
  obtain ⟨fse, se, h⟩ := Set.insertFromColumns_fst ext s columns hdata hlen hcols
  rw [h]


/-! ## `execute`: the result column -/

theorem Set.executeOrdinary_length (s : Set) (key_columns : List Column) (vec_res : List Nat)
    (negative : Bool) (null_map : Option (List Nat)) :
    (s.executeOrdinary key_columns vec_res negative null_map).length = vec_res.length := by
  unfold Set.executeOrdinary
  simp only
  split
  · rfl
  · unfold Set.executeImpl
    split <;> exact executeImplCase_length _ _ _ _ _ _ _

theorem Set.executeOrdinary_getD (s : Set) (k0 : Column) (ks : List Column)
    (vec_res : List Nat) (negative : Bool) (null_map : Option (List Nat))
    (hdata : s.data.type ≠ SetVariantsType.EMPTY) (i : Nat) (hi : i < vec_res.length)
    (hrows : i < k0.size) :
    (s.executeOrdinary (k0 :: ks) vec_res negative null_map).getD i 0
      = if nullMapMarks null_map i then negative.toNat
        else (xor negative (s.data.findKey (k0 :: ks) i)).toNat := by
  have hord : s.executeOrdinary (k0 :: ks) vec_res negative null_map
      = Set.executeImpl s.data (k0 :: ks) vec_res negative k0.size null_map := by
    unfold Set.executeOrdinary
    cases hty : s.data.type with
    | EMPTY => exact absurd hty hdata
    | _ => rfl
  rw [hord]
  unfold Set.executeImpl
  cases null_map with
  | none =>
    simp only [nullMapMarks]
    rw [executeImplCase_getD _ _ _ _ _ _ _ _ hi, if_pos hrows]
    simp [executeRow]
  | some nm =>
    simp only [nullMapMarks]
    rw [executeImplCase_getD _ _ _ _ _ _ _ _ hi, if_pos hrows]
    simp [executeRow]

/-- What `execute` does once the set has key types and the probe has rows: the arity
check, the key columns, and the probe. -/
theorem Set.execute_eq (ext : External) (s : Set) (c0 : ColumnWithTypeAndName)
    (cs : List ColumnWithTypeAndName) (negative : Bool) (hkeys : s.data_types ≠ [])
    (hrows : 0 < c0.column.size) :
    s.execute ext (c0 :: cs) negative =
      match s.checkColumnsNumber (c0 :: cs).length with
      | .error e => .error e
      | .ok _ =>
          match s.executeKeyColumns ext (c0 :: cs) with
          | .error e => .error e
          | .ok (key_columns, null_map) =>
              .ok (s.executeOrdinary key_columns (List.replicate c0.column.size 0)
                negative null_map) := by
  unfold Set.execute
  have h1 : (List.replicate c0.column.size 0).isEmpty = false := by
    cases hsz : c0.column.size with
    | zero => omega
    | succ n => rfl
  have h2 : s.data_types.isEmpty = false := by
    cases hd : s.data_types with
    | nil => exact absurd hd hkeys
    | cons _ _ => rfl
  simp only [h1, h2, Bool.false_eq_true, if_false] <;> rfl


/-! ## Null maps and rows -/

theorem lor_eq_zero_iff (a b : Nat) : a ||| b = 0 ↔ a = 0 ∧ b = 0 := by
  constructor
  · intro h
    have key : ∀ i, a.testBit i = false ∧ b.testBit i = false := by
      intro i
      have := congrArg (fun n => Nat.testBit n i) h
      simpa [Nat.testBit_or] using this
    constructor
    · apply Nat.eq_of_testBit_eq
      intro i
      simp [(key i).1]
    · apply Nat.eq_of_testBit_eq
      intro i
      simp [(key i).2]
  · rintro ⟨rfl, rfl⟩
    rfl

theorem orNullMap_length (a b : List Nat) : (orNullMap a b).length = a.length := by
  induction a generalizing b with
  | nil => rfl
  | cons x xs ih => cases b <;> simp [orNullMap, ih]

theorem orNullMap_getD (a b : List Nat) (i : Nat) (hi : i < a.length) :
    (orNullMap a b).getD i 0 = a.getD i 0 ||| b.getD i 0 := by
  induction a generalizing b i with
  | nil => simp at hi
  | cons x xs ih =>
    cases b with
    | nil =>
      cases i with
      | zero => simp [orNullMap]
      | succ j =>
        have := ih [] j (by simpa using hi)
        simpa [orNullMap] using this
    | cons y ys =>
      cases i with
      | zero => simp [orNullMap]
      | succ j =>
        have := ih ys j (by simpa using hi)
        simpa [orNullMap] using this

theorem orNullMap_marks (a b : List Nat) (i : Nat) (hi : i < a.length) :
    (orNullMap a b).getD i 0 ≠ 0 ↔ a.getD i 0 ≠ 0 ∨ b.getD i 0 ≠ 0 := by
  rw [orNullMap_getD a b i hi, Ne, lor_eq_zero_iff]
  tauto

theorem Column.get_ne_null_of_isPlain (c : Column) (h : c.isPlain = true) (i : Nat) :
    c.get i ≠ Field.Null := by
  cases c <;> simp [Column.isPlain] at h <;> simp [Column.get]

theorem nullMapMarks_some (m : List Nat) (i : Nat) :
    nullMapMarks (some m) i = decide (m.getD i 0 ≠ 0) := rfl

theorem nullMapMarks_none (i : Nat) : nullMapMarks none i = false := rfl

theorem SetVariants.keyAt_cons (c : Column) (cs : List Column) (i : Nat) :
    SetVariants.keyAt (c :: cs) i = c.get i :: SetVariants.keyAt cs i := rfl

theorem Column.get_nullable (n : Column) (m : List Nat) (i : Nat) :
    (Column.nullable n m).get i = if m.getD i 0 ≠ 0 then Field.Null else n.get i := rfl

/-- What `extractNestedColumnsAndNullMap` computes on full columns of `rows` rows, row by
row: the null map marks exactly the rows with a NULL cell, and on the other rows the
nested columns hold the cells of the columns. -/
theorem extractNestedColumnsAndNullMap_rows (cs : List Column) (rows i : Nat) (hi : i < rows)
    (hfull : ∀ c ∈ cs, c.isFull = true ∧ c.size = rows) :
    (nullMapMarks (extractNestedColumnsAndNullMap cs).2 i = true
        ↔ Field.Null ∈ SetVariants.keyAt cs i) ∧
      (nullMapMarks (extractNestedColumnsAndNullMap cs).2 i = false →
        SetVariants.keyAt (extractNestedColumnsAndNullMap cs).1 i = SetVariants.keyAt cs i) := by
  induction cs with
  | nil => simp [extractNestedColumnsAndNullMap, nullMapMarks, SetVariants.keyAt]
  | cons c cs ih =>
    have ih1 := ih (fun c hc => hfull c (List.mem_cons_of_mem _ hc))
    have hc := hfull c (List.mem_cons_self _ _)
    cases c with
    | nullable n m =>
      obtain ⟨hc1, hc2⟩ := hc
      simp only [Column.isFull, Bool.and_eq_true, decide_eq_true_eq] at hc1
      simp only [Column.size] at hc2
      have hmlen : i < m.length := by omega
      have hn := Column.get_ne_null_of_isPlain n hc1.1 i
      simp only [extractNestedColumnsAndNullMap]
      rcases hex : extractNestedColumnsAndNullMap cs with ⟨ks, h⟩
      rw [hex] at ih1
      simp only at ih1
      cases h with
      | none =>
        simp only [SetVariants.keyAt_cons, Column.get_nullable, List.mem_cons]
        simp only [nullMapMarks_some, nullMapMarks_none, decide_eq_true_eq,
          decide_eq_false_iff_not] at ih1 ⊢
        by_cases hm : m.getD i 0 = 0
        · rw [if_neg (fun h => h hm)]
          constructor
          · constructor
            · intro h1; exact absurd hm h1
            · rintro (h1 | h1)
              · exact absurd h1.symm hn
              · exact absurd (ih1.1.mpr h1) (by simp)
          · intro _
            rw [ih1.2 trivial]
        · rw [if_pos hm]
          exact ⟨⟨fun _ => Or.inl rfl, fun _ => hm⟩, fun h1 => absurd hm h1⟩
      | some h =>
        simp only [SetVariants.keyAt_cons, Column.get_nullable, List.mem_cons]
        simp only [nullMapMarks_some, decide_eq_true_eq, decide_eq_false_iff_not,
          orNullMap_marks m h i hmlen] at ih1 ⊢
        by_cases hm : m.getD i 0 = 0
        · rw [if_neg (fun h => h hm)]
          constructor
          · constructor
            · rintro (h1 | h1)
              · exact absurd hm h1
              · exact Or.inr (ih1.1.mp h1)
            · rintro (h1 | h1)
              · exact absurd h1.symm hn
              · exact Or.inr (ih1.1.mpr h1)
          · intro h2
            rw [ih1.2 (fun h3 => h2 (Or.inr h3))]
        · rw [if_pos hm]
          exact ⟨⟨fun _ => Or.inl rfl, fun _ => Or.inl hm⟩, fun h1 => absurd (Or.inl hm) h1⟩
    | vector t d =>
      simp only [extractNestedColumnsAndNullMap]
      rw [SetVariants.keyAt_cons, SetVariants.keyAt_cons, List.mem_cons]
      refine ⟨?_, ?_⟩
      · rw [ih1.1]
        constructor
        · intro h1; exact Or.inr h1
        · rintro (h1 | h1)
          · simp [Column.get] at h1
          · exact h1
      · intro h2; rw [ih1.2 h2]
    | string d =>
      simp only [extractNestedColumnsAndNullMap]
      rw [SetVariants.keyAt_cons, SetVariants.keyAt_cons, List.mem_cons]
      refine ⟨?_, ?_⟩
      · rw [ih1.1]
        constructor
        · intro h1; exact Or.inr h1
        · rintro (h1 | h1)
          · simp [Column.get] at h1
          · exact h1
      · intro h2; rw [ih1.2 h2]
    | const d s => simp [Column.isFull, Column.isPlain] at hc
    | lowCardinality d idx => simp [Column.isFull, Column.isPlain] at hc


/-! ## The rows a block contributes -/

theorem filter_map_eq_filterMap {α β : Type} (l : List α) (g : α → β) (p : β → Bool) :
    (l.map g).filter p = l.filterMap (fun i => if p (g i) then some (g i) else none) := by
  induction l with
  | nil => rfl
  | cons a as ih =>
    by_cases h : p (g a) = true
    · simp [List.filter_cons, List.filterMap_cons, h, ih]
    · simp [List.filter_cons, List.filterMap_cons, h, ih]

theorem filterMap_congr_mem {α β : Type} (l : List α) (f g : α → Option β)
    (h : ∀ a ∈ l, f a = g a) : l.filterMap f = l.filterMap g := by
  induction l with
  | nil => rfl
  | cons a as ih =>
    have h1 := h a (List.mem_cons_self _ _)
    have h2 := ih (fun b hb => h b (List.mem_cons_of_mem _ hb))
    simp [List.filterMap_cons, h1, h2]

/-- On a well-formed block the keys the build loop emplaces are the rows of the block
that pass the null filter. -/
theorem Set.blockRowKeys_eq_insertedRows (s : Set) (columns : List Column)
    (hwf : s.BlockWellFormed columns) :
    blockRowKeys (s.insertKeyColumns columns).1 (blockRows columns)
        (s.insertKeyColumns columns).2
      = s.insertedRows columns := by
  obtain ⟨_, _, hfull⟩ := hwf
  unfold Set.insertedRows Set.blockRowList blockRowKeys
  rw [filter_map_eq_filterMap]
  apply filterMap_congr_mem
  intro i hi
  have hi1 : i < blockRows columns := List.mem_range.mp hi
  unfold Set.insertKeyColumns Set.passesNullFilter
  cases htni : s.transform_null_in with
  | true => simp [nullMapMarks]
  | false =>
    have hrow := extractNestedColumnsAndNullMap_rows (s.blockKeyColumns columns)
      (blockRows columns) i hi1 hfull
    simp only [Bool.not_false, if_true, Bool.false_or]
    by_cases hm : nullMapMarks (extractNestedColumnsAndNullMap
        (s.blockKeyColumns columns)).2 i = true
    · have hnull := hrow.1.mp hm
      simp [hm, hnull]
    · have hm1 : nullMapMarks (extractNestedColumnsAndNullMap
          (s.blockKeyColumns columns)).2 i = false := by simpa using hm
      have hnull : ¬ Field.Null ∈ SetVariants.keyAt (s.blockKeyColumns columns) i :=
        fun h => hm (hrow.1.mpr h)
      rw [hm1, hrow.2 hm1]
      simp [hnull]

/-- The state after a sequence of well-formed blocks went in: the rows that pass the null
filter are emplaced in order, and nothing `execute` reads has changed besides. -/
theorem Set.insertBlocks_eq (ext : External) (blocks : List (List Column)) :
    ∀ (s : Set), s.data.type ≠ SetVariantsType.EMPTY →
      (∀ columns ∈ blocks, s.BlockWellFormed columns) →
      ∃ fse se, s.insertBlocks ext blocks
        = { s with
            data := { s.data with
              keys := emplaceAll s.data.keys (blocks.flatMap s.insertedRows) }
            fill_set_elements := fse
            set_elements := se } := by
  induction blocks with
  | nil =>
    intro s _ _
    exact ⟨s.fill_set_elements, s.set_elements, by simp [Set.insertBlocks, emplaceAll]⟩
  | cons b bs ih =>
    intro s hdata hwf
    have hb := hwf b (List.mem_cons_self _ _)
    obtain ⟨fse, se, h1⟩ := Set.insertFromColumns_fst ext s b hdata hb.1 hb.2.1
    have hstep : s.insertBlocks ext (b :: bs)
        = Set.insertBlocks ext (s.insertFromColumns ext b).1 bs := rfl
    rw [hstep, h1]
    obtain ⟨fse2, se2, h2⟩ := ih
      { s with data := s.dataWithBlock b, fill_set_elements := fse, set_elements := se }
      hdata (fun c hc => hwf c (List.mem_cons_of_mem _ hc))
    rw [h2]
    refine ⟨fse2, se2, ?_⟩
    simp only [Set.dataWithBlock, Set.blockRowKeys_eq_insertedRows s b hb,
      List.flatMap_cons, emplaceAll_append]
    rfl


/-! ## `execute` reads the key types, `transform_null_in` and the hash table only -/

theorem Set.executeLoop_congr (ext : External) (s s1 : Set)
    (htni : s1.transform_null_in = s.transform_null_in)
    (cols : List ColumnWithTypeAndName) :
    ∀ (types : List DataType) (st : ExecuteState),
      s1.executeLoop ext cols types st = s.executeLoop ext cols types st := by
  have hcol : ∀ c t st, s1.executeColumn ext c t st = s.executeColumn ext c t st := by
    intro c t st
    simp only [Set.executeColumn, Set.executeCast, Set.processDateTime64Column, htni]
  induction cols with
  | nil => intro types st; cases types <;> rfl
  | cons c cs ih =>
    intro types st
    cases types with
    | nil => rfl
    | cons t ts =>
      simp only [Set.executeLoop, hcol]
      cases s.executeColumn ext c t st with
      | error e => rfl
      | ok st1 => exact ih ts st1

theorem Set.execute_congr (ext : External) (s s1 : Set)
    (htni : s1.transform_null_in = s.transform_null_in)
    (htypes : s1.data_types = s.data_types) (hdata : s1.data = s.data)
    (columns : List ColumnWithTypeAndName) (negative : Bool) :
    s1.execute ext columns negative = s.execute ext columns negative := by
  unfold Set.execute Set.executeKeyColumns Set.executeOrdinary Set.checkColumnsNumber
  simp only [htni, htypes, hdata, Set.executeLoop_congr ext s s1 htni]

/-! ## `execute` when the casts are the identity -/

theorem isDateTime64_guard_self (c : Column) :
    (isDateTime64 c.getDataType && !isDateTime64 c.removeNullable.getDataType) = false := by
  cases c <;> simp [Column.removeNullable, Column.getDataType, isDateTime64]

theorem Set.executeColumn_identity (ext : External) (s : Set) (c : ColumnWithTypeAndName)
    (st : ExecuteState) (hid : ext.IdentityOn (probeColumn c)) :
    s.executeColumn ext c c.type st
      = .ok { key_columns := st.key_columns ++ [s.identityKeyColumn c]
              null_map_holder := st.null_map_holder
              null_map := st.null_map } := by
  obtain ⟨hacc, hnull⟩ := hid
  unfold Set.executeColumn Set.executeCast Set.identityKeyColumn
  by_cases h1 : (!s.transform_null_in && c.type.canBeInsideNullable) = true
  · have hcan : c.type.canBeInsideNullable = true := by
      simp only [Bool.and_eq_true] at h1; exact h1.2
    have hn := hnull hcan
    simp only [probeColumn] at hn
    simp only [h1, if_true, hn, probeColumn]
    have hg : (isDateTime64 c.column.convertToFullColumnIfConst.getDataType &&
        !isDateTime64 (Column.nullable c.column.convertToFullColumnIfConst
          (List.replicate c.column.convertToFullColumnIfConst.size 0)).removeNullable.getDataType)
        = false := by
      simp [Column.removeNullable]
    simp only [hg, Bool.false_eq_true, if_false]
  · have h2 : (s.transform_null_in && c.type.isNullable && !c.type.isNullable) = false := by
      cases s.transform_null_in <;> cases c.type.isNullable <;> rfl
    simp only [probeColumn] at hacc
    simp only [h1, if_false, h2, Bool.false_eq_true, hacc, probeColumn,
      isDateTime64_guard_self]

theorem Set.executeLoop_identity (ext : External) (s : Set)
    (cols : List ColumnWithTypeAndName) :
    ∀ (st : ExecuteState), (∀ c ∈ cols, ext.IdentityOn (probeColumn c)) →
      s.executeLoop ext cols (cols.map fun c => c.type) st
        = .ok { key_columns := st.key_columns ++ cols.map s.identityKeyColumn
                null_map_holder := st.null_map_holder
                null_map := st.null_map } := by
  induction cols with
  | nil => intro st _; simp [Set.executeLoop]
  | cons c cs ih =>
    intro st hid
    simp only [List.map_cons, Set.executeLoop]
    rw [Set.executeColumn_identity ext s c st (hid c (List.mem_cons_self _ _))]
    simp only
    rw [ih _ (fun c1 hc1 => hid c1 (List.mem_cons_of_mem _ hc1))]
    simp

theorem Set.executeKeyColumns_identity (ext : External) (s : Set)
    (cols : List ColumnWithTypeAndName) (htypes : cols.map (fun c => c.type) = s.data_types)
    (hid : ∀ c ∈ cols, ext.IdentityOn (probeColumn c)) :
    s.executeKeyColumns ext cols
      = .ok (if !s.transform_null_in then
               extractNestedColumnsAndNullMap (cols.map s.identityKeyColumn)
             else (cols.map s.identityKeyColumn, none)) := by
  unfold Set.executeKeyColumns
  rw [← htypes, Set.executeLoop_identity ext s cols _ hid]
  simp only [List.nil_append]
  cases s.transform_null_in <;> rfl


theorem DataType.isNullable_of_canBeInsideNullable (t : DataType)
    (h : t.canBeInsideNullable = true) : t.isNullable = false := by
  cases t <;> simp [DataType.canBeInsideNullable] at h <;> rfl

theorem Set.identityKeyColumn_size (s : Set) (c : ColumnWithTypeAndName) :
    (s.identityKeyColumn c).size = c.column.size := by
  unfold Set.identityKeyColumn probeColumn
  split <;> simp [Column.size, Column.size_convertToFullColumnIfConst]

theorem Set.identityKeyColumn_get (s : Set) (c : ColumnWithTypeAndName) (i : Nat) :
    (s.identityKeyColumn c).get i = (probeColumn c).column.get i := by
  unfold Set.identityKeyColumn
  split
  · rw [Column.get_nullable]
    have h0 : (List.replicate (probeColumn c).column.size 0).getD i 0 = 0 := by
      rw [List.getD_eq_getElem?_getD]
      by_cases hi : i < (probeColumn c).column.size
      · simp [List.getElem?_replicate, hi]
      · simp [List.getElem?_replicate, hi]
    rw [if_neg (fun h => h h0)]
  · rfl

theorem Set.identityKeyColumn_isFull (s : Set) (c : ColumnWithTypeAndName)
    (hfull : (probeColumn c).column.isFull = true)
    (hplain : c.type.isNullable = false → (probeColumn c).column.isPlain = true) :
    (s.identityKeyColumn c).isFull = true := by
  unfold Set.identityKeyColumn
  split
  · next h =>
    simp only [Bool.and_eq_true] at h
    have hp := hplain (DataType.isNullable_of_canBeInsideNullable _ h.2)
    simp [Column.isFull, hp]
  · exact hfull

theorem Set.keyAt_identityKeyColumns (s : Set) (cols : List ColumnWithTypeAndName) (i : Nat) :
    SetVariants.keyAt (cols.map s.identityKeyColumn) i = probeRow cols i := by
  unfold probeRow SetVariants.keyAt
  simp only [List.map_map]
  apply List.map_congr_left
  intro c _
  exact Set.identityKeyColumn_get s c i

/-- The key columns and the null map `execute` probes with when the casts are the
identity, row by row: a row is marked exactly when it does not pass the null filter, and
an unmarked row is probed with its own cells. -/
theorem Set.identity_rows (s : Set) (cols : List ColumnWithTypeAndName) (i : Nat)
    (hprobe : s.ProbeOfKeyTypes cols) (hi : i < probeRows cols) :
    (nullMapMarks (if !s.transform_null_in then
          extractNestedColumnsAndNullMap (cols.map s.identityKeyColumn)
        else (cols.map s.identityKeyColumn, none)).2 i = true
        ↔ s.passesNullFilter (probeRow cols i) = false) ∧
      (nullMapMarks (if !s.transform_null_in then
          extractNestedColumnsAndNullMap (cols.map s.identityKeyColumn)
        else (cols.map s.identityKeyColumn, none)).2 i = false →
        SetVariants.keyAt (if !s.transform_null_in then
          extractNestedColumnsAndNullMap (cols.map s.identityKeyColumn)
        else (cols.map s.identityKeyColumn, none)).1 i = probeRow cols i) := by
  obtain ⟨_, hcols⟩ := hprobe
  unfold Set.passesNullFilter
  cases htni : s.transform_null_in with
  | true =>
    simp only [Bool.not_true, Bool.false_eq_true, if_false, nullMapMarks_none, Bool.true_or]
    exact ⟨by simp, fun _ => Set.keyAt_identityKeyColumns s cols i⟩
  | false =>
    simp only [Bool.not_false, if_true, Bool.false_or]
    have hfull : ∀ c ∈ cols.map s.identityKeyColumn,
        c.isFull = true ∧ c.size = probeRows cols := by
      intro k hk
      obtain ⟨c, hc, rfl⟩ := List.mem_map.mp hk
      obtain ⟨h1, h2, h3⟩ := hcols c hc
      refine ⟨Set.identityKeyColumn_isFull s c h1 h3, ?_⟩
      rw [Set.identityKeyColumn_size, ← h2]
      simp [probeColumn, Column.size_convertToFullColumnIfConst]
    have hrow := extractNestedColumnsAndNullMap_rows (cols.map s.identityKeyColumn)
      (probeRows cols) i hi hfull
    rw [Set.keyAt_identityKeyColumns] at hrow
    refine ⟨?_, hrow.2⟩
    rw [hrow.1]
    simp

/-- The result of `execute` once the key columns are known: row `i` is `negate` when the
null map marks it and `negate XOR found_i` otherwise. -/
theorem Set.execute_of_keyColumns (ext : External) (s : Set) (c0 : ColumnWithTypeAndName)
    (cs : List ColumnWithTypeAndName) (negative : Bool) (k0 : Column) (ks : List Column)
    (null_map : Option (List Nat)) (hne : s.data_types ≠ [])
    (hdata : s.data.type ≠ SetVariantsType.EMPTY)
    (hlen : (c0 :: cs).length = s.data_types.length) (hrows : 0 < c0.column.size)
    (hkeys : s.executeKeyColumns ext (c0 :: cs) = .ok (k0 :: ks, null_map))
    (hk0 : k0.size = c0.column.size) :
    ∃ res, s.execute ext (c0 :: cs) negative = .ok res ∧
      res.length = c0.column.size ∧
      ∀ i, i < c0.column.size →
        res.getD i 0 =
          if nullMapMarks null_map i then negative.toNat
          else (xor negative (s.data.findKey (k0 :: ks) i)).toNat := by
  rw [Set.execute_eq ext s c0 cs negative hne hrows]
  have hchk : s.checkColumnsNumber (c0 :: cs).length = .ok () := by
    unfold Set.checkColumnsNumber
    rw [if_neg (by rw [hlen]; simp)]
  rw [hchk, hkeys]
  refine ⟨_, rfl, ?_, ?_⟩
  · simp [Set.executeOrdinary_length]
  · intro i hi
    exact Set.executeOrdinary_getD s k0 ks _ negative null_map hdata i (by simpa using hi)
      (by rw [hk0]; exact hi)


/-! ## Membership -/

/-- The answer of `execute(Q, false)` on a set that received a sequence of well-formed
blocks, for a probe of the key types under identity casts. -/
theorem Set.execute_after_inserts (ext : External) (s0 : Set) (blocks : List (List Column))
    (columns : List ColumnWithTypeAndName)
    (hheader : s0.HeaderSet)
    (hblocks : ∀ b ∈ blocks, s0.BlockWellFormed b)
    (hprobe : s0.ProbeOfKeyTypes columns)
    (hident : ∀ c ∈ columns, ext.IdentityOn (probeColumn c)) :
    ∃ res, (s0.insertBlocks ext blocks).execute ext columns false = .ok res ∧
      res.length = probeRows columns ∧
      ∀ i, i < probeRows columns →
        (res.getD i 0 = 1 ↔
          s0.passesNullFilter (probeRow columns i) = true ∧
            (probeRow columns i ∈ s0.data.keys ∨
              ∃ b ∈ blocks, probeRow columns i ∈ s0.insertedRows b)) := by
  obtain ⟨hne, hsize, hdata⟩ := hheader
  obtain ⟨fse, se, hs⟩ := Set.insertBlocks_eq ext blocks s0 hdata hblocks
  rw [hs]
  generalize hs1 : ({ s0 with
      data := { s0.data with
        keys := emplaceAll s0.data.keys (blocks.flatMap s0.insertedRows) }
      fill_set_elements := fse
      set_elements := se } : Set) = s1
  have htni : s1.transform_null_in = s0.transform_null_in := by subst hs1; rfl
  have htypes : s1.data_types = s0.data_types := by subst hs1; rfl
  have hkeys1 : s1.data.keys = emplaceAll s0.data.keys (blocks.flatMap s0.insertedRows) := by
    subst hs1; rfl
  have hdata1 : s1.data.type ≠ SetVariantsType.EMPTY := by subst hs1; exact hdata
  have hprobe1 : s1.ProbeOfKeyTypes columns := by
    unfold Set.ProbeOfKeyTypes at hprobe ⊢
    rw [htypes]; exact hprobe
  have hpass : ∀ row, s1.passesNullFilter row = s0.passesNullFilter row := by
    intro row; unfold Set.passesNullFilter; rw [htni]
  cases columns with
  | nil =>
    have := hprobe.1
    simp only [List.map_nil] at this
    exact absurd this.symm hne
  | cons c0 cs =>
    by_cases hrows : c0.column.size = 0
    · refine ⟨[], ?_, ?_, ?_⟩
      · simp [Set.execute, hrows]
      · simp [probeRows, hrows]
      · intro i hi
        simp [probeRows, hrows] at hi
    · have hpos : 0 < c0.column.size := Nat.pos_of_ne_zero hrows
      have hlen : (c0 :: cs).length = s1.data_types.length := by
        rw [htypes, ← hprobe.1, List.length_map]
      have hk := Set.executeKeyColumns_identity ext s1 (c0 :: cs) hprobe1.1 hident
      have hsizes : (if !s1.transform_null_in then
            extractNestedColumnsAndNullMap ((c0 :: cs).map s1.identityKeyColumn)
          else ((c0 :: cs).map s1.identityKeyColumn, none)).1.map Column.size
          = (c0 :: cs).map (fun c => c.column.size) := by
        have hid : ((c0 :: cs).map s1.identityKeyColumn).map Column.size
            = (c0 :: cs).map (fun c => c.column.size) := by
          rw [List.map_map]
          apply List.map_congr_left
          intro c _
          exact Set.identityKeyColumn_size s1 c
        cases s1.transform_null_in
        · simp only [Bool.not_false, if_true]
          rw [extractNestedColumnsAndNullMap_sizes, hid]
        · simp only [Bool.not_true, Bool.false_eq_true, if_false]
          exact hid
      rcases hp : (if !s1.transform_null_in then
            extractNestedColumnsAndNullMap ((c0 :: cs).map s1.identityKeyColumn)
          else ((c0 :: cs).map s1.identityKeyColumn, none)) with ⟨kc, nm⟩
      rw [hp] at hk hsizes
      cases kc with
      | nil => simp at hsizes
      | cons k0 ks =>
        have hk0 : k0.size = c0.column.size := by
          simp only [List.map_cons, List.cons.injEq] at hsizes
          exact hsizes.1
        obtain ⟨res, hres, hlenres, hrow⟩ := Set.execute_of_keyColumns ext s1 c0 cs false
          k0 ks nm (by rw [htypes]; exact hne) hdata1 hlen hpos hk hk0
        refine ⟨res, hres, hlenres, ?_⟩
        intro i hi
        have hi1 : i < c0.column.size := hi
        have hid := Set.identity_rows s1 (c0 :: cs) i hprobe1 hi
        rw [hp] at hid
        simp only at hid
        rw [hrow i hi1, ← hpass]
        by_cases hm : nullMapMarks nm i = true
        · have := hid.1.mp hm
          simp [hm, this]
        · have hm1 : nullMapMarks nm i = false := by simpa using hm
          have hpassT : s1.passesNullFilter (probeRow (c0 :: cs) i) = true := by
            cases hpv : s1.passesNullFilter (probeRow (c0 :: cs) i) with
            | true => rfl
            | false => exact absurd (hid.1.mpr hpv) hm
          have hkey := hid.2 hm1
          rw [if_neg hm, hpassT]
          simp only [Bool.false_xor, SetVariants.findKey, hkey, hkeys1, true_and]
          have hiff : (probeRow (c0 :: cs) i ∈ s0.data.keys ∨
              ∃ b ∈ blocks, probeRow (c0 :: cs) i ∈ s0.insertedRows b)
              ↔ probeRow (c0 :: cs) i ∈
                emplaceAll s0.data.keys (blocks.flatMap s0.insertedRows) := by
            rw [mem_emplaceAll, List.mem_flatMap]
          rw [hiff]
          by_cases hmem : probeRow (c0 :: cs) i ∈
              emplaceAll s0.data.keys (blocks.flatMap s0.insertedRows)
          · simp [hmem]
          · simp [hmem]

theorem Set.flatMap_insertedRows (s : Set) (blocks : List (List Column)) :
    blocks.flatMap s.insertedRows = (blocks.flatMap s.blockRowList).filter s.passesNullFilter := by
  rw [List.filter_flatMap]
  rfl

theorem mem_blockRowKeys (key_columns : List Column) (rows : Nat) (null_map : Option (List Nat))
    (k : List Field) :
    k ∈ blockRowKeys key_columns rows null_map ↔
      ∃ i, i < rows ∧ nullMapMarks null_map i = false ∧ SetVariants.keyAt key_columns i = k := by
  unfold blockRowKeys
  simp only [List.mem_filterMap, List.mem_range]
  constructor
  · rintro ⟨i, hi, h⟩
    by_cases hm : nullMapMarks null_map i = true
    · simp [hm] at h
    · simp only [hm, Bool.false_eq_true, if_false, Option.some.injEq] at h
      exact ⟨i, hi, by simpa using hm, h⟩
  · rintro ⟨i, hi, hm, hk⟩
    exact ⟨i, hi, by simp [hm, hk]⟩


/-! ## `hasNull` -/

theorem DataType.insert_null_createColumn (t : DataType) (h : t.isNullable = true) :
    t.createColumn.insert Field.Null = .ok (nullProbe t).column := by
  cases t <;> simp [DataType.isNullable] at h
  simp [DataType.createColumn, Column.insert, nullProbe, DataType.removeNullable]

theorem fold_set_le_one (val : Nat → Nat) (hval : ∀ i, val i ≤ 1) (rows : Nat) (vec : List Nat)
    (hvec : ∀ i, vec.getD i 0 ≤ 1) (i : Nat) :
    (Nat.fold (fun i (v : List Nat) => v.set i (val i)) rows vec).getD i 0 ≤ 1 := by
  by_cases hi : i < vec.length
  · rw [fold_set_getD val rows vec i hi]
    split
    · exact hval i
    · exact hvec i
  · have hlen := fold_set_length val rows vec
    rw [List.getD_eq_default _ _ (by rw [hlen]; omega)]
    omega

theorem executeRow_le_one (has_null_map : Bool) (method : SetVariants)
    (key_columns : List Column) (negative : Bool) (null_map : List Nat) (i : Nat) :
    executeRow has_null_map method key_columns negative null_map i ≤ 1 := by
  unfold executeRow
  split
  · cases negative <;> simp
  · cases negative <;> cases method.findKey key_columns i <;> simp

theorem getD_replicate_le_one (n b i : Nat) (hb : b ≤ 1) : (List.replicate n b).getD i 0 ≤ 1 := by
  rw [List.getD_eq_getElem?_getD, List.getElem?_replicate]
  split <;> simp [hb]

/-- Every byte of a result of `execute` is 0 or 1. -/
theorem Set.execute_le_one (ext : External) (s : Set) (columns : List ColumnWithTypeAndName)
    (negative : Bool) (res : List Nat) (h : s.execute ext columns negative = .ok res) (i : Nat) :
    res.getD i 0 ≤ 1 := by
  unfold Set.execute at h
  split at h
  · cases h
  · simp only at h
    split at h
    · cases h; exact getD_replicate_le_one _ _ _ (by omega)
    · split at h
      · split at h <;> cases h <;> exact getD_replicate_le_one _ _ _ (by omega)
      · split at h
        · cases h
        · split at h
          · cases h
          · cases h
            unfold Set.executeOrdinary
            simp only
            split
            · exact getD_replicate_le_one _ _ _ (by omega)
            · unfold Set.executeImpl
              split <;>
                (rw [executeImplCase_eq]
                 exact fold_set_le_one _ (executeRow_le_one _ _ _ _ _) _ _
                   (fun j => getD_replicate_le_one _ _ _ (by omega)) _)

/-- What `hasNull` returns, in terms of the probe with the block `[NULL]`. -/
theorem Set.hasNull_eq (ext : External) (s : Set) :
    s.hasNull ext =
      if s.is_created = false then .error ErrorCodes.LOGICAL_ERROR
      else if s.transform_null_in = false then .ok false
      else
        match s.data_types with
        | [t] =>
            if t.isNullable = false then .ok false
            else
              match s.execute ext [nullProbe t] false with
              | .error e => .error e
              | .ok res => .ok (decide (res.getD 0 0 ≠ 0))
        | _ => .ok false := by
  unfold Set.hasNull Set.checkIsCreated
  cases hc : s.is_created with
  | false => rfl
  | true =>
    cases ht : s.transform_null_in with
    | false => rfl
    | true =>
      simp only [Bool.not_true, Bool.false_eq_true, if_false]
      rcases hd : s.data_types with _ | ⟨t, _ | ⟨t2, ts⟩⟩
      · rfl
      · simp only [List.length_singleton, ne_eq, not_true_eq_false, if_false]
        cases hn : t.isNullable with
        | false => rfl
        | true =>
          have hnp : ({ column := (nullProbe t).column, type := t, name := "" }
              : ColumnWithTypeAndName) = nullProbe t := rfl
          simp only [Bool.not_true, Bool.false_eq_true, if_false,
            DataType.insert_null_createColumn t hn, hnp]
          all_goals
            first
              | rfl
              | (cases s.execute ext [nullProbe t] false <;> rfl)
      · simp


/-! ## Null maps built by `execute` -/

theorem mergeNullMaps_some (a b : List Nat) (r : Option (List Nat))
    (h : mergeNullMaps (some a) (some b) = .ok r) :
    ∃ m, r = some m ∧ m.length = a.length ∧ a.length = b.length ∧
      ∀ i, i < a.length → (m.getD i 0 ≠ 0 ↔ a.getD i 0 ≠ 0 ∨ b.getD i 0 ≠ 0) := by
  unfold mergeNullMaps at h
  simp only at h
  split at h
  · cases h
  · next hlen =>
    cases h
    refine ⟨_, rfl, by simp, by simpa using hlen, ?_⟩
    intro i hi
    rw [List.getD_eq_getElem?_getD, List.getElem?_map, List.getElem?_range hi]
    simp only [Option.map_some', Option.getD_some]
    split <;> simp_all

theorem checkDateTimePrecision_length (c : ColumnWithTypeAndName) (f : List Nat)
    (h : checkDateTimePrecision c = .ok f) : f.length = c.column.size := by
  unfold checkDateTimePrecision at h
  simp only at h
  split at h
  · next data hnested =>
    have hsz : c.column.size = data.length := by
      cases hc : c.column with
      | nullable n m =>
        rw [hc] at hnested
        simp only at hnested
        simp [Column.size, hnested]
      | vector t d =>
        rw [hc] at hnested
        simp only [Column.vector.injEq] at hnested
        simp [Column.size, hnested.2]
      | string d => rw [hc] at hnested; cases hnested
      | const d s => rw [hc] at hnested; cases hnested
      | lowCardinality d idx => rw [hc] at hnested; cases hnested
    split at h
    · split at h <;> cases h <;> simp [hsz]
    · cases h
  · cases h

theorem checkDateTimePrecision_vector (data : List Int) (scale : Nat) (name : String)
    (hscale : 1 ≤ scale) :
    checkDateTimePrecision
        { column := Column.vector TypeIndex.DateTime64 data
          type := DataType.DateTime64 scale, name := name }
      = .ok (data.map fun value => if Int.tmod value (exp10_i32 scale) ≠ 0 then 1 else 0) := by
  unfold checkDateTimePrecision
  simp only [ge_iff_le, hscale, if_true]

/-- `processDateTime64Column` with `transform_null_in` off: the result becomes nullable,
its null map marks the rows that lose precision and the rows that were NULL already. -/
theorem Set.processDateTime64Column_off (s : Set) (htni : s.transform_null_in = false)
    (c : ColumnWithTypeAndName) (result : Column) (h n : Option (List Nat)) (r : Column)
    (h1 n1 : Option (List Nat))
    (hp : s.processDateTime64Column c result h n = .ok (r, h1, n1)) :
    h1 = h ∧ n1 = n ∧
      ∃ f m, checkDateTimePrecision c = .ok f ∧ r = Column.nullable result.removeNullable m ∧
        m.length = f.length ∧
        (∀ i, i < f.length → f.getD i 0 ≠ 0 → m.getD i 0 ≠ 0) ∧
        (∀ n0 m0, result = Column.nullable n0 m0 →
          ∀ i, i < f.length → m0.getD i 0 ≠ 0 → m.getD i 0 ≠ 0) := by
  unfold Set.processDateTime64Column at hp
  cases hf : checkDateTimePrecision c with
  | error e => rw [hf] at hp; cases hp
  | ok f =>
    rw [hf] at hp
    simp only [htni, Bool.false_eq_true, if_false] at hp
    cases result with
    | nullable n0 m0 =>
      simp only at hp
      cases hm : mergeNullMaps (some m0) (some f) with
      | error e => rw [hm] at hp; cases hp
      | ok mm =>
        obtain ⟨m, rfl, hlen, hlen2, hmarks⟩ := mergeNullMaps_some m0 f mm hm
        rw [hm] at hp
        cases hp
        refine ⟨rfl, rfl, f, m, rfl, rfl, by omega, ?_, ?_⟩
        · intro i hi hfi
          exact (hmarks i (by omega)).mpr (Or.inr hfi)
        · intro n1 m1 heq i hi hmi
          cases heq
          exact (hmarks i (by omega)).mpr (Or.inl hmi)
    | vector t d =>
      simp only [mergeNullMaps] at hp
      cases hp
      exact ⟨rfl, rfl, f, f, rfl, rfl, rfl, fun _ _ h => h, fun _ _ heq => by cases heq⟩
    | string d =>
      simp only [mergeNullMaps] at hp
      cases hp
      exact ⟨rfl, rfl, f, f, rfl, rfl, rfl, fun _ _ h => h, fun _ _ heq => by cases heq⟩
    | const d sz =>
      simp only [mergeNullMaps] at hp
      cases hp
      exact ⟨rfl, rfl, f, f, rfl, rfl, rfl, fun _ _ h => h, fun _ _ heq => by cases heq⟩
    | lowCardinality d idx =>
      simp only [mergeNullMaps] at hp
      cases hp
      exact ⟨rfl, rfl, f, f, rfl, rfl, rfl, fun _ _ h => h, fun _ _ heq => by cases heq⟩

/-- `processDateTime64Column` with `transform_null_in` on: the query null map marks the
rows that lose precision and the rows it marked already. -/
theorem Set.processDateTime64Column_on (s : Set) (htni : s.transform_null_in = true)
    (c : ColumnWithTypeAndName) (result : Column) (h n : Option (List Nat)) (r : Column)
    (h1 n1 : Option (List Nat))
    (hp : s.processDateTime64Column c result h n = .ok (r, h1, n1)) :
    r = result ∧ n1 = h1 ∧
      ∃ f m, checkDateTimePrecision c = .ok f ∧ h1 = some m ∧ m.length = f.length ∧
        (∀ i, i < f.length → f.getD i 0 ≠ 0 → m.getD i 0 ≠ 0) ∧
        (∀ h0, h = some h0 →
          h0.length = f.length ∧ ∀ i, i < f.length → h0.getD i 0 ≠ 0 → m.getD i 0 ≠ 0) := by
  unfold Set.processDateTime64Column at hp
  cases hf : checkDateTimePrecision c with
  | error e => rw [hf] at hp; cases hp
  | ok f =>
    rw [hf] at hp
    simp only [htni, if_true] at hp
    cases h with
    | none =>
      simp only at hp
      cases hp
      exact ⟨rfl, rfl, f, f, rfl, rfl, rfl, fun _ _ h => h, fun _ heq => by cases heq⟩
    | some h0 =>
      simp only at hp
      cases hm : mergeNullMaps (some h0) (some f) with
      | error e => rw [hm] at hp; cases hp
      | ok mm =>
        obtain ⟨m, rfl, hlen, hlen2, hmarks⟩ := mergeNullMaps_some h0 f mm hm
        rw [hm] at hp
        cases hp
        refine ⟨rfl, rfl, f, m, rfl, rfl, by omega, ?_, ?_⟩
        · intro i hi hfi
          exact (hmarks i (by omega)).mpr (Or.inr hfi)
        · intro h2 heq
          cases heq
          refine ⟨hlen2, ?_⟩
          intro i hi hmi
          exact (hmarks i (by omega)).mpr (Or.inl hmi)


/-! ## The loop of `execute` with `transform_null_in` off -/

theorem Column.getDataType_of_isNullAt (c : Column) (i : Nat) (h : c.isNullAt i = true) :
    isDateTime64 c.getDataType = false := by
  induction c generalizing i with
  | vector t d => simp [Column.isNullAt] at h
  | string d => simp [Column.isNullAt] at h
  | nullable n m _ => simp [Column.getDataType, isDateTime64]
  | const d s ih =>
    simp only [Column.isNullAt] at h
    simpa [Column.getDataType] using ih 0 h
  | lowCardinality d idx _ => simp [Column.getDataType, isDateTime64]

theorem Set.executeColumn_eq (ext : External) (s : Set) (c : ColumnWithTypeAndName)
    (t : DataType) (st : ExecuteState) :
    s.executeColumn ext c t st =
      match s.executeCast ext (probeColumn c) t st.null_map_holder st.null_map with
      | .error e => .error e
      | .ok (result, null_map_holder, null_map) =>
          if isDateTime64 (probeColumn c).column.getDataType &&
              !isDateTime64 result.removeNullable.getDataType then
            match s.processDateTime64Column (probeColumn c) result null_map_holder null_map with
            | .error e => .error e
            | .ok (result1, null_map_holder1, null_map1) =>
                .ok { key_columns := st.key_columns ++ [result1]
                      null_map_holder := null_map_holder1
                      null_map := null_map1 }
          else
            .ok { key_columns := st.key_columns ++ [result]
                  null_map_holder := null_map_holder
                  null_map := null_map } := rfl

/-- One iteration of the loop with `transform_null_in` off: the key column it appends
has the rows of the probe column, is well formed, is NULL where the probe column is, and
is NULL where a `DateTime64` value loses precision against a key type that is not
`DateTime64`. -/
theorem Set.executeColumn_off (ext : External) (s : Set) (htni : s.transform_null_in = false)
    (hsize : ext.KeepsSize) (hwf : ext.ResultsWellFormed)
    (c : ColumnWithTypeAndName) (t : DataType) (st st1 : ExecuteState)
    (hcwf : (probeColumn c).column.wellFormed)
    (hc : s.executeColumn ext c t st = .ok st1) :
    ∃ r, st1.key_columns = st.key_columns ++ [r] ∧ r.size = c.column.size ∧ r.wellFormed ∧
      (ext.KeepsNulls → ∀ i, (probeColumn c).column.isNullAt i = true →
        ∃ n m, r = Column.nullable n m ∧ m.getD i 0 ≠ 0) ∧
      (ext.TypedResults → ∀ scale data, c.type = DataType.DateTime64 scale → 1 ≤ scale →
        (probeColumn c).column = Column.vector TypeIndex.DateTime64 data → t.notDateTime64 →
        ∃ n m, r = Column.nullable n m ∧
          ∀ i, i < data.length → losesPrecision scale (data.getD i 0) → m.getD i 0 ≠ 0) := by
  rw [Set.executeColumn_eq] at hc
  have hcast : ∀ r0 h1 n1,
      s.executeCast ext (probeColumn c) t st.null_map_holder st.null_map = .ok (r0, h1, n1) →
      h1 = st.null_map_holder ∧ n1 = st.null_map ∧
        (ext.castColumnAccurateOrNull (probeColumn c) t = .ok r0 ∨
          ext.castColumnAccurate (probeColumn c) t = .ok r0) := by
    intro r0 h1 n1 hcast
    unfold Set.executeCast at hcast
    simp only [htni, Bool.not_false, Bool.true_and, Bool.false_and, Bool.false_eq_true,
      if_false] at hcast
    split at hcast
    · split at hcast
      · cases hcast
      · next res hres => cases hcast; exact ⟨rfl, rfl, Or.inl hres⟩
    · split at hcast
      · cases hcast
      · next res hres => cases hcast; exact ⟨rfl, rfl, Or.inr hres⟩
  cases hex : s.executeCast ext (probeColumn c) t st.null_map_holder st.null_map with
  | error e => rw [hex] at hc; cases hc
  | ok p =>
    obtain ⟨r0, h1, n1⟩ := p
    rw [hex] at hc
    simp only at hc
    obtain ⟨rfl, rfl, hr0⟩ := hcast r0 h1 n1 hex
    have hr0size : r0.size = c.column.size := by
      have : r0.size = (probeColumn c).column.size := by
        rcases hr0 with h | h
        · exact hsize.2 _ _ _ h
        · exact hsize.1 _ _ _ h
      rw [this]
      simp [probeColumn, Column.size_convertToFullColumnIfConst]
    have hr0wf : r0.wellFormed := by
      rcases hr0 with h | h
      · exact hwf.2 _ _ _ h hcwf
      · exact hwf.1 _ _ _ h hcwf
    have hr0null : ext.KeepsNulls → ∀ i, (probeColumn c).column.isNullAt i = true →
        ∃ n m, r0 = Column.nullable n m ∧ m.getD i 0 ≠ 0 := by
      intro hk i hi
      rcases hr0 with h | h
      · exact hk.2 _ _ _ h i hi
      · exact hk.1 _ _ _ h i hi
    by_cases hguard : (isDateTime64 (probeColumn c).column.getDataType &&
        !isDateTime64 r0.removeNullable.getDataType) = true
    · rw [if_pos hguard] at hc
      cases hproc : s.processDateTime64Column (probeColumn c) r0 st.null_map_holder
          st.null_map with
      | error e => rw [hproc] at hc; cases hc
      | ok q =>
        obtain ⟨r1, h2, n2⟩ := q
        rw [hproc] at hc
        cases hc
        obtain ⟨rfl, rfl, f, m, hf, rfl, hmlen, hmf, hmold⟩ :=
          Set.processDateTime64Column_off s htni _ _ _ _ _ _ _ hproc
        have hflen := checkDateTimePrecision_length _ _ hf
        have hpsize : (probeColumn c).column.size = c.column.size := by
          simp [probeColumn, Column.size_convertToFullColumnIfConst]
        refine ⟨_, rfl, ?_, ?_, ?_, ?_⟩
        · simp [Column.size, Column.size_removeNullable, hr0size]
        · simp only [Column.wellFormed, Column.size_removeNullable, hr0size]
          omega
        · intro hk i hi
          have := Column.getDataType_of_isNullAt _ i hi
          simp [this] at hguard
        · intro _ scale data hty hscale hcol _
          refine ⟨_, _, rfl, ?_⟩
          intro i hi hlose
          have hf2 : checkDateTimePrecision (probeColumn c)
              = .ok (data.map fun value =>
                  if Int.tmod value (exp10_i32 scale) ≠ 0 then 1 else 0) := by
            have hpc : probeColumn c
                = ⟨Column.vector TypeIndex.DateTime64 data, DataType.DateTime64 scale,
                    c.name⟩ := by
              cases hpc : probeColumn c with
              | mk col ty nm =>
                rw [hpc] at hcol
                simp only at hcol
                have h1 : ty = c.type := by
                  have := congrArg ColumnWithTypeAndName.type hpc
                  simpa [probeColumn] using this.symm
                have h2 : nm = c.name := by
                  have := congrArg ColumnWithTypeAndName.name hpc
                  simpa [probeColumn] using this.symm
                rw [hcol, h1, h2, hty]
            rw [hpc]
            exact checkDateTimePrecision_vector data scale c.name hscale
          rw [hf2] at hf
          cases hf
          apply hmf i (by simpa using hi)
          rw [List.getD_eq_getElem?_getD, List.getElem?_map, List.getElem?_eq_getElem hi]
          simp only [Option.map_some', Option.getD_some]
          have hl : Int.tmod data[i] (exp10_i32 scale) ≠ 0 := by
            have := hlose
            unfold losesPrecision at this
            rwa [List.getD_eq_getElem _ _ hi] at this
          simp [hl]
    · rw [if_neg hguard] at hc
      cases hc
      refine ⟨r0, rfl, hr0size, hr0wf, hr0null, ?_⟩
      intro htyped scale data hty hscale hcol hnot
      exfalso
      apply hguard
      have h1 : isDateTime64 r0.removeNullable.getDataType = false := by
        rcases hr0 with h | h
        · exact htyped.2 _ _ _ h hnot
        · exact htyped.1 _ _ _ h hnot
      rw [hcol, h1]
      rfl

theorem Set.executeLoop_off (ext : External) (s : Set) (htni : s.transform_null_in = false)
    (hsize : ext.KeepsSize) (hwf : ext.ResultsWellFormed) (rows : Nat)
    (cols : List ColumnWithTypeAndName) :
    ∀ (types : List DataType) (st st1 : ExecuteState), cols.length = types.length →
      (∀ c ∈ cols, c.column.size = rows ∧ (probeColumn c).column.wellFormed) →
      s.executeLoop ext cols types st = .ok st1 →
      ∃ rs, st1.key_columns = st.key_columns ++ rs ∧
        (∀ r ∈ rs, r.wellFormed ∧ r.size = rows) ∧
        (ext.KeepsNulls → ∀ c ∈ cols, ∀ i, (probeColumn c).column.isNullAt i = true →
          ∃ n m, Column.nullable n m ∈ rs ∧ m.getD i 0 ≠ 0) ∧
        (ext.TypedResults → ∀ c t, (c, t) ∈ cols.zip types →
          ∀ scale data, c.type = DataType.DateTime64 scale → 1 ≤ scale →
            (probeColumn c).column = Column.vector TypeIndex.DateTime64 data →
            t.notDateTime64 →
            ∃ n m, Column.nullable n m ∈ rs ∧
              ∀ i, i < data.length → losesPrecision scale (data.getD i 0) →
                m.getD i 0 ≠ 0) := by
  induction cols with
  | nil =>
    intro types st st1 _ _ h
    cases types <;> simp only [Set.executeLoop] at h <;> cases h <;>
      exact ⟨[], by simp, by simp, fun _ => by simp, fun _ => by simp⟩
  | cons c cs ih =>
    intro types st st1 hlen hrows h
    cases types with
    | nil => simp at hlen
    | cons t ts =>
      simp only [Set.executeLoop] at h
      cases hcol : s.executeColumn ext c t st with
      | error e => rw [hcol] at h; cases h
      | ok st2 =>
        rw [hcol] at h
        simp only at h
        obtain ⟨r, hr, hrsize, hrwf, hrnull, hrdt⟩ :=
          Set.executeColumn_off ext s htni hsize hwf c t st st2
            (hrows c (List.mem_cons_self _ _)).2 hcol
        obtain ⟨rs, hrs, hall, hnull, hdt⟩ := ih ts st2 st1 (by simpa using hlen)
          (fun c1 hc1 => hrows c1 (List.mem_cons_of_mem _ hc1)) h
        refine ⟨r :: rs, ?_, ?_, ?_, ?_⟩
        · rw [hrs, hr]; simp
        · intro r1 hr1
          rcases List.mem_cons.mp hr1 with rfl | hr1
          · exact ⟨hrwf, by rw [hrsize]; exact (hrows c (List.mem_cons_self _ _)).1⟩
          · exact hall r1 hr1
        · intro hk c1 hc1 i hi
          rcases List.mem_cons.mp hc1 with rfl | hc1
          · obtain ⟨n, m, rfl, hm⟩ := hrnull hk i hi
            exact ⟨n, m, List.mem_cons_self _ _, hm⟩
          · obtain ⟨n, m, hmem, hm⟩ := hnull hk c1 hc1 i hi
            exact ⟨n, m, List.mem_cons_of_mem _ hmem, hm⟩
        · intro htyped c1 t1 hmem scale data hty hscale hcolumn hnot
          simp only [List.zip_cons_cons, List.mem_cons, Prod.mk.injEq] at hmem
          rcases hmem with ⟨rfl, rfl⟩ | hmem
          · obtain ⟨n, m, rfl, hm⟩ := hrdt htyped scale data hty hscale hcolumn hnot
            exact ⟨n, m, List.mem_cons_self _ _, hm⟩
          · obtain ⟨n, m, hmem1, hm⟩ := hdt htyped c1 t1 hmem scale data hty hscale hcolumn hnot
            exact ⟨n, m, List.mem_cons_of_mem _ hmem1, hm⟩

/-- On well-formed columns of `rows` rows the combined null map marks every row that is
NULL in some nullable column. -/
theorem extractNestedColumnsAndNullMap_marks (cs : List Column) (rows i : Nat) (hi : i < rows)
    (hwf : ∀ c ∈ cs, c.wellFormed ∧ c.size = rows) (n : Column) (m : List Nat)
    (hmem : Column.nullable n m ∈ cs) (hm : m.getD i 0 ≠ 0) :
    nullMapMarks (extractNestedColumnsAndNullMap cs).2 i = true := by
  induction cs with
  | nil => simp at hmem
  | cons c cs ih =>
    have ih1 := ih (fun c hc => hwf c (List.mem_cons_of_mem _ hc))
    have hc := hwf c (List.mem_cons_self _ _)
    cases c with
    | nullable n1 m1 =>
      have hlen : i < m1.length := by
        have h1 : m1.length = n1.size := hc.1
        have h2 : n1.size = rows := hc.2
        omega
      simp only [extractNestedColumnsAndNullMap]
      rcases hex : extractNestedColumnsAndNullMap cs with ⟨ks, h⟩
      rw [hex] at ih1
      simp only at ih1
      rcases List.mem_cons.mp hmem with heq | htail
      · cases heq
        cases h with
        | none => simpa [nullMapMarks_some] using hm
        | some h =>
          simp only [nullMapMarks_some, decide_eq_true_eq]
          exact (orNullMap_marks _ _ i hlen).mpr (Or.inl hm)
      · have hmark := ih1 htail
        cases h with
        | none => simp [nullMapMarks_none] at hmark
        | some h =>
          simp only [nullMapMarks_some, decide_eq_true_eq] at hmark ⊢
          exact (orNullMap_marks _ _ i hlen).mpr (Or.inr hmark)
    | vector t d =>
      rcases List.mem_cons.mp hmem with heq | htail
      · cases heq
      · simpa [extractNestedColumnsAndNullMap] using ih1 htail
    | string d =>
      rcases List.mem_cons.mp hmem with heq | htail
      · cases heq
      · simpa [extractNestedColumnsAndNullMap] using ih1 htail
    | const d sz =>
      rcases List.mem_cons.mp hmem with heq | htail
      · cases heq
      · simpa [extractNestedColumnsAndNullMap] using ih1 htail
    | lowCardinality d idx =>
      rcases List.mem_cons.mp hmem with heq | htail
      · cases heq
      · simpa [extractNestedColumnsAndNullMap] using ih1 htail


/-! ## The loop of `execute` with `transform_null_in` on -/

theorem Set.executeCast_on (ext : External) (s : Set) (htni : s.transform_null_in = true)
    (c : ColumnWithTypeAndName) (t : DataType) (h n : Option (List Nat)) (r0 : Column)
    (h1 n1 : Option (List Nat))
    (hc : s.executeCast ext c t h n = .ok (r0, h1, n1)) :
    (h1 = h ∧ n1 = n ∧ ext.castColumnAccurate c t = .ok r0) ∨
      (c.type.isNullable = true ∧ ∃ other, n1 = h1 ∧
        h1 = some (match h with
          | none => other
          | some mutable_null_map => orNullMap mutable_null_map other)) := by
  unfold Set.executeCast at hc
  simp only [htni, Bool.not_true, Bool.false_and, Bool.false_eq_true, if_false,
    Bool.true_and] at hc
  split at hc
  · next hcond =>
    simp only [Bool.and_eq_true] at hcond
    split at hc
    · split at hc
      · cases hc
      · cases hc
        exact Or.inr ⟨hcond.1, _, rfl, rfl⟩
    · cases hc
  · split at hc
    · cases hc
    · next res hres =>
      cases hc
      exact Or.inl ⟨rfl, rfl, hres⟩

theorem Set.executeColumn_on_preserves (ext : External) (s : Set)
    (htni : s.transform_null_in = true) (c : ColumnWithTypeAndName) (t : DataType)
    (st st1 : ExecuteState) (i : Nat) (hc : s.executeColumn ext c t st = .ok st1)
    (hst : st.marks i) : st1.marks i := by
  rw [Set.executeColumn_eq] at hc
  obtain ⟨h, hn, hh, hlen, hmark⟩ := hst
  cases hex : s.executeCast ext (probeColumn c) t st.null_map_holder st.null_map with
  | error e => rw [hex] at hc; cases hc
  | ok p =>
    obtain ⟨r0, h1, n1⟩ := p
    rw [hex] at hc
    simp only at hc
    have hmid : ∃ h2, n1 = some h2 ∧ h1 = some h2 ∧ i < h2.length ∧ h2.getD i 0 ≠ 0 := by
      rcases Set.executeCast_on ext s htni _ _ _ _ _ _ _ hex with ⟨e1, e2, _⟩ | ⟨_, other, e1, e2⟩
      · exact ⟨h, by rw [e2, hn], by rw [e1, hh], hlen, hmark⟩
      · rw [hh] at e2
        simp only at e2
        refine ⟨orNullMap h other, by rw [e1, e2], e2, by rw [orNullMap_length]; exact hlen, ?_⟩
        exact (orNullMap_marks h other i hlen).mpr (Or.inl hmark)
    obtain ⟨h2, e1, e2, hlen2, hmark2⟩ := hmid
    subst e1 e2
    split at hc
    · cases hproc : s.processDateTime64Column (probeColumn c) r0 (some h2) (some h2) with
      | error e => rw [hproc] at hc; cases hc
      | ok q =>
        obtain ⟨r1, h3, n3⟩ := q
        rw [hproc] at hc
        cases hc
        obtain ⟨_, rfl, f, m, _, rfl, hmlen, _, hold⟩ :=
          Set.processDateTime64Column_on s htni _ _ _ _ _ _ _ hproc
        obtain ⟨hl, hkeep⟩ := hold h2 rfl
        exact ⟨m, rfl, rfl, by omega, hkeep i (by omega) hmark2⟩
    · cases hc
      exact ⟨h2, rfl, rfl, hlen2, hmark2⟩

theorem Set.executeColumn_on_precision (ext : External) (s : Set)
    (htni : s.transform_null_in = true) (htyped : ext.TypedResults)
    (c : ColumnWithTypeAndName) (t : DataType) (st st1 : ExecuteState)
    (hc : s.executeColumn ext c t st = .ok st1) (scale : Nat) (data : List Int)
    (hty : c.type = DataType.DateTime64 scale) (hscale : 1 ≤ scale)
    (hcol : (probeColumn c).column = Column.vector TypeIndex.DateTime64 data)
    (hkey : t.notDateTime64) (i : Nat) (hi : i < data.length)
    (hlose : losesPrecision scale (data.getD i 0)) : st1.marks i := by
  rw [Set.executeColumn_eq] at hc
  cases hex : s.executeCast ext (probeColumn c) t st.null_map_holder st.null_map with
  | error e => rw [hex] at hc; cases hc
  | ok p =>
    obtain ⟨r0, h1, n1⟩ := p
    rw [hex] at hc
    simp only at hc
    have hcast : ext.castColumnAccurate (probeColumn c) t = .ok r0 := by
      rcases Set.executeCast_on ext s htni _ _ _ _ _ _ _ hex with ⟨_, _, e3⟩ | ⟨hn, _⟩
      · exact e3
      · have : (probeColumn c).type = c.type := rfl
        rw [this, hty] at hn
        simp [DataType.isNullable] at hn
    have hguard : (isDateTime64 (probeColumn c).column.getDataType &&
        !isDateTime64 r0.removeNullable.getDataType) = true := by
      rw [hcol, htyped.1 _ _ _ hcast hkey]
      rfl
    rw [if_pos hguard] at hc
    cases hproc : s.processDateTime64Column (probeColumn c) r0 h1 n1 with
    | error e => rw [hproc] at hc; cases hc
    | ok q =>
      obtain ⟨r1, h3, n3⟩ := q
      rw [hproc] at hc
      cases hc
      obtain ⟨_, rfl, f, m, hf, rfl, hmlen, hmf, _⟩ :=
        Set.processDateTime64Column_on s htni _ _ _ _ _ _ _ hproc
      have hpc : probeColumn c
          = ⟨Column.vector TypeIndex.DateTime64 data, DataType.DateTime64 scale, c.name⟩ := by
        cases hpc : probeColumn c with
        | mk col ty nm =>
          rw [hpc] at hcol
          simp only at hcol
          have h1 : ty = c.type := by
            have := congrArg ColumnWithTypeAndName.type hpc
            simpa [probeColumn] using this.symm
          have h2 : nm = c.name := by
            have := congrArg ColumnWithTypeAndName.name hpc
            simpa [probeColumn] using this.symm
          rw [hcol, h1, h2, hty]
      rw [hpc, checkDateTimePrecision_vector data scale c.name hscale] at hf
      cases hf
      refine ⟨m, rfl, rfl, by rw [hmlen]; simpa using hi, ?_⟩
      apply hmf i (by simpa using hi)
      rw [List.getD_eq_getElem?_getD, List.getElem?_map, List.getElem?_eq_getElem hi]
      simp only [Option.map_some', Option.getD_some]
      have hl : Int.tmod data[i] (exp10_i32 scale) ≠ 0 := by
        have := hlose
        unfold losesPrecision at this
        rwa [List.getD_eq_getElem _ _ hi] at this
      simp [hl]

theorem Set.executeLoop_on (ext : External) (s : Set) (htni : s.transform_null_in = true)
    (htyped : ext.TypedResults) (i : Nat) (cols : List ColumnWithTypeAndName) :
    ∀ (types : List DataType) (st st1 : ExecuteState),
      s.executeLoop ext cols types st = .ok st1 →
      (st.marks i → st1.marks i) ∧
      (∀ c t, (c, t) ∈ cols.zip types →
        ∀ scale data, c.type = DataType.DateTime64 scale → 1 ≤ scale →
          (probeColumn c).column = Column.vector TypeIndex.DateTime64 data →
          t.notDateTime64 → i < data.length → losesPrecision scale (data.getD i 0) →
          st1.marks i) := by
  induction cols with
  | nil =>
    intro types st st1 h
    cases types <;> simp only [Set.executeLoop] at h <;> cases h <;>
      exact ⟨fun h => h, fun _ _ hm => by simp at hm⟩
  | cons c cs ih =>
    intro types st st1 h
    cases types with
    | nil =>
      simp only [Set.executeLoop] at h
      cases h
      exact ⟨fun h => h, fun _ _ hm => by simp at hm⟩
    | cons t ts =>
      simp only [Set.executeLoop] at h
      cases hcol : s.executeColumn ext c t st with
      | error e => rw [hcol] at h; cases h
      | ok st2 =>
        rw [hcol] at h
        simp only at h
        obtain ⟨hkeep, hdt⟩ := ih ts st2 st1 h
        refine ⟨fun hst => hkeep (Set.executeColumn_on_preserves ext s htni c t st st2 i hcol hst),
          ?_⟩
        intro c1 t1 hmem scale data hty hscale hcolumn hnot hi hlose
        simp only [List.zip_cons_cons, List.mem_cons, Prod.mk.injEq] at hmem
        rcases hmem with ⟨rfl, rfl⟩ | hmem
        · exact hkeep (Set.executeColumn_on_precision ext s htni htyped _ _ st st2 hcol
            scale data hty hscale hcolumn hnot i hi hlose)
        · exact hdt c1 t1 hmem scale data hty hscale hcolumn hnot hi hlose


/-! ## Rows the null map marks -/

/-- A row that the null map of every successful key preparation marks gets `negate`. -/
theorem Set.execute_marked (ext : External) (s : Set) (c0 : ColumnWithTypeAndName)
    (cs : List ColumnWithTypeAndName) (negative : Bool) (res : List Nat) (i : Nat)
    (hne : s.data_types ≠ []) (hdata : s.data.type ≠ SetVariantsType.EMPTY)
    (hsize : ext.KeepsSize)
    (hres : s.execute ext (c0 :: cs) negative = .ok res) (hi : i < c0.column.size)
    (hmark : ∀ kc nm, (c0 :: cs).length = s.data_types.length →
      s.executeKeyColumns ext (c0 :: cs) = .ok (kc, nm) → nullMapMarks nm i = true) :
    res.getD i 0 = negative.toNat := by
  rw [Set.execute_eq ext s c0 cs negative hne (by omega)] at hres
  unfold Set.checkColumnsNumber at hres
  by_cases hlen : s.data_types.length = (c0 :: cs).length
  · rw [if_neg (by rw [hlen]; simp)] at hres
    simp only at hres
    cases hprep : s.executeKeyColumns ext (c0 :: cs) with
    | error e => rw [hprep] at hres; cases hres
    | ok p =>
      obtain ⟨kc, nm⟩ := p
      rw [hprep] at hres
      simp only at hres
      have hsz := Set.executeKeyColumns_sizes ext s hsize _ hlen.symm _ _ hprep
      cases kc with
      | nil => simp at hsz
      | cons k0 ks =>
        have hk0 : k0.size = c0.column.size := by
          simp only [List.map_cons, List.cons.injEq] at hsz
          exact hsz.1
        cases hres
        rw [Set.executeOrdinary_getD s k0 ks _ negative nm hdata i (by simpa using hi)
          (by rw [hk0]; exact hi), if_pos (hmark _ _ hlen.symm hprep)]
  · rw [if_pos hlen] at hres
    cases hres

theorem List.getD_replicate_of_lt (n b i : Nat) (hi : i < n) :
    (List.replicate n b).getD i 0 = b := by
  rw [List.getD_eq_getElem?_getD, List.getElem?_replicate]
  simp [hi]

/-- With no key types every row gets `negate`. -/
theorem Set.execute_no_keys (ext : External) (s : Set) (c0 : ColumnWithTypeAndName)
    (cs : List ColumnWithTypeAndName) (negative : Bool) (res : List Nat) (i : Nat)
    (hkeys : s.data_types = [])
    (hres : s.execute ext (c0 :: cs) negative = .ok res) (hi : i < c0.column.size) :
    res.getD i 0 = negative.toNat := by
  unfold Set.execute at hres
  simp only [hkeys, List.isEmpty_nil, if_true, List.length_replicate] at hres
  have h1 : (List.replicate c0.column.size 0).isEmpty = false := by
    cases hsz : c0.column.size with
    | zero => omega
    | succ n => rfl
  rw [h1] at hres
  simp only [Bool.false_eq_true, if_false] at hres
  cases negative with
  | true =>
    simp only [if_true] at hres
    cases hres
    exact List.getD_replicate_of_lt _ _ _ hi
  | false =>
    simp only [Bool.false_eq_true, if_false] at hres
    cases hres
    exact List.getD_replicate_of_lt _ _ _ hi

/-- With `transform_null_in` off the null map of the key preparation marks every row
that is NULL in a probe column and every row whose `DateTime64` value loses precision
against a key type that is not `DateTime64`. -/
theorem Set.executeKeyColumns_off (ext : External) (s : Set)
    (htni : s.transform_null_in = false) (hsize : ext.KeepsSize)
    (hwf : ext.ResultsWellFormed) (cols : List ColumnWithTypeAndName)
    (hlen : cols.length = s.data_types.length)
    (hblock : ProbeWellFormed cols)
    (kc : List Column) (nm : Option (List Nat))
    (hprep : s.executeKeyColumns ext cols = .ok (kc, nm)) (i : Nat) (hi : i < probeRows cols) :
    (ext.KeepsNulls → ∀ c ∈ cols, (probeColumn c).column.isNullAt i = true →
        nullMapMarks nm i = true) ∧
      (ext.TypedResults → ∀ c t, (c, t) ∈ cols.zip s.data_types →
        ∀ scale data, c.type = DataType.DateTime64 scale → 1 ≤ scale →
          (probeColumn c).column = Column.vector TypeIndex.DateTime64 data →
          t.notDateTime64 → losesPrecision scale (data.getD i 0) →
          nullMapMarks nm i = true) := by
  unfold Set.executeKeyColumns at hprep
  cases hloop : s.executeLoop ext cols s.data_types
      { key_columns := [], null_map_holder := none, null_map := none } with
  | error e => rw [hloop] at hprep; cases hprep
  | ok st =>
    rw [hloop] at hprep
    simp only [htni, Bool.not_false, if_true] at hprep
    have hext : extractNestedColumnsAndNullMap st.key_columns = (kc, nm) := by
      injection hprep
    obtain ⟨rs, hrs, hall, hnull, hdt⟩ :=
      Set.executeLoop_off ext s htni hsize hwf (probeRows cols) cols _ _ _ hlen hblock hloop
    simp only [List.nil_append] at hrs
    have hnm : nm = (extractNestedColumnsAndNullMap rs).2 := by rw [← hrs, hext]
    rw [hnm]
    constructor
    · intro hk c hc hnullAt
      obtain ⟨n, m, hmem, hm⟩ := hnull hk c hc i hnullAt
      exact extractNestedColumnsAndNullMap_marks rs _ i hi hall n m hmem hm
    · intro htyped c t hmem scale data hty hscale hcol hnot hlose
      obtain ⟨n, m, hmem1, hm⟩ := hdt htyped c t hmem scale data hty hscale hcol hnot
      have hdlen : data.length = probeRows cols := by
        have hc := (hblock c (List.of_mem_zip hmem).1).1
        have : (probeColumn c).column.size = c.column.size := by
          simp [probeColumn, Column.size_convertToFullColumnIfConst]
        rw [hcol] at this
        simp only [Column.size] at this
        omega
      exact extractNestedColumnsAndNullMap_marks rs _ i hi hall n m hmem1
        (hm i (by omega) hlose)

/-- With `transform_null_in` on the query null map marks every row whose `DateTime64`
value loses precision against a key type that is not `DateTime64`. -/
theorem Set.executeKeyColumns_on (ext : External) (s : Set)
    (htni : s.transform_null_in = true) (htyped : ext.TypedResults)
    (cols : List ColumnWithTypeAndName) (kc : List Column) (nm : Option (List Nat))
    (hprep : s.executeKeyColumns ext cols = .ok (kc, nm)) (i : Nat)
    (c : ColumnWithTypeAndName) (t : DataType) (hmem : (c, t) ∈ cols.zip s.data_types)
    (scale : Nat) (data : List Int) (hty : c.type = DataType.DateTime64 scale)
    (hscale : 1 ≤ scale)
    (hcol : (probeColumn c).column = Column.vector TypeIndex.DateTime64 data)
    (hkey : t.notDateTime64) (hi : i < data.length)
    (hlose : losesPrecision scale (data.getD i 0)) :
    nullMapMarks nm i = true := by
  unfold Set.executeKeyColumns at hprep
  cases hloop : s.executeLoop ext cols s.data_types
      { key_columns := [], null_map_holder := none, null_map := none } with
  | error e => rw [hloop] at hprep; cases hprep
  | ok st =>
    rw [hloop] at hprep
    simp only [htni, Bool.not_true, Bool.false_eq_true, if_false] at hprep
    cases hprep
    obtain ⟨h, hn, _, hlen, hmark⟩ :=
      (Set.executeLoop_on ext s htni htyped i cols _ _ _ hloop).2 c t hmem scale data hty
        hscale hcol hkey hi hlose
    rw [hn]
    simpa [nullMapMarks_some] using hmark


/-! ## The small instance keeps the other contracts -/

theorem scenarioConvert_spec (src dst : DataType) (col r : Column)
    (h : scenarioConvert src dst col = some r) :
    col.isPlain = true ∧ r.isPlain = true ∧ r.size = col.size ∧
      r.getDataType = dst.getTypeId := by
  unfold scenarioConvert at h
  split at h
  · cases h
  · next hc =>
    have hplain : col.isPlain = true := by
      cases hp : col.isPlain with
      | true => rfl
      | false => exact absurd (Or.inl hp) hc
    have hty : col.getDataType = src.getTypeId := by
      by_contra hne
      exact hc (Or.inr hne)
    split at h
    · next heq =>
      cases h
      exact ⟨hplain, hplain, rfl, by rw [hty, heq]⟩
    · split at h
      · cases h
        exact ⟨hplain, rfl, by simp [Column.size], rfl⟩
      · cases h

theorem Column.wellFormed_of_isPlain (c : Column) (h : c.isPlain = true) : c.wellFormed := by
  cases c <;> simp [Column.isPlain] at h <;> trivial

theorem Column.isNullAt_of_isPlain (c : Column) (h : c.isPlain = true) (i : Nat) :
    c.isNullAt i = false := by
  cases c <;> simp [Column.isPlain] at h <;> rfl

theorem Column.removeNullable_of_isPlain (c : Column) (h : c.isPlain = true) :
    c.removeNullable = c := by
  cases c <;> simp [Column.isPlain] at h <;> rfl

theorem DataType.getTypeId_notDateTime64 (t : DataType)
    (h : ∀ scale, t ≠ DataType.DateTime64 scale) :
    isDateTime64 t.getTypeId = false := by
  cases t <;> simp [DataType.getTypeId, isDateTime64]
  exact h _ rfl

theorem all_zero_getD (m : List Nat) (h : m.all (fun x => decide (x = 0)) = true) (i : Nat) :
    m.getD i 0 = 0 := by
  rw [List.getD_eq_getElem?_getD]
  cases hget : m[i]? with
  | none => rfl
  | some x =>
    have hx : x ∈ m := List.getElem?_mem hget
    rw [List.all_eq_true] at h
    simpa using h x hx

theorem scenarioCastAccurate_spec (c : ColumnWithTypeAndName) (t : DataType) (r : Column)
    (h : scenarioCastAccurate c t = .ok r) :
    (c.column.wellFormed → r.wellFormed) ∧
      (∀ i, c.column.isNullAt i = true → ∃ n m, r = Column.nullable n m ∧ m.getD i 0 ≠ 0) ∧
      (t.notDateTime64 → isDateTime64 r.removeNullable.getDataType = false) := by
  obtain ⟨col, ty, nm⟩ := c
  unfold scenarioCastAccurate at h
  simp only at h ⊢
  split at h
  · split at h
    · cases h
      obtain ⟨_, _, hsz, hdt⟩ := scenarioConvert_spec _ _ _ _ (by assumption)
      refine ⟨?_, ?_, ?_⟩
      · intro hwf
        simp only [Column.wellFormed] at hwf ⊢
        omega
      · intro i hi
        exact ⟨_, _, rfl, by simpa [Column.isNullAt] using hi⟩
      · intro hnot
        simp only [Column.removeNullable, hdt]
        exact DataType.getTypeId_notDateTime64 _ (fun sc => hnot sc)
    · cases h
  · split at h
    · split at h
      · cases h
        obtain ⟨_, hp, hsz, hdt⟩ := scenarioConvert_spec _ _ _ _ (by assumption)
        refine ⟨fun _ => Column.wellFormed_of_isPlain _ hp, ?_, ?_⟩
        · intro i hi
          have := all_zero_getD _ (by assumption) i
          simp only [Column.isNullAt, decide_eq_true_eq] at hi
          exact absurd this hi
        · intro hnot
          rw [Column.removeNullable_of_isPlain _ hp, hdt]
          apply DataType.getTypeId_notDateTime64
          intro sc hsc
          apply hnot sc
          rw [hsc]; rfl
      · cases h
    · cases h
  · split at h
    · cases h
      obtain ⟨hp0, hp, hsz, hdt⟩ := scenarioConvert_spec _ _ _ _ (by assumption)
      refine ⟨fun _ => by simp [Column.wellFormed], ?_, ?_⟩
      · intro i hi
        rw [Column.isNullAt_of_isPlain _ hp0] at hi
        cases hi
      · intro hnot
        simp only [Column.removeNullable, hdt]
        exact DataType.getTypeId_notDateTime64 _ (fun sc => hnot sc)
    · cases h
  · split at h
    · cases h
      obtain ⟨hp0, hp, hsz, hdt⟩ := scenarioConvert_spec _ _ _ _ (by assumption)
      refine ⟨fun _ => Column.wellFormed_of_isPlain _ hp, ?_, ?_⟩
      · intro i hi
        rw [Column.isNullAt_of_isPlain _ hp0] at hi
        cases hi
      · intro hnot
        rw [Column.removeNullable_of_isPlain _ hp, hdt]
        apply DataType.getTypeId_notDateTime64
        intro sc hsc
        apply hnot sc
        rw [hsc]; rfl
    · cases h

theorem scenarioCastAccurateOrNull_spec (c : ColumnWithTypeAndName) (t : DataType)
    (r : Column) (h : scenarioCastAccurateOrNull c t = .ok r) :
    (c.column.wellFormed → r.wellFormed) ∧
      (∀ i, c.column.isNullAt i = true → ∃ n m, r = Column.nullable n m ∧ m.getD i 0 ≠ 0) ∧
      (t.notDateTime64 → isDateTime64 r.removeNullable.getDataType = false) := by
  obtain ⟨col, ty, nm⟩ := c
  unfold scenarioCastAccurateOrNull at h
  simp only at h ⊢
  split at h
  · split at h
    · cases h
      obtain ⟨_, _, hsz, hdt⟩ := scenarioConvert_spec _ _ _ _ (by assumption)
      refine ⟨?_, ?_, ?_⟩
      · intro hwf
        simp only [Column.wellFormed] at hwf ⊢
        omega
      · intro i hi
        exact ⟨_, _, rfl, by simpa [Column.isNullAt] using hi⟩
      · intro hnot
        simp only [Column.removeNullable, hdt]
        exact DataType.getTypeId_notDateTime64 _ hnot
    · cases h
  · split at h
    · cases h
      obtain ⟨hp0, hp, hsz, hdt⟩ := scenarioConvert_spec _ _ _ _ (by assumption)
      refine ⟨fun _ => by simp [Column.wellFormed], ?_, ?_⟩
      · intro i hi
        rw [Column.isNullAt_of_isPlain _ hp0] at hi
        cases hi
      · intro hnot
        simp only [Column.removeNullable, hdt]
        exact DataType.getTypeId_notDateTime64 _ hnot
    · cases h

theorem scenarioExternal_resultsWellFormed : scenarioExternal.ResultsWellFormed :=
  ⟨fun c t r h => (scenarioCastAccurate_spec c t r h).1,
    fun c t r h => (scenarioCastAccurateOrNull_spec c t r h).1⟩

theorem scenarioExternal_keepsNulls : scenarioExternal.KeepsNulls :=
  ⟨fun c t r h => (scenarioCastAccurate_spec c t r h).2.1,
    fun c t r h => (scenarioCastAccurateOrNull_spec c t r h).2.1⟩

theorem scenarioExternal_typedResults : scenarioExternal.TypedResults :=
  ⟨fun c t r h => (scenarioCastAccurate_spec c t r h).2.2,
    fun c t r h => (scenarioCastAccurateOrNull_spec c t r h).2.2⟩


/-! ## Sets built through the constructor, `setHeader` and inserts -/

theorem SetVariants.chooseMethod_ne_empty (cs : List Column) (h : cs ≠ []) :
    SetVariants.chooseMethod cs ≠ SetVariantsType.EMPTY := by
  cases cs with
  | nil => exact absurd rfl h
  | cons c cs =>
    cases cs with
    | nil =>
      simp only [SetVariants.chooseMethod]
      split <;> simp
    | cons c2 cs2 =>
      simp only [SetVariants.chooseMethod]
      split
      · split <;> simp
      · simp

theorem extractNestedColumnsAndNullMap_length (cs : List Column) :
    (extractNestedColumnsAndNullMap cs).1.length = cs.length := by
  have := congrArg List.length (extractNestedColumnsAndNullMap_sizes cs)
  simpa using this

/-- A freshly constructed set whose header is set with at least one column has its
header set. -/
theorem Set.setHeader_create (limits : SizeLimits) (max_elements_to_fill : Nat)
    (transform_null_in : Bool) (header : List ColumnWithTypeAndName) (h : header ≠ []) :
    ((Set.create limits max_elements_to_fill transform_null_in).setHeader header).HeaderSet ∧
      ((Set.create limits max_elements_to_fill transform_null_in).setHeader header).data.keys
        = [] := by
  have hlen : 0 < header.length := List.length_pos.mpr h
  cases transform_null_in with
  | false =>
    simp only [Set.setHeader, Set.create, SetVariants.empty, decide_True, Bool.not_true,
      Bool.false_eq_true, if_false, Bool.not_false, if_true, List.nil_append,
      SetVariants.init, Set.HeaderSet]
    refine ⟨⟨?_, by simp, ?_⟩, trivial⟩
    · intro h0
      have := congrArg List.length h0
      simp at this
      first
        | exact h this
        | omega
    · apply SetVariants.chooseMethod_ne_empty
      intro h0
      have := congrArg List.length h0
      rw [extractNestedColumnsAndNullMap_length] at this
      simp at this
      first
        | exact h this
        | omega
  | true =>
    simp only [Set.setHeader, Set.create, SetVariants.empty, decide_True, Bool.not_true,
      Bool.false_eq_true, if_false, List.nil_append, SetVariants.init, Set.HeaderSet]
    refine ⟨⟨?_, by simp, ?_⟩, trivial⟩
    · intro h0
      have := congrArg List.length h0
      simp at this
      first
        | exact h this
        | omega
    · apply SetVariants.chooseMethod_ne_empty
      intro h0
      have := congrArg List.length h0
      simp at this
      first
        | exact h this
        | omega

/-- `setHeader` is a no-operation once the storage variant is chosen. -/
theorem Set.setHeader_of_headerSet (s : Set) (header : List ColumnWithTypeAndName)
    (h : s.HeaderSet) : s.setHeader header = s := by
  unfold Set.setHeader
  simp [SetVariants.empty, h.2.2]

/-- Inserting a block keeps the header set. -/
theorem Set.insertFromColumns_headerSet (ext : External) (s : Set) (columns : List Column)
    (h : s.HeaderSet) : (s.insertFromColumns ext columns).1.HeaderSet := by
  by_cases hcols : columns = []
  · subst hcols
    exact h
  · by_cases hlen : s.keys_size ≤ columns.length
    · obtain ⟨fse, se, heq⟩ := Set.insertFromColumns_fst ext s columns h.2.2 hlen hcols
      rw [heq]
      exact h
    · have hsame : (s.insertFromColumns ext columns).1 = s := by
        cases columns with
        | nil => exact absurd rfl hcols
        | cons c0 cs =>
          have hlt : (c0 :: cs).length < s.keys_size := by omega
          simp only [Set.insertFromColumns, Set.insertFromColumnsHolder, SetVariants.empty,
            h.2.2, decide_False, Bool.false_eq_true, if_false, hlt, if_true]
      rw [hsame]
      exact h


/-! ## `areTypesEqual` and `checkTypesEqual` -/

theorem Set.areTypesEqual_iff (s : Set) (set_type_idx : Nat) (other_type : DataType) :
    s.areTypesEqual set_type_idx other_type = true ↔
      ∃ data_type, s.data_types[set_type_idx]? = some data_type ∧
        data_type.recursiveRemoveLowCardinality.removeNullable
          = other_type.recursiveRemoveLowCardinality.removeNullable := by
  unfold Set.areTypesEqual
  by_cases h : set_type_idx ≥ s.data_types.length
  · have hnone : s.data_types[set_type_idx]? = none := List.getElem?_eq_none h
    simp [h, hnone]
  · have hlt : set_type_idx < s.data_types.length := by omega
    simp only [h, if_false]
    rw [List.getElem?_eq_getElem hlt]
    simp

/-- Inside the range of the key types, `checkTypesEqual` throws `TYPE_MISMATCH` exactly
when `areTypesEqual` is false, and returns otherwise. -/
theorem Set.checkTypesEqual_in_range (s : Set) (set_type_idx : Nat) (other_type : DataType)
    (h : set_type_idx < s.data_types.length) :
    s.checkTypesEqual set_type_idx other_type
      = if s.areTypesEqual set_type_idx other_type then CallOutcome.returned
        else CallOutcome.thrown ErrorCodes.TYPE_MISMATCH := by
  unfold Set.checkTypesEqual
  rw [List.getElem?_eq_getElem h]
  cases s.areTypesEqual set_type_idx other_type <;> rfl

/-- A `LowCardinality` around the other type does not change `areTypesEqual`. -/
theorem Set.areTypesEqual_lowCardinality (s : Set) (set_type_idx : Nat) (other_type : DataType) :
    s.areTypesEqual set_type_idx (DataType.LowCardinality other_type)
      = s.areTypesEqual set_type_idx other_type := by
  unfold Set.areTypesEqual
  simp only [DataType.recursiveRemoveLowCardinality]

/-- A `Nullable` around another type that can be inside one does not change
`areTypesEqual`. -/
theorem Set.areTypesEqual_nullable (s : Set) (set_type_idx : Nat) (other_type : DataType)
    (h : other_type.canBeInsideNullable = true) :
    s.areTypesEqual set_type_idx (DataType.Nullable other_type)
      = s.areTypesEqual set_type_idx other_type := by
  unfold Set.areTypesEqual
  have : (DataType.Nullable other_type).recursiveRemoveLowCardinality.removeNullable
      = other_type.recursiveRemoveLowCardinality.removeNullable := by
    cases other_type <;>
      simp_all [DataType.recursiveRemoveLowCardinality, DataType.removeNullable,
        DataType.canBeInsideNullable]
  rw [this]


/-! ## The holder of an insert -/

/-- `insertFromColumns(columns, holder)` never assigns `holder.null_map_holder`: the
null map it extracts goes to a local of the same name. -/
theorem Set.insertFromColumnsHolder_null_map_holder (ext : External) (s : Set)
    (columns : List Column) (holder : SetKeyColumns) :
    (s.insertFromColumnsHolder ext columns holder).2.1.null_map_holder
      = holder.null_map_holder := by
  unfold Set.insertFromColumnsHolder
  split
  · rfl
  · split
    · rfl
    · split <;> rfl


/-! ## The filter of an insert -/

theorem filterBy_nil_left {α : Type} (d : List α) : filterBy [] d = [] := by
  cases d <;> rfl

theorem filterBy_nil_right {α : Type} (f : List Nat) : filterBy f ([] : List α) = [] := rfl

theorem filterBy_cons {α : Type} (b : Nat) (f : List Nat) (a : α) (d : List α) :
    filterBy (b :: f) (a :: d) = if b ≠ 0 then a :: filterBy f d else filterBy f d := by
  unfold filterBy
  by_cases h : b = 0 <;> simp [List.zip_cons_cons, List.filterMap_cons, h]

theorem filterBy_append {α : Type} (f1 f2 : List Nat) (d1 d2 : List α)
    (h : d1.length = f1.length) :
    filterBy (f1 ++ f2) (d1 ++ d2) = filterBy f1 d1 ++ filterBy f2 d2 := by
  unfold filterBy
  rw [List.zip_append h, List.filterMap_append]

theorem filterBy_map {α β : Type} (g : α → β) (f : List Nat) (d : List α) :
    filterBy f (d.map g) = (filterBy f d).map g := by
  induction d generalizing f with
  | nil => rfl
  | cons a d ih =>
    cases f with
    | nil => simp [filterBy_nil_left]
    | cons b f =>
      rw [List.map_cons, filterBy_cons, filterBy_cons, ih]
      by_cases h : b = 0 <;> simp [h]

theorem length_filterBy {α : Type} (f : List Nat) (d : List α) (h : d.length = f.length) :
    (filterBy f d).length = f.countP (fun b => decide (b ≠ 0)) := by
  induction d generalizing f with
  | nil =>
    cases f with
    | nil => rfl
    | cons b f => simp at h
  | cons a d ih =>
    cases f with
    | nil => simp at h
    | cons b f =>
      have h1 : d.length = f.length := by simpa using h
      rw [filterBy_cons, List.countP_cons]
      by_cases hb : b = 0
      · simp [hb, ih f h1]
      · simp [hb, ih f h1]

theorem filterBy_zipWith {α β γ : Type} (g : α → β → γ) (f : List Nat) (a : List α)
    (b : List β) (ha : a.length = f.length) (hb : b.length = f.length) :
    filterBy f (List.zipWith g a b) = List.zipWith g (filterBy f a) (filterBy f b) := by
  induction f generalizing a b with
  | nil => simp [filterBy_nil_left]
  | cons x f ih =>
    cases a with
    | nil => simp at ha
    | cons a0 a =>
      cases b with
      | nil => simp at hb
      | cons b0 b =>
        have ha1 : a.length = f.length := by simpa using ha
        have hb1 : b.length = f.length := by simpa using hb
        rw [List.zipWith_cons_cons, filterBy_cons, filterBy_cons, filterBy_cons, ih a b ha1 hb1]
        by_cases hx : x = 0 <;> simp [hx]


theorem insertFromBlockImplCase_succ (has_null_map build_filter : Bool) (method : SetVariants)
    (key_columns : List Column) (n : Nat) (null_map out_filter : List Nat) :
    insertFromBlockImplCase has_null_map build_filter method key_columns (n + 1) null_map
        out_filter
      = (if has_null_map && decide (null_map.getD n 0 ≠ 0) then
          ((insertFromBlockImplCase has_null_map build_filter method key_columns n null_map
              out_filter).1,
            if build_filter then
              (insertFromBlockImplCase has_null_map build_filter method key_columns n null_map
                out_filter).2.set n 0
            else
              (insertFromBlockImplCase has_null_map build_filter method key_columns n null_map
                out_filter).2)
        else
          (((insertFromBlockImplCase has_null_map build_filter method key_columns n null_map
              out_filter).1.emplaceKey key_columns n).1,
            if build_filter then
              (insertFromBlockImplCase has_null_map build_filter method key_columns n null_map
                out_filter).2.set n
                (if ((insertFromBlockImplCase has_null_map build_filter method key_columns n
                    null_map out_filter).1.emplaceKey key_columns n).2 then 1 else 0)
            else
              (insertFromBlockImplCase has_null_map build_filter method key_columns n null_map
                out_filter).2)) := rfl

theorem List.set_append_drop (a f0 : List Nat) (n v : Nat) (ha : a.length = n)
    (hn : n < f0.length) :
    (a ++ f0.drop n).set n v = (a ++ [v]) ++ f0.drop (n + 1) := by
  subst ha
  rw [List.set_append_right _ _ (Nat.le_refl _)]
  simp only [Nat.sub_self, List.append_assoc, List.singleton_append]
  congr 1
  rw [List.drop_eq_getElem_cons hn]
  rfl

/-- The filter the build loop leaves after `n` rows: the bytes of the rows it has seen,
then the bytes it has not reached. -/
theorem insertFromBlockImplCase_filter_aux (has_null_map : Bool) (method : SetVariants)
    (key_columns : List Column) (null_map out_filter : List Nat) :
    ∀ n, n ≤ out_filter.length →
      (insertFromBlockImplCase has_null_map true method key_columns n null_map out_filter).2
        = (List.range n).map
            (insertedFilterByte method.keys key_columns (implCaseNullMap has_null_map null_map))
          ++ out_filter.drop n := by
  intro n
  induction n with
  | zero => intro _; simp [insertFromBlockImplCase, Nat.fold]
  | succ n ih =>
    intro hn
    have ih1 := ih (by omega)
    have hkeys := insertFromBlockImplCase_keys has_null_map true method key_columns n null_map
      out_filter
    rw [insertFromBlockImplCase_succ, List.range_succ, List.map_append, List.map_singleton]
    have hmark : nullMapMarks (implCaseNullMap has_null_map null_map) n
        = (has_null_map && decide (null_map.getD n 0 ≠ 0)) := by
      cases has_null_map <;> simp [implCaseNullMap, nullMapMarks]
    by_cases hm : (has_null_map && decide (null_map.getD n 0 ≠ 0)) = true
    · rw [if_pos hm]
      simp only [if_true]
      rw [ih1, List.set_append_drop _ _ _ _ (by simp) (by omega)]
      congr 2
      unfold insertedFilterByte
      rw [hmark, if_pos hm]
    · rw [if_neg hm]
      simp only [if_true]
      rw [ih1, List.set_append_drop _ _ _ _ (by simp) (by omega)]
      congr 2
      unfold insertedFilterByte
      rw [hmark, if_neg hm]
      unfold SetVariants.emplaceKey
      rw [hkeys]
      by_cases hk : SetVariants.keyAt key_columns n ∈ emplaceAll method.keys
          (blockRowKeys key_columns n (implCaseNullMap has_null_map null_map))
      · simp [hk]
      · simp [hk]

/-- The filter the build loop leaves: one byte per row, set exactly for the rows whose
key was new. -/
theorem insertFromBlockImplCase_filter (has_null_map : Bool) (method : SetVariants)
    (key_columns : List Column) (rows : Nat) (null_map out_filter : List Nat)
    (hlen : out_filter.length = rows) :
    (insertFromBlockImplCase has_null_map true method key_columns rows null_map out_filter).2
      = (List.range rows).map
          (insertedFilterByte method.keys key_columns (implCaseNullMap has_null_map null_map)) := by
  rw [insertFromBlockImplCase_filter_aux has_null_map method key_columns null_map out_filter rows
    (by omega), ← hlen]
  simp

theorem insertFromBlockImpl_filter (method : SetVariants) (key_columns : List Column)
    (rows : Nat) (null_map : Option (List Nat)) (out_filter : List Nat)
    (hlen : out_filter.length = rows) :
    (insertFromBlockImpl method key_columns rows null_map (some out_filter)).2
      = some ((List.range rows).map (insertedFilterByte method.keys key_columns null_map)) := by
  unfold insertFromBlockImpl
  cases null_map with
  | none =>
    simp only
    rw [insertFromBlockImplCase_filter false method key_columns rows [] out_filter hlen]
    rfl
  | some nm =>
    simp only
    rw [insertFromBlockImplCase_filter true method key_columns rows nm out_filter hlen]
    rfl

/-- The keys a block adds to the hash table are the rows its filter keeps, in order. -/
theorem emplaceAll_blockRowKeys (keys : List (List Field)) (key_columns : List Column)
    (null_map : Option (List Nat)) (rows : Nat) :
    emplaceAll keys (blockRowKeys key_columns rows null_map)
      = keys ++ filterBy ((List.range rows).map (insertedFilterByte keys key_columns null_map))
          ((List.range rows).map (SetVariants.keyAt key_columns)) := by
  induction rows with
  | zero => simp [blockRowKeys, emplaceAll, filterBy]
  | succ n ih =>
    rw [blockRowKeys_succ, emplaceAll_append, List.range_succ, List.map_append, List.map_append,
      filterBy_append _ _ _ _ (by simp), ← List.append_assoc, ← ih]
    simp only [List.map_singleton, filterBy_cons, filterBy_nil_left]
    unfold insertedFilterByte
    generalize emplaceAll keys (blockRowKeys key_columns n null_map) = stored
    have h1 : ∀ k : List Field, emplaceAll stored [k]
        = if k ∈ stored then stored else stored ++ [k] := fun _ => rfl
    have h0 : emplaceAll stored [] = stored := rfl
    by_cases hm : nullMapMarks null_map n = true
    · simp [hm, h0]
    · simp only [hm, Bool.false_eq_true, if_false, h1]
      by_cases hk : SetVariants.keyAt key_columns n ∈ stored
      · simp [hk]
      · simp [hk]


/-! ## `filter`, `insertRangeFrom` and `createColumn`, row by row -/

theorem DataType.size_createColumn (t : DataType) : t.createColumn.size = 0 := by
  induction t with
  | Nullable t ih => simpa [DataType.createColumn, Column.size] using ih
  | _ => simp [DataType.createColumn, Column.size]

theorem Column.filter_vector (t : TypeIndex) (d : List Int) (f : List Nat) (hint : Nat) :
    (Column.vector t d).filter f hint = Column.vector t (filterBy f d) := rfl

theorem Column.filter_string (d : List String) (f : List Nat) (hint : Nat) :
    (Column.string d).filter f hint = Column.string (filterBy f d) := rfl

theorem Column.filter_nullable (n : Column) (m f : List Nat) (hint : Nat) :
    (Column.nullable n m).filter f hint = Column.nullable (n.filter f hint) (filterBy f m) := rfl

/-- The size of a filtered column is the number of set filter bytes. -/
theorem Column.size_filter (c : Column) (f : List Nat) (hint : Nat) (h : c.size = f.length) :
    (c.filter f hint).size = f.countP (fun b => decide (b ≠ 0)) := by
  induction c with
  | vector t d =>
    rw [Column.filter_vector]
    exact length_filterBy f d h
  | string d =>
    rw [Column.filter_string]
    exact length_filterBy f d h
  | nullable n m ih =>
    rw [Column.filter_nullable]
    exact ih h
  | const d s _ =>
    simp only [Column.size] at h
    subst h
    simp [Column.filter, Column.size, List.countP_eq_length_filter]
  | lowCardinality dict idx _ =>
    have : (Column.lowCardinality dict idx).filter f hint
        = Column.lowCardinality dict (filterBy f idx) := rfl
    rw [this]
    exact length_filterBy f idx h

theorem Column.rows_vector (t : TypeIndex) (d : List Int) :
    (Column.vector t d).rows = d.map Field.Int64 := by
  unfold Column.rows Column.size
  apply List.ext_getElem
  · simp
  · intro i h1 h2
    simp only [List.length_map, List.length_range] at h1
    simp [Column.get, List.getD_eq_getElem?_getD, List.getElem?_eq_getElem h1]

theorem Column.rows_string (d : List String) :
    (Column.string d).rows = d.map Field.String := by
  unfold Column.rows Column.size
  apply List.ext_getElem
  · simp
  · intro i h1 h2
    simp only [List.length_map, List.length_range] at h1
    simp [Column.get, List.getD_eq_getElem?_getD, List.getElem?_eq_getElem h1]

theorem Column.length_rows (c : Column) : c.rows.length = c.size := by
  simp [Column.rows]

theorem Column.rows_nullable (n : Column) (m : List Nat) (h : m.length = n.size) :
    (Column.nullable n m).rows
      = List.zipWith (fun x b => if b ≠ 0 then Field.Null else x) n.rows m := by
  apply List.ext_getElem
  · simp [Column.length_rows, Column.size, h]
  · intro i h1 h2
    simp only [Column.length_rows, Column.size] at h1
    have h3 : i < m.length := by omega
    simp [Column.rows, Column.size, Column.get, List.getD_eq_getElem?_getD,
      List.getElem?_eq_getElem h3]

/-- The rows of a filtered full column are the rows of the column the filter keeps; the
result is a full column again. -/
theorem Column.rows_filter (c : Column) (f : List Nat) (hint : Nat) (hfull : c.isFull = true)
    (h : c.size = f.length) :
    (c.filter f hint).rows = filterBy f c.rows ∧ (c.filter f hint).isFull = true := by
  have hplain : ∀ p : Column, p.isPlain = true → p.size = f.length →
      (p.filter f hint).rows = filterBy f p.rows ∧ (p.filter f hint).isPlain = true := by
    intro p hp _
    cases p with
    | vector t d =>
      rw [Column.filter_vector, Column.rows_vector, Column.rows_vector, filterBy_map]
      exact ⟨rfl, rfl⟩
    | string d =>
      rw [Column.filter_string, Column.rows_string, Column.rows_string, filterBy_map]
      exact ⟨rfl, rfl⟩
    | nullable n m => simp [Column.isPlain] at hp
    | const d s => simp [Column.isPlain] at hp
    | lowCardinality dict idx => simp [Column.isPlain] at hp
  cases c with
  | nullable n m =>
    simp only [Column.isFull, Bool.and_eq_true, decide_eq_true_eq] at hfull
    obtain ⟨hn, hm⟩ := hfull
    have hsz : n.size = f.length := h
    obtain ⟨hrows, hpl⟩ := hplain n hn hsz
    have hsize := Column.size_filter n f hint hsz
    have hlen : (filterBy f m).length = (n.filter f hint).size := by
      rw [length_filterBy f m (by omega), hsize]
    rw [Column.filter_nullable]
    constructor
    · rw [Column.rows_nullable _ _ hlen, Column.rows_nullable _ _ hm, hrows,
        filterBy_zipWith _ _ _ _ (by rw [Column.length_rows]; exact hsz) (by omega)]
    · simp [Column.isFull, hpl, hlen]
  | vector t d =>
    obtain ⟨h1, h2⟩ := hplain (Column.vector t d) rfl h
    exact ⟨h1, by rw [Column.filter_vector]; rfl⟩
  | string d =>
    obtain ⟨h1, h2⟩ := hplain (Column.string d) rfl h
    exact ⟨h1, by rw [Column.filter_string]; rfl⟩
  | const d s => simp [Column.isFull, Column.isPlain] at hfull
  | lowCardinality dict idx => simp [Column.isFull, Column.isPlain] at hfull


theorem Column.size_insertRangeFrom (c : Column) :
    ∀ (src r : Column), c.insertRangeFrom src 0 src.size = .ok r →
      r.size = c.size + src.size := by
  induction c with
  | vector t d =>
    intro src r h
    cases src <;> simp [Column.insertRangeFrom] at h
    subst h
    simp [Column.size]
  | string d =>
    intro src r h
    cases src <;> simp [Column.insertRangeFrom] at h
    subst h
    simp [Column.size]
  | nullable n m ih =>
    intro src r h
    cases src with
    | nullable n1 m1 =>
      simp only [Column.insertRangeFrom, Column.size] at h
      cases hn : n.insertRangeFrom n1 0 n1.size with
      | error e => rw [hn] at h; simp at h
      | ok n2 =>
        rw [hn] at h
        simp only [Except.ok.injEq] at h
        subst h
        exact ih n1 n2 hn
    | _ => simp [Column.insertRangeFrom] at h
  | const d s _ =>
    intro src r h
    simp [Column.insertRangeFrom] at h
  | lowCardinality dict idx _ =>
    intro src r h
    simp [Column.insertRangeFrom] at h

theorem Column.rows_insertRangeFrom_plain (c src r : Column) (hc : c.isPlain = true)
    (hs : src.isPlain = true) (h : c.insertRangeFrom src 0 src.size = .ok r) :
    r.rows = c.rows ++ src.rows ∧ r.isPlain = true := by
  cases c with
  | vector t d =>
    cases src <;> simp [Column.insertRangeFrom] at h
    subst h
    simp [Column.rows_vector, Column.size, Column.isPlain]
  | string d =>
    cases src <;> simp [Column.insertRangeFrom] at h
    subst h
    simp [Column.rows_string, Column.size, Column.isPlain]
  | nullable n m => simp [Column.isPlain] at hc
  | const d s => simp [Column.isPlain] at hc
  | lowCardinality dict idx => simp [Column.isPlain] at hc

theorem List.zipWith_append_of_length {α β γ : Type} (g : α → β → γ) (a1 a2 : List α)
    (b1 b2 : List β) (h : a1.length = b1.length) :
    List.zipWith g (a1 ++ a2) (b1 ++ b2) = List.zipWith g a1 b1 ++ List.zipWith g a2 b2 := by
  induction a1 generalizing b1 with
  | nil =>
    cases b1 with
    | nil => rfl
    | cons b bs => simp at h
  | cons a as ih =>
    cases b1 with
    | nil => simp at h
    | cons b bs =>
      have h1 : as.length = bs.length := by simpa using h
      simp [ih bs h1]

/-- Appending a full column to a full column of the same class appends its rows. -/
theorem Column.rows_insertRangeFrom (c src r : Column) (hc : c.isFull = true)
    (hs : src.isFull = true) (h : c.insertRangeFrom src 0 src.size = .ok r) :
    r.rows = c.rows ++ src.rows ∧ r.isFull = true := by
  cases c with
  | nullable n m =>
    cases src with
    | nullable n1 m1 =>
      simp only [Column.isFull, Bool.and_eq_true, decide_eq_true_eq] at hc hs
      simp only [Column.insertRangeFrom, Column.size] at h
      cases hn : n.insertRangeFrom n1 0 n1.size with
      | error e => rw [hn] at h; simp at h
      | ok n2 =>
        rw [hn] at h
        simp only [Except.ok.injEq] at h
        subst h
        obtain ⟨hrows, hpl⟩ := Column.rows_insertRangeFrom_plain n n1 n2 hc.1 hs.1 hn
        have hsize := Column.size_insertRangeFrom n n1 n2 hn
        have hm1 : (List.drop 0 m1).take n1.size = m1 := by
          rw [List.drop_zero, ← hs.2, List.take_length]
        rw [hm1]
        have hlen : (m ++ m1).length = n2.size := by
          rw [List.length_append, hsize, hc.2, hs.2]
        constructor
        · rw [Column.rows_nullable _ _ hlen, Column.rows_nullable _ _ hc.2,
            Column.rows_nullable _ _ hs.2, hrows,
            List.zipWith_append_of_length _ _ _ _ _ (by rw [Column.length_rows, hc.2])]
        · simp [Column.isFull, hpl, hlen]
    | _ => simp [Column.insertRangeFrom] at h
  | vector t d =>
    cases src with
    | vector t1 d1 =>
      obtain ⟨h1, h2⟩ := Column.rows_insertRangeFrom_plain (Column.vector t d)
        (Column.vector t1 d1) r rfl rfl h
      refine ⟨h1, ?_⟩
      cases r <;> simp_all [Column.isFull, Column.isPlain]
    | _ => simp [Column.insertRangeFrom] at h
  | string d =>
    cases src with
    | string d1 =>
      obtain ⟨h1, h2⟩ := Column.rows_insertRangeFrom_plain (Column.string d)
        (Column.string d1) r rfl rfl h
      refine ⟨h1, ?_⟩
      cases r <;> simp_all [Column.isFull, Column.isPlain]
    | _ => simp [Column.insertRangeFrom] at h
  | const d s => simp [Column.insertRangeFrom] at h
  | lowCardinality dict idx => simp [Column.insertRangeFrom] at h

theorem Column.rows_of_size_zero (c : Column) (h : c.size = 0) : c.rows = [] := by
  simp [Column.rows, h]

/-! ## `appendSetElements`, column by column -/

/-- What `appendSetElements` does to one retained column when the holder has no null
map: the rows of the key column the filter keeps become the retained column if it was
empty, and are appended to it otherwise. -/
theorem Set.appendSetElement_eq (s : Set) (holder : SetKeyColumns) (rows : Nat)
    (key_column set_element : Column) (f : List Nat) (hf : holder.filter = some f)
    (hnm : holder.null_map_holder = none) :
    s.appendSetElement holder rows key_column set_element
      = if set_element.size = 0 then .ok (key_column.filter f rows)
        else set_element.insertRangeFrom (key_column.filter f rows) 0
          (key_column.filter f rows).size := by
  unfold Set.appendSetElement
  rw [hf, hnm]
  simp only [Option.getD_some, Option.isSome_none, Bool.and_false, Bool.false_eq_true, if_false]
  split
  · next e heq => exact heq.symm
  · next col heq => exact heq.symm

theorem Set.appendSetElement_size (s : Set) (holder : SetKeyColumns) (rows : Nat)
    (key_column set_element col : Column) (f : List Nat) (hf : holder.filter = some f)
    (hnm : holder.null_map_holder = none) (hsize : key_column.size = f.length)
    (h : s.appendSetElement holder rows key_column set_element = .ok col) :
    col.size = set_element.size + f.countP (fun b => decide (b ≠ 0)) := by
  rw [Set.appendSetElement_eq s holder rows key_column set_element f hf hnm] at h
  have hfs := Column.size_filter key_column f rows hsize
  by_cases h0 : set_element.size = 0
  · rw [if_pos h0] at h
    simp only [Except.ok.injEq] at h
    subst h
    rw [hfs, h0, Nat.zero_add]
  · rw [if_neg h0] at h
    rw [Column.size_insertRangeFrom _ _ _ h, hfs]

theorem Set.appendSetElement_rows (s : Set) (holder : SetKeyColumns) (rows : Nat)
    (key_column set_element col : Column) (f : List Nat) (hf : holder.filter = some f)
    (hnm : holder.null_map_holder = none) (hsize : key_column.size = f.length)
    (hkey : key_column.isFull = true)
    (hset : set_element.size = 0 ∨ set_element.isFull = true)
    (h : s.appendSetElement holder rows key_column set_element = .ok col) :
    col.rows = set_element.rows ++ filterBy f key_column.rows ∧ col.isFull = true := by
  rw [Set.appendSetElement_eq s holder rows key_column set_element f hf hnm] at h
  obtain ⟨hrows, hfull⟩ := Column.rows_filter key_column f rows hkey hsize
  by_cases h0 : set_element.size = 0
  · rw [if_pos h0] at h
    simp only [Except.ok.injEq] at h
    subst h
    rw [Column.rows_of_size_zero _ h0, hrows, List.nil_append]
    exact ⟨rfl, hfull⟩
  · rw [if_neg h0] at h
    have hset1 : set_element.isFull = true := hset.resolve_left h0
    obtain ⟨h1, h2⟩ := Column.rows_insertRangeFrom _ _ _ hset1 hfull h
    rw [h1, hrows]
    exact ⟨rfl, h2⟩

/-- The loop of `appendSetElements`: when it succeeds it has handled the columns pair by
pair. -/
theorem Set.appendSetElementsLoop_ok (s : Set) (holder : SetKeyColumns) (rows : Nat) :
    ∀ (ks es cols : List Column), ks.length = es.length →
      s.appendSetElementsLoop holder rows ks es = .ok cols →
      cols.length = es.length ∧
        ∀ (i : Nat) (k e : Column), ks[i]? = some k → es[i]? = some e →
          ∃ col, cols[i]? = some col ∧ s.appendSetElement holder rows k e = .ok col := by
  intro ks
  induction ks with
  | nil =>
    intro es cols hlen h
    cases es with
    | nil =>
      simp only [Set.appendSetElementsLoop, Except.ok.injEq] at h
      subst h
      exact ⟨rfl, fun i k e hk => by simp at hk⟩
    | cons e es => simp at hlen
  | cons k ks ih =>
    intro es cols hlen h
    cases es with
    | nil => simp at hlen
    | cons e es =>
      have hlen1 : ks.length = es.length := by simpa using hlen
      simp only [Set.appendSetElementsLoop] at h
      cases h1 : s.appendSetElement holder rows k e with
      | error err => rw [h1] at h; simp at h
      | ok col =>
        rw [h1] at h
        simp only at h
        cases h2 : s.appendSetElementsLoop holder rows ks es with
        | error err => rw [h2] at h; simp at h
        | ok rest =>
          rw [h2] at h
          simp only [Except.ok.injEq] at h
          subst h
          obtain ⟨hl, hrest⟩ := ih es rest hlen1 h2
          refine ⟨by simp [hl], ?_⟩
          intro i k1 e1 hk he
          cases i with
          | zero =>
            simp only [List.getElem?_cons_zero, Option.some.injEq] at hk he
            subst hk; subst he
            exact ⟨col, by simp, h1⟩
          | succ j =>
            simp only [List.getElem?_cons_succ] at hk he ⊢
            exact hrest j k1 e1 hk he


/-! ## `insertFromColumns` with the elements retained -/

/-- The filter `insertFromColumns` hands to `appendSetElements` for a block. -/
theorem insertFromBlockImpl_eq (method : SetVariants) (key_columns : List Column)
    (rows : Nat) (null_map : Option (List Nat)) (out_filter : List Nat)
    (hlen : out_filter.length = rows) :
    insertFromBlockImpl method key_columns rows null_map (some out_filter)
      = ({ method with
            keys := emplaceAll method.keys (blockRowKeys key_columns rows null_map) },
          some ((List.range rows).map (insertedFilterByte method.keys key_columns null_map))) := by
  apply Prod.ext
  · exact insertFromBlockImpl_keys method key_columns rows null_map (some out_filter)
  · exact insertFromBlockImpl_filter method key_columns rows null_map out_filter hlen

/-- The state, the holder and the outcome of `insertFromColumns(columns, holder)` on a
fresh holder that carries a filter of one byte per row. -/
theorem Set.insertFromColumnsHolder_retain (ext : External) (s : Set) (columns : List Column)
    (f0 : List Nat) (hdata : s.data.type ≠ SetVariantsType.EMPTY)
    (hlen : s.keys_size ≤ columns.length) (hcols : columns ≠ [])
    (hf0 : f0.length = blockRows columns) :
    s.insertFromColumnsHolder ext columns { SetKeyColumns.new with filter := some f0 }
      = ({ s with data := s.dataWithBlock columns },
          { key_columns := (s.insertKeyColumns columns).1
            materialized_columns := s.blockKeyColumns columns
            null_map_holder := none
            filter := some ((List.range (blockRows columns)).map
              (insertedFilterByte s.data.keys (s.insertKeyColumns columns).1
                (s.insertKeyColumns columns).2)) },
          s.limits.check (s.dataWithBlock columns).getTotalRowCount
            (ext.getTotalByteCount (s.dataWithBlock columns))
            ErrorCodes.SET_SIZE_LIMIT_EXCEEDED) := by
  cases columns with
  | nil => exact absurd rfl hcols
  | cons c0 cs =>
    unfold Set.insertFromColumnsHolder
    have h1 : s.data.empty = false := by
      simp [SetVariants.empty, hdata]
    have h2 : ¬ (c0 :: cs).length < s.keys_size := by omega
    have hf1 : f0.length = c0.size := hf0
    simp only [h1, Bool.false_eq_true, if_false, h2]
    have hins : ∀ (kc : List Column) (nm : Option (List Nat)),
        (match s.data.type with
          | SetVariantsType.EMPTY => (s.data, some f0)
          | _ => insertFromBlockImpl s.data kc c0.size nm (some f0))
        = ({ s.data with keys := emplaceAll s.data.keys (blockRowKeys kc c0.size nm) },
            some ((List.range c0.size).map (insertedFilterByte s.data.keys kc nm))) := by
      intro kc nm
      cases hty : s.data.type with
      | EMPTY => exact absurd hty hdata
      | _ => exact insertFromBlockImpl_eq _ _ _ _ _ hf1
    simp only [SetKeyColumns.new, List.nil_append]
    first
      | simp only [hins]
      | simp only [insertFromBlockImpl_eq _ _ _ _ _ hf1]
    unfold Set.dataWithBlock Set.insertKeyColumns blockRows Set.blockKeyColumns
    cases s.transform_null_in <;> rfl


theorem Set.insertFromColumns_unfold (ext : External) (s : Set) (columns : List Column)
    (hdata : s.data.type ≠ SetVariantsType.EMPTY)
    (hlen : s.keys_size ≤ columns.length) (hcols : columns ≠ [])
    (hfill : s.fill_set_elements = true) :
    s.insertFromColumns ext columns
      = match s.limits.check (s.dataWithBlock columns).getTotalRowCount
            (ext.getTotalByteCount (s.dataWithBlock columns))
            ErrorCodes.SET_SIZE_LIMIT_EXCEEDED with
        | .error e => ({ s with data := s.dataWithBlock columns }, .error e)
        | .ok inserted =>
            if inserted then
              if decide (s.max_elements_to_fill ≠ 0) &&
                  decide (s.max_elements_to_fill < (s.dataWithBlock columns).getTotalRowCount) then
                ({ s with data := s.dataWithBlock columns, fill_set_elements := false,
                          set_elements := [] }, .ok inserted)
              else
                match Set.appendSetElements { s with data := s.dataWithBlock columns }
                    (s.retainHolder columns) with
                | (s2, .error e) => (s2, .error e)
                | (s2, .ok _) => (s2, .ok inserted)
            else ({ s with data := s.dataWithBlock columns }, .ok inserted) := by
  obtain ⟨limits, cap, tni, ks, dts, sets, data, fill, se, ic⟩ := s
  simp only at hfill
  subst hfill
  cases columns with
  | nil => exact absurd rfl hcols
  | cons c0 cs =>
    unfold Set.insertFromColumns
    simp only [if_true]
    rw [Set.insertFromColumnsHolder_retain ext _ (c0 :: cs) (List.replicate c0.size 0) hdata hlen
      hcols (by simp [blockRows])]
    simp only
    cases hchk : limits.check (Set.dataWithBlock _ (c0 :: cs)).getTotalRowCount
        (ext.getTotalByteCount (Set.dataWithBlock _ (c0 :: cs)))
        ErrorCodes.SET_SIZE_LIMIT_EXCEEDED with
    | error e => rfl
    | ok inserted =>
      cases inserted with
      | false => rfl
      | true => rfl

theorem Set.insertFromColumns_unfold_off (ext : External) (s : Set) (columns : List Column)
    (hdata : s.data.type ≠ SetVariantsType.EMPTY)
    (hlen : s.keys_size ≤ columns.length) (hcols : columns ≠ [])
    (hfill : s.fill_set_elements = false) :
    (s.insertFromColumns ext columns).1 = { s with data := s.dataWithBlock columns } := by
  obtain ⟨limits, cap, tni, ks, dts, sets, data, fill, se, ic⟩ := s
  simp only at hfill
  subst hfill
  cases columns with
  | nil => exact absurd rfl hcols
  | cons c0 cs =>
    have hk : ({ SetKeyColumns.new with filter := none } : SetKeyColumns).key_columns = [] := rfl
    have hfst := Set.insertFromColumnsHolder_fst ext
      ⟨limits, cap, tni, ks, dts, sets, data, false, se, ic⟩ (c0 :: cs)
      { SetKeyColumns.new with filter := none } hdata hlen hcols hk
    unfold Set.insertFromColumns
    simp only [Bool.false_eq_true, if_false]
    rcases hres : Set.insertFromColumnsHolder ext
      ⟨limits, cap, tni, ks, dts, sets, data, false, se, ic⟩ (c0 :: cs)
      { SetKeyColumns.new with filter := none } with ⟨s1, holder1, r⟩
    rw [hres] at hfst
    simp only at hfst
    subst hfst
    cases r with
    | error e => rfl
    | ok inserted => simp

/-- A call of `insertFromColumns` throws when the storage variant is not chosen, when
the block has fewer columns than keys, and when it has no column. -/
theorem Set.insertFromColumns_ok (ext : External) (s : Set) (columns : List Column) (b : Bool)
    (hok : (s.insertFromColumns ext columns).2 = .ok b) :
    s.data.type ≠ SetVariantsType.EMPTY ∧ s.keys_size ≤ columns.length ∧ columns ≠ [] := by
  cases columns with
  | nil => simp [Set.insertFromColumns] at hok
  | cons c0 cs =>
    unfold Set.insertFromColumns at hok
    simp only at hok
    generalize hh : ({ SetKeyColumns.new with
        filter := if s.fill_set_elements = true then some (List.replicate c0.size 0)
          else none } : SetKeyColumns) = holder at hok
    by_cases hempty : s.data.empty = true
    · have : s.insertFromColumnsHolder ext (c0 :: cs) holder
          = (s, holder, .error ErrorCodes.LOGICAL_ERROR) := by
        unfold Set.insertFromColumnsHolder
        rw [if_pos hempty]
      rw [this] at hok
      simp at hok
    · have hdata : s.data.type ≠ SetVariantsType.EMPTY := by
        simpa [SetVariants.empty] using hempty
      by_cases hlt : (c0 :: cs).length < s.keys_size
      · have : s.insertFromColumnsHolder ext (c0 :: cs) holder
            = (s, holder, .error ErrorCodes.STD_OUT_OF_RANGE) := by
          unfold Set.insertFromColumnsHolder
          rw [if_neg hempty, if_pos hlt]
        rw [this] at hok
        simp at hok
      · exact ⟨hdata, by omega, by simp⟩

/-- One insert with the elements retained that returns `true`: either the cap is
exceeded and the retained columns are dropped, or every retained column has been handled
by `appendSetElements` with the key column at its position. -/
theorem Set.insertFromColumns_retain (ext : External) (s : Set) (columns : List Column)
    (hfill : s.fill_set_elements = true)
    (hok : (s.insertFromColumns ext columns).2 = .ok true) :
    (s.max_elements_to_fill ≠ 0 ∧
        s.max_elements_to_fill < (s.dataWithBlock columns).getTotalRowCount →
      (s.insertFromColumns ext columns).1
        = { s with data := s.dataWithBlock columns, fill_set_elements := false,
                   set_elements := [] }) ∧
    (¬ (s.max_elements_to_fill ≠ 0 ∧
        s.max_elements_to_fill < (s.dataWithBlock columns).getTotalRowCount) →
      ∃ cols, (s.insertFromColumns ext columns).1
          = { s with data := s.dataWithBlock columns, set_elements := cols } ∧
        cols.length = s.set_elements.length ∧
        (s.insertKeyColumns columns).1.length = s.set_elements.length ∧
        ∀ (i : Nat) (k e : Column), (s.insertKeyColumns columns).1[i]? = some k →
          s.set_elements[i]? = some e →
          ∃ col hint, cols[i]? = some col ∧
            Set.appendSetElement { s with data := s.dataWithBlock columns }
              (s.retainHolder columns) hint k e = .ok col) := by
  obtain ⟨hdata, hlen, hcols⟩ := Set.insertFromColumns_ok ext s columns true hok
  have hun := Set.insertFromColumns_unfold ext s columns hdata hlen hcols hfill
  rw [hun] at hok ⊢
  cases hchk : s.limits.check (s.dataWithBlock columns).getTotalRowCount
      (ext.getTotalByteCount (s.dataWithBlock columns))
      ErrorCodes.SET_SIZE_LIMIT_EXCEEDED with
  | error e => rw [hchk] at hok; simp at hok
  | ok inserted =>
    rw [hchk] at hok
    simp only at hok ⊢
    cases inserted with
    | false => simp at hok
    | true =>
      simp only [if_true] at hok ⊢
      by_cases hcap : s.max_elements_to_fill ≠ 0 ∧
          s.max_elements_to_fill < (s.dataWithBlock columns).getTotalRowCount
      · have hc : (decide (s.max_elements_to_fill ≠ 0) &&
            decide (s.max_elements_to_fill < (s.dataWithBlock columns).getTotalRowCount))
            = true := by simpa using hcap
        rw [if_pos hc]
        exact ⟨fun _ => rfl, fun h => absurd hcap h⟩
      · have hc : ¬ (decide (s.max_elements_to_fill ≠ 0) &&
            decide (s.max_elements_to_fill < (s.dataWithBlock columns).getTotalRowCount))
            = true := by simpa using hcap
        rw [if_neg hc] at hok ⊢
        refine ⟨fun h => absurd h hcap, fun _ => ?_⟩
        unfold Set.appendSetElements at hok ⊢
        by_cases hsz : (s.retainHolder columns).key_columns.length ≠ s.keys_size ∨
            s.set_elements.length ≠ s.keys_size
        · rw [if_pos hsz] at hok
          simp at hok
        · rw [if_neg hsz] at hok ⊢
          have hsz1 : (s.retainHolder columns).key_columns.length = s.keys_size ∧
              s.set_elements.length = s.keys_size := by
            constructor
            · by_contra h; exact hsz (Or.inl h)
            · by_contra h; exact hsz (Or.inr h)
          cases hkc : (s.retainHolder columns).key_columns with
          | nil => rw [hkc] at hok; simp at hok
          | cons k0 ks =>
            rw [hkc] at hok
            simp only at hok ⊢
            cases hloop : Set.appendSetElementsLoop { s with data := s.dataWithBlock columns }
                (s.retainHolder columns) k0.size (k0 :: ks) s.set_elements with
            | error e => rw [hloop] at hok; simp at hok
            | ok cols =>
              have hkl : (k0 :: ks).length = s.set_elements.length := by
                rw [← hkc, hsz1.1, hsz1.2]
              obtain ⟨hl, hcols1⟩ := Set.appendSetElementsLoop_ok _ _ _ _ _ _ hkl hloop
              refine ⟨cols, rfl, hl, ?_, ?_⟩
              · show (s.retainHolder columns).key_columns.length = s.set_elements.length
                rw [hsz1.1, hsz1.2]
              · intro i k e hk he
                have hk1 : (k0 :: ks)[i]? = some k := by
                  rw [← hkc]; exact hk
                obtain ⟨col, hc1, hc2⟩ := hcols1 i k e hk1 he
                exact ⟨col, k0.size, hc1, hc2⟩


/-! ## The retained columns stay in step with the hash table -/

theorem Set.retainedInStep_create (limits : SizeLimits) (max_elements_to_fill : Nat)
    (transform_null_in : Bool) :
    (Set.create limits max_elements_to_fill transform_null_in).RetainedInStep :=
  ⟨fun _ => rfl, fun _ => rfl, fun h => by simp [Set.create] at h⟩

theorem Set.retainedInStep_setHeader (s : Set) (header : List ColumnWithTypeAndName)
    (h : s.RetainedInStep) : (s.setHeader header).RetainedInStep := by
  unfold Set.setHeader
  by_cases hempty : s.data.empty = true
  · have htype : s.data.type = SetVariantsType.EMPTY := by
      simpa [SetVariants.empty] using hempty
    have hkeys := h.1 htype
    have h3 : s.fill_set_elements = true → ∀ c ∈ s.set_elements, c.size = 0 := by
      intro hf c hc
      have := h.2.2 hf c hc
      rw [this, Set.getTotalRowCount, SetVariants.getTotalRowCount, hkeys]
      rfl
    simp only [hempty, Bool.not_true, Bool.false_eq_true, if_false]
    cases s.transform_null_in <;>
      exact ⟨fun _ => rfl, h.2.1, h3⟩
  · simp only [hempty, Bool.not_false, if_true]
    simpa using h

theorem Set.retainedInStep_fillSetElements (s : Set) (h : s.RetainedInStep)
    (hrows : s.getTotalRowCount = 0) : s.fillSetElements.RetainedInStep := by
  refine ⟨h.1, fun hf => by simp [Set.fillSetElements] at hf, fun _ c hc => ?_⟩
  have hcount : s.fillSetElements.getTotalRowCount = 0 := hrows
  rw [hcount]
  simp only [Set.fillSetElements, List.mem_append, List.mem_map] at hc
  rcases hc with hc | ⟨t, _, rfl⟩
  · cases hf : s.fill_set_elements with
    | false => rw [h.2.1 hf] at hc; simp at hc
    | true => rw [h.2.2 hf c hc, hrows]
  · exact DataType.size_createColumn t

theorem Set.size_insertKeyColumns (s : Set) (columns : List Column) (k : Column)
    (haligned : s.BlockAligned columns) (hk : k ∈ (s.insertKeyColumns columns).1) :
    k.size = blockRows columns := by
  unfold Set.insertKeyColumns at hk
  cases htni : s.transform_null_in with
  | true =>
    rw [htni] at hk
    exact haligned k hk
  | false =>
    rw [htni] at hk
    simp only [Bool.not_false, if_true] at hk
    have hsz := extractNestedColumnsAndNullMap_sizes (s.blockKeyColumns columns)
    obtain ⟨i, hi, rfl⟩ := List.getElem_of_mem hk
    have hlen := extractNestedColumnsAndNullMap_length (s.blockKeyColumns columns)
    have h1 : ((extractNestedColumnsAndNullMap (s.blockKeyColumns columns)).1.map Column.size)[i]?
        = ((s.blockKeyColumns columns).map Column.size)[i]? := by rw [hsz]
    rw [List.getElem?_map, List.getElem?_map, List.getElem?_eq_getElem hi,
      List.getElem?_eq_getElem (by omega)] at h1
    simp only [Option.map_some', Option.some.injEq] at h1
    rw [h1]
    exact haligned _ (List.getElem_mem _)

/-- The number of rows of the hash table after a block went in. -/
theorem Set.getTotalRowCount_dataWithBlock (s : Set) (columns : List Column) :
    (s.dataWithBlock columns).getTotalRowCount
      = s.data.keys.length
        + ((List.range (blockRows columns)).map
            (insertedFilterByte s.data.keys (s.insertKeyColumns columns).1
              (s.insertKeyColumns columns).2)).countP (fun b => decide (b ≠ 0)) := by
  unfold Set.dataWithBlock SetVariants.getTotalRowCount
  simp only
  rw [emplaceAll_blockRowKeys, List.length_append, length_filterBy _ _ (by simp)]

theorem Set.retainedInStep_insertFromColumns (ext : External) (s : Set) (columns : List Column)
    (h : s.RetainedInStep) (haligned : s.BlockAligned columns)
    (hok : (s.insertFromColumns ext columns).2 = .ok true) :
    (s.insertFromColumns ext columns).1.RetainedInStep := by
  obtain ⟨hdata, hlen, hcols⟩ := Set.insertFromColumns_ok ext s columns true hok
  cases hfill : s.fill_set_elements with
  | false =>
    rw [Set.insertFromColumns_unfold_off ext s columns hdata hlen hcols hfill]
    exact ⟨fun ht => absurd ht hdata, fun _ => h.2.1 hfill,
      fun hf => by rw [hfill] at hf; simp at hf⟩
  | true =>
    obtain ⟨hcap, hkeep⟩ := Set.insertFromColumns_retain ext s columns hfill hok
    by_cases hc : s.max_elements_to_fill ≠ 0 ∧
        s.max_elements_to_fill < (s.dataWithBlock columns).getTotalRowCount
    · rw [hcap hc]
      exact ⟨fun ht => absurd ht hdata, fun _ => rfl, fun hf => by simp at hf⟩
    · obtain ⟨cols, heq, hl, hkl, hcol⟩ := hkeep hc
      rw [heq]
      refine ⟨fun ht => absurd ht hdata, fun hf => ?_, fun _ c hcmem => ?_⟩
      · have : s.fill_set_elements = false := hf
        rw [hfill] at this
        simp at this
      · obtain ⟨i, hi, rfl⟩ := List.getElem_of_mem hcmem
        have hi1 : i < s.set_elements.length := by
          have : i < cols.length := hi
          omega
        have hi2 : i < (s.insertKeyColumns columns).1.length := by omega
        obtain ⟨col, hint, hc1, hc2⟩ := hcol i _ _ (List.getElem?_eq_getElem hi2)
          (List.getElem?_eq_getElem hi1)
        have hci : cols[i]? = some cols[i] := List.getElem?_eq_getElem hi
        rw [hci] at hc1
        simp only [Option.some.injEq] at hc1
        have hks := Set.size_insertKeyColumns s columns _ haligned
          (List.getElem_mem (l := (s.insertKeyColumns columns).1) hi2)
        have hsize := Set.appendSetElement_size _ (s.retainHolder columns) hint _ _ col _ rfl rfl
          (by rw [hks]; simp) hc2
        show cols[i].size = (s.dataWithBlock columns).getTotalRowCount
        rw [hc1, hsize, Set.getTotalRowCount_dataWithBlock,
          h.2.2 hfill _ (List.getElem_mem (l := s.set_elements) hi1)]
        rfl

theorem Set.retainedInStep_calls (ext : External) (calls : List BuildCall) :
    ∀ (s : Set), s.RetainedInStep → s.callsRetain ext calls →
      (s.calls ext calls).1.RetainedInStep := by
  induction calls with
  | nil => intro s h _; exact h
  | cons c cs ih =>
    intro s h hcalls
    obtain ⟨hc, hrest⟩ := hcalls
    have hstep : (s.call ext c).1.RetainedInStep := by
      cases c with
      | setHeader header => exact Set.retainedInStep_setHeader s header h
      | fillSetElements => exact Set.retainedInStep_fillSetElements s h hc
      | insertFromColumns columns =>
        exact Set.retainedInStep_insertFromColumns ext s columns h hc.1 hc.2
    have hnext := ih _ hstep hrest
    have hok : ∃ b, (s.call ext c).2 = .ok b := by
      cases c with
      | setHeader header => exact ⟨true, rfl⟩
      | fillSetElements => exact ⟨true, rfl⟩
      | insertFromColumns columns => exact ⟨true, hc.2⟩
    obtain ⟨b, hb⟩ := hok
    have hcalls_eq : s.calls ext (c :: cs) = (s.call ext c).1.calls ext cs := by
      rcases hres : s.call ext c with ⟨s1, r⟩
      rw [hres] at hb
      simp only at hb
      subst hb
      simp only [Set.calls, hres]
    rw [hcalls_eq]
    exact hnext


/-! ## The rows `appendSetElements` appends -/

theorem extractNestedColumnsAndNullMap_fst (cs : List Column) :
    (extractNestedColumnsAndNullMap cs).1 = cs.map Column.removeNullable := by
  induction cs with
  | nil => rfl
  | cons c cs ih =>
    cases c with
    | nullable n m =>
      simp only [extractNestedColumnsAndNullMap]
      split <;> simp_all [Column.removeNullable]
    | vector t d => simpa [extractNestedColumnsAndNullMap, Column.removeNullable] using ih
    | string d => simpa [extractNestedColumnsAndNullMap, Column.removeNullable] using ih
    | const d s => simpa [extractNestedColumnsAndNullMap, Column.removeNullable] using ih
    | lowCardinality d idx =>
      simpa [extractNestedColumnsAndNullMap, Column.removeNullable] using ih

theorem Column.isFull_of_isPlain (c : Column) (h : c.isPlain = true) : c.isFull = true := by
  cases c <;> simp_all [Column.isFull, Column.isPlain]

theorem Column.isPlain_removeNullable (c : Column) (h : c.isFull = true) :
    c.removeNullable.isPlain = true := by
  cases c <;> simp_all [Column.isFull, Column.isPlain, Column.removeNullable]

/-- The key columns `insertFromColumns` works with are full columns with the row count
of the block when the block is well formed; with `transform_null_in` off they are plain. -/
theorem Set.insertKeyColumns_full (s : Set) (columns : List Column)
    (hwf : s.BlockWellFormed columns) (k : Column) (hk : k ∈ (s.insertKeyColumns columns).1) :
    k.isFull = true ∧ k.size = blockRows columns ∧
      (s.transform_null_in = false → k.isPlain = true) := by
  have haligned : s.BlockAligned columns := fun c hc => (hwf.2.2 c hc).2
  refine ⟨?_, Set.size_insertKeyColumns s columns k haligned hk, ?_⟩
  · unfold Set.insertKeyColumns at hk
    cases htni : s.transform_null_in with
    | true =>
      rw [htni] at hk
      exact (hwf.2.2 k hk).1
    | false =>
      rw [htni] at hk
      simp only [Bool.not_false, if_true] at hk
      rw [extractNestedColumnsAndNullMap_fst, List.mem_map] at hk
      obtain ⟨c, hc, rfl⟩ := hk
      exact Column.isFull_of_isPlain _ (Column.isPlain_removeNullable c (hwf.2.2 c hc).1)
  · intro htni
    unfold Set.insertKeyColumns at hk
    rw [htni] at hk
    simp only [Bool.not_false, if_true] at hk
    rw [extractNestedColumnsAndNullMap_fst, List.mem_map] at hk
    obtain ⟨c, hc, rfl⟩ := hk
    exact Column.isPlain_removeNullable c (hwf.2.2 c hc).1

/-- The keys a block adds to the hash table: the rows of the key columns its filter
keeps. -/
theorem Set.keys_dataWithBlock (s : Set) (columns : List Column) :
    (s.dataWithBlock columns).keys
      = s.data.keys ++ filterBy
          ((List.range (blockRows columns)).map
            (insertedFilterByte s.data.keys (s.insertKeyColumns columns).1
              (s.insertKeyColumns columns).2))
          ((List.range (blockRows columns)).map
            (SetVariants.keyAt (s.insertKeyColumns columns).1)) := by
  unfold Set.dataWithBlock
  simp only
  rw [emplaceAll_blockRowKeys]

theorem SetVariants.keyAt_getD (key_columns : List Column) (i : Nat) (k : Column)
    (hk : key_columns[i]? = some k) (r : Nat) :
    (SetVariants.keyAt key_columns r).getD i Field.Null = k.get r := by
  unfold SetVariants.keyAt
  rw [List.getD_eq_getElem?_getD, List.getElem?_map, hk]
  rfl

/-- Cell `i` of the keys a block adds, in order: the rows of key column `i` the filter
keeps. -/
theorem Set.newKeys_column (s : Set) (columns : List Column) (i : Nat) (k : Column)
    (hk : (s.insertKeyColumns columns).1[i]? = some k) (hsize : k.size = blockRows columns) :
    ((s.dataWithBlock columns).keys.drop s.data.keys.length).map (fun key => key.getD i Field.Null)
      = filterBy
          ((List.range (blockRows columns)).map
            (insertedFilterByte s.data.keys (s.insertKeyColumns columns).1
              (s.insertKeyColumns columns).2))
          k.rows := by
  rw [Set.keys_dataWithBlock, List.drop_left, ← filterBy_map, List.map_map]
  unfold Column.rows
  rw [hsize]
  congr 1
  apply List.map_congr_left
  intro r _
  exact SetVariants.keyAt_getD _ i k hk r


/-- One insert of a well-formed block with the elements retained that returns `true`
below the cap: every retained column gets, after its rows, cell `i` of the keys the block
added to the hash table, in order, and is a full column afterwards. -/
theorem Set.insertFromColumns_retain_rows (ext : External) (s : Set) (columns : List Column)
    (hfill : s.fill_set_elements = true) (hwf : s.BlockWellFormed columns)
    (hret : ∀ c ∈ s.set_elements, c.size = 0 ∨ c.isFull = true)
    (hok : (s.insertFromColumns ext columns).2 = .ok true)
    (hcap : ¬ (s.max_elements_to_fill ≠ 0 ∧
        s.max_elements_to_fill < (s.dataWithBlock columns).getTotalRowCount)) :
    ∃ cols, (s.insertFromColumns ext columns).1
        = { s with data := s.dataWithBlock columns, set_elements := cols } ∧
      cols.length = s.set_elements.length ∧
      ∀ (i : Nat) (e : Column), s.set_elements[i]? = some e →
        ∃ col, cols[i]? = some col ∧ col.isFull = true ∧
          col.rows = e.rows ++
            ((s.dataWithBlock columns).keys.drop s.data.keys.length).map
              (fun key => key.getD i Field.Null) := by
  obtain ⟨cols, heq, hl, hkl, hcol⟩ := (Set.insertFromColumns_retain ext s columns hfill hok).2 hcap
  refine ⟨cols, heq, hl, ?_⟩
  intro i e he
  have hi1 : i < s.set_elements.length := by
    by_contra hge
    rw [List.getElem?_eq_none (by omega)] at he
    simp at he
  have hi2 : i < (s.insertKeyColumns columns).1.length := by omega
  have hk : (s.insertKeyColumns columns).1[i]? = some (s.insertKeyColumns columns).1[i] :=
    List.getElem?_eq_getElem hi2
  obtain ⟨col, hint, hc1, hc2⟩ := hcol i _ e hk he
  obtain ⟨hkfull, hksize, _⟩ := Set.insertKeyColumns_full s columns hwf _
    (List.getElem_mem (l := (s.insertKeyColumns columns).1) hi2)
  have hemem : e ∈ s.set_elements := List.getElem?_mem he
  obtain ⟨hrows, hfull⟩ := Set.appendSetElement_rows _ (s.retainHolder columns) hint _ e col _
    rfl rfl (by rw [hksize]; simp) hkfull (hret e hemem) hc2
  refine ⟨col, hc1, hfull, ?_⟩
  rw [hrows, Set.newKeys_column s columns i _ hk hksize]

/-- An insert never switches the retention of the elements on. -/
theorem Set.insertFromColumns_fill_off (ext : External) (s : Set) (columns : List Column)
    (hfill : s.fill_set_elements = false) :
    (s.insertFromColumns ext columns).1.fill_set_elements = false := by
  cases columns with
  | nil => exact hfill
  | cons c0 cs =>
    by_cases hdata : s.data.type = SetVariantsType.EMPTY
    · have : (s.insertFromColumns ext (c0 :: cs)).1 = s := by
        simp only [Set.insertFromColumns, Set.insertFromColumnsHolder, SetVariants.empty, hdata,
          decide_True, if_true]
      rw [this]
      exact hfill
    · by_cases hlen : s.keys_size ≤ (c0 :: cs).length
      · rw [Set.insertFromColumns_unfold_off ext s (c0 :: cs) hdata hlen (by simp) hfill]
        exact hfill
      · have hlt : (c0 :: cs).length < s.keys_size := by omega
        have : (s.insertFromColumns ext (c0 :: cs)).1 = s := by
          simp only [Set.insertFromColumns, Set.insertFromColumnsHolder, SetVariants.empty,
            hdata, decide_False, Bool.false_eq_true, if_false, hlt, if_true]
        rw [this]
        exact hfill


/-! ## What an insert leaves alone -/

/-- Whatever it returns, `insertFromColumns` changes nothing but the hash table, the
retained columns and their switch; the storage variant stays the one chosen. -/
theorem Set.insertFromColumns_frame (ext : External) (s : Set) (columns : List Column) :
    ∃ keys fse se, (s.insertFromColumns ext columns).1
      = { s with data := { s.data with keys := keys }, fill_set_elements := fse,
                 set_elements := se } := by
  by_cases hcols : columns = []
  · subst hcols
    exact ⟨s.data.keys, s.fill_set_elements, s.set_elements, rfl⟩
  · by_cases hdata : s.data.type = SetVariantsType.EMPTY
    · refine ⟨s.data.keys, s.fill_set_elements, s.set_elements, ?_⟩
      cases columns with
      | nil => exact absurd rfl hcols
      | cons c0 cs =>
        have hsame : (s.insertFromColumns ext (c0 :: cs)).1 = s := by
          simp only [Set.insertFromColumns, Set.insertFromColumnsHolder, SetVariants.empty,
            hdata, decide_True, if_true]
        rw [hsame]
    · by_cases hlen : s.keys_size ≤ columns.length
      · obtain ⟨fse, se, h⟩ := Set.insertFromColumns_fst ext s columns hdata hlen hcols
        exact ⟨_, fse, se, h⟩
      · refine ⟨s.data.keys, s.fill_set_elements, s.set_elements, ?_⟩
        cases columns with
        | nil => exact absurd rfl hcols
        | cons c0 cs =>
          have hlt : (c0 :: cs).length < s.keys_size := by omega
          have hsame : (s.insertFromColumns ext (c0 :: cs)).1 = s := by
            simp only [Set.insertFromColumns, Set.insertFromColumnsHolder, SetVariants.empty,
              hdata, decide_False, Bool.false_eq_true, if_false, hlt, if_true]
          rw [hsame]

theorem Set.insertFromColumns_keys_size (ext : External) (s : Set) (columns : List Column) :
    (s.insertFromColumns ext columns).1.keys_size = s.keys_size := by
  obtain ⟨keys, fse, se, h⟩ := Set.insertFromColumns_frame ext s columns
  rw [h]

theorem Set.insertFromColumns_transform_null_in (ext : External) (s : Set)
    (columns : List Column) :
    (s.insertFromColumns ext columns).1.transform_null_in = s.transform_null_in := by
  obtain ⟨keys, fse, se, h⟩ := Set.insertFromColumns_frame ext s columns
  rw [h]

theorem Set.blockWellFormed_congr (s s1 : Set) (columns : List Column)
    (h : s1.keys_size = s.keys_size) (hwf : s1.BlockWellFormed columns) :
    s.BlockWellFormed columns := by
  unfold Set.BlockWellFormed Set.blockKeyColumns at hwf ⊢
  rw [h] at hwf
  exact hwf

theorem Set.insertsPass_wellFormed (ext : External) (blocks : List (List Column)) :
    ∀ (s : Set), s.insertsPass ext blocks → ∀ b ∈ blocks, s.BlockWellFormed b := by
  induction blocks with
  | nil => intro s _ b hb; simp at hb
  | cons b0 bs ih =>
    intro s h b hb
    obtain ⟨hwf, _, hrest⟩ := h
    rcases List.mem_cons.mp hb with rfl | hmem
    · exact hwf
    · exact Set.blockWellFormed_congr s _ b (Set.insertFromColumns_keys_size ext s b0)
        (ih _ hrest b hmem)

theorem Set.insertBlocks_fill_off (ext : External) (blocks : List (List Column)) :
    ∀ (s : Set), s.fill_set_elements = false →
      (s.insertBlocks ext blocks).fill_set_elements = false := by
  induction blocks with
  | nil => intro s h; exact h
  | cons b bs ih =>
    intro s h
    exact ih _ (Set.insertFromColumns_fill_off ext s b h)

theorem emplaceAll_nodup (new keys : List (List Field)) (h : keys.Nodup) :
    (emplaceAll keys new).Nodup := by
  induction new generalizing keys with
  | nil => exact h
  | cons a as ih =>
    have hstep : emplaceAll keys (a :: as)
        = emplaceAll (if a ∈ keys then keys else keys ++ [a]) as := rfl
    rw [hstep]
    apply ih
    by_cases ha : a ∈ keys
    · rw [if_pos ha]; exact h
    · rw [if_neg ha]
      rw [List.nodup_append]
      refine ⟨h, List.nodup_singleton a, ?_⟩
      intro x hx hx1
      rw [List.mem_singleton] at hx1
      subst hx1
      exact ha hx


/-! ## The retained columns hold the stored keys -/

theorem Set.retainedAreKeys_start (limits : SizeLimits) (max_elements_to_fill : Nat)
    (transform_null_in : Bool) (header : List ColumnWithTypeAndName) :
    ((Set.create limits max_elements_to_fill transform_null_in).setHeader
      header).fillSetElements.RetainedAreKeys ∧
    ((Set.create limits max_elements_to_fill transform_null_in).setHeader
      header).fillSetElements.data.keys = [] ∧
    ((Set.create limits max_elements_to_fill transform_null_in).setHeader
      header).fillSetElements.fill_set_elements = true ∧
    ((Set.create limits max_elements_to_fill transform_null_in).setHeader
      header).fillSetElements.transform_null_in = transform_null_in := by
  have hsz : ∀ c ∈ ((Set.create limits max_elements_to_fill transform_null_in).setHeader
      header).fillSetElements.set_elements, c.size = 0 := by
    intro c hc
    simp only [Set.fillSetElements, Set.setHeader, Set.create, SetVariants.empty, decide_True,
      Bool.not_true, Bool.false_eq_true, if_false, List.nil_append] at hc
    cases transform_null_in
    · simp only [Bool.not_false, if_true] at hc
      obtain ⟨t, _, ht⟩ := List.mem_map.mp hc
      rw [← ht]
      exact DataType.size_createColumn t
    · simp only [Bool.not_true, Bool.false_eq_true, if_false] at hc
      obtain ⟨t, _, ht⟩ := List.mem_map.mp hc
      rw [← ht]
      exact DataType.size_createColumn t
  have hkeys : ((Set.create limits max_elements_to_fill transform_null_in).setHeader
      header).fillSetElements.data.keys = [] := by
    cases transform_null_in <;> rfl
  refine ⟨⟨?_, ?_, ?_, fun c hc => Or.inl (hsz c hc), ?_⟩, hkeys, rfl, ?_⟩
  · cases transform_null_in <;>
      simp [Set.fillSetElements, Set.setHeader, Set.create, SetVariants.empty]
  · intro h0
    refine ⟨?_, hkeys⟩
    have hh : header = [] := by
      cases transform_null_in <;>
        simpa [Set.fillSetElements, Set.setHeader, Set.create, SetVariants.empty] using h0
    subst hh
    cases transform_null_in <;> rfl
  · intro k hk
    rw [hkeys] at hk
    simp at hk
  · intro i e he
    rw [hkeys, Column.rows_of_size_zero e (hsz e (List.getElem?_mem he))]
    rfl
  · cases transform_null_in <;> rfl

theorem Set.length_insertKeyColumns (s : Set) (columns : List Column)
    (hlen : s.keys_size ≤ columns.length) :
    (s.insertKeyColumns columns).1.length = s.keys_size := by
  unfold Set.insertKeyColumns
  cases s.transform_null_in
  · simp only [Bool.not_false, if_true]
    rw [extractNestedColumnsAndNullMap_length]
    simp [Set.blockKeyColumns, hlen]
  · simp [Set.blockKeyColumns, hlen]

theorem mem_filterBy {α : Type} (f : List Nat) (d : List α) (a : α) (h : a ∈ filterBy f d) :
    a ∈ d := by
  unfold filterBy at h
  rw [List.mem_filterMap] at h
  obtain ⟨p, hp, hpa⟩ := h
  by_cases hp2 : p.2 = 0
  · simp [hp2] at hpa
  · simp only [ne_eq, hp2, not_false_eq_true, if_true, Option.some.injEq] at hpa
    subst hpa
    exact (List.of_mem_zip hp).1

theorem Set.retainedAreKeys_insertFromColumns (ext : External) (s : Set) (columns : List Column)
    (h : s.RetainedAreKeys) (hfill : s.fill_set_elements = true)
    (hwf : s.BlockWellFormed columns)
    (hok : (s.insertFromColumns ext columns).2 = .ok true)
    (hfill1 : (s.insertFromColumns ext columns).1.fill_set_elements = true) :
    (s.insertFromColumns ext columns).1.RetainedAreKeys := by
  obtain ⟨hdata, hlen, hcols⟩ := Set.insertFromColumns_ok ext s columns true hok
  obtain ⟨h1, h2, h3, h4, h5⟩ := h
  have hcap : ¬ (s.max_elements_to_fill ≠ 0 ∧
      s.max_elements_to_fill < (s.dataWithBlock columns).getTotalRowCount) := by
    intro hc
    rw [(Set.insertFromColumns_retain ext s columns hfill hok).1 hc] at hfill1
    simp at hfill1
  obtain ⟨cols, heq, hl, hrows⟩ :=
    Set.insertFromColumns_retain_rows ext s columns hfill hwf h4 hok hcap
  rw [heq]
  have hkeys := Set.keys_dataWithBlock s columns
  have hsplit : (s.dataWithBlock columns).keys
      = s.data.keys ++ (s.dataWithBlock columns).keys.drop s.data.keys.length := by
    rw [hkeys, List.drop_left]
  refine ⟨by rw [← h1]; exact hl, ?_, ?_, ?_, ?_⟩
  · intro h0
    have := (h2 h0).1
    exact absurd this hdata
  · intro k hk
    show k.length = s.keys_size
    have hk1 : k ∈ (s.dataWithBlock columns).keys := hk
    rw [hkeys, List.mem_append] at hk1
    rcases hk1 with hk1 | hk1
    · exact h3 k hk1
    · have := mem_filterBy _ _ _ hk1
      rw [List.mem_map] at this
      obtain ⟨r, _, rfl⟩ := this
      simp [SetVariants.keyAt, Set.length_insertKeyColumns s columns hlen]
  · intro c hc
    obtain ⟨i, hi, rfl⟩ := List.getElem_of_mem hc
    have hi0 : i < cols.length := hi
    have hi1 : i < s.set_elements.length := by omega
    obtain ⟨col, hc1, hfull, _⟩ := hrows i _ (List.getElem?_eq_getElem hi1)
    rw [List.getElem?_eq_getElem hi0] at hc1
    simp only [Option.some.injEq] at hc1
    right
    have : cols[i] = col := hc1
    rw [this]
    exact hfull
  · intro i e he
    have he0 : cols[i]? = some e := he
    have hi0 : i < cols.length := by
      by_contra hge
      rw [List.getElem?_eq_none (by omega)] at he0
      simp at he0
    have hi1 : i < s.set_elements.length := by omega
    obtain ⟨col, hc1, _, hr⟩ := hrows i _ (List.getElem?_eq_getElem hi1)
    rw [he0] at hc1
    simp only [Option.some.injEq] at hc1
    subst hc1
    show e.rows = (s.dataWithBlock columns).keys.map (fun key => key.getD i Field.Null)
    rw [hr, h5 i _ (List.getElem?_eq_getElem hi1), ← List.map_append, ← hsplit]

theorem Set.retainedAreKeys_insertBlocks (ext : External) (blocks : List (List Column)) :
    ∀ (s : Set), s.RetainedAreKeys → s.fill_set_elements = true → s.insertsPass ext blocks →
      (s.insertBlocks ext blocks).fill_set_elements = true →
      (s.insertBlocks ext blocks).RetainedAreKeys := by
  induction blocks with
  | nil => intro s h _ _ _; exact h
  | cons b bs ih =>
    intro s h hfill hpass hfinal
    obtain ⟨hwf, hok, hrest⟩ := hpass
    have hstep : s.insertBlocks ext (b :: bs)
        = Set.insertBlocks ext (s.insertFromColumns ext b).1 bs := rfl
    rw [hstep] at hfinal ⊢
    have hfill1 : (s.insertFromColumns ext b).1.fill_set_elements = true := by
      by_contra hne
      have hoff : (s.insertFromColumns ext b).1.fill_set_elements = false := by
        simpa using hne
      rw [Set.insertBlocks_fill_off ext bs _ hoff] at hfinal
      simp at hfinal
    exact ih _ (Set.retainedAreKeys_insertFromColumns ext s b h hfill hwf hok hfill1) hfill1
      hrest hfinal

/-- When the retained columns hold the stored keys, reading them across gives the
stored keys, in order. -/
theorem Set.retainedRows_eq_keys (s : Set) (h : s.RetainedAreKeys) :
    s.retainedRows = s.data.keys := by
  obtain ⟨h1, h2, h3, h4, h5⟩ := h
  unfold Set.retainedRows
  cases hse : s.set_elements with
  | nil =>
    rw [hse] at h1
    have := (h2 h1.symm).2
    rw [this]
    rfl
  | cons e0 es =>
    have he0 : s.set_elements[0]? = some e0 := by rw [hse]; simp
    have hr0 := h5 0 e0 he0
    have hsize : e0.size = s.data.keys.length := by
      have := congrArg List.length hr0
      rw [Column.length_rows, List.length_map] at this
      exact this
    apply List.ext_getElem
    · simp [blockRows, hsize]
    · intro r hr1 hr2
      rw [List.getElem_map, List.getElem_range]
      have hklen := h3 _ (List.getElem_mem (l := s.data.keys) hr2)
      rw [← hse]
      apply List.ext_getElem
      · simp [SetVariants.keyAt, h1, hklen]
      · intro i hi1 hi2
        have hi3 : i < s.set_elements.length := by
          simpa [SetVariants.keyAt] using hi1
        have hrows := h5 i _ (List.getElem?_eq_getElem hi3)
        have hsz : (s.set_elements[i]).size = s.data.keys.length := by
          have := congrArg List.length hrows
          rw [Column.length_rows, List.length_map] at this
          exact this
        have hcell : (s.set_elements[i]).rows[r]? = some ((s.set_elements[i]).get r) := by
          unfold Column.rows
          rw [List.getElem?_map, List.getElem?_range (by omega)]
          rfl
        rw [hrows, List.getElem?_map, List.getElem?_eq_getElem hr2] at hcell
        simp only [Option.map_some', Option.some.injEq] at hcell
        simp only [SetVariants.keyAt, List.getElem_map]
        rw [← hcell, List.getD_eq_getElem?_getD, List.getElem?_eq_getElem hi2]
        rfl


/-! ## The filter of a block, row by row -/

/-- With `transform_null_in` off, the filter byte of row `i` of a well-formed block is 1
exactly when the row has no NULL cell and equals neither a stored key nor an earlier row
of the block. -/
theorem Set.insertedFilterByte_off (s : Set) (columns : List Column)
    (htni : s.transform_null_in = false) (hwf : s.BlockWellFormed columns) (i : Nat)
    (hi : i < blockRows columns) :
    (insertedFilterByte s.data.keys (s.insertKeyColumns columns).1
        (s.insertKeyColumns columns).2 i = 0 ∨
      insertedFilterByte s.data.keys (s.insertKeyColumns columns).1
        (s.insertKeyColumns columns).2 i = 1) ∧
    (insertedFilterByte s.data.keys (s.insertKeyColumns columns).1
        (s.insertKeyColumns columns).2 i = 1 ↔
      Field.Null ∉ SetVariants.keyAt (s.blockKeyColumns columns) i ∧
        SetVariants.keyAt (s.blockKeyColumns columns) i ∉ s.data.keys ∧
        ∀ j, j < i → SetVariants.keyAt (s.blockKeyColumns columns) j
          ≠ SetVariants.keyAt (s.blockKeyColumns columns) i) := by
  have hrowsAt := fun (j : Nat) (hj : j < blockRows columns) =>
    extractNestedColumnsAndNullMap_rows (s.blockKeyColumns columns) (blockRows columns) j hj
      hwf.2.2
  have hkc : s.insertKeyColumns columns
      = extractNestedColumnsAndNullMap (s.blockKeyColumns columns) := by
    unfold Set.insertKeyColumns
    rw [htni]
    rfl
  rw [hkc]
  unfold insertedFilterByte
  obtain ⟨hmark, hrow⟩ := hrowsAt i hi
  by_cases hm : nullMapMarks (extractNestedColumnsAndNullMap (s.blockKeyColumns columns)).2 i
      = true
  · rw [if_pos hm]
    refine ⟨Or.inl rfl, ⟨fun h => by simp at h, fun h => absurd (hmark.mp hm) h.1⟩⟩
  · have hm1 : nullMapMarks (extractNestedColumnsAndNullMap (s.blockKeyColumns columns)).2 i
        = false := by simpa using hm
    have hnonull : Field.Null ∉ SetVariants.keyAt (s.blockKeyColumns columns) i :=
      fun h => hm (hmark.mpr h)
    rw [if_neg hm, hrow hm1]
    have hiff : SetVariants.keyAt (s.blockKeyColumns columns) i
        ∈ emplaceAll s.data.keys
          (blockRowKeys (extractNestedColumnsAndNullMap (s.blockKeyColumns columns)).1 i
            (extractNestedColumnsAndNullMap (s.blockKeyColumns columns)).2) ↔
        (SetVariants.keyAt (s.blockKeyColumns columns) i ∈ s.data.keys ∨
          ∃ j, j < i ∧ SetVariants.keyAt (s.blockKeyColumns columns) j
            = SetVariants.keyAt (s.blockKeyColumns columns) i) := by
      rw [mem_emplaceAll, mem_blockRowKeys]
      constructor
      · rintro (h | ⟨j, hj, hmj, hkj⟩)
        · exact Or.inl h
        · right
          refine ⟨j, hj, ?_⟩
          rw [← (hrowsAt j (by omega)).2 hmj]
          exact hkj
      · rintro (h | ⟨j, hj, hkj⟩)
        · exact Or.inl h
        · right
          have hmj : nullMapMarks
              (extractNestedColumnsAndNullMap (s.blockKeyColumns columns)).2 j = false := by
            by_contra hne
            have hne1 : nullMapMarks
                (extractNestedColumnsAndNullMap (s.blockKeyColumns columns)).2 j = true := by
              simpa using hne
            have := (hrowsAt j (by omega)).1.mp hne1
            rw [hkj] at this
            exact hnonull this
          refine ⟨j, hj, hmj, ?_⟩
          rw [(hrowsAt j (by omega)).2 hmj]
          exact hkj
    by_cases hmem : SetVariants.keyAt (s.blockKeyColumns columns) i
        ∈ emplaceAll s.data.keys
          (blockRowKeys (extractNestedColumnsAndNullMap (s.blockKeyColumns columns)).1 i
            (extractNestedColumnsAndNullMap (s.blockKeyColumns columns)).2)
    · rw [if_pos hmem]
      refine ⟨Or.inl rfl, ⟨fun h => by simp at h, fun h => ?_⟩⟩
      rcases hiff.mp hmem with h1 | ⟨j, hj, hkj⟩
      · exact absurd h1 h.2.1
      · exact absurd hkj (h.2.2 j hj)
    · rw [if_neg hmem]
      refine ⟨Or.inr rfl, ⟨fun _ => ⟨hnonull, ?_, ?_⟩, fun _ => rfl⟩⟩
      · exact fun h1 => hmem (hiff.mpr (Or.inl h1))
      · exact fun j hj hkj => hmem (hiff.mpr (Or.inr ⟨j, hj, hkj⟩))


/-! ## The order of the cells -/

theorem compareBytes_antisymm (a : List Nat) : ∀ b, compareBytes b a = - compareBytes a b := by
  induction a with
  | nil => intro b; cases b <;> simp [compareBytes]
  | cons x xs ih =>
    intro b
    cases b with
    | nil => simp [compareBytes]
    | cons y ys =>
      simp only [compareBytes]
      rcases Nat.lt_trichotomy x y with h | h | h
      · have h1 : ¬ y < x := by omega
        simp [h, h1]
      · subst h
        simp [ih ys]
      · have h1 : ¬ x < y := by omega
        simp [h, h1]

theorem compareBytes_eq_zero (a : List Nat) : ∀ b, compareBytes a b = 0 → a = b := by
  induction a with
  | nil => intro b h; cases b <;> simp_all [compareBytes]
  | cons x xs ih =>
    intro b h
    cases b with
    | nil => simp [compareBytes] at h
    | cons y ys =>
      simp only [compareBytes] at h
      rcases Nat.lt_trichotomy x y with hxy | hxy | hxy
      · simp [hxy] at h
      · subst hxy
        simp only [Nat.lt_irrefl, if_false] at h
        rw [ih ys h]
      · have h1 : ¬ x < y := by omega
        simp [hxy, h1] at h

theorem compareBytes_range (a : List Nat) :
    ∀ b, compareBytes a b = -1 ∨ compareBytes a b = 0 ∨ compareBytes a b = 1 := by
  induction a with
  | nil => intro b; cases b <;> simp [compareBytes]
  | cons x xs ih =>
    intro b
    cases b with
    | nil => simp [compareBytes]
    | cons y ys =>
      simp only [compareBytes]
      split
      · simp
      · split
        · simp
        · exact ih ys

theorem compareBytes_trans (a : List Nat) :
    ∀ b c, compareBytes a b ≤ 0 → compareBytes b c ≤ 0 → compareBytes a c ≤ 0 := by
  induction a with
  | nil => intro b c _ _; cases c <;> simp [compareBytes]
  | cons x xs ih =>
    intro b c hab hbc
    cases b with
    | nil => simp [compareBytes] at hab
    | cons y ys =>
      cases c with
      | nil => simp [compareBytes] at hbc
      | cons z zs =>
        simp only [compareBytes] at hab hbc ⊢
        rcases Nat.lt_trichotomy x y with hxy | hxy | hxy
        · rcases Nat.lt_trichotomy y z with hyz | hyz | hyz
          · have : x < z := by omega
            simp [this]
          · subst hyz
            simp [hxy]
          · have h1 : ¬ y < z := by omega
            simp [hyz, h1] at hbc
        · subst hxy
          rcases Nat.lt_trichotomy x z with hxz | hxz | hxz
          · simp [hxz]
          · subst hxz
            simp only [Nat.lt_irrefl, if_false] at hab hbc ⊢
            exact ih ys zs hab hbc
          · have h1 : ¬ x < z := by omega
            simp [hxz, h1] at hbc
        · have h1 : ¬ x < y := by omega
          simp [hxy, h1] at hab

theorem String.data_map_toNat_injective (x y : String)
    (h : x.data.map Char.toNat = y.data.map Char.toNat) : x = y := by
  have hinj : Function.Injective Char.toNat := by
    intro a b hab
    have h1 : a.val = b.val := by
      apply UInt32.ext
      exact hab
    exact Char.ext h1
  have := List.map_injective_iff.mpr hinj h
  exact String.ext this

theorem Field.compare_antisymm (a b : Field) : Field.compare b a 1 = - Field.compare a b 1 := by
  cases a <;> cases b <;> simp only [Field.compare] <;> try simp
  · rename_i x y
    rcases Int.lt_trichotomy x y with h | h | h
    · have h1 : ¬ y < x := by omega
      simp [h, h1]
    · subst h; simp
    · have h1 : ¬ x < y := by omega
      simp [h, h1]
  · exact compareBytes_antisymm _ _

theorem Field.compare_eq_zero (a b : Field) (h : Field.compare a b 1 = 0) : a = b := by
  cases a <;> cases b <;> simp only [Field.compare] at h <;> try simp at h
  · rfl
  · rename_i x y
    rcases Int.lt_trichotomy x y with hxy | hxy | hxy
    · simp [hxy] at h
    · rw [hxy]
    · have h1 : ¬ x < y := by omega
      simp [hxy, h1] at h
  · rename_i x y
    rw [String.data_map_toNat_injective x y (compareBytes_eq_zero _ _ h)]

theorem Field.compare_self (a : Field) : Field.compare a a 1 = 0 := by
  have := Field.compare_antisymm a a
  omega

theorem Field.compare_trans (a b c : Field) (hab : Field.compare a b 1 ≤ 0)
    (hbc : Field.compare b c 1 ≤ 0) : Field.compare a c 1 ≤ 0 := by
  cases a <;> cases b <;> cases c <;> simp only [Field.compare] at hab hbc ⊢ <;>
    try simp at hab hbc ⊢
  · rename_i x y z
    rcases Int.lt_trichotomy x y with hxy | hxy | hxy
    · rcases Int.lt_trichotomy y z with hyz | hyz | hyz
      · have : x < z := by omega
        simp [this]
      · subst hyz; simp [hxy]
      · have h1 : ¬ y < z := by omega
        simp [hyz, h1] at hbc
    · subst hxy
      rcases Int.lt_trichotomy x z with hxz | hxz | hxz
      · simp [hxz]
      · subst hxz; simp
      · have h1 : ¬ x < z := by omega
        simp [hxz, h1] at hbc
    · have h1 : ¬ x < y := by omega
      simp [hxy, h1] at hab
  · exact compareBytes_trans _ _ _ hab hbc


/-! ## The order of the endpoints and of the tuples -/

theorem FieldRef.endpoint_compare_antisymm (x y : FieldRef) :
    FieldRef.compare y x = - FieldRef.compare x y := by
  cases x <;> cases y <;> simp only [FieldRef.compare, FieldRef.toField] <;>
    first
      | rfl
      | exact Field.compare_antisymm _ _

theorem FieldRef.endpoint_compare_trans (x y z : FieldRef) (hxy : FieldRef.compare x y ≤ 0)
    (hyz : FieldRef.compare y z ≤ 0) : FieldRef.compare x z ≤ 0 := by
  cases x <;> cases y <;> cases z <;> simp only [FieldRef.compare, FieldRef.toField] at * <;>
    first
      | omega
      | exact Field.compare_trans _ _ _ hxy hyz

theorem FieldRef.compare_value (a b : Field) :
    FieldRef.compare (FieldRef.value a) (FieldRef.value b) = Field.compare a b 1 := rfl

theorem FieldRef.endpoint_compare_self (x : FieldRef) : FieldRef.compare x x = 0 := by
  have := FieldRef.endpoint_compare_antisymm x x
  omega

theorem FieldRef.lt_of_lt_of_le (x y z : FieldRef) (hxy : FieldRef.compare x y < 0)
    (hyz : FieldRef.compare y z ≤ 0) : FieldRef.compare x z < 0 := by
  have h1 := FieldRef.endpoint_compare_trans x y z (by omega) hyz
  by_contra hne
  have h0 : FieldRef.compare x z = 0 := by omega
  have hzx : FieldRef.compare z x ≤ 0 := by
    rw [FieldRef.endpoint_compare_antisymm x z]; omega
  have hyx := FieldRef.endpoint_compare_trans y z x hyz hzx
  rw [FieldRef.endpoint_compare_antisymm x y] at hyx
  omega

theorem FieldRef.lt_of_le_of_lt (x y z : FieldRef) (hxy : FieldRef.compare x y ≤ 0)
    (hyz : FieldRef.compare y z < 0) : FieldRef.compare x z < 0 := by
  have h1 := FieldRef.endpoint_compare_trans x y z hxy (by omega)
  by_contra hne
  have h0 : FieldRef.compare x z = 0 := by omega
  have hzx : FieldRef.compare z x ≤ 0 := by
    rw [FieldRef.endpoint_compare_antisymm x z]; omega
  have hzy := FieldRef.endpoint_compare_trans z x y hzx hxy
  rw [FieldRef.endpoint_compare_antisymm y z] at hzy
  omega

theorem compareTuples_cons (a b : Field) (as bs : List Field) :
    compareTuples (a :: as) (b :: bs)
      = if Field.compare a b 1 ≠ 0 then Field.compare a b 1 else compareTuples as bs := rfl

theorem lessPoint_cons (a : Field) (x : FieldRef) (as : List Field) (xs : List FieldRef) :
    lessPoint (a :: as) (x :: xs)
      = if FieldRef.compare (FieldRef.value a) x ≠ 0 then
          decide (FieldRef.compare (FieldRef.value a) x < 0)
        else lessPoint as xs := rfl

theorem equalsPoint_cons (a : Field) (x : FieldRef) (as : List Field) (xs : List FieldRef) :
    equalsPoint (a :: as) (x :: xs)
      = if FieldRef.compare (FieldRef.value a) x ≠ 0 then false else equalsPoint as xs := rfl

theorem compareTuples_self (a : List Field) : compareTuples a a = 0 := by
  induction a with
  | nil => rfl
  | cons x xs ih => rw [compareTuples_cons, Field.compare_self]; simpa using ih

theorem compareTuples_antisymm (a : List Field) :
    ∀ b, compareTuples b a = - compareTuples a b := by
  induction a with
  | nil => intro b; cases b <;> simp [compareTuples]
  | cons x xs ih =>
    intro b
    cases b with
    | nil => simp [compareTuples]
    | cons y ys =>
      rw [compareTuples_cons, compareTuples_cons, Field.compare_antisymm x y]
      by_cases h : Field.compare x y 1 = 0
      · simp [h, ih ys]
      · simp [h]

theorem compareTuples_trans (a : List Field) :
    ∀ b c, a.length = b.length → b.length = c.length →
      compareTuples a b ≤ 0 → compareTuples b c ≤ 0 → compareTuples a c ≤ 0 := by
  induction a with
  | nil => intro b c _ _ _ _; cases c <;> simp [compareTuples]
  | cons x xs ih =>
    intro b c h1 h2 hab hbc
    cases b with
    | nil => simp at h1
    | cons y ys =>
      cases c with
      | nil => simp at h2
      | cons z zs =>
        rw [compareTuples_cons] at hab hbc ⊢
        have hl1 : xs.length = ys.length := by simpa using h1
        have hl2 : ys.length = zs.length := by simpa using h2
        by_cases hxy : Field.compare x y 1 = 0
        · have := Field.compare_eq_zero x y hxy
          subst this
          simp only [hxy, ne_eq, not_true_eq_false, if_false] at hab
          by_cases hxz : Field.compare x z 1 = 0
          · simp only [hxz, ne_eq, not_true_eq_false, if_false] at hbc ⊢
            exact ih ys zs hl1 hl2 hab hbc
          · simp only [hxz, ne_eq, not_false_eq_true, if_true] at hbc ⊢
            exact hbc
        · simp only [hxy, ne_eq, not_false_eq_true, if_true] at hab
          have hlt : FieldRef.compare (FieldRef.value x) (FieldRef.value y) < 0 := by
            rw [FieldRef.compare_value]; omega
          by_cases hyz : Field.compare y z 1 = 0
          · have := Field.compare_eq_zero y z hyz
            subst this
            simp only [hxy, ne_eq, not_false_eq_true, if_true]
            exact hab
          · simp only [hyz, ne_eq, not_false_eq_true, if_true] at hbc
            have hle : FieldRef.compare (FieldRef.value y) (FieldRef.value z) ≤ 0 := by
              rw [FieldRef.compare_value]; exact hbc
            have hxz := FieldRef.lt_of_lt_of_le _ _ _ hlt hle
            rw [FieldRef.compare_value] at hxz
            have hne : Field.compare x z 1 ≠ 0 := by omega
            simp only [hne, ne_eq, not_false_eq_true, if_true]
            omega

/-- A tuple at most a tuple that is below a point is below the point. -/
theorem lessPoint_of_le (a : List Field) :
    ∀ (b : List Field) (xs : List FieldRef), a.length = b.length →
      compareTuples a b ≤ 0 → lessPoint b xs = true → lessPoint a xs = true := by
  induction a with
  | nil =>
    intro b xs h1 _ hb
    cases b with
    | nil => exact hb
    | cons y ys => simp at h1
  | cons x as ih =>
    intro b xs h1 hab hb
    cases b with
    | nil => simp at h1
    | cons y ys =>
      cases xs with
      | nil => simp [lessPoint] at hb
      | cons p ps =>
        have hl : as.length = ys.length := by simpa using h1
        rw [compareTuples_cons] at hab
        rw [lessPoint_cons] at hb ⊢
        by_cases hxy : Field.compare x y 1 = 0
        · have := Field.compare_eq_zero x y hxy
          subst this
          simp only [hxy, ne_eq, not_true_eq_false, if_false] at hab
          by_cases hp : FieldRef.compare (FieldRef.value x) p = 0
          · simp only [hp, ne_eq, not_true_eq_false, if_false] at hb ⊢
            exact ih ys ps hl hab hb
          · simp only [hp, ne_eq, not_false_eq_true, if_true] at hb ⊢
            exact hb
        · simp only [hxy, ne_eq, not_false_eq_true, if_true] at hab
          have hlt : FieldRef.compare (FieldRef.value x) (FieldRef.value y) < 0 := by
            rw [FieldRef.compare_value]; omega
          have hyp : FieldRef.compare (FieldRef.value y) p ≤ 0 := by
            by_cases hp : FieldRef.compare (FieldRef.value y) p = 0
            · omega
            · simp only [hp, ne_eq, not_false_eq_true, if_true, decide_eq_true_eq] at hb
              omega
          have hxp := FieldRef.lt_of_lt_of_le _ _ _ hlt hyp
          have hne : FieldRef.compare (FieldRef.value x) p ≠ 0 := by omega
          simp only [hne, ne_eq, not_false_eq_true, if_true, decide_eq_true_eq]
          exact hxp

/-- A tuple that equals a point is not below it. -/
theorem not_lessPoint_of_equalsPoint (a : List Field) :
    ∀ (xs : List FieldRef), equalsPoint a xs = true → lessPoint a xs = false := by
  induction a with
  | nil => intro xs _; cases xs <;> rfl
  | cons x as ih =>
    intro xs h
    cases xs with
    | nil => rfl
    | cons p ps =>
      rw [equalsPoint_cons] at h
      rw [lessPoint_cons]
      by_cases hp : FieldRef.compare (FieldRef.value x) p = 0
      · simp only [hp, ne_eq, not_true_eq_false, if_false] at h ⊢
        exact ih ps h
      · simp [hp] at h

/-- A tuple that is at most a tuple equal to a point, and not below the point, equals
the point. -/
theorem equalsPoint_of_le (a : List Field) :
    ∀ (b : List Field) (xs : List FieldRef), a.length = b.length →
      compareTuples a b ≤ 0 → lessPoint a xs = false → equalsPoint b xs = true →
      equalsPoint a xs = true := by
  induction a with
  | nil => intro b xs _ _ _ _; cases xs <;> rfl
  | cons x as ih =>
    intro b xs h1 hab ha hb
    cases b with
    | nil => simp at h1
    | cons y ys =>
      cases xs with
      | nil => rfl
      | cons p ps =>
        have hl : as.length = ys.length := by simpa using h1
        rw [compareTuples_cons] at hab
        rw [lessPoint_cons] at ha
        rw [equalsPoint_cons] at hb ⊢
        have hyp : FieldRef.compare (FieldRef.value y) p = 0 := by
          by_contra hne
          simp [hne] at hb
        simp only [hyp, ne_eq, not_true_eq_false, if_false] at hb
        by_cases hxy : Field.compare x y 1 = 0
        · have := Field.compare_eq_zero x y hxy
          subst this
          simp only [hxy, ne_eq, not_true_eq_false, if_false] at hab
          simp only [hyp, ne_eq, not_true_eq_false, if_false] at ha ⊢
          exact ih ys ps hl hab ha hb
        · simp only [hxy, ne_eq, not_false_eq_true, if_true] at hab
          have hlt : FieldRef.compare (FieldRef.value x) (FieldRef.value y) < 0 := by
            rw [FieldRef.compare_value]; omega
          have hxp := FieldRef.lt_of_lt_of_le _ _ _ hlt (by omega : FieldRef.compare
            (FieldRef.value y) p ≤ 0)
          have hne : FieldRef.compare (FieldRef.value x) p ≠ 0 := by omega
          simp only [hne, ne_eq, not_false_eq_true, if_true, decide_eq_false_iff_not] at ha
          omega


/-! ## `std::lower_bound` -/

/-- The binary search over a range whose indices below some point satisfy `comp` and
whose other indices do not: it returns that point. -/
theorem MergeTreeSetIndex.lowerBoundLoop_spec (comp : Nat → Bool) (n : Nat)
    (hmono : ∀ a b, a ≤ b → b < n → comp b = true → comp a = true) :
    ∀ fuel first len, len ≤ fuel → first + len ≤ n →
      (∀ i, i < first → comp i = true) →
      (∀ i, first + len ≤ i → i < n → comp i = false) →
      MergeTreeSetIndex.lowerBoundLoop comp fuel first len ≤ n ∧
        (∀ i, i < MergeTreeSetIndex.lowerBoundLoop comp fuel first len → comp i = true) ∧
        (∀ i, MergeTreeSetIndex.lowerBoundLoop comp fuel first len ≤ i → i < n →
          comp i = false) := by
  intro fuel
  induction fuel with
  | zero =>
    intro first len hlen hn hlow hhigh
    have h0 : len = 0 := by omega
    subst h0
    simp only [MergeTreeSetIndex.lowerBoundLoop]
    exact ⟨by omega, hlow, fun i hi hin => hhigh i (by omega) hin⟩
  | succ fuel ih =>
    intro first len hlen hn hlow hhigh
    simp only [MergeTreeSetIndex.lowerBoundLoop]
    by_cases h0 : len = 0
    · subst h0
      simp only [if_true]
      exact ⟨by omega, hlow, fun i hi hin => hhigh i (by omega) hin⟩
    · simp only [h0, if_false]
      have hhalf : len / 2 < len := Nat.div_lt_self (by omega) (by omega)
      by_cases hc : comp (first + len / 2) = true
      · simp only [hc, if_true]
        apply ih
        · omega
        · omega
        · intro i hi
          exact hmono i (first + len / 2) (by omega) (by omega) hc
        · intro i hi hin
          exact hhigh i (by omega) hin
      · simp only [hc, Bool.false_eq_true, if_false]
        apply ih
        · omega
        · omega
        · exact hlow
        · intro i hi hin
          by_contra hne
          have hci : comp i = true := by simpa using hne
          exact hc (hmono (first + len / 2) i hi hin hci)

theorem MergeTreeSetIndex.lower_bound_spec (comp : Nat → Bool) (n : Nat)
    (hmono : ∀ a b, a ≤ b → b < n → comp b = true → comp a = true) :
    MergeTreeSetIndex.lower_bound comp n ≤ n ∧
      (∀ i, i < MergeTreeSetIndex.lower_bound comp n → comp i = true) ∧
      (∀ i, MergeTreeSetIndex.lower_bound comp n ≤ i → i < n → comp i = false) := by
  unfold MergeTreeSetIndex.lower_bound
  apply MergeTreeSetIndex.lowerBoundLoop_spec comp n hmono n 0 n (Nat.le_refl _) (by omega)
  · intro i hi; omega
  · intro i hi hin; omega

/-! ## The lambdas of `checkInRange`, on tuples and endpoints -/

theorem MergeTreeSetIndex.compare_eq (lhs : Column) (rhs : FieldValue) (row : Nat) :
    MergeTreeSetIndex.compare lhs rhs row
      = FieldRef.compare (FieldRef.value (lhs.get row)) rhs.toRef := by
  unfold MergeTreeSetIndex.compare FieldValue.toRef
  by_cases h1 : rhs.isNegativeInfinity = true
  · simp only [h1, if_true]
    rfl
  · simp only [h1, Bool.false_eq_true, if_false]
    by_cases h2 : rhs.isPositiveInfinity = true
    · simp only [h2, if_true]
      cases hcell : lhs.get row <;> simp [FieldRef.compare, FieldRef.toField, Field.compare]
    · simp only [h2, Bool.false_eq_true, if_false]
      rfl

theorem MergeTreeSetIndex.less_eq (cols : List Column) :
    ∀ (ps : List FieldValue) (row : Nat),
      MergeTreeSetIndex.less cols ps row
        = lessPoint (SetVariants.keyAt cols row) (ps.map FieldValue.toRef) := by
  induction cols with
  | nil => intro ps row; cases ps <;> rfl
  | cons c cs ih =>
    intro ps row
    cases ps with
    | nil => rfl
    | cons p ps =>
      simp only [MergeTreeSetIndex.less, SetVariants.keyAt_cons, List.map_cons, lessPoint_cons,
        MergeTreeSetIndex.compare_eq, ih ps row]

theorem MergeTreeSetIndex.equals_eq (cols : List Column) :
    ∀ (ps : List FieldValue) (row : Nat),
      MergeTreeSetIndex.equals cols ps row
        = equalsPoint (SetVariants.keyAt cols row) (ps.map FieldValue.toRef) := by
  induction cols with
  | nil => intro ps row; cases ps <;> rfl
  | cons c cs ih =>
    intro ps row
    cases ps with
    | nil => rfl
    | cons p ps =>
      simp only [MergeTreeSetIndex.equals, SetVariants.keyAt_cons, List.map_cons,
        equalsPoint_cons, MergeTreeSetIndex.compare_eq, ih ps row]

theorem compareRows_eq (cols : List Column) (a b : Nat) :
    compareRows cols a b
      = compareTuples (SetVariants.keyAt cols a) (SetVariants.keyAt cols b) := by
  induction cols with
  | nil => rfl
  | cons c cs ih =>
    simp only [compareRows, SetVariants.keyAt_cons, compareTuples_cons, Column.compareAt, ih]


/-! ## The points of `checkInRange` -/

theorem Column.size_cloneEmpty (c : Column) : c.cloneEmpty.size = 0 := by
  induction c with
  | nullable n m ih => simpa [Column.cloneEmpty, Column.size] using ih
  | _ => simp [Column.cloneEmpty, Column.size]

theorem Column.get_insertDefault_nullable (n : Column) :
    (Column.nullable n.insertDefault [1]).get 0 = Field.Null := by
  simp [Column.get]

/-- The one row of a column after a value went into an empty column of its class is
that value. -/
theorem Column.get_insert_cloneEmpty (c : Column) :
    ∀ (f : Field) (col : Column), c.cloneEmpty.insert f = .ok col → col.get 0 = f := by
  induction c with
  | vector t d =>
    intro f col h
    cases f <;> simp [Column.cloneEmpty, Column.insert] at h
    subst h
    simp [Column.get]
  | string d =>
    intro f col h
    cases f <;> simp [Column.cloneEmpty, Column.insert] at h
    subst h
    simp [Column.get]
  | nullable n m ih =>
    intro f col h
    cases f with
    | Null =>
      simp only [Column.cloneEmpty, Column.insert, List.nil_append, Except.ok.injEq] at h
      subst h
      simp [Column.get]
    | Int64 v =>
      simp only [Column.cloneEmpty, Column.insert, List.nil_append] at h
      cases hn : n.cloneEmpty.insert (Field.Int64 v) with
      | error e => rw [hn] at h; simp at h
      | ok n1 =>
        rw [hn] at h
        simp only [Except.ok.injEq] at h
        subst h
        simp [Column.get, ih _ _ hn]
    | String v =>
      simp only [Column.cloneEmpty, Column.insert, List.nil_append] at h
      cases hn : n.cloneEmpty.insert (Field.String v) with
      | error e => rw [hn] at h; simp at h
      | ok n1 =>
        rw [hn] at h
        simp only [Except.ok.injEq] at h
        subst h
        simp [Column.get, ih _ _ hn]
  | const d s _ =>
    intro f col h
    cases f <;> simp [Column.cloneEmpty, Column.insert] at h
  | lowCardinality dict idx _ =>
    intro f col h
    cases f <;> simp [Column.cloneEmpty, Column.insert] at h

/-- The `FieldValue` of an axis after `update`: it holds the endpoint it was given. -/
theorem FieldValue.update_cloneEmpty (c : Column) (x : FieldRef)
    (h : c.accepts x = true) :
    ∃ p, (FieldValue.create c.cloneEmpty).update x = .ok p ∧ p.toRef = x := by
  cases x with
  | NegativeInfinity => exact ⟨_, rfl, rfl⟩
  | PositiveInfinity => exact ⟨_, rfl, rfl⟩
  | value f =>
    simp only [Column.accepts] at h
    cases hins : c.cloneEmpty.insert f with
    | error e => rw [hins] at h; simp at h
    | ok col =>
      refine ⟨{ value := FieldRef.value Field.Null, column := col }, ?_, ?_⟩
      · simp only [FieldValue.update, FieldValue.create, Column.empty, Column.size_cloneEmpty,
          decide_True, Bool.not_true, Bool.false_eq_true, if_false, hins]
      · simp only [FieldValue.toRef, FieldValue.isNegativeInfinity, FieldValue.isPositiveInfinity,
          FieldRef.isNegativeInfinity, FieldRef.isPositiveInfinity, Bool.false_eq_true, if_false]
        rw [Column.get_insert_cloneEmpty c f col hins]

/-- The first loops of `checkInRange` when no entry has a chain of functions and the
ends of the ranges are of the classes of the columns: the points hold the ends of the
ranges of the axes, and an end of the point is included when every axis includes it. -/
theorem MergeTreeSetIndex.checkInRangePoints_ok
    (apply : Range → MonotonicFunctionsChain → DataType → Bool → Option Range)
    (hid : ChainIdentity apply) (key_ranges : List Range) (data_types : List DataType)
    (single_point : Bool) :
    ∀ (ms : List KeyTuplePositionMapping) (cs : List Column) (lp rp : List FieldValue)
      (li ri : Bool),
      (∀ m ∈ ms, m.functions = [] ∧ m.key_index < key_ranges.length ∧
        m.key_index < data_types.length) →
      List.Forall₂ (fun (c : Column) (range : Range) =>
          c.accepts range.left = true ∧ c.accepts range.right = true)
        cs (ms.filterMap fun m => key_ranges[m.key_index]?) →
      ∃ lp1 rp1,
        MergeTreeSetIndex.checkInRangePoints apply key_ranges data_types single_point ms cs
            lp rp li ri
          = .ok (some (lp ++ lp1, rp ++ rp1,
              li && (ms.filterMap fun m => key_ranges[m.key_index]?).all
                (fun r => r.left_included),
              ri && (ms.filterMap fun m => key_ranges[m.key_index]?).all
                (fun r => r.right_included))) ∧
        lp1.map FieldValue.toRef
          = (ms.filterMap fun m => key_ranges[m.key_index]?).map (fun r => r.left) ∧
        rp1.map FieldValue.toRef
          = (ms.filterMap fun m => key_ranges[m.key_index]?).map (fun r => r.right) := by
  intro ms
  induction ms with
  | nil =>
    intro cs lp rp li ri _ hty
    simp only [List.filterMap_nil, List.forall₂_nil_right_iff] at hty
    subst hty
    exact ⟨[], [], by simp [MergeTreeSetIndex.checkInRangePoints], rfl, rfl⟩
  | cons m ms ih =>
    intro cs lp rp li ri hms hty
    obtain ⟨hfun, hk1, hk2⟩ := hms m (List.mem_cons_self _ _)
    have hr : key_ranges[m.key_index]? = some key_ranges[m.key_index] :=
      List.getElem?_eq_getElem hk1
    have hd : data_types[m.key_index]? = some data_types[m.key_index] :=
      List.getElem?_eq_getElem hk2
    have hfm : (List.filterMap (fun m => key_ranges[m.key_index]?) (m :: ms))
        = key_ranges[m.key_index]
          :: List.filterMap (fun m => key_ranges[m.key_index]?) ms := by
      rw [List.filterMap_cons, hr]
    rw [hfm] at hty ⊢
    cases cs with
    | nil => simp at hty
    | cons c cs =>
      rw [List.forall₂_cons] at hty
      obtain ⟨⟨hal, har⟩, hrest⟩ := hty
      obtain ⟨pl, hpl, hplref⟩ := FieldValue.update_cloneEmpty c _ hal
      obtain ⟨pr, hpr, hprref⟩ := FieldValue.update_cloneEmpty c _ har
      obtain ⟨lp1, rp1, heq, hl, hrr⟩ := ih cs (lp ++ [pl]) (rp ++ [pr])
        (li && key_ranges[m.key_index].left_included)
        (ri && key_ranges[m.key_index].right_included)
        (fun m1 hm1 => hms m1 (List.mem_cons_of_mem _ hm1)) hrest
      refine ⟨pl :: lp1, pr :: rp1, ?_, ?_, ?_⟩
      · simp only [MergeTreeSetIndex.checkInRangePoints, hr, hd, hfun,
          hid key_ranges[m.key_index] data_types[m.key_index] single_point, hpl, hpr]
        rw [heq]
        simp [Bool.and_assoc]
      · simp [hl, hplref]
      · simp [hrr, hprref]

/-- When `one_element_range` holds for two points of the same length, they hold the same
endpoints. -/
theorem MergeTreeSetIndex.oneElementRange_eq (lp : List FieldValue) :
    ∀ (rp : List FieldValue), lp.length = rp.length →
      MergeTreeSetIndex.oneElementRange lp rp = true →
      lp.map FieldValue.toRef = rp.map FieldValue.toRef := by
  induction lp with
  | nil =>
    intro rp hlen _
    cases rp with
    | nil => rfl
    | cons r rs => simp at hlen
  | cons l ls ih =>
    intro rp hlen h
    cases rp with
    | nil => simp at hlen
    | cons r rs =>
      have hl : ls.length = rs.length := by simpa using hlen
      simp only [MergeTreeSetIndex.oneElementRange] at h
      simp only [List.map_cons, List.cons.injEq]
      by_cases hn : (l.isNormal && r.isNormal) = true
      · rw [if_pos hn] at h
        by_cases hc : (0 : Int) ≠ l.column.compareAt 0 0 r.column 1
        · rw [if_pos hc] at h
          simp at h
        · rw [if_neg hc] at h
          refine ⟨?_, ih rs hl h⟩
          have hc0 : l.column.compareAt 0 0 r.column 1 = 0 := by
            by_contra hne
            exact hc (fun h0 => hne h0.symm)
          have hcell := Field.compare_eq_zero _ _ hc0
          simp only [FieldValue.isNormal, Bool.and_eq_true, Bool.not_eq_true'] at hn
          simp only [FieldValue.toRef, FieldValue.isNegativeInfinity,
            FieldValue.isPositiveInfinity, hn.1.1, hn.1.2, hn.2.1, hn.2.2, Bool.false_eq_true,
            if_false, hcell]
      · rw [if_neg hn] at h
        by_cases hinf : ((l.isPositiveInfinity && r.isPositiveInfinity) ||
            (l.isNegativeInfinity && r.isNegativeInfinity)) = true
        · rw [if_pos hinf] at h
          refine ⟨?_, ih rs hl h⟩
          simp only [Bool.or_eq_true, Bool.and_eq_true] at hinf
          rcases hinf with ⟨h1, h2⟩ | ⟨h1, h2⟩
          · have hl1 : l.isNegativeInfinity = false := by
              simp only [FieldValue.isPositiveInfinity, FieldValue.isNegativeInfinity] at h1 ⊢
              cases hv : l.value <;> simp_all [FieldRef.isPositiveInfinity,
                FieldRef.isNegativeInfinity]
            have hr1 : r.isNegativeInfinity = false := by
              simp only [FieldValue.isPositiveInfinity, FieldValue.isNegativeInfinity] at h2 ⊢
              cases hv : r.value <;> simp_all [FieldRef.isPositiveInfinity,
                FieldRef.isNegativeInfinity]
            simp [FieldValue.toRef, h1, h2, hl1, hr1]
          · simp [FieldValue.toRef, h1, h2]
        · rw [if_neg hinf] at h
          simp at h


/-! ## Tuples in a hyperrectangle -/

/-- A tuple in the hyperrectangle is not below the left point. -/
theorem lessPoint_left_of_holds (t : List Field) (axes : List Range)
    (h : List.Forall₂ (fun cell (range : Range) => range.holds cell) t axes) :
    lessPoint t (axes.map fun r => r.left) = false := by
  induction h with
  | nil => rfl
  | @cons a r as rs hc _ ih =>
    rw [List.map_cons, lessPoint_cons]
    rcases hc.1 with hpos | ⟨_, h0⟩
    · have hne : FieldRef.compare (FieldRef.value a) r.left ≠ 0 := by omega
      simp only [hne, ne_eq, not_false_eq_true, if_true, decide_eq_false_iff_not]
      omega
    · simp only [h0, ne_eq, not_true_eq_false, if_false]
      exact ih

/-- A tuple in the hyperrectangle is below the right point, or equals it and then every
axis includes its right end. -/
theorem lessPoint_right_of_holds (t : List Field) (axes : List Range)
    (h : List.Forall₂ (fun cell (range : Range) => range.holds cell) t axes) :
    lessPoint t (axes.map fun r => r.right) = true ∨
      (equalsPoint t (axes.map fun r => r.right) = true ∧
        (axes.all fun r => r.right_included) = true) := by
  induction h with
  | nil => exact Or.inr ⟨rfl, rfl⟩
  | @cons a r as rs hc _ ih =>
    rw [List.map_cons, lessPoint_cons, equalsPoint_cons, List.all_cons]
    rcases hc.2 with hneg | ⟨hinc, h0⟩
    · left
      have hne : FieldRef.compare (FieldRef.value a) r.right ≠ 0 := by omega
      simp only [hne, ne_eq, not_false_eq_true, if_true, decide_eq_true_eq]
      exact hneg
    · simp only [h0, ne_eq, not_true_eq_false, if_false, hinc, Bool.true_and]
      exact ih

/-- A tuple in the hyperrectangle that equals the left point: every axis includes its
left end. -/
theorem left_included_of_holds (t : List Field) (axes : List Range)
    (h : List.Forall₂ (fun cell (range : Range) => range.holds cell) t axes)
    (heq : equalsPoint t (axes.map fun r => r.left) = true) :
    (axes.all fun r => r.left_included) = true := by
  induction h with
  | nil => rfl
  | @cons a r as rs hc _ ih =>
    rw [List.map_cons, equalsPoint_cons] at heq
    rw [List.all_cons]
    by_cases h0 : FieldRef.compare (FieldRef.value a) r.left = 0
    · simp only [h0, ne_eq, not_true_eq_false, if_false] at heq
      rcases hc.1 with hpos | ⟨hinc, _⟩
      · omega
      · simp [hinc, ih heq]
    · simp [h0] at heq

/-! ## Tuples and the two points -/

/-- When no left end is above its right end, a tuple below the left point is below the
right point. -/
theorem lessPoint_right_of_left (axes : List Range)
    (hle : ∀ r ∈ axes, FieldRef.compare r.left r.right ≤ 0) :
    ∀ (t : List Field), lessPoint t (axes.map fun r => r.left) = true →
      lessPoint t (axes.map fun r => r.right) = true := by
  induction axes with
  | nil => intro t h; cases t <;> simp [lessPoint] at h
  | cons r rs ih =>
    intro t h
    cases t with
    | nil => simp [lessPoint] at h
    | cons a as =>
      have hr := hle r (List.mem_cons_self _ _)
      rw [List.map_cons, lessPoint_cons] at h ⊢
      by_cases h0 : FieldRef.compare (FieldRef.value a) r.left = 0
      · simp only [h0, ne_eq, not_true_eq_false, if_false] at h
        have hle1 := FieldRef.endpoint_compare_trans (FieldRef.value a) r.left r.right (by omega) hr
        by_cases h1 : FieldRef.compare (FieldRef.value a) r.right = 0
        · simp only [h1, ne_eq, not_true_eq_false, if_false]
          exact ih (fun r1 hr1 => hle r1 (List.mem_cons_of_mem _ hr1)) as h
        · simp only [h1, ne_eq, not_false_eq_true, if_true, decide_eq_true_eq]
          omega
      · simp only [h0, ne_eq, not_false_eq_true, if_true, decide_eq_true_eq] at h
        have hlt := FieldRef.lt_of_lt_of_le _ _ _ h hr
        have hne : FieldRef.compare (FieldRef.value a) r.right ≠ 0 := by omega
        simp only [hne, ne_eq, not_false_eq_true, if_true, decide_eq_true_eq]
        exact hlt

/-- A tuple that equals both points of proper ranges: every axis includes its left
end. -/
theorem left_included_of_equals_both (axes : List Range) (hproper : ∀ r ∈ axes, r.proper) :
    ∀ (t : List Field), t.length = axes.length →
      equalsPoint t (axes.map fun r => r.left) = true →
      equalsPoint t (axes.map fun r => r.right) = true →
      (axes.all fun r => r.left_included) = true := by
  induction axes with
  | nil => intro t _ _ _; rfl
  | cons r rs ih =>
    intro t hlen hl hr
    cases t with
    | nil => simp at hlen
    | cons a as =>
      have hlen1 : as.length = rs.length := by simpa using hlen
      rw [List.map_cons, equalsPoint_cons] at hl hr
      rw [List.all_cons]
      by_cases h0 : FieldRef.compare (FieldRef.value a) r.left = 0
      · by_cases h1 : FieldRef.compare (FieldRef.value a) r.right = 0
        · simp only [h0, h1, ne_eq, not_true_eq_false, if_false] at hl hr
          have hrest := ih (fun r1 hr1 => hproper r1 (List.mem_cons_of_mem _ hr1)) as hlen1 hl hr
          have hla : FieldRef.compare r.left (FieldRef.value a) ≤ 0 := by
            rw [FieldRef.endpoint_compare_antisymm (FieldRef.value a) r.left]; omega
          have hra : FieldRef.compare r.right (FieldRef.value a) ≤ 0 := by
            rw [FieldRef.endpoint_compare_antisymm (FieldRef.value a) r.right]; omega
          have hrl := FieldRef.endpoint_compare_trans r.right (FieldRef.value a) r.left hra (by omega)
          rw [FieldRef.endpoint_compare_antisymm r.left r.right] at hrl
          rcases hproper r (List.mem_cons_self _ _) with hlt | ⟨_, hinc, _⟩
          · omega
          · simp [hinc, hrest]
        · simp [h1] at hr
      · simp [h0] at hl

/-- Two tuples that equal one point, cell by cell, compare equal. -/
theorem compareTuples_of_equalsPoint (xs : List FieldRef) :
    ∀ (a b : List Field), a.length = xs.length → b.length = xs.length →
      equalsPoint a xs = true → equalsPoint b xs = true → compareTuples a b = 0 := by
  induction xs with
  | nil =>
    intro a b ha hb _ _
    cases a with
    | nil => rfl
    | cons _ _ => simp at ha
  | cons x xs ih =>
    intro a b ha hb hea heb
    cases a with
    | nil => simp at ha
    | cons a0 as =>
      cases b with
      | nil => simp at hb
      | cons b0 bs =>
        rw [equalsPoint_cons] at hea heb
        rw [compareTuples_cons]
        by_cases h0 : FieldRef.compare (FieldRef.value a0) x = 0
        · by_cases h1 : FieldRef.compare (FieldRef.value b0) x = 0
          · simp only [h0, h1, ne_eq, not_true_eq_false, if_false] at hea heb
            have hxb : FieldRef.compare x (FieldRef.value b0) ≤ 0 := by
              rw [FieldRef.endpoint_compare_antisymm (FieldRef.value b0) x]; omega
            have hxa : FieldRef.compare x (FieldRef.value a0) ≤ 0 := by
              rw [FieldRef.endpoint_compare_antisymm (FieldRef.value a0) x]; omega
            have hab := FieldRef.endpoint_compare_trans (FieldRef.value a0) x (FieldRef.value b0)
              (by omega) hxb
            have hba := FieldRef.endpoint_compare_trans (FieldRef.value b0) x (FieldRef.value a0)
              (by omega) hxa
            rw [FieldRef.endpoint_compare_antisymm (FieldRef.value a0) (FieldRef.value b0)] at hba
            rw [FieldRef.compare_value] at hab hba
            have hz : Field.compare a0 b0 1 = 0 := by omega
            simp only [hz, ne_eq, not_true_eq_false, if_false]
            exact ih as bs (by simpa using ha) (by simpa using hb) hea heb
          · simp [h1] at heb
        · simp [h0] at hea

/-! ## Sorted ordered columns -/

theorem MergeTreeSetIndex.length_tuple (index : MergeTreeSetIndex) (row : Nat) :
    (index.tuple row).length = index.ordered_set.length := by
  simp [MergeTreeSetIndex.tuple, SetVariants.keyAt]

/-- In sorted ordered columns every row is at most every later row. -/
theorem MergeTreeSetIndex.Sorted.le (index : MergeTreeSetIndex) (h : index.Sorted) :
    ∀ a b, a ≤ b → b < index.rows →
      compareTuples (index.tuple a) (index.tuple b) ≤ 0 := by
  intro a b hab
  induction b with
  | zero =>
    intro _
    have : a = 0 := by omega
    subst this
    rw [compareTuples_self]
  | succ b ih =>
    intro hb
    by_cases heq : a = b + 1
    · subst heq
      rw [compareTuples_self]
    · have h1 := ih (by omega) (by omega)
      exact compareTuples_trans _ _ _ (by simp [MergeTreeSetIndex.length_tuple])
        (by simp [MergeTreeSetIndex.length_tuple]) h1 (h b hb)

theorem MergeTreeSetIndex.StrictlySorted.sorted (index : MergeTreeSetIndex)
    (h : index.StrictlySorted) : index.Sorted :=
  fun row hrow => Int.le_of_lt (h row hrow)


/-! ## The two lower bounds of `checkInRange` -/

/-- The lower bound of a point over sorted ordered columns: the rows before it are below
the point, the rows from it on are not. -/
theorem MergeTreeSetIndex.lower_bound_less (index : MergeTreeSetIndex) (hsorted : index.Sorted)
    (xs : List FieldValue) :
    MergeTreeSetIndex.lower_bound (MergeTreeSetIndex.less index.ordered_set xs) index.rows
        ≤ index.rows ∧
      (∀ i, i < MergeTreeSetIndex.lower_bound (MergeTreeSetIndex.less index.ordered_set xs)
          index.rows →
        lessPoint (index.tuple i) (xs.map FieldValue.toRef) = true) ∧
      (∀ i, MergeTreeSetIndex.lower_bound (MergeTreeSetIndex.less index.ordered_set xs)
          index.rows ≤ i → i < index.rows →
        lessPoint (index.tuple i) (xs.map FieldValue.toRef) = false) := by
  have hmono : ∀ a b, a ≤ b → b < index.rows →
      MergeTreeSetIndex.less index.ordered_set xs b = true →
      MergeTreeSetIndex.less index.ordered_set xs a = true := by
    intro a b hab hb hless
    rw [MergeTreeSetIndex.less_eq] at hless ⊢
    exact lessPoint_of_le _ _ _ (by simp [SetVariants.keyAt, MergeTreeSetIndex.tuple])
      (MergeTreeSetIndex.Sorted.le index hsorted a b hab hb) hless
  obtain ⟨h1, h2, h3⟩ := MergeTreeSetIndex.lower_bound_spec
    (MergeTreeSetIndex.less index.ordered_set xs) index.rows hmono
  refine ⟨h1, ?_, ?_⟩
  · intro i hi
    have := h2 i hi
    rwa [MergeTreeSetIndex.less_eq] at this
  · intro i hi hin
    have := h3 i hi hin
    rwa [MergeTreeSetIndex.less_eq] at this

/-- A row of sorted ordered columns that is not below a point is not before the lower
bound of the point. -/
theorem MergeTreeSetIndex.lower_bound_le_of_not_less (index : MergeTreeSetIndex)
    (hsorted : index.Sorted) (xs : List FieldValue) (row : Nat)
    (h : lessPoint (index.tuple row) (xs.map FieldValue.toRef) = false) :
    MergeTreeSetIndex.lower_bound (MergeTreeSetIndex.less index.ordered_set xs) index.rows
      ≤ row := by
  by_contra hlt
  have := (MergeTreeSetIndex.lower_bound_less index hsorted xs).2.1 row (by omega)
  rw [h] at this
  simp at this

/-- When a row of sorted ordered columns equals a point, the row at the lower bound of
the point equals it too. -/
theorem MergeTreeSetIndex.equals_lower_bound (index : MergeTreeSetIndex)
    (hsorted : index.Sorted) (xs : List FieldValue) (row : Nat) (hrow : row < index.rows)
    (h : equalsPoint (index.tuple row) (xs.map FieldValue.toRef) = true) :
    MergeTreeSetIndex.lower_bound (MergeTreeSetIndex.less index.ordered_set xs) index.rows
        ≠ index.rows ∧
      MergeTreeSetIndex.equals index.ordered_set xs
        (MergeTreeSetIndex.lower_bound (MergeTreeSetIndex.less index.ordered_set xs)
          index.rows) = true := by
  have hnl := not_lessPoint_of_equalsPoint _ _ h
  have hle := MergeTreeSetIndex.lower_bound_le_of_not_less index hsorted xs row hnl
  refine ⟨by omega, ?_⟩
  rw [MergeTreeSetIndex.equals_eq]
  exact equalsPoint_of_le _ _ _ (by simp [SetVariants.keyAt, MergeTreeSetIndex.tuple])
    (MergeTreeSetIndex.Sorted.le index hsorted _ row hle hrow)
    ((MergeTreeSetIndex.lower_bound_less index hsorted xs).2.2 _ (Nat.le_refl _) (by omega)) h

/-! ## The decision of `checkInRange` never misses a row of the hyperrectangle -/

theorem MergeTreeSetIndex.checkInRangeDecide_sound (index : MergeTreeSetIndex)
    (hsorted : index.Sorted) (lp rp : List FieldValue) (li ri : Bool) (axes : List Range)
    (hl : lp.map FieldValue.toRef = axes.map fun r => r.left)
    (hr : rp.map FieldValue.toRef = axes.map fun r => r.right)
    (hli : li = axes.all fun r => r.left_included)
    (hri : ri = axes.all fun r => r.right_included)
    (row : Nat) (hrow : row < index.rows)
    (hin : List.Forall₂ (fun cell (range : Range) => range.holds cell) (index.tuple row) axes) :
    (index.checkInRangeDecide index.rows lp rp li ri).can_be_true = true := by
  have hnl : lessPoint (index.tuple row) (lp.map FieldValue.toRef) = false := by
    rw [hl]; exact lessPoint_left_of_holds _ _ hin
  have hLrow := MergeTreeSetIndex.lower_bound_le_of_not_less index hsorted lp row hnl
  have hright := lessPoint_right_of_holds _ _ hin
  rw [← hr, ← hri] at hright
  obtain ⟨hRn, hRlow, hRhigh⟩ := MergeTreeSetIndex.lower_bound_less index hsorted rp
  -- the check at the right boundary succeeds when the row equals the right point
  have hcheck : equalsPoint (index.tuple row) (rp.map FieldValue.toRef) = true → ri = true →
      (ri && decide (MergeTreeSetIndex.lower_bound
          (MergeTreeSetIndex.less index.ordered_set rp) index.rows ≠ index.rows) &&
        MergeTreeSetIndex.equals index.ordered_set rp
          (MergeTreeSetIndex.lower_bound (MergeTreeSetIndex.less index.ordered_set rp)
            index.rows)) = true := by
    intro heq hri1
    obtain ⟨h1, h2⟩ := MergeTreeSetIndex.equals_lower_bound index hsorted rp row hrow heq
    simp [hri1, h1, h2]
  have hleft_eq : equalsPoint (index.tuple row) (lp.map FieldValue.toRef) = true → li = true := by
    intro heq
    rw [hl] at heq
    rw [hli]
    exact left_included_of_holds _ _ hin heq
  unfold MergeTreeSetIndex.checkInRangeDecide
  simp only
  by_cases hone : (MergeTreeSetIndex.oneElementRange lp rp && index.has_all_keys) = true
  · rw [if_pos hone]
    simp only [Bool.and_eq_true] at hone
    have hlen : lp.length = rp.length := by
      have h1 := congrArg List.length hl
      have h2 := congrArg List.length hr
      simp only [List.length_map] at h1 h2
      omega
    have hsame := MergeTreeSetIndex.oneElementRange_eq lp rp hlen hone.1
    have heqr : equalsPoint (index.tuple row) (rp.map FieldValue.toRef) = true ∧ ri = true := by
      rcases hright with hless | h
      · rw [← hsame, hnl] at hless
        simp at hless
      · exact h
    have heql : equalsPoint (index.tuple row) (lp.map FieldValue.toRef) = true := by
      rw [hsame]; exact heqr.1
    have hli1 := hleft_eq heql
    obtain ⟨h1, h2⟩ := MergeTreeSetIndex.equals_lower_bound index hsorted lp row hrow heql
    simp [hli1, heqr.2, h1, h2]
  · rw [if_neg hone]
    by_cases hgap : MergeTreeSetIndex.lower_bound
        (MergeTreeSetIndex.less index.ordered_set lp) index.rows + 1
        < MergeTreeSetIndex.lower_bound (MergeTreeSetIndex.less index.ordered_set rp) index.rows
    · rw [if_pos hgap]
    · rw [if_neg hgap]
      by_cases hadj : MergeTreeSetIndex.lower_bound
          (MergeTreeSetIndex.less index.ordered_set lp) index.rows + 1
          = MergeTreeSetIndex.lower_bound (MergeTreeSetIndex.less index.ordered_set rp)
            index.rows
      · rw [if_pos hadj]
        by_cases hleft : (li || !MergeTreeSetIndex.equals index.ordered_set lp
            (MergeTreeSetIndex.lower_bound (MergeTreeSetIndex.less index.ordered_set lp)
              index.rows)) = true
        · rw [if_pos hleft]
        · rw [if_neg hleft]
          simp only [Bool.or_eq_true, Bool.not_eq_true', not_or, Bool.not_eq_true,
            Bool.not_eq_false] at hleft
          rcases hright with hless | h
          · exfalso
            have hlt : row < MergeTreeSetIndex.lower_bound
                (MergeTreeSetIndex.less index.ordered_set rp) index.rows := by
              by_contra hge
              have := hRhigh row (by omega) hrow
              rw [hless] at this
              simp at this
            have hrow_eq : row = MergeTreeSetIndex.lower_bound
                (MergeTreeSetIndex.less index.ordered_set lp) index.rows := by omega
            have heq := hleft.2
            rw [MergeTreeSetIndex.equals_eq, ← hrow_eq] at heq
            have := hleft_eq heq
            rw [hleft.1] at this
            simp at this
          · exact hcheck h.1 h.2
      · rw [if_neg hadj]
        rcases hright with hless | h
        · exfalso
          have hlt : row < MergeTreeSetIndex.lower_bound
              (MergeTreeSetIndex.less index.ordered_set rp) index.rows := by
            by_contra hge
            have := hRhigh row (by omega) hrow
            rw [hless] at this
            simp at this
          omega
        · exact hcheck h.1 h.2


/-! ## `sortBlock` and the constructor of the index -/

theorem Column.size_index (c : Column) (idx : List Nat) : (c.index idx).size = idx.length := by
  induction c with
  | nullable n m ih => simpa [Column.index, Column.size] using ih
  | _ => simp [Column.index, Column.size]

theorem Column.get_index (c : Column) (idx : List Nat) (i : Nat) (hi : i < idx.length) :
    (c.index idx).get i = c.get (idx.getD i 0) := by
  induction c with
  | vector t d =>
    simp [Column.index, Column.get, List.getD_eq_getElem?_getD, List.getElem?_eq_getElem hi]
  | string d =>
    simp [Column.index, Column.get, List.getD_eq_getElem?_getD, List.getElem?_eq_getElem hi]
  | nullable n m ih =>
    simp only [Column.index, Column.get, ih]
    simp [List.getD_eq_getElem?_getD, List.getElem?_eq_getElem hi]
  | const d s _ => simp [Column.index, Column.get]
  | lowCardinality dict ix _ =>
    simp [Column.index, Column.get, List.getD_eq_getElem?_getD, List.getElem?_eq_getElem hi]

theorem SetVariants.keyAt_index (cols : List Column) (idx : List Nat) (i : Nat)
    (hi : i < idx.length) :
    SetVariants.keyAt (cols.map fun c => c.index idx) i
      = SetVariants.keyAt cols (idx.getD i 0) := by
  simp only [SetVariants.keyAt, List.map_map]
  apply List.map_congr_left
  intro c _
  exact Column.get_index c idx i hi

/-- The permutation `sortBlock` applies: the row numbers in ascending order of their
rows. -/
theorem blockRows_sortBlock (cols : List Column) : blockRows (sortBlock cols) = blockRows cols := by
  cases cols with
  | nil => rfl
  | cons c cs =>
    simp only [sortBlock, List.map_cons, blockRows, Column.size_index,
      List.length_insertionSort, List.length_range]

theorem compareRows_total (cols : List Column) (a b : Nat) :
    compareRows cols a b ≤ 0 ∨ compareRows cols b a ≤ 0 := by
  rw [compareRows_eq, compareRows_eq, compareTuples_antisymm (SetVariants.keyAt cols a)]
  omega

theorem compareRows_trans (cols : List Column) (a b c : Nat) (hab : compareRows cols a b ≤ 0)
    (hbc : compareRows cols b c ≤ 0) : compareRows cols a c ≤ 0 := by
  rw [compareRows_eq] at hab hbc ⊢
  exact compareTuples_trans _ _ _ (by simp [SetVariants.keyAt]) (by simp [SetVariants.keyAt])
    hab hbc

/-- The rows of a sorted block are the rows of the block, rearranged. -/
theorem tupleRows_sortBlock (cols : List Column) :
    tupleRows (sortBlock cols)
      = (List.insertionSort (fun a b => compareRows cols a b ≤ 0)
          (List.range (blockRows cols))).map (SetVariants.keyAt cols) := by
  unfold tupleRows
  rw [blockRows_sortBlock]
  apply List.ext_getElem
  · simp [List.length_insertionSort]
  · intro i h1 h2
    simp only [List.length_map, List.length_range] at h1
    have hi : i < (List.insertionSort (fun a b => compareRows cols a b ≤ 0)
        (List.range (blockRows cols))).length := by
      rw [List.length_insertionSort, List.length_range]; exact h1
    rw [List.getElem_map, List.getElem_map, List.getElem_range]
    unfold sortBlock
    rw [SetVariants.keyAt_index cols _ i hi, List.getD_eq_getElem?_getD,
      List.getElem?_eq_getElem hi]
    rfl

theorem perm_tupleRows_sortBlock (cols : List Column) :
    List.Perm (tupleRows (sortBlock cols)) (tupleRows cols) := by
  rw [tupleRows_sortBlock]
  exact List.Perm.map _ (List.perm_insertionSort _ _)

/-- Consecutive rows of a sorted block are in order. -/
theorem compareTuples_sortBlock (cols : List Column) (row : Nat)
    (hrow : row + 1 < blockRows (sortBlock cols)) :
    compareTuples (SetVariants.keyAt (sortBlock cols) row)
      (SetVariants.keyAt (sortBlock cols) (row + 1)) ≤ 0 := by
  rw [blockRows_sortBlock] at hrow
  haveI : IsTotal Nat (fun a b => compareRows cols a b ≤ 0) := ⟨compareRows_total cols⟩
  haveI : IsTrans Nat (fun a b => compareRows cols a b ≤ 0) := ⟨compareRows_trans cols⟩
  have hsorted := List.sorted_insertionSort (fun a b => compareRows cols a b ≤ 0)
    (List.range (blockRows cols))
  have hlen : (List.insertionSort (fun a b => compareRows cols a b ≤ 0)
      (List.range (blockRows cols))).length = blockRows cols := by
    rw [List.length_insertionSort, List.length_range]
  have h1 : row < (List.insertionSort (fun a b => compareRows cols a b ≤ 0)
      (List.range (blockRows cols))).length := by omega
  have h2 : row + 1 < (List.insertionSort (fun a b => compareRows cols a b ≤ 0)
      (List.range (blockRows cols))).length := by omega
  have hrel := List.pairwise_iff_getElem.mp hsorted row (row + 1) h1 h2 (by omega)
  unfold sortBlock
  rw [SetVariants.keyAt_index cols _ row h1, SetVariants.keyAt_index cols _ (row + 1) h2,
    List.getD_eq_getElem?_getD, List.getD_eq_getElem?_getD, List.getElem?_eq_getElem h1,
    List.getElem?_eq_getElem h2, ← compareRows_eq]
  exact hrel

/-- The ordered columns the constructor leaves are sorted. -/
theorem MergeTreeSetIndex.sorted_create (set_elements : List Column)
    (indexes_mapping_ : List KeyTuplePositionMapping) :
    (MergeTreeSetIndex.create set_elements indexes_mapping_).Sorted := by
  intro row hrow
  exact compareTuples_sortBlock _ row hrow

theorem mem_of_mem_uniqueLoop {α : Type} (pred : α → α → Bool) (l : List α) :
    ∀ (kept a : α), a ∈ uniqueLoop pred kept l → a ∈ l := by
  induction l with
  | nil => intro kept a h; simp [uniqueLoop] at h
  | cons b l ih =>
    intro kept a h
    simp only [uniqueLoop] at h
    split at h
    · exact List.mem_cons_of_mem _ (ih kept a h)
    · rcases List.mem_cons.mp h with rfl | h1
      · exact List.mem_cons_self _ _
      · exact List.mem_cons_of_mem _ (ih b a h1)

theorem mem_of_mem_unique {α : Type} (pred : α → α → Bool) (l : List α) (a : α)
    (h : a ∈ unique pred l) : a ∈ l := by
  cases l with
  | nil => simp [unique] at h
  | cons b l =>
    simp only [unique] at h
    rcases List.mem_cons.mp h with rfl | h1
    · exact List.mem_cons_self _ _
    · exact List.mem_cons_of_mem _ (mem_of_mem_uniqueLoop pred l b a h1)

theorem MergeTreeSetIndex.mem_normalizedMapping (indexes_mapping_ : List KeyTuplePositionMapping)
    (m : KeyTuplePositionMapping)
    (h : m ∈ MergeTreeSetIndex.normalizedMapping indexes_mapping_) : m ∈ indexes_mapping_ := by
  have h1 := mem_of_mem_unique _ _ _ h
  exact (List.perm_insertionSort mappingLE indexes_mapping_).mem_iff.mp h1


theorem scenarioApplyChain_identity : ChainIdentity scenarioApplyChain :=
  fun _ _ _ => rfl

theorem MergeTreeSetIndex.size_eq_rows (index : MergeTreeSetIndex)
    (h : index.ordered_set ≠ []) : index.size = .ok index.rows := by
  unfold MergeTreeSetIndex.size MergeTreeSetIndex.rows blockRows at *
  cases hos : index.ordered_set with
  | nil => exact absurd hos h
  | cons c cs => rfl

theorem MergeTreeSetIndex.ordered_set_ne_nil (index : MergeTreeSetIndex) (h : 0 < index.rows) :
    index.ordered_set ≠ [] := by
  intro hos
  unfold MergeTreeSetIndex.rows at h
  rw [hos] at h
  simp [blockRows] at h

/-- What `checkInRange` returns when no entry has a chain of functions and the ends of
the ranges are of the classes of the columns: the decision over the points of the
ranges. -/
theorem MergeTreeSetIndex.checkInRange_eq
    (apply : Range → MonotonicFunctionsChain → DataType → Bool → Option Range)
    (hid : ChainIdentity apply) (index : MergeTreeSetIndex) (key_ranges : List Range)
    (data_types : List DataType) (single_point : Bool)
    (hplain : index.PlainFor key_ranges data_types) (htyped : index.Typed key_ranges)
    (hrows : index.ordered_set ≠ []) :
    ∃ lp rp,
      index.checkInRange apply key_ranges data_types single_point
        = .ok (index.checkInRangeDecide index.rows lp rp
            ((index.axisRanges key_ranges).all fun r => r.left_included)
            ((index.axisRanges key_ranges).all fun r => r.right_included)) ∧
      lp.map FieldValue.toRef = (index.axisRanges key_ranges).map (fun r => r.left) ∧
      rp.map FieldValue.toRef = (index.axisRanges key_ranges).map (fun r => r.right) := by
  obtain ⟨lp, rp, heq, hl, hr⟩ := MergeTreeSetIndex.checkInRangePoints_ok apply hid key_ranges
    data_types single_point index.indexes_mapping index.ordered_set [] [] true true
    hplain.2 htyped
  refine ⟨lp, rp, ?_, hl, hr⟩
  unfold MergeTreeSetIndex.checkInRange
  rw [heq, MergeTreeSetIndex.size_eq_rows index hrows]
  simp only [List.nil_append, Bool.true_and]
  rfl


/-! ## What a set `can_be_true` says about the stored rows -/

theorem MergeTreeSetIndex.checkInRangeDecide_interval (index : MergeTreeSetIndex)
    (hstrict : index.StrictlySorted) (lp rp : List FieldValue) (axes : List Range)
    (hl : lp.map FieldValue.toRef = axes.map fun r => r.left)
    (hr : rp.map FieldValue.toRef = axes.map fun r => r.right)
    (hlen : index.ordered_set.length = axes.length) (hproper : ∀ r ∈ axes, r.proper)
    (h : (index.checkInRangeDecide index.rows lp rp (axes.all fun r => r.left_included)
      (axes.all fun r => r.right_included)).can_be_true = true) :
    ∃ row, row < index.rows ∧
      lessPoint (index.tuple row) (axes.map fun r => r.left) = false ∧
      ((axes.all fun r => r.left_included) = true ∨
        equalsPoint (index.tuple row) (axes.map fun r => r.left) = false) ∧
      (lessPoint (index.tuple row) (axes.map fun r => r.right) = true ∨
        ((axes.all fun r => r.right_included) = true ∧
          equalsPoint (index.tuple row) (axes.map fun r => r.right) = true)) := by
  have hsorted := MergeTreeSetIndex.StrictlySorted.sorted index hstrict
  obtain ⟨hLn, hLlow, hLhigh⟩ := MergeTreeSetIndex.lower_bound_less index hsorted lp
  obtain ⟨hRn, hRlow, hRhigh⟩ := MergeTreeSetIndex.lower_bound_less index hsorted rp
  rw [hl] at hLlow hLhigh
  rw [hr] at hRlow hRhigh
  generalize hLdef : MergeTreeSetIndex.lower_bound
    (MergeTreeSetIndex.less index.ordered_set lp) index.rows = L at *
  generalize hRdef : MergeTreeSetIndex.lower_bound
    (MergeTreeSetIndex.less index.ordered_set rp) index.rows = R at *
  have htl : ∀ row, (index.tuple row).length = (axes.map fun r => r.left).length := by
    intro row; rw [MergeTreeSetIndex.length_tuple, hlen, List.length_map]
  have htr : ∀ row, (index.tuple row).length = (axes.map fun r => r.right).length := by
    intro row; rw [MergeTreeSetIndex.length_tuple, hlen, List.length_map]
  have hLR : L ≤ R := by
    by_contra hlt
    have h1 := hLlow R (by omega)
    have h2 := lessPoint_right_of_left axes
      (fun r hr1 => by
        rcases hproper r hr1 with h | h
        · omega
        · omega) _ h1
    have h3 := hRhigh R (Nat.le_refl _) (by omega)
    rw [h2] at h3
    simp at h3
  -- two stored rows that equal the left point are one row
  have hdistinct : ∀ a, a + 1 < index.rows →
      equalsPoint (index.tuple a) (axes.map fun r => r.left) = true →
      equalsPoint (index.tuple (a + 1)) (axes.map fun r => r.left) = true → False := by
    intro a ha h1 h2
    have h0 := compareTuples_of_equalsPoint _ _ _ (htl a) (htl (a + 1)) h1 h2
    have := hstrict a ha
    omega
  unfold MergeTreeSetIndex.checkInRangeDecide at h
  simp only [hLdef, hRdef] at h
  by_cases hone : (MergeTreeSetIndex.oneElementRange lp rp && index.has_all_keys) = true
  · rw [if_pos hone] at h
    simp only [Bool.and_eq_true] at hone
    have hlen2 : lp.length = rp.length := by
      have h1 := congrArg List.length hl
      have h2 := congrArg List.length hr
      simp only [List.length_map] at h1 h2
      omega
    have hsame := MergeTreeSetIndex.oneElementRange_eq lp rp hlen2 hone.1
    rw [hl, hr] at hsame
    by_cases hinc : (!(axes.all fun r => r.left_included) ||
        !(axes.all fun r => r.right_included)) = true
    · rw [if_pos hinc] at h
      simp at h
    · rw [if_neg hinc] at h
      simp only [Bool.or_eq_true, Bool.not_eq_true', not_or, Bool.not_eq_false] at hinc
      by_cases hhit : (decide (L ≠ index.rows) &&
          MergeTreeSetIndex.equals index.ordered_set lp L) = true
      · simp only [Bool.and_eq_true, decide_eq_true_eq] at hhit
        have heq := hhit.2
        rw [MergeTreeSetIndex.equals_eq, hl] at heq
        refine ⟨L, by omega, not_lessPoint_of_equalsPoint _ _ heq, Or.inl hinc.1,
          Or.inr ⟨hinc.2, ?_⟩⟩
        rw [← hsame]
        exact heq
      · rw [if_neg hhit] at h
        simp at h
  · rw [if_neg hone] at h
    by_cases hgap : L + 1 < R
    · refine ⟨L + 1, by omega, hLhigh (L + 1) (by omega) (by omega), ?_,
        Or.inl (hRlow (L + 1) hgap)⟩
      by_cases heq : equalsPoint (index.tuple (L + 1)) (axes.map fun r => r.left) = true
      · exfalso
        have hL0 := hLhigh L (Nat.le_refl _) (by omega)
        have heqL := equalsPoint_of_le _ _ _
          (by rw [MergeTreeSetIndex.length_tuple, MergeTreeSetIndex.length_tuple])
          (MergeTreeSetIndex.Sorted.le index hsorted L (L + 1) (by omega) (by omega)) hL0 heq
        exact hdistinct L (by omega) heqL heq
      · right
        simpa using heq
    · rw [if_neg hgap] at h
      by_cases hadj : L + 1 = R
      · rw [if_pos hadj] at h
        by_cases hleft : ((axes.all fun r => r.left_included) ||
            !MergeTreeSetIndex.equals index.ordered_set lp L) = true
        · refine ⟨L, by omega, hLhigh L (Nat.le_refl _) (by omega), ?_,
            Or.inl (hRlow L (by omega))⟩
          simp only [Bool.or_eq_true, Bool.not_eq_true'] at hleft
          rcases hleft with h1 | h1
          · exact Or.inl h1
          · right
            rw [MergeTreeSetIndex.equals_eq, hl] at h1
            exact h1
        · rw [if_neg hleft] at h
          simp only [Bool.or_eq_true, Bool.not_eq_true', not_or, Bool.not_eq_true,
            Bool.not_eq_false] at hleft
          simp only [Bool.and_eq_true, decide_eq_true_eq] at h
          obtain ⟨⟨hri, hRne⟩, heqR⟩ := h
          rw [MergeTreeSetIndex.equals_eq, hr] at heqR
          have heqL := hleft.2
          rw [MergeTreeSetIndex.equals_eq, hl] at heqL
          refine ⟨R, by omega, hLhigh R hLR (by omega), ?_, Or.inr ⟨hri, heqR⟩⟩
          right
          by_contra hne
          have heqR2 : equalsPoint (index.tuple R) (axes.map fun r => r.left) = true := by
            simpa using hne
          rw [← hadj] at heqR2
          exact hdistinct L (by omega) heqL heqR2
      · rw [if_neg hadj] at h
        simp only [Bool.and_eq_true, decide_eq_true_eq] at h
        obtain ⟨⟨hri, hRne⟩, heqR⟩ := h
        rw [MergeTreeSetIndex.equals_eq, hr] at heqR
        have hLeqR : L = R := by omega
        refine ⟨R, by omega, hLhigh R hLR (by omega), ?_, Or.inr ⟨hri, heqR⟩⟩
        by_cases heq : equalsPoint (index.tuple R) (axes.map fun r => r.left) = true
        · left
          exact left_included_of_equals_both axes hproper _
            (by rw [MergeTreeSetIndex.length_tuple, hlen]) heq heqR
        · right
          simpa using heq


/-! ## The one-element range -/

theorem MergeTreeSetIndex.oneElementRange_of_eq (lp : List FieldValue) :
    ∀ (rp : List FieldValue), lp.map FieldValue.toRef = rp.map FieldValue.toRef →
      MergeTreeSetIndex.oneElementRange lp rp = true := by
  induction lp with
  | nil =>
    intro rp _
    cases rp <;> rfl
  | cons l ls ih =>
    intro rp h
    cases rp with
    | nil => simp at h
    | cons r rs =>
      simp only [List.map_cons, List.cons.injEq] at h
      have htail := ih rs h.2
      have hhead := h.1
      obtain ⟨lv, lc⟩ := l
      obtain ⟨rv, rc⟩ := r
      cases lv <;> cases rv <;>
        simp [FieldValue.toRef, FieldValue.isNegativeInfinity, FieldValue.isPositiveInfinity,
          FieldRef.isNegativeInfinity, FieldRef.isPositiveInfinity] at hhead <;>
        simp [MergeTreeSetIndex.oneElementRange, FieldValue.isNormal,
          FieldValue.isNegativeInfinity, FieldValue.isPositiveInfinity,
          FieldRef.isNegativeInfinity, FieldRef.isPositiveInfinity, htail]
      simp only [Column.compareAt, hhead]
      exact (Field.compare_self _).symm

/-- What `checkInRange` returns for a point when the index has all keys: over a sorted
index with `has_all_keys`, no chain of functions and the ranges `[x, x]` with both ends
included, the answer is `{true, false}` when some stored row equals the point cell by
cell and `{false, true}` when none does. -/
theorem MergeTreeSetIndex.checkInRange_single_point
    (apply : Range → MonotonicFunctionsChain → DataType → Bool → Option Range)
    (hid : ChainIdentity apply) (index : MergeTreeSetIndex) (key_ranges : List Range)
    (data_types : List DataType) (single_point : Bool)
    (hplain : index.PlainFor key_ranges data_types) (htyped : index.Typed key_ranges)
    (hsorted : index.Sorted) (hne : index.ordered_set ≠ [])
    (hall : index.has_all_keys = true)
    (hpoint : ∀ r ∈ index.axisRanges key_ranges,
      r.left = r.right ∧ r.left_included = true ∧ r.right_included = true) :
    ((∃ row, row < index.rows ∧
        equalsPoint (index.tuple row) ((index.axisRanges key_ranges).map fun r => r.left)
          = true) →
      index.checkInRange apply key_ranges data_types single_point
        = .ok { can_be_true := true, can_be_false := false }) ∧
    ((¬ ∃ row, row < index.rows ∧
        equalsPoint (index.tuple row) ((index.axisRanges key_ranges).map fun r => r.left)
          = true) →
      index.checkInRange apply key_ranges data_types single_point
        = .ok { can_be_true := false, can_be_false := true }) := by
  obtain ⟨lp, rp, heq, hl, hr⟩ := MergeTreeSetIndex.checkInRange_eq apply hid index key_ranges
    data_types single_point hplain htyped hne
  have hsame : lp.map FieldValue.toRef = rp.map FieldValue.toRef := by
    rw [hl, hr]
    exact List.map_congr_left fun r hr1 => (hpoint r hr1).1
  have hone := MergeTreeSetIndex.oneElementRange_of_eq lp rp hsame
  have hli : ((index.axisRanges key_ranges).all fun r => r.left_included) = true :=
    List.all_eq_true.mpr fun r hr1 => (hpoint r hr1).2.1
  have hri : ((index.axisRanges key_ranges).all fun r => r.right_included) = true :=
    List.all_eq_true.mpr fun r hr1 => (hpoint r hr1).2.2
  rw [heq, hli, hri]
  unfold MergeTreeSetIndex.checkInRangeDecide
  simp only [hone, hall, Bool.and_self, if_true, Bool.not_true, Bool.or_self,
    Bool.false_eq_true, if_false]
  constructor
  · rintro ⟨row, hrow, hrowEq⟩
    rw [← hl] at hrowEq
    obtain ⟨h1, h2⟩ := MergeTreeSetIndex.equals_lower_bound index hsorted lp row hrow hrowEq
    rw [if_pos (by simp [h1, h2])]
  · intro hnone
    rw [if_neg]
    intro hhit
    simp only [Bool.and_eq_true, decide_eq_true_eq] at hhit
    apply hnone
    have hL := (MergeTreeSetIndex.lower_bound_less index hsorted lp).1
    have h1 := hhit.1
    have h2 := hhit.2
    rw [MergeTreeSetIndex.equals_eq, hl] at h2
    exact ⟨MergeTreeSetIndex.lower_bound (MergeTreeSetIndex.less index.ordered_set lp)
      index.rows, by omega, h2⟩

/-- Scenario S5: over the rows `(1,'a'), (2,'b'), (3,'c')` the point `(2,'b')` gives
`{true, false}` and the point `(2,'a')` gives `{false, true}`. -/
theorem scenarioS5_single_points :
    scenarioS5Index.has_all_keys = true ∧
      scenarioS5Index.checkInRange scenarioApplyChain
        [int64Range 2 2 true true, stringRange "b" "b" true true] scenarioS5Types true
        = .ok { can_be_true := true, can_be_false := false } ∧
      scenarioS5Index.checkInRange scenarioApplyChain
        [int64Range 2 2 true true, stringRange "a" "a" true true] scenarioS5Types true
        = .ok { can_be_true := false, can_be_false := true } :=
  ⟨by decide, by decide, by decide⟩


/-- The remainder of the truncated division of `checkDateTimePrecision` is zero exactly
when the mathematical remainder is: for negative values too. -/
theorem tmod_ne_zero_iff (value m : Int) : Int.tmod value m ≠ 0 ↔ value % m ≠ 0 := by
  rw [Ne, Ne, ← Int.dvd_iff_tmod_eq_zero, ← Int.dvd_iff_emod_eq_zero]


/-! ## The mapping after `::sort` and `std::unique` -/

theorem mappingLE_total (a b : KeyTuplePositionMapping) : mappingLE a b ∨ mappingLE b a := by
  unfold mappingLE
  omega

theorem mappingLE_trans (a b c : KeyTuplePositionMapping) (hab : mappingLE a b)
    (hbc : mappingLE b c) : mappingLE a c := by
  unfold mappingLE at *
  omega

theorem sorted_insertionSort_mappingLE (l : List KeyTuplePositionMapping) :
    List.Pairwise mappingLE (List.insertionSort mappingLE l) := by
  haveI : IsTotal KeyTuplePositionMapping mappingLE := ⟨mappingLE_total⟩
  haveI : IsTrans KeyTuplePositionMapping mappingLE := ⟨mappingLE_trans⟩
  exact List.sorted_insertionSort mappingLE l

/-- After the loop of `std::unique` over a sorted run, the entries kept have key indexes
above that of the entry kept before them, in strictly increasing order. -/
theorem uniqueLoop_keys (l : List KeyTuplePositionMapping) :
    ∀ kept, List.Pairwise mappingLE (kept :: l) →
      (∀ m ∈ uniqueLoop (fun l r => decide (l.key_index = r.key_index)) kept l,
        kept.key_index < m.key_index) ∧
      List.Pairwise (fun l r => l.key_index < r.key_index)
        (uniqueLoop (fun l r => decide (l.key_index = r.key_index)) kept l) := by
  induction l with
  | nil =>
    intro kept _
    simp [uniqueLoop]
  | cons b l ih =>
    intro kept hs
    have hkb : mappingLE kept b := (List.pairwise_cons.mp hs).1 b (List.mem_cons_self _ _)
    have hsb : List.Pairwise mappingLE (b :: l) := (List.pairwise_cons.mp hs).2
    have hsk : List.Pairwise mappingLE (kept :: l) :=
      List.Pairwise.sublist (List.Sublist.cons₂ _ (List.sublist_cons_self _ _)) hs
    simp only [uniqueLoop]
    by_cases hk : kept.key_index = b.key_index
    · rw [if_pos (by simpa using hk)]
      exact ih kept hsk
    · rw [if_neg (by simpa using hk)]
      have hlt : kept.key_index < b.key_index := by
        unfold mappingLE at hkb
        omega
      obtain ⟨h1, h2⟩ := ih b hsb
      refine ⟨?_, List.pairwise_cons.mpr ⟨h1, h2⟩⟩
      intro m hm
      rcases List.mem_cons.mp hm with rfl | hm1
      · exact hlt
      · exact Nat.lt_trans hlt (h1 m hm1)

/-- Every key index of the run is the key index of the entry kept before it or of an
entry the loop of `std::unique` keeps. -/
theorem uniqueLoop_covers (l : List KeyTuplePositionMapping) :
    ∀ kept, ∀ m ∈ l, m.key_index = kept.key_index ∨
      ∃ m1 ∈ uniqueLoop (fun l r => decide (l.key_index = r.key_index)) kept l,
        m1.key_index = m.key_index := by
  induction l with
  | nil =>
    intro kept m hm
    simp at hm
  | cons b l ih =>
    intro kept m hm
    simp only [uniqueLoop]
    by_cases hk : kept.key_index = b.key_index
    · rw [if_pos (by simpa using hk)]
      rcases List.mem_cons.mp hm with rfl | hm1
      · exact Or.inl hk.symm
      · exact ih kept m hm1
    · rw [if_neg (by simpa using hk)]
      right
      rcases List.mem_cons.mp hm with rfl | hm1
      · exact ⟨m, List.mem_cons_self _ _, rfl⟩
      · rcases ih b m hm1 with h | ⟨m1, hm1mem, hm1key⟩
        · exact ⟨b, List.mem_cons_self _ _, h.symm⟩
        · exact ⟨m1, List.mem_cons_of_mem _ hm1mem, hm1key⟩

/-- An entry the loop of `std::unique` keeps from a sorted run has the smallest tuple
index among the entries of the run with its key index. -/
theorem uniqueLoop_min (l : List KeyTuplePositionMapping) :
    ∀ kept, List.Pairwise mappingLE (kept :: l) →
      ∀ m ∈ uniqueLoop (fun l r => decide (l.key_index = r.key_index)) kept l,
        ∀ m1 ∈ l, m1.key_index = m.key_index → m.tuple_index ≤ m1.tuple_index := by
  induction l with
  | nil =>
    intro kept _ m hm
    simp [uniqueLoop] at hm
  | cons b l ih =>
    intro kept hs m hm m1 hm1 hkey
    have hkb : mappingLE kept b := (List.pairwise_cons.mp hs).1 b (List.mem_cons_self _ _)
    have hsb : List.Pairwise mappingLE (b :: l) := (List.pairwise_cons.mp hs).2
    have hsk : List.Pairwise mappingLE (kept :: l) :=
      List.Pairwise.sublist (List.Sublist.cons₂ _ (List.sublist_cons_self _ _)) hs
    simp only [uniqueLoop] at hm
    by_cases hk : kept.key_index = b.key_index
    · rw [if_pos (by simpa using hk)] at hm
      rcases List.mem_cons.mp hm1 with rfl | hm1l
      · have := (uniqueLoop_keys l kept hsk).1 m hm
        omega
      · exact ih kept hsk m hm m1 hm1l hkey
    · rw [if_neg (by simpa using hk)] at hm
      rcases List.mem_cons.mp hm with rfl | hml
      · rcases List.mem_cons.mp hm1 with rfl | hm1l
        · exact Nat.le_refl _
        · have hle := (List.pairwise_cons.mp hsb).1 m1 hm1l
          unfold mappingLE at hle
          omega
      · rcases List.mem_cons.mp hm1 with rfl | hm1l
        · have := (uniqueLoop_keys l m1 hsb).1 m hml
          omega
        · exact ih b hsb m hml m1 hm1l hkey

/-- The mapping the constructor keeps: strictly increasing key indexes, the key indexes
of the input and no other, and for every key index an input entry of the smallest tuple
index. -/
theorem MergeTreeSetIndex.normalizedMapping_spec
    (indexes_mapping_ : List KeyTuplePositionMapping) :
    List.Pairwise (fun l r => l.key_index < r.key_index)
        (MergeTreeSetIndex.normalizedMapping indexes_mapping_) ∧
      (∀ m ∈ indexes_mapping_,
        ∃ m1 ∈ MergeTreeSetIndex.normalizedMapping indexes_mapping_,
          m1.key_index = m.key_index) ∧
      (∀ m ∈ MergeTreeSetIndex.normalizedMapping indexes_mapping_,
        m ∈ indexes_mapping_ ∧
          ∀ m1 ∈ indexes_mapping_, m1.key_index = m.key_index →
            m.tuple_index ≤ m1.tuple_index) := by
  have hsorted := sorted_insertionSort_mappingLE indexes_mapping_
  have hperm := List.perm_insertionSort mappingLE indexes_mapping_
  unfold MergeTreeSetIndex.normalizedMapping
  generalize List.insertionSort mappingLE indexes_mapping_ = sorted at hsorted hperm
  cases sorted with
  | nil =>
    have hnil : indexes_mapping_ = [] := List.Perm.eq_nil hperm.symm
    subst hnil
    simp [unique]
  | cons a l =>
    obtain ⟨hk1, hk2⟩ := uniqueLoop_keys l a hsorted
    simp only [unique]
    refine ⟨List.pairwise_cons.mpr ⟨hk1, hk2⟩, ?_, ?_⟩
    · intro m hm
      have hm1 : m ∈ a :: l := hperm.mem_iff.mpr hm
      rcases List.mem_cons.mp hm1 with rfl | hml
      · exact ⟨m, List.mem_cons_self _ _, rfl⟩
      · rcases uniqueLoop_covers l a m hml with h | ⟨m1, hm1mem, hm1key⟩
        · exact ⟨a, List.mem_cons_self _ _, h.symm⟩
        · exact ⟨m1, List.mem_cons_of_mem _ hm1mem, hm1key⟩
    · intro m hm
      have hsub : m ∈ a :: l := by
        rcases List.mem_cons.mp hm with rfl | hml
        · exact List.mem_cons_self _ _
        · exact List.mem_cons_of_mem _ (mem_of_mem_uniqueLoop _ l a m hml)
      refine ⟨hperm.mem_iff.mp hsub, ?_⟩
      intro m1 hm1 hkey
      have hm1s : m1 ∈ a :: l := hperm.mem_iff.mpr hm1
      rcases List.mem_cons.mp hm with rfl | hml
      · rcases List.mem_cons.mp hm1s with rfl | hm1l
        · exact Nat.le_refl _
        · have hle := (List.pairwise_cons.mp hsorted).1 m1 hm1l
          unfold mappingLE at hle
          omega
      · rcases List.mem_cons.mp hm1s with rfl | hm1l
        · have := hk1 m hml
          omega
        · exact uniqueLoop_min l a hsorted m hml m1 hm1l hkey


/-! ## One ordered column -/

/-- For one axis the lexicographic interval is the range: a cell is between the ends of
a range, an excluded end excluded, exactly when it is within the range. -/
theorem lexInterval_singleton (a : Field) (range : Range) :
    (lessPoint [a] ([range].map fun r => r.left) = false ∧
      (([range].all fun r => r.left_included) = true ∨
        equalsPoint [a] ([range].map fun r => r.left) = false) ∧
      (lessPoint [a] ([range].map fun r => r.right) = true ∨
        (([range].all fun r => r.right_included) = true ∧
          equalsPoint [a] ([range].map fun r => r.right) = true))) ↔ range.holds a := by
  simp only [List.map_cons, List.map_nil, lessPoint, equalsPoint, List.all_cons, List.all_nil,
    Bool.and_true, Range.holds]
  by_cases h1 : FieldRef.compare (FieldRef.value a) range.left = 0 <;>
    by_cases h2 : FieldRef.compare (FieldRef.value a) range.right = 0 <;>
    simp [h1, h2] <;> omega

/-- With the left end below the right end the range is not a one-element range. -/
theorem MergeTreeSetIndex.oneElementRange_of_lt (lp rp : List FieldValue) (range : Range)
    (hl : lp.map FieldValue.toRef = [range].map fun r => r.left)
    (hr : rp.map FieldValue.toRef = [range].map fun r => r.right)
    (hlt : FieldRef.compare range.left range.right < 0) :
    MergeTreeSetIndex.oneElementRange lp rp = false := by
  by_contra hone
  have hone1 : MergeTreeSetIndex.oneElementRange lp rp = true := by simpa using hone
  have hlen : lp.length = rp.length := by
    have h1 := congrArg List.length hl
    have h2 := congrArg List.length hr
    simp only [List.length_map] at h1 h2
    omega
  have hsame := MergeTreeSetIndex.oneElementRange_eq lp rp hlen hone1
  rw [hl, hr] at hsame
  simp only [List.map_cons, List.map_nil, List.cons.injEq, and_true] at hsame
  rw [hsame] at hlt
  have := FieldRef.endpoint_compare_self range.right
  omega

/-- Outside the one-element branch the decision always leaves `can_be_false` set. -/
theorem MergeTreeSetIndex.checkInRangeDecide_can_be_false (index : MergeTreeSetIndex)
    (size : Nat) (lp rp : List FieldValue) (li ri : Bool)
    (hone : MergeTreeSetIndex.oneElementRange lp rp = false) :
    (index.checkInRangeDecide size lp rp li ri).can_be_false = true := by
  unfold MergeTreeSetIndex.checkInRangeDecide
  simp only [hone, Bool.false_and, Bool.false_eq_true, if_false]
  split_ifs <;> rfl


/-! ## The null map `execute` accumulates under `transform_null_in` -/

/-- One iteration of the loop of `execute` with `transform_null_in` on, for a probe
column that is not of the `DateTime64` class: the key column appended is the cast of the
inner values; a column whose type is `Nullable` against a key type that is not has its
null map merged into the holder, any other column leaves the holder as it is. -/
theorem Set.executeColumn_on_plain (ext : External) (s : Set)
    (htni : s.transform_null_in = true) (c : ColumnWithTypeAndName) (t : DataType)
    (st st1 : ExecuteState)
    (hnodt : isDateTime64 (probeColumn c).column.getDataType = false)
    (hc : s.executeColumn ext c t st = .ok st1) :
    ∃ r, castInnerValues ext c t = .ok r ∧ st1.key_columns = st.key_columns ++ [r] ∧
      ((c.type.isNullable = true ∧ t.isNullable = false) →
        ∃ nested other, (probeColumn c).column = Column.nullable nested other ∧
          st1.null_map_holder = some (match st.null_map_holder with
            | none => other
            | some mutable_null_map => orNullMap mutable_null_map other) ∧
          st1.null_map = st1.null_map_holder) ∧
      (¬ (c.type.isNullable = true ∧ t.isNullable = false) →
        st1.null_map_holder = st.null_map_holder ∧ st1.null_map = st.null_map) := by
  rw [Set.executeColumn_eq] at hc
  simp only [hnodt, Bool.false_and, Bool.false_eq_true, if_false] at hc
  unfold Set.executeCast at hc
  simp only [htni, Bool.not_true, Bool.false_and, Bool.false_eq_true, if_false,
    Bool.true_and] at hc
  unfold castInnerValues
  by_cases hsp : (c.type.isNullable && !t.isNullable) = true
  · have hsp1 : ((probeColumn c).type.isNullable && !t.isNullable) = true := hsp
    rw [if_pos hsp1] at hc
    rw [if_pos hsp]
    have hsp2 : c.type.isNullable = true ∧ t.isNullable = false := by
      simpa using hsp
    have hty : (probeColumn c).type = c.type := rfl
    have hname : (probeColumn c).name = c.name := rfl
    rw [hty, hname] at hc
    cases hct : c.type with
    | Nullable nested_type =>
      rw [hct] at hc
      cases hcol : (probeColumn c).column with
      | nullable nested other =>
        rw [hcol] at hc
        simp only at hc ⊢
        cases hcast : ext.castColumnAccurate
            { column := nested, type := nested_type, name := c.name } t with
        | error e => rw [hcast] at hc; cases hc
        | ok r =>
          rw [hcast] at hc
          simp only [Except.ok.injEq] at hc
          subst hc
          exact ⟨r, rfl, rfl, fun _ => ⟨nested, other, rfl, rfl, rfl⟩,
            fun hn => absurd (by rw [hct] at hsp2; exact hsp2) hn⟩
      | vector a b => rw [hcol] at hc; cases hc
      | string a => rw [hcol] at hc; cases hc
      | const a b => rw [hcol] at hc; cases hc
      | lowCardinality a b => rw [hcol] at hc; cases hc
    | _ => rw [hct] at hsp2; simp [DataType.isNullable] at hsp2
  · have hsp1 : ¬ ((probeColumn c).type.isNullable && !t.isNullable) = true := hsp
    rw [if_neg hsp1] at hc
    rw [if_neg hsp]
    cases hcast : ext.castColumnAccurate (probeColumn c) t with
    | error e => rw [hcast] at hc; cases hc
    | ok r =>
      rw [hcast] at hc
      simp only [Except.ok.injEq] at hc
      subst hc
      refine ⟨r, rfl, rfl, fun hn => ?_, fun _ => ⟨rfl, rfl⟩⟩
      exact absurd (by simpa using hn) hsp


/-- One iteration of the loop of `execute` with `transform_null_in` on, for a probe
column that is not of the `DateTime64` class, on the null map: holder and pointer stay
the same map of one byte per row, and a row is marked afterwards exactly when it was
marked before or the column takes the special case and is NULL there. -/
theorem Set.executeColumn_on_marks (ext : External) (s : Set)
    (htni : s.transform_null_in = true) (rows : Nat) (c : ColumnWithTypeAndName)
    (t : DataType) (st st2 : ExecuteState)
    (hnodt : isDateTime64 (probeColumn c).column.getDataType = false)
    (hcwf : c.column.size = rows ∧ (probeColumn c).column.wellFormed)
    (hsame : st.null_map = st.null_map_holder)
    (hlen : ∀ h, st.null_map_holder = some h → h.length = rows)
    (hstep : s.executeColumn ext c t st = .ok st2) :
    st2.null_map = st2.null_map_holder ∧
      (∀ h, st2.null_map_holder = some h → h.length = rows) ∧
      (∀ i, i < rows →
        (nullMapMarks st2.null_map i = true ↔
          nullMapMarks st.null_map i = true ∨
            (c.type.isNullable = true ∧ t.isNullable = false ∧
              (probeColumn c).column.isNullAt i = true))) ∧
      ((st.null_map_holder ≠ none ∨
          (c.type.isNullable = true ∧ t.isNullable = false)) →
        st2.null_map_holder ≠ none) := by
  obtain ⟨r, hcast, hkeys, hsp, hnsp⟩ := Set.executeColumn_on_plain ext s htni c t st st2
    hnodt hstep
  by_cases hcase : c.type.isNullable = true ∧ t.isNullable = false
  · obtain ⟨nested, other, hcol, hholder, hmap⟩ := hsp hcase
    have hother : other.length = rows := by
      have h1 := hcwf.2
      rw [hcol] at h1
      have h2 : (probeColumn c).column.size = c.column.size :=
        Column.size_convertToFullColumnIfConst _
      rw [hcol] at h2
      simp only [Column.wellFormed] at h1
      simp only [Column.size] at h2
      omega
    cases hst : st.null_map_holder with
    | none =>
      rw [hst] at hholder
      simp only at hholder
      have hnm : st.null_map = none := by rw [hsame, hst]
      refine ⟨hmap, ?_, ?_, fun _ => by rw [hholder]; simp⟩
      · intro h hh
        rw [hholder] at hh
        cases hh
        exact hother
      · intro i hi
        rw [hmap, hholder, hnm, hcol]
        simp [nullMapMarks, Column.isNullAt, hcase.1, hcase.2]
    | some h0 =>
      rw [hst] at hholder
      simp only at hholder
      have hnm : st.null_map = some h0 := by rw [hsame, hst]
      have hh0 : h0.length = rows := hlen h0 hst
      refine ⟨hmap, ?_, ?_, fun _ => by rw [hholder]; simp⟩
      · intro h hh
        rw [hholder] at hh
        cases hh
        rw [orNullMap_length]
        exact hh0
      · intro i hi
        rw [hmap, hholder, hnm, hcol]
        have := orNullMap_marks h0 other i (by omega)
        simp only [nullMapMarks, Column.isNullAt, decide_eq_true_eq, hcase.1, hcase.2,
          true_and]
        exact this
  · obtain ⟨hholder, hmap⟩ := hnsp hcase
    refine ⟨by rw [hmap, hholder]; exact hsame, ?_, ?_, ?_⟩
    · intro h hh
      rw [hholder] at hh
      exact hlen h hh
    · intro i _
      rw [hmap]
      constructor
      · exact fun h => Or.inl h
      · rintro (h | ⟨h1, h2, _⟩)
        · exact h
        · exact absurd ⟨h1, h2⟩ hcase
    · rintro (h | h)
      · rw [hholder]; exact h
      · exact absurd h hcase

/-- The loop of `execute` with `transform_null_in` on, over probe columns none of which
is of the `DateTime64` class: holder and pointer stay the same map of one byte per row,
a row is marked afterwards exactly when it was marked before or is NULL in a column
whose type is `Nullable` against a key type that is not, a map is there once such a
column has been met, and the key columns appended are the casts of the inner values. -/
theorem Set.executeLoop_on_plain (ext : External) (s : Set)
    (htni : s.transform_null_in = true) (rows : Nat) (cols : List ColumnWithTypeAndName) :
    ∀ (types : List DataType) (st st1 : ExecuteState),
      (∀ c ∈ cols, isDateTime64 (probeColumn c).column.getDataType = false) →
      (∀ c ∈ cols, c.column.size = rows ∧ (probeColumn c).column.wellFormed) →
      st.null_map = st.null_map_holder →
      (∀ h, st.null_map_holder = some h → h.length = rows) →
      s.executeLoop ext cols types st = .ok st1 →
      st1.null_map = st1.null_map_holder ∧
        (∀ h, st1.null_map_holder = some h → h.length = rows) ∧
        (∀ i, i < rows →
          (nullMapMarks st1.null_map i = true ↔
            nullMapMarks st.null_map i = true ∨
              ∃ p ∈ cols.zip types, p.1.type.isNullable = true ∧ p.2.isNullable = false ∧
                (probeColumn p.1).column.isNullAt i = true)) ∧
        ((st.null_map_holder ≠ none ∨
            ∃ p ∈ cols.zip types, p.1.type.isNullable = true ∧ p.2.isNullable = false) →
          st1.null_map_holder ≠ none) ∧
        ∃ rs, st1.key_columns = st.key_columns ++ rs ∧
          List.Forall₂ (fun (p : ColumnWithTypeAndName × DataType) r =>
            castInnerValues ext p.1 p.2 = .ok r) (cols.zip types) rs := by
  induction cols with
  | nil =>
    intro types st st1 _ _ hsame hlen hloop
    simp only [Set.executeLoop] at hloop
    cases hloop
    refine ⟨hsame, hlen, fun i _ => by simp, fun h => ?_, [], by simp, by simp⟩
    rcases h with h | ⟨p, hp, _⟩
    · exact h
    · simp at hp
  | cons c cs ih =>
    intro types st st1 hnodt hwf hsame hlen hloop
    cases types with
    | nil =>
      simp only [Set.executeLoop] at hloop
      cases hloop
      refine ⟨hsame, hlen, fun i _ => by simp, fun h => ?_, [], by simp, by simp⟩
      rcases h with h | ⟨p, hp, _⟩
      · exact h
      · simp at hp
    | cons t ts =>
      simp only [Set.executeLoop] at hloop
      cases hstep : s.executeColumn ext c t st with
      | error e => rw [hstep] at hloop; cases hloop
      | ok st2 =>
        rw [hstep] at hloop
        simp only at hloop
        obtain ⟨r, hcast, hkeys, hsp, hnsp⟩ := Set.executeColumn_on_plain ext s htni c t st st2
          (hnodt c (List.mem_cons_self _ _)) hstep
        obtain ⟨h2same, h2len, h2marks, h2some⟩ := Set.executeColumn_on_marks ext s htni rows
          c t st st2 (hnodt c (List.mem_cons_self _ _)) (hwf c (List.mem_cons_self _ _)) hsame
          hlen hstep
        obtain ⟨i1, i2, i3, i4, rs, i5, i6⟩ := ih ts st2 st1
          (fun c1 hc1 => hnodt c1 (List.mem_cons_of_mem _ hc1))
          (fun c1 hc1 => hwf c1 (List.mem_cons_of_mem _ hc1)) h2same h2len hloop
        have hz : (c :: cs).zip (t :: ts) = (c, t) :: cs.zip ts := rfl
        refine ⟨i1, i2, ?_, ?_, r :: rs, ?_, ?_⟩
        · intro i hi
          rw [i3 i hi, hz]
          constructor
          · rintro (h | ⟨p, hp, hp1⟩)
            · rcases (h2marks i hi).mp h with h1 | h1
              · exact Or.inl h1
              · exact Or.inr ⟨(c, t), List.mem_cons_self _ _, h1⟩
            · exact Or.inr ⟨p, List.mem_cons_of_mem _ hp, hp1⟩
          · rintro (h | ⟨p, hp, hp1⟩)
            · exact Or.inl ((h2marks i hi).mpr (Or.inl h))
            · rcases List.mem_cons.mp hp with hpe | hp2
              · rw [hpe] at hp1
                exact Or.inl ((h2marks i hi).mpr (Or.inr hp1))
              · exact Or.inr ⟨p, hp2, hp1⟩
        · rw [hz]
          rintro (h | ⟨p, hp, hp1⟩)
          · exact i4 (Or.inl (h2some (Or.inl h)))
          · rcases List.mem_cons.mp hp with hpe | hp2
            · rw [hpe] at hp1
              exact i4 (Or.inl (h2some (Or.inr hp1)))
            · exact i4 (Or.inr ⟨p, hp2, hp1⟩)
        · rw [i5, hkeys, List.append_assoc]
          rfl
        · rw [hz]
          exact List.Forall₂.cons hcast i6


/-- The null map and the key columns `execute` prepares under `transform_null_in` for a
well-formed probe without a column of the `DateTime64` class: the map marks exactly the
rows that are NULL in a column whose type is `Nullable` against a key type that is not,
it is there once the probe has such a column, and the key columns are the casts of the
inner values. -/
theorem Set.executeKeyColumns_on_plain (ext : External) (s : Set)
    (htni : s.transform_null_in = true) (columns : List ColumnWithTypeAndName)
    (hblock : ProbeWellFormed columns)
    (hnodt : ∀ c ∈ columns, isDateTime64 (probeColumn c).column.getDataType = false)
    (key_columns : List Column) (nm : Option (List Nat))
    (hprep : s.executeKeyColumns ext columns = .ok (key_columns, nm)) :
    (∀ h, nm = some h → h.length = probeRows columns) ∧
      (∀ i, i < probeRows columns →
        (nullMapMarks nm i = true ↔ s.nullInNullableProbe columns i)) ∧
      ((∃ p ∈ columns.zip s.data_types, p.1.type.isNullable = true ∧ p.2.isNullable = false) →
        nm ≠ none) ∧
      List.Forall₂ (fun (p : ColumnWithTypeAndName × DataType) r =>
        castInnerValues ext p.1 p.2 = .ok r) (columns.zip s.data_types) key_columns := by
  unfold Set.executeKeyColumns at hprep
  cases hloop : s.executeLoop ext columns s.data_types
      { key_columns := [], null_map_holder := none, null_map := none } with
  | error e => rw [hloop] at hprep; cases hprep
  | ok st1 =>
    rw [hloop] at hprep
    simp only [htni, Bool.not_true, Bool.false_eq_true, if_false, Except.ok.injEq,
      Prod.mk.injEq] at hprep
    obtain ⟨hkc, hnm⟩ := hprep
    obtain ⟨i1, i2, i3, i4, rs, i5, i6⟩ := Set.executeLoop_on_plain ext s htni
      (probeRows columns) columns s.data_types _ st1 hnodt
      (fun c hc => hblock c hc) rfl (fun h hh => by cases hh) hloop
    simp only [List.nil_append] at i5
    refine ⟨?_, ?_, ?_, ?_⟩
    · intro h hh
      rw [← hnm, i1] at hh
      exact i2 h hh
    · intro i hi
      rw [← hnm, i3 i hi]
      simp only [nullMapMarks, Bool.false_eq_true, false_or]
      rfl
    · intro hsome
      rw [← hnm, i1]
      exact i4 (Or.inr hsome)
    · rw [← hkc, i5]
      exact i6


/-- One iteration of the loop of `execute` with `transform_null_in` on returns when the
cast of the inner values does, for a probe column that is not of the `DateTime64`
class. -/
theorem Set.executeColumn_on_returns (ext : External) (s : Set)
    (htni : s.transform_null_in = true) (c : ColumnWithTypeAndName) (t : DataType)
    (st : ExecuteState) (r : Column)
    (hnodt : isDateTime64 (probeColumn c).column.getDataType = false)
    (hcast : castInnerValues ext c t = .ok r) :
    ∃ st1, s.executeColumn ext c t st = .ok st1 := by
  rw [Set.executeColumn_eq]
  simp only [hnodt, Bool.false_and, Bool.false_eq_true, if_false]
  unfold Set.executeCast
  simp only [htni, Bool.not_true, Bool.false_and, Bool.false_eq_true, if_false,
    Bool.true_and]
  unfold castInnerValues at hcast
  have hty : (probeColumn c).type = c.type := rfl
  have hname : (probeColumn c).name = c.name := rfl
  by_cases hsp : (c.type.isNullable && !t.isNullable) = true
  · rw [if_pos hsp] at hcast
    rw [hty, hname, if_pos hsp]
    cases hct : c.type with
    | Nullable nested_type =>
      rw [hct] at hcast
      cases hcol : (probeColumn c).column with
      | nullable nested other =>
        rw [hcol] at hcast
        simp only at hcast ⊢
        rw [hcast]
        exact ⟨_, rfl⟩
      | vector a b => rw [hcol] at hcast; cases hcast
      | string a => rw [hcol] at hcast; cases hcast
      | const a b => rw [hcol] at hcast; cases hcast
      | lowCardinality a b => rw [hcol] at hcast; cases hcast
    | _ => rw [hct] at hsp; simp [DataType.isNullable] at hsp
  · rw [if_neg hsp] at hcast
    rw [hty, if_neg hsp, hcast]
    exact ⟨_, rfl⟩

/-- The loop of `execute` with `transform_null_in` on returns when the casts of the
inner values do, one per key, for probe columns none of which is of the `DateTime64`
class. -/
theorem Set.executeLoop_on_returns (ext : External) (s : Set)
    (htni : s.transform_null_in = true) (cols : List ColumnWithTypeAndName) :
    ∀ (types : List DataType) (st : ExecuteState) (rs : List Column),
      (∀ c ∈ cols, isDateTime64 (probeColumn c).column.getDataType = false) →
      List.Forall₂ (fun (p : ColumnWithTypeAndName × DataType) r =>
        castInnerValues ext p.1 p.2 = .ok r) (cols.zip types) rs →
      ∃ st1, s.executeLoop ext cols types st = .ok st1 := by
  induction cols with
  | nil =>
    intro types st rs _ _
    exact ⟨st, by simp [Set.executeLoop]⟩
  | cons c cs ih =>
    intro types st rs hnodt hcasts
    cases types with
    | nil => exact ⟨st, by simp [Set.executeLoop]⟩
    | cons t ts =>
      have hz : (c :: cs).zip (t :: ts) = (c, t) :: cs.zip ts := rfl
      rw [hz] at hcasts
      cases hcasts with
      | @cons _ r _ rs1 hhead htail =>
        obtain ⟨st2, hstep⟩ := Set.executeColumn_on_returns ext s htni c t st r
          (hnodt c (List.mem_cons_self _ _)) hhead
        obtain ⟨st1, hrest⟩ := ih ts st2 rs1
          (fun c1 hc1 => hnodt c1 (List.mem_cons_of_mem _ hc1)) htail
        refine ⟨st1, ?_⟩
        simp only [Set.executeLoop, hstep]
        exact hrest

/-- The casts of the inner values determine the key columns. -/
theorem castInnerValues_unique (ext : External)
    (ps : List (ColumnWithTypeAndName × DataType)) :
    ∀ (rs rs1 : List Column),
      List.Forall₂ (fun (p : ColumnWithTypeAndName × DataType) r =>
        castInnerValues ext p.1 p.2 = .ok r) ps rs →
      List.Forall₂ (fun (p : ColumnWithTypeAndName × DataType) r =>
        castInnerValues ext p.1 p.2 = .ok r) ps rs1 →
      rs = rs1 := by
  induction ps with
  | nil =>
    intro rs rs1 h h1
    cases h
    cases h1
    rfl
  | cons p ps ih =>
    intro rs rs1 h h1
    cases h with
    | @cons _ r _ rs2 hhead htail =>
      cases h1 with
      | @cons _ r1 _ rs3 hhead1 htail1 =>
        rw [hhead] at hhead1
        cases hhead1
        rw [ih rs2 rs3 htail htail1]

/-- With `transform_null_in` on, a probe without a column of the `DateTime64` class
whose casts of the inner values return is prepared: `executeKeyColumns` returns the
casts as the key columns. -/
theorem Set.executeKeyColumns_on_returns (ext : External) (s : Set)
    (htni : s.transform_null_in = true) (columns : List ColumnWithTypeAndName)
    (hblock : ProbeWellFormed columns)
    (hnodt : ∀ c ∈ columns, isDateTime64 (probeColumn c).column.getDataType = false)
    (key_columns : List Column)
    (hcasts : List.Forall₂ (fun (p : ColumnWithTypeAndName × DataType) r =>
      castInnerValues ext p.1 p.2 = .ok r) (columns.zip s.data_types) key_columns) :
    ∃ nm, s.executeKeyColumns ext columns = .ok (key_columns, nm) := by
  obtain ⟨st1, hloop⟩ := Set.executeLoop_on_returns ext s htni columns s.data_types
    { key_columns := [], null_map_holder := none, null_map := none } key_columns hnodt hcasts
  have hprep : s.executeKeyColumns ext columns = .ok (st1.key_columns, st1.null_map) := by
    unfold Set.executeKeyColumns
    rw [hloop]
    simp [htni]
  obtain ⟨_, _, _, h4⟩ := Set.executeKeyColumns_on_plain ext s htni columns hblock hnodt
    st1.key_columns st1.null_map hprep
  have hsame := castInnerValues_unique ext _ _ _ hcasts h4
  exact ⟨st1.null_map, by rw [hprep, hsame]⟩


/-! ## The projection of the retained columns, read off the arguments -/

/-- The key indexes of the mapping the constructor keeps are the key indexes of the
mapping passed in, each once, in ascending order. -/
theorem MergeTreeSetIndex.normalizedMapping_keys
    (indexes_mapping_ : List KeyTuplePositionMapping) :
    (MergeTreeSetIndex.normalizedMapping indexes_mapping_).map (fun m => m.key_index)
      = mappedKeyIndexes indexes_mapping_ := by
  obtain ⟨h1, h2, h3⟩ := MergeTreeSetIndex.normalizedMapping_spec indexes_mapping_
  have hlt : List.Pairwise (fun a b : Nat => a < b)
      ((MergeTreeSetIndex.normalizedMapping indexes_mapping_).map fun m => m.key_index) :=
    List.pairwise_map.mpr h1
  have hnodup1 : ((MergeTreeSetIndex.normalizedMapping indexes_mapping_).map
      fun m => m.key_index).Nodup :=
    List.Pairwise.imp (fun h => Nat.ne_of_lt h) hlt
  have hsorted1 : List.Sorted (fun a b : Nat => a ≤ b)
      ((MergeTreeSetIndex.normalizedMapping indexes_mapping_).map fun m => m.key_index) :=
    List.Pairwise.imp (fun h => Nat.le_of_lt h) hlt
  have hperm2 := List.perm_insertionSort (fun a b : Nat => a ≤ b)
    (indexes_mapping_.map fun m => m.key_index).dedup
  have hnodup2 : (mappedKeyIndexes indexes_mapping_).Nodup :=
    (List.Perm.nodup_iff hperm2).mpr (List.nodup_dedup _)
  have hsorted2 : List.Sorted (fun a b : Nat => a ≤ b) (mappedKeyIndexes indexes_mapping_) :=
    List.sorted_insertionSort _ _
  have hmem : ∀ k, k ∈ (MergeTreeSetIndex.normalizedMapping indexes_mapping_).map
      (fun m => m.key_index) ↔ k ∈ mappedKeyIndexes indexes_mapping_ := by
    intro k
    unfold mappedKeyIndexes
    rw [hperm2.mem_iff, List.mem_dedup, List.mem_map, List.mem_map]
    constructor
    · rintro ⟨m, hm, hk⟩
      exact ⟨m, (h3 m hm).1, hk⟩
    · rintro ⟨m, hm, hk⟩
      obtain ⟨m1, hm1, hk1⟩ := h2 m hm
      exact ⟨m1, hm1, hk1.trans hk⟩
  exact List.eq_of_perm_of_sorted ((List.perm_ext_iff_of_nodup hnodup1 hnodup2).mpr hmem)
    hsorted1 hsorted2

/-- An entry of the mapping the constructor keeps has the smallest tuple index the
mapping passed in gives for its key. -/
theorem MergeTreeSetIndex.normalizedMapping_tuple_index
    (indexes_mapping_ : List KeyTuplePositionMapping) (m : KeyTuplePositionMapping)
    (hm : m ∈ MergeTreeSetIndex.normalizedMapping indexes_mapping_) :
    m.tuple_index = firstTupleIndex indexes_mapping_ m.key_index := by
  obtain ⟨hin, hmin⟩ := (MergeTreeSetIndex.normalizedMapping_spec indexes_mapping_).2.2 m hm
  have hsome : ((indexes_mapping_.filter fun m1 => decide (m1.key_index = m.key_index)).map
      fun m1 => m1.tuple_index).min? = some m.tuple_index := by
    rw [List.min?_eq_some_iff']
    constructor
    · exact List.mem_map.mpr ⟨m, List.mem_filter.mpr ⟨hin, by simp⟩, rfl⟩
    · intro b hb
      obtain ⟨m1, hm1, rfl⟩ := List.mem_map.mp hb
      obtain ⟨hm1in, hkey⟩ := List.mem_filter.mp hm1
      exact hmin m1 hm1in (by simpa using hkey)
  unfold firstTupleIndex
  rw [hsome]
  rfl

/-- The columns the constructor sorts are the projected retained columns. -/
theorem MergeTreeSetIndex.projection_eq (set_elements : List Column)
    (indexes_mapping_ : List KeyTuplePositionMapping) :
    ((MergeTreeSetIndex.normalizedMapping indexes_mapping_).map fun m =>
        set_elements.getD m.tuple_index (Column.vector TypeIndex.UInt8 []))
      = projectedRetainedColumns set_elements indexes_mapping_ := by
  unfold projectedRetainedColumns
  rw [← MergeTreeSetIndex.normalizedMapping_keys, List.map_map]
  apply List.map_congr_left
  intro m hm
  simp only [Function.comp]
  rw [MergeTreeSetIndex.normalizedMapping_tuple_index indexes_mapping_ m hm]

theorem MergeTreeSetIndex.ordered_set_create (set_elements : List Column)
    (indexes_mapping_ : List KeyTuplePositionMapping) :
    (MergeTreeSetIndex.create set_elements indexes_mapping_).ordered_set
      = sortBlock (projectedRetainedColumns set_elements indexes_mapping_) := by
  rw [← MergeTreeSetIndex.projection_eq]
  rfl

theorem length_sortBlock (cols : List Column) : (sortBlock cols).length = cols.length := by
  simp [sortBlock]


/-- Claim C1. Once the header is set, a probe with `key_arity` columns and at least one
row whose key columns could be prepared (no cast threw) gets a result with exactly as
many rows as `columns[0]`; row `i` is `negate` when the null map marks it and
`negate XOR found_i` otherwise, `found_i` being the presence of the cast key tuple of
row `i` in the hash set. -/
theorem execute_contract (ext : External) (s : Set) (c0 : ColumnWithTypeAndName)
    (cs : List ColumnWithTypeAndName) (negative : Bool) (key_columns : List Column)
    (null_map : Option (List Nat))
    (hheader : s.HeaderSet) (harity : (c0 :: cs).length = s.keys_size)
    (hrows : 0 < c0.column.size) (hext : ext.KeepsSize)
    (hkeys : s.executeKeyColumns ext (c0 :: cs) = .ok (key_columns, null_map)) :
    ∃ res, s.execute ext (c0 :: cs) negative = .ok res ∧
      res.length = c0.column.size ∧
      ∀ i, i < c0.column.size →
        res.getD i 0 =
          if nullMapMarks null_map i then negative.toNat
          else (xor negative (s.data.findKey key_columns i)).toNat := by
  obtain ⟨hne, hsize, hdata⟩ := hheader
  have hlen : (c0 :: cs).length = s.data_types.length := by rw [harity, hsize]
  have hsz := Set.executeKeyColumns_sizes ext s hext _ hlen _ _ hkeys
  rw [Set.execute_eq ext s c0 cs negative hne hrows]
  have hchk : s.checkColumnsNumber (c0 :: cs).length = .ok () := by
    unfold Set.checkColumnsNumber
    rw [if_neg (by rw [hlen]; simp)]
  rw [hchk, hkeys]
  refine ⟨_, rfl, ?_, ?_⟩
  · simp [Set.executeOrdinary_length]
  · intro i hi
    cases key_columns with
    | nil => simp at hsz
    | cons k0 ks =>
      have hk0 : k0.size = c0.column.size := by
        simp only [List.map_cons, List.cons.injEq] at hsz
        exact hsz.1
      exact Set.executeOrdinary_getD s k0 ks _ negative null_map hdata i (by simpa using hi)
        (by rw [hk0]; exact hi)

/-- The witness of C1: scenario S1, probed with `{0,1,4,5,9,2}`. -/
theorem execute_contract_witness :
    ∃ res, scenarioS1.execute scenarioExternal [int64Column [0, 1, 4, 5, 9, 2]] false = .ok res ∧
      res.length = (int64Column [0, 1, 4, 5, 9, 2]).column.size ∧
      ∀ i, i < (int64Column [0, 1, 4, 5, 9, 2]).column.size →
        res.getD i 0 =
          if nullMapMarks (some [0, 0, 0, 0, 0, 0]) i then false.toNat
          else (xor false (scenarioS1.data.findKey
            [Column.vector TypeIndex.Int64 [0, 1, 4, 5, 9, 2]] i)).toNat :=
  execute_contract scenarioExternal scenarioS1 (int64Column [0, 1, 4, 5, 9, 2]) [] false
    [Column.vector TypeIndex.Int64 [0, 1, 4, 5, 9, 2]] (some [0, 0, 0, 0, 0, 0])
    (by decide) (by decide) (by decide) scenarioExternal_keepsSize (by decide)


/-- Claim C2. For a freshly headed set, every sequence of well-formed insert blocks and
every well-formed probe block whose column types are the key types, under casts that are
the identity there: `execute(Q, false)[i] = 1` exactly when row `i` of `Q` passes the null
filter (no null-masked component) and equals a row of some inserted block that the null
filter let through. -/
theorem membership_sound_complete (ext : External) (s0 : Set) (blocks : List (List Column))
    (columns : List ColumnWithTypeAndName)
    (hheader : s0.HeaderSet) (hfresh : s0.data.keys = [])
    (hblocks : ∀ b ∈ blocks, s0.BlockWellFormed b)
    (hprobe : s0.ProbeOfKeyTypes columns)
    (hident : ∀ c ∈ columns, ext.IdentityOn (probeColumn c)) :
    ∃ res, (s0.insertBlocks ext blocks).execute ext columns false = .ok res ∧
      res.length = probeRows columns ∧
      ∀ i, i < probeRows columns →
        (res.getD i 0 = 1 ↔
          s0.passesNullFilter (probeRow columns i) = true ∧
            ∃ b ∈ blocks, probeRow columns i ∈ s0.insertedRows b) := by
  obtain ⟨res, hres, hlen, hrow⟩ :=
    Set.execute_after_inserts ext s0 blocks columns hheader hblocks hprobe hident
  refine ⟨res, hres, hlen, ?_⟩
  intro i hi
  rw [hrow i hi, hfresh]
  simp

/-- The witness of C2: scenario S3 (`transform_null_in` on, key `Nullable(Int64)`), the
block `{1, NULL}` and the probe `{NULL, 1, 2}`, which gives `[1, 1, 0]`. -/
theorem membership_sound_complete_witness :
    (scenarioS3Header.insertBlocks scenarioExternal
        [[Column.nullable (Column.vector TypeIndex.Int64 [1, 0]) [0, 1]]]).execute
        scenarioExternal [nullableInt64Column [0, 1, 2] [1, 0, 0]] false = .ok [1, 1, 0] ∧
      ∃ res, (scenarioS3Header.insertBlocks scenarioExternal
          [[Column.nullable (Column.vector TypeIndex.Int64 [1, 0]) [0, 1]]]).execute
          scenarioExternal [nullableInt64Column [0, 1, 2] [1, 0, 0]] false = .ok res ∧
        res.length = probeRows [nullableInt64Column [0, 1, 2] [1, 0, 0]] ∧
        ∀ i, i < probeRows [nullableInt64Column [0, 1, 2] [1, 0, 0]] →
          (res.getD i 0 = 1 ↔
            scenarioS3Header.passesNullFilter
                (probeRow [nullableInt64Column [0, 1, 2] [1, 0, 0]] i) = true ∧
              ∃ b ∈ [[Column.nullable (Column.vector TypeIndex.Int64 [1, 0]) [0, 1]]],
                probeRow [nullableInt64Column [0, 1, 2] [1, 0, 0]] i
                  ∈ scenarioS3Header.insertedRows b) :=
  ⟨by decide,
    membership_sound_complete scenarioExternal scenarioS3Header
      [[Column.nullable (Column.vector TypeIndex.Int64 [1, 0]) [0, 1]]]
      [nullableInt64Column [0, 1, 2] [1, 0, 0]]
      (by decide) (by decide) (by decide) (by decide) (by decide)⟩


/-- Claim C3. For a set in which key types imply a chosen storage variant (every set
built through the constructor, `setHeader` and inserts), `execute(Q, true)` is the
row-wise Boolean complement of `execute(Q, false)` (and fails exactly when it fails,
with the same error); in particular a row the null map marks yields 1 under negation
and 0 without. -/
theorem execute_negation (ext : External) (s : Set) (columns : List ColumnWithTypeAndName)
    (hvariant : s.data_types ≠ [] → s.data.type ≠ SetVariantsType.EMPTY)
    (hext : ext.KeepsSize) :
    s.execute ext columns true
        = (s.execute ext columns false).map (fun res => res.map fun b => 1 - b) ∧
      ∀ key_columns null_map res_neg res,
        s.data_types ≠ [] →
        s.executeKeyColumns ext columns = .ok (key_columns, null_map) →
        s.execute ext columns true = .ok res_neg →
        s.execute ext columns false = .ok res →
        ∀ i, i < res.length → nullMapMarks null_map i = true →
          res_neg.getD i 0 = 1 ∧ res.getD i 0 = 0 := by
  cases columns with
  | nil => exact ⟨rfl, fun _ _ _ _ _ _ h => by simp [Set.execute] at h⟩
  | cons c0 cs =>
    by_cases hrows : c0.column.size = 0
    · constructor
      · simp [Set.execute, hrows, Except.map]
      · intro _ _ _ res _ _ _ hres i hi
        simp [Set.execute, hrows] at hres
        subst hres
        simp at hi
    · have hpos : 0 < c0.column.size := Nat.pos_of_ne_zero hrows
      by_cases hkeys : s.data_types = []
      · constructor
        · have h1 : (List.replicate c0.column.size 0).isEmpty = false := by
            cases hsz : c0.column.size with
            | zero => omega
            | succ n => rfl
          simp [Set.execute, h1, hkeys, Except.map]
        · intro _ _ _ _ h; exact absurd hkeys h
      · have hdata := hvariant hkeys
        rw [Set.execute_eq ext s c0 cs true hkeys hpos,
          Set.execute_eq ext s c0 cs false hkeys hpos]
        unfold Set.checkColumnsNumber
        by_cases hlen : s.data_types.length = (c0 :: cs).length
        · rw [if_neg (by rw [hlen]; simp)]
          simp only
          cases hprep : s.executeKeyColumns ext (c0 :: cs) with
          | error e => exact ⟨rfl, fun _ _ _ _ _ h => by cases h⟩
          | ok p =>
            obtain ⟨kc, nm⟩ := p
            have hsz := Set.executeKeyColumns_sizes ext s hext _ hlen.symm _ _ hprep
            cases kc with
            | nil => simp at hsz
            | cons k0 ks =>
              have hk0 : k0.size = c0.column.size := by
                simp only [List.map_cons, List.cons.injEq] at hsz
                exact hsz.1
              have hget : ∀ (negative : Bool) i, i < c0.column.size →
                  (s.executeOrdinary (k0 :: ks) (List.replicate c0.column.size 0)
                    negative nm).getD i 0
                  = if nullMapMarks nm i then negative.toNat
                    else (xor negative (s.data.findKey (k0 :: ks) i)).toNat := fun negative i hi =>
                Set.executeOrdinary_getD s k0 ks _ negative nm hdata i (by simpa using hi)
                  (by rw [hk0]; exact hi)
              constructor
              · simp only [Except.map]
                congr 1
                apply List.ext_getElem
                · simp [Set.executeOrdinary_length]
                · intro i h1 h2
                  have hi : i < c0.column.size := by
                    simpa [Set.executeOrdinary_length] using h1
                  have ht := hget true i hi
                  have hf := hget false i hi
                  rw [List.getD_eq_getElem _ _ h1] at ht
                  rw [List.getD_eq_getElem _ _
                    (by simpa [Set.executeOrdinary_length] using hi)] at hf
                  rw [ht, List.getElem_map, hf]
                  split <;> [rfl; (cases s.data.findKey (k0 :: ks) i <;> rfl)]
              · intro key_columns null_map res_neg res _ hk hneg hres i hi hmark
                cases hk; cases hneg; cases hres
                have hi1 : i < c0.column.size := by
                  simpa [Set.executeOrdinary_length] using hi
                rw [hget true i hi1, hget false i hi1, if_pos hmark, if_pos hmark]
                exact ⟨rfl, rfl⟩
        · rw [if_pos hlen]
          exact ⟨rfl, fun _ _ _ _ _ _ _ h => by cases h⟩

/-- The witness of C3: scenario S1, `{1,2,3,5,8}` probed with `{0,1,4,5,9,2}`, gives
`[0,1,0,1,0,1]` and, negated, `[1,0,1,0,1,0]`. -/
theorem execute_negation_witness :
    scenarioS1.execute scenarioExternal [int64Column [0, 1, 4, 5, 9, 2]] false
        = .ok [0, 1, 0, 1, 0, 1] ∧
      scenarioS1.execute scenarioExternal [int64Column [0, 1, 4, 5, 9, 2]] true
        = .ok [1, 0, 1, 0, 1, 0] ∧
      scenarioS1.execute scenarioExternal [int64Column [0, 1, 4, 5, 9, 2]] true
        = (scenarioS1.execute scenarioExternal [int64Column [0, 1, 4, 5, 9, 2]] false).map
            (fun res => res.map fun b => 1 - b) :=
  ⟨by decide, by decide,
    (execute_negation scenarioExternal scenarioS1 [int64Column [0, 1, 4, 5, 9, 2]]
      (by decide) scenarioExternal_keepsSize).1⟩


/-- Claim C4. With `transform_null_in` off: a probe row in which some key component is
NULL gets `negate` whatever the set contains, and a well-formed insert block adds no row
with a NULL component to the hash table. -/
theorem null_semantics_off (ext : External) (s : Set) (columns : List ColumnWithTypeAndName)
    (negative : Bool) (res : List Nat) (c : ColumnWithTypeAndName) (i : Nat)
    (block : List Column)
    (htni : s.transform_null_in = false)
    (hvariant : s.data_types ≠ [] → s.data.type ≠ SetVariantsType.EMPTY)
    (hsize : ext.KeepsSize) (hwf : ext.ResultsWellFormed) (hnulls : ext.KeepsNulls)
    (hprobe : ProbeWellFormed columns) (hc : c ∈ columns)
    (hnull : (probeColumn c).column.isNullAt i = true) (hi : i < probeRows columns)
    (hres : s.execute ext columns negative = .ok res)
    (hblock : s.BlockWellFormed block) :
    res.getD i 0 = negative.toNat ∧
      ∀ k ∈ (s.insertFromColumns ext block).1.data.keys,
        k ∈ s.data.keys ∨ (k ∈ s.blockRowList block ∧ Field.Null ∉ k) := by
  constructor
  · cases columns with
    | nil => simp at hc
    | cons c0 cs =>
      have hi0 : i < c0.column.size := hi
      by_cases hne : s.data_types = []
      · exact Set.execute_no_keys ext s c0 cs negative res i hne hres hi0
      · apply Set.execute_marked ext s c0 cs negative res i hne (hvariant hne) hsize hres hi0
        intro kc nm hlen hprep
        exact (Set.executeKeyColumns_off ext s htni hsize hwf _ hlen hprobe kc nm hprep i
          hi0).1 hnulls c hc hnull
  · intro k hk
    by_cases hdata : s.data.type = SetVariantsType.EMPTY
    · have hsame : (s.insertFromColumns ext block).1 = s := by
        unfold Set.insertFromColumns
        cases block with
        | nil => rfl
        | cons b0 bs =>
          simp only [Set.insertFromColumnsHolder, SetVariants.empty, hdata, decide_True,
            if_true]
      rw [hsame] at hk
      exact Or.inl hk
    · rw [Set.insertFromColumns_data ext s block hdata hblock.1 hblock.2.1,
        Set.dataWithBlock, Set.blockRowKeys_eq_insertedRows s block hblock] at hk
      simp only at hk
      rcases (mem_emplaceAll _ _ _).mp hk with h | h
      · exact Or.inl h
      · right
        unfold Set.insertedRows at h
        rw [List.mem_filter] at h
        refine ⟨h.1, ?_⟩
        have hp := h.2
        simp only [Set.passesNullFilter, htni, Bool.false_or, Bool.not_eq_true',
          List.contains_eq_any_beq, List.any_eq_false] at hp
        intro hmem
        exact hp Field.Null hmem (by simp)

/-- The witness of C4: scenario S2 (`transform_null_in` off, key `Nullable(Int64)`, the
set built from `{1, NULL, 3}`, which holds `1` and `3` only): the probe `{NULL, 1, 2, 3}`
gives `[0, 1, 0, 1]`, row 0 being NULL, and feeding the block `{1, NULL, 3}` again adds no
key with a NULL. -/
theorem null_semantics_off_witness :
    scenarioS2.execute scenarioExternal
        [nullableInt64Column [0, 1, 2, 3] [1, 0, 0, 0]] false = .ok [0, 1, 0, 1] ∧
      scenarioS2.data.keys = [[Field.Int64 1], [Field.Int64 3]] ∧
      (([0, 1, 0, 1] : List Nat).getD 0 0 = false.toNat ∧
        ∀ k ∈ (scenarioS2.insertFromColumns scenarioExternal
            [Column.nullable (Column.vector TypeIndex.Int64 [1, 0, 3]) [0, 1, 0]]).1.data.keys,
          k ∈ scenarioS2.data.keys ∨
            (k ∈ scenarioS2.blockRowList
                [Column.nullable (Column.vector TypeIndex.Int64 [1, 0, 3]) [0, 1, 0]] ∧
              Field.Null ∉ k)) :=
  ⟨by decide, by decide,
    null_semantics_off scenarioExternal scenarioS2
      [nullableInt64Column [0, 1, 2, 3] [1, 0, 0, 0]] false [0, 1, 0, 1]
      (nullableInt64Column [0, 1, 2, 3] [1, 0, 0, 0]) 0
      [Column.nullable (Column.vector TypeIndex.Int64 [1, 0, 3]) [0, 1, 0]]
      (by decide) (by decide) scenarioExternal_keepsSize scenarioExternal_resultsWellFormed
      scenarioExternal_keepsNulls (by decide) (by decide) (by decide) (by decide)
      (by decide) (by decide)⟩


/-- Claim C5. On a set not marked built `hasNull()` raises `LOGICAL_ERROR`. On a set
marked built it returns `true` exactly when `transform_null_in` is on, there is one key
type, that type is nullable, and probing the one-row block `[NULL]` with
`execute(..., false)` returns 1. For a set headed with one nullable key under
`transform_null_in`, filled with well-formed blocks and marked built, that is the case
exactly when a NULL row was inserted. -/
theorem hasNull_spec (ext : External) (s : Set) :
    (s.is_created = false → s.hasNull ext = .error ErrorCodes.LOGICAL_ERROR) ∧
      (s.is_created = true →
        (s.hasNull ext = .ok true ↔
          s.transform_null_in = true ∧
            ∃ t, s.data_types = [t] ∧ t.isNullable = true ∧
              ∃ res, s.execute ext [nullProbe t] false = .ok res ∧ res.getD 0 0 = 1)) ∧
      (∀ (s0 : Set) (blocks : List (List Column)) (t : DataType),
        s = (s0.insertBlocks ext blocks).finishInsert →
        s0.HeaderSet → s0.data.keys = [] → s0.transform_null_in = true →
        s0.data_types = [t] → t.isNullable = true →
        (∀ b ∈ blocks, s0.BlockWellFormed b) →
        s0.ProbeOfKeyTypes [nullProbe t] → ext.IdentityOn (probeColumn (nullProbe t)) →
        (s.hasNull ext = .ok true ↔ ∃ b ∈ blocks, [Field.Null] ∈ s0.insertedRows b)) := by
  have hb : s.is_created = true →
      (s.hasNull ext = .ok true ↔
        s.transform_null_in = true ∧
          ∃ t, s.data_types = [t] ∧ t.isNullable = true ∧
            ∃ res, s.execute ext [nullProbe t] false = .ok res ∧ res.getD 0 0 = 1) := by
    intro hc
    rw [Set.hasNull_eq]
    simp only [hc, Bool.true_eq_false, if_false]
    cases ht : s.transform_null_in with
    | false => simp
    | true =>
      simp only [Bool.true_eq_false, if_false, true_and]
      rcases hd : s.data_types with _ | ⟨t, _ | ⟨t2, ts⟩⟩
      · simp
      · simp only [List.cons.injEq, and_true, exists_eq_left']
        cases hn : t.isNullable with
        | false => simp
        | true =>
          simp only [Bool.true_eq_false, if_false, true_and]
          cases hex : s.execute ext [nullProbe t] false with
          | error e => simp
          | ok res =>
            have hle := Set.execute_le_one ext s _ _ res hex 0
            simp only [Except.ok.injEq, decide_eq_true_eq, exists_eq_left']
            omega
      · simp
  refine ⟨?_, hb, ?_⟩
  · intro hc
    rw [Set.hasNull_eq, if_pos hc]
  · intro s0 blocks t hs hheader hfresh htni htypes hnull hblocks hprobe hident
    obtain ⟨fse, se, hins⟩ := Set.insertBlocks_eq ext blocks s0 hheader.2.2 hblocks
    have hcreated : s.is_created = true := by rw [hs]; rfl
    have hstni : s.transform_null_in = true := by rw [hs, hins]; exact htni
    have hstypes : s.data_types = [t] := by rw [hs, hins]; exact htypes
    have hexec : s.execute ext [nullProbe t] false
        = (s0.insertBlocks ext blocks).execute ext [nullProbe t] false := by
      rw [hs]
      apply Set.execute_congr <;> rfl
    obtain ⟨res, hres, hlen, hrow⟩ := Set.execute_after_inserts ext s0 blocks [nullProbe t]
      hheader hblocks hprobe (by
        intro c hc
        rw [List.mem_singleton] at hc
        rw [hc]; exact hident)
    have hfull := (hprobe.2 (nullProbe t) (List.mem_singleton.mpr rfl)).1
    simp only [probeColumn, nullProbe, Column.convertToFullColumnIfConst, Column.isFull,
      Bool.and_eq_true, decide_eq_true_eq, List.length_singleton] at hfull
    have hrow0 := hrow 0 (by
      simp only [probeRows, nullProbe, Column.size]
      omega)
    have hprow : probeRow [nullProbe t] 0 = [Field.Null] := by
      simp [probeRow, probeColumn, nullProbe, SetVariants.keyAt, Column.convertToFullColumnIfConst,
        Column.get]
    have hpass : s0.passesNullFilter [Field.Null] = true := by
      simp [Set.passesNullFilter, htni]
    rw [hprow, hpass, hfresh] at hrow0
    rw [hb hcreated]
    constructor
    · rintro ⟨_, t1, ht1, _, res1, hres1, hone⟩
      rw [hstypes] at ht1
      cases ht1
      rw [hexec, hres] at hres1
      cases hres1
      have := hrow0.mp hone
      simpa using this
    · intro h
      refine ⟨hstni, t, hstypes, hnull, res, by rw [hexec, hres], hrow0.mpr ?_⟩
      simpa using h

/-- The witness of C5: scenario S3 (`transform_null_in` on, key `Nullable(Int64)`, the
block `{1, NULL}`, marked built): the probe `{NULL, 1, 2}` gives `[1, 1, 0]` and
`hasNull()` is true, because the NULL row went in. -/
theorem hasNull_spec_witness :
    scenarioS3.execute scenarioExternal [nullableInt64Column [0, 1, 2] [1, 0, 0]] false
        = .ok [1, 1, 0] ∧
      scenarioS3.hasNull scenarioExternal = .ok true ∧
      (scenarioS3.hasNull scenarioExternal = .ok true ↔
        ∃ b ∈ [[Column.nullable (Column.vector TypeIndex.Int64 [1, 0]) [0, 1]]],
          [Field.Null] ∈ scenarioS3Header.insertedRows b) :=
  ⟨by decide, by decide,
    (hasNull_spec scenarioExternal scenarioS3).2.2 scenarioS3Header
      [[Column.nullable (Column.vector TypeIndex.Int64 [1, 0]) [0, 1]]]
      (DataType.Nullable DataType.Int64) rfl (by decide) (by decide) (by decide) (by decide)
      (by decide) (by decide) (by decide) (by decide)⟩


/-- The counterexample to C6 as stated: under `transform_null_in` the key type
`Nullable(DateTime64(3))` is not `DateTime64`, yet the guard of `execute` looks through the
`Nullable` of the cast result and skips the precision check: the probe value 1500 of type
`DateTime64(3)` has `1500 mod 10^3 ≠ 0` and is reported as a member, not as `negate`. -/
theorem datetime64_precision_counterexample :
    scenarioNullableDateTime64.transform_null_in = true ∧
      scenarioNullableDateTime64.data_types = [DataType.Nullable (DataType.DateTime64 3)] ∧
      (∀ scale, DataType.Nullable (DataType.DateTime64 3) ≠ DataType.DateTime64 scale) ∧
      (dateTime64Column 3 [1500]).type = DataType.DateTime64 3 ∧
      losesPrecision 3 1500 ∧
      scenarioNullableDateTime64.execute scenarioExternal [dateTime64Column 3 [1500]] false
        = .ok [1] ∧
      ([1] : List Nat).getD 0 0 ≠ false.toNat := by
  refine ⟨by decide, by decide, ?_, rfl, by decide, by decide, by decide⟩
  intro scale h
  cases h

/-- Claim C6, amended. Whatever the set holds and whichever value `transform_null_in`
has: if probe column `c` has type `DateTime64(scale)` with `scale ≥ 1`, faces a key type
`t` that is not `DateTime64` once an outer `Nullable` is removed, and `execute` returns,
then every row whose raw value `v` has `v mod 10^scale ≠ 0` gets `negate`. -/
theorem datetime64_precision (ext : External) (s : Set) (columns : List ColumnWithTypeAndName)
    (negative : Bool) (res : List Nat) (c : ColumnWithTypeAndName) (t : DataType)
    (scale : Nat) (data : List Int) (i : Nat)
    (hvariant : s.data_types ≠ [] → s.data.type ≠ SetVariantsType.EMPTY)
    (hsize : ext.KeepsSize) (hwf : ext.ResultsWellFormed) (htyped : ext.TypedResults)
    (hblock : ProbeWellFormed columns)
    (hmem : (c, t) ∈ columns.zip s.data_types)
    (hty : c.type = DataType.DateTime64 scale) (hscale : 1 ≤ scale)
    (hcol : (probeColumn c).column = Column.vector TypeIndex.DateTime64 data)
    (hkey : t.notDateTime64)
    (hres : s.execute ext columns negative = .ok res)
    (hi : i < data.length) (hlose : losesPrecision scale (data.getD i 0)) :
    res.getD i 0 = negative.toNat := by
  have hne : s.data_types ≠ [] := by
    intro h
    rw [h] at hmem
    simp at hmem
  have hcmem : c ∈ columns := (List.of_mem_zip hmem).1
  have hdlen : data.length = probeRows columns := by
    have hc := (hblock c hcmem).1
    have : (probeColumn c).column.size = c.column.size := by
      simp [probeColumn, Column.size_convertToFullColumnIfConst]
    rw [hcol] at this
    simp only [Column.size] at this
    omega
  cases columns with
  | nil => simp at hcmem
  | cons c0 cs =>
    have hi0 : i < c0.column.size := by
      simp only [probeRows] at hdlen
      omega
    apply Set.execute_marked ext s c0 cs negative res i hne (hvariant hne) hsize hres hi0
    intro kc nm hlen hprep
    cases htni : s.transform_null_in with
    | false =>
      exact (Set.executeKeyColumns_off ext s htni hsize hwf _ hlen hblock kc nm hprep i
        hi0).2 htyped c t hmem scale data hty hscale hcol hkey hlose
    | true =>
      exact Set.executeKeyColumns_on ext s htni htyped _ kc nm hprep i c t hmem scale data
        hty hscale hcol hkey hi hlose

/-- The witness of C6 amended: scenario S4, key type `DateTime`, the set `{2024-01-01 00:00:00}`
probed with the `DateTime64(3)` values `…00.000` and `…00.500`, gives `[1, 0]`; the
second row loses precision. -/
theorem datetime64_precision_witness :
    scenarioS4.execute scenarioExternal
        [dateTime64Column 3 [1704067200000, 1704067200500]] false = .ok [1, 0] ∧
      ([1, 0] : List Nat).getD 1 0 = false.toNat :=
  ⟨by decide,
    datetime64_precision scenarioExternal scenarioS4
      [dateTime64Column 3 [1704067200000, 1704067200500]] false [1, 0]
      (dateTime64Column 3 [1704067200000, 1704067200500]) DataType.DateTime 3
      [1704067200000, 1704067200500] 1
      (by decide) scenarioExternal_keepsSize scenarioExternal_resultsWellFormed
      scenarioExternal_typedResults (by decide) (by decide) rfl (by decide) rfl (by decide)
      (by decide) (by decide) (by decide)⟩


/-- Claim C7. Two sequences of well-formed insert blocks that hold the same list of rows,
split differently, give the same result of `execute(Q, false)` for every probe block
`Q`, when fed to sets with the same header and settings. -/
theorem rebuild_resplit (ext : External) (s0 : Set) (blocks1 blocks2 : List (List Column))
    (columns : List ColumnWithTypeAndName) (hheader : s0.HeaderSet)
    (hblocks1 : ∀ b ∈ blocks1, s0.BlockWellFormed b)
    (hblocks2 : ∀ b ∈ blocks2, s0.BlockWellFormed b)
    (hrows : blocks1.flatMap s0.blockRowList = blocks2.flatMap s0.blockRowList) :
    (s0.insertBlocks ext blocks1).execute ext columns false
      = (s0.insertBlocks ext blocks2).execute ext columns false := by
  obtain ⟨_, _, hdata⟩ := hheader
  obtain ⟨fse1, se1, h1⟩ := Set.insertBlocks_eq ext blocks1 s0 hdata hblocks1
  obtain ⟨fse2, se2, h2⟩ := Set.insertBlocks_eq ext blocks2 s0 hdata hblocks2
  rw [h1, h2, Set.flatMap_insertedRows, Set.flatMap_insertedRows, hrows]
  apply Set.execute_congr <;> rfl

/-- The witness of C7: the rows `1, 2, 3, 2` as one block and as the blocks `1` and
`2, 3, 2`, on the header of scenario S1. -/
theorem rebuild_resplit_witness :
    (((Set.create scenarioLimits 0 false).setHeader [int64Column []]).insertBlocks
        scenarioExternal [[Column.vector TypeIndex.Int64 [1, 2, 3, 2]]]).execute
        scenarioExternal [int64Column [2, 4]] false
      = (((Set.create scenarioLimits 0 false).setHeader [int64Column []]).insertBlocks
        scenarioExternal [[Column.vector TypeIndex.Int64 [1]],
          [Column.vector TypeIndex.Int64 [2, 3, 2]]]).execute
        scenarioExternal [int64Column [2, 4]] false :=
  rebuild_resplit scenarioExternal ((Set.create scenarioLimits 0 false).setHeader [int64Column []])
    [[Column.vector TypeIndex.Int64 [1, 2, 3, 2]]]
    [[Column.vector TypeIndex.Int64 [1]], [Column.vector TypeIndex.Int64 [2, 3, 2]]]
    [int64Column [2, 4]] (by decide) (by decide) (by decide) (by decide)


/-- Claim C8. A set whose `key_types` is empty answers every non-empty list of probe
columns with a column of the length of `columns[0]` whose rows all equal `negate`, and
raises nothing. -/
theorem execute_never_built (ext : External) (s : Set) (c0 : ColumnWithTypeAndName)
    (cs : List ColumnWithTypeAndName) (negative : Bool) (hkeys : s.data_types = []) :
    s.execute ext (c0 :: cs) negative
      = .ok (List.replicate c0.column.size negative.toNat) := by
  unfold Set.execute
  simp only [hkeys, List.isEmpty_nil, if_true, List.length_replicate]
  cases hsz : c0.column.size with
  | zero => simp
  | succ n => cases negative <;> simp [List.isEmpty, List.replicate_succ]

/-- The witness of C8: a set that was only constructed, probed with two columns of three
rows under negation. -/
theorem execute_never_built_witness :
    (Set.create scenarioLimits 0 false).execute scenarioExternal
        (int64Column [7, 8, 9] :: [int64Column [1, 2, 3]]) true
      = .ok (List.replicate (int64Column [7, 8, 9]).column.size true.toNat) :=
  execute_never_built scenarioExternal (Set.create scenarioLimits 0 false)
    (int64Column [7, 8, 9]) [int64Column [1, 2, 3]] true rfl


/-- The counterexample to C9 as stated: on the set of scenario S1 (one key), a call
with no columns at all fails with `LOGICAL_ERROR`, and a call with two columns of zero
rows returns the empty column; neither is `NUMBER_OF_COLUMNS_DOESNT_MATCH`. -/
theorem execute_wrong_arity_counterexample :
    scenarioS1.HeaderSet ∧ scenarioS1.keys_size = 1 ∧
      scenarioS1.execute scenarioExternal [] false = .error ErrorCodes.LOGICAL_ERROR ∧
      scenarioS1.execute scenarioExternal [int64Column [], int64Column []] false = .ok [] := by
  decide

/-- Claim C9, amended. Once the header is set, a call of `execute` with at least one
column whose first column has at least one row, and a number of columns other than
`key_arity`, fails with `NUMBER_OF_COLUMNS_DOESNT_MATCH`. -/
theorem execute_wrong_arity (ext : External) (s : Set) (c0 : ColumnWithTypeAndName)
    (cs : List ColumnWithTypeAndName) (negative : Bool) (hheader : s.HeaderSet)
    (hrows : 0 < c0.column.size) (harity : (c0 :: cs).length ≠ s.keys_size) :
    s.execute ext (c0 :: cs) negative = .error ErrorCodes.NUMBER_OF_COLUMNS_DOESNT_MATCH := by
  obtain ⟨hne, hsize, _⟩ := hheader
  rw [Set.execute_eq ext s c0 cs negative hne hrows]
  unfold Set.checkColumnsNumber
  rw [if_pos (by rw [← hsize]; exact fun h => harity h.symm)]

/-- The witness of C9 amended: scenario S1 has one key and is probed with two columns. -/
theorem execute_wrong_arity_witness :
    scenarioS1.execute scenarioExternal (int64Column [1] :: [int64Column [2]]) false
      = .error ErrorCodes.NUMBER_OF_COLUMNS_DOESNT_MATCH :=
  execute_wrong_arity scenarioExternal scenarioS1 (int64Column [1]) [int64Column [2]] false
    (by decide) (by decide) (by decide)


/-- Claim C10. `insertFromColumns(columns, holder)` first emplaces every row of the
block the null map does not mark and only then checks the limits, on the row and byte
counts of the resulting hash table: above `max_rows` or `max_bytes` it raises
`SET_SIZE_LIMIT_EXCEEDED` in throw mode and returns `false` in break mode, otherwise it
returns `true`. The rows of the block are members of the set whatever the check says, and
`insertFromColumns(columns)` leaves the same hash table. -/
theorem insert_limits_post_check (ext : External) (s : Set) (columns : List Column)
    (holder : SetKeyColumns) (hheader : s.HeaderSet) (hlen : s.keys_size ≤ columns.length)
    (hcols : columns ≠ []) (hholder : holder.key_columns = []) :
    (∀ i, i < blockRows columns → nullMapMarks (s.insertKeyColumns columns).2 i = false →
        (s.insertFromColumnsHolder ext columns holder).1.data.findKey
          (s.insertKeyColumns columns).1 i = true) ∧
      (s.insertFromColumnsHolder ext columns holder).2.2
        = (if (s.insertFromColumnsHolder ext columns holder).1.getTotalRowCount
                > s.limits.max_rows ∨
              (s.insertFromColumnsHolder ext columns holder).1.getTotalByteCount ext
                > s.limits.max_bytes then
            match s.limits.overflow_mode with
            | OverflowMode.THROW => .error ErrorCodes.SET_SIZE_LIMIT_EXCEEDED
            | OverflowMode.BREAK => .ok false
          else .ok true) ∧
      (s.insertFromColumns ext columns).1.data
        = (s.insertFromColumnsHolder ext columns holder).1.data := by
  obtain ⟨_, _, hdata⟩ := hheader
  have hfst := Set.insertFromColumnsHolder_fst ext s columns holder hdata hlen hcols hholder
  have hout := Set.insertFromColumnsHolder_outcome ext s columns holder hdata hlen hcols hholder
  refine ⟨?_, ?_, ?_⟩
  · intro i hi hm
    rw [hfst]
    simp only [SetVariants.findKey, Set.dataWithBlock, decide_eq_true_eq]
    rw [mem_emplaceAll, mem_blockRowKeys]
    exact Or.inr ⟨i, hi, hm, rfl⟩
  · rw [hout, hfst]
    rfl
  · rw [Set.insertFromColumns_data ext s columns hdata hlen hcols, hfst]

/-- The witness of C10: `scenarioTight` holds `{1}` and allows two rows in break mode;
the block `{2, 3}` makes three rows, so the call returns `false`, and `3` is a member. -/
theorem insert_limits_post_check_witness :
    (scenarioTight.insertFromColumnsHolder scenarioExternal
        [Column.vector TypeIndex.Int64 [2, 3]] SetKeyColumns.new).2.2 = .ok false ∧
      (scenarioTight.insertFromColumnsHolder scenarioExternal
        [Column.vector TypeIndex.Int64 [2, 3]] SetKeyColumns.new).1.data.findKey
          (scenarioTight.insertKeyColumns [Column.vector TypeIndex.Int64 [2, 3]]).1 1 = true :=
  ⟨by decide,
    (insert_limits_post_check scenarioExternal scenarioTight
      [Column.vector TypeIndex.Int64 [2, 3]] SetKeyColumns.new (by decide) (by decide)
      (by decide) rfl).1 1 (by decide) (by decide)⟩


/-- The counterexample to C11 as stated. Under limits of two rows in break mode the
block `{1, 2, 3}` goes into the hash table, the call returns `false`, and nothing is
appended to the retained column: the elements are still retained, the retained column
has 0 rows and the set 3. And when `fillSetElements` is called after the block `{1, 2}`
went in, the retained column starts empty next to a set of 2 rows. -/
theorem retained_columns_invariant_counterexample :
    (((Set.create scenarioBreakLimits 0 false).setHeader
        [int64Column []]).fillSetElements.insertFromColumns scenarioExternal
        [Column.vector TypeIndex.Int64 [1, 2, 3]]).2 = .ok false ∧
      ((Set.create scenarioBreakLimits 0 false).calls scenarioExternal scenarioBreakCalls).2
        = .ok () ∧
      ((Set.create scenarioBreakLimits 0 false).calls scenarioExternal
        scenarioBreakCalls).1.fill_set_elements = true ∧
      ((Set.create scenarioBreakLimits 0 false).calls scenarioExternal
        scenarioBreakCalls).1.set_elements.map Column.size = [0] ∧
      ((Set.create scenarioBreakLimits 0 false).calls scenarioExternal
        scenarioBreakCalls).1.getTotalRowCount = 3 ∧
      ((Set.create scenarioLimits 0 false).calls scenarioExternal scenarioLateFillCalls).2
        = .ok () ∧
      ((Set.create scenarioLimits 0 false).calls scenarioExternal
        scenarioLateFillCalls).1.fill_set_elements = true ∧
      ((Set.create scenarioLimits 0 false).calls scenarioExternal
        scenarioLateFillCalls).1.set_elements.map Column.size = [0] ∧
      ((Set.create scenarioLimits 0 false).calls scenarioExternal
        scenarioLateFillCalls).1.getTotalRowCount = 2 := by
  decide

/-- Claim C11, amended. After every sequence of `setHeader`, `fillSetElements` and
`insertFromColumns` calls on a fresh `Set` in which `fillSetElements` is called while the
set holds no row and every `insertFromColumns` gets a block whose key columns have the
row count of the block and returns `true`: if the elements are still retained, every
retained column has as many rows as the set has distinct rows (`getTotalRowCount`), and
all retained columns have the same length. -/
theorem retained_columns_invariant (ext : External) (limits : SizeLimits)
    (max_elements_to_fill : Nat) (transform_null_in : Bool) (calls : List BuildCall)
    (hcalls : (Set.create limits max_elements_to_fill transform_null_in).callsRetain ext calls)
    (hfill : ((Set.create limits max_elements_to_fill transform_null_in).calls ext
      calls).1.fill_set_elements = true) :
    (∀ c ∈ ((Set.create limits max_elements_to_fill transform_null_in).calls ext
        calls).1.set_elements,
      c.size = ((Set.create limits max_elements_to_fill transform_null_in).calls ext
        calls).1.getTotalRowCount) ∧
    (∀ c1 ∈ ((Set.create limits max_elements_to_fill transform_null_in).calls ext
        calls).1.set_elements,
      ∀ c2 ∈ ((Set.create limits max_elements_to_fill transform_null_in).calls ext
        calls).1.set_elements, c1.size = c2.size) := by
  have hinv := Set.retainedInStep_calls ext calls _
    (Set.retainedInStep_create limits max_elements_to_fill transform_null_in) hcalls
  have hsize := hinv.2.2 hfill
  exact ⟨hsize, fun c1 h1 c2 h2 => by rw [hsize c1 h1, hsize c2 h2]⟩

/-- The witness of C11 amended: two keys, two blocks that share the row `(2, 'b')` and
repeat `(1, 'a')`; the set has three rows and so has each of the two retained columns. -/
theorem retained_columns_invariant_witness :
    ((Set.create scenarioLimits 0 false).calls scenarioExternal
        scenarioRetainCalls).1.getTotalRowCount = 3 ∧
      ∀ c ∈ ((Set.create scenarioLimits 0 false).calls scenarioExternal
          scenarioRetainCalls).1.set_elements,
        c.size = ((Set.create scenarioLimits 0 false).calls scenarioExternal
          scenarioRetainCalls).1.getTotalRowCount :=
  ⟨by decide,
    (retained_columns_invariant scenarioExternal scenarioLimits 0 false scenarioRetainCalls
      (by decide) (by decide)).1⟩


/-- Claim C12. For a call of `insertFromColumns` on a well-formed block that returns
`true` (the limit check passed) while the elements are retained, the retained columns
being empty or full columns: if `max_elements_to_fill` is non-zero and the row count
after the insert is strictly greater, then afterwards the elements are not retained and
there is no retained column; otherwise the elements stay retained and every retained
column has got, after its rows, its cell of the keys the block added to the hash table,
in order. And an insert into a set whose elements are not retained leaves them not
retained, whatever it returns. -/
theorem retention_cap (ext : External) (s : Set) (columns : List Column)
    (hfill : s.fill_set_elements = true) (hwf : s.BlockWellFormed columns)
    (hret : ∀ c ∈ s.set_elements, c.size = 0 ∨ c.isFull = true)
    (hok : (s.insertFromColumns ext columns).2 = .ok true) :
    (s.max_elements_to_fill ≠ 0 ∧
        s.max_elements_to_fill < (s.insertFromColumns ext columns).1.getTotalRowCount →
      (s.insertFromColumns ext columns).1.fill_set_elements = false ∧
        (s.insertFromColumns ext columns).1.set_elements = []) ∧
    (¬ (s.max_elements_to_fill ≠ 0 ∧
        s.max_elements_to_fill < (s.insertFromColumns ext columns).1.getTotalRowCount) →
      (s.insertFromColumns ext columns).1.fill_set_elements = true ∧
        (s.insertFromColumns ext columns).1.set_elements.length = s.set_elements.length ∧
        ∀ (i : Nat) (e : Column), s.set_elements[i]? = some e →
          ∃ col, (s.insertFromColumns ext columns).1.set_elements[i]? = some col ∧
            col.rows = e.rows ++
              ((s.insertFromColumns ext columns).1.data.keys.drop s.data.keys.length).map
                (fun key => key.getD i Field.Null)) ∧
    (∀ (s0 : Set) (columns0 : List Column), s0.fill_set_elements = false →
      (s0.insertFromColumns ext columns0).1.fill_set_elements = false) := by
  obtain ⟨hdata, hlen, hcols⟩ := Set.insertFromColumns_ok ext s columns true hok
  have hd := Set.insertFromColumns_data ext s columns hdata hlen hcols
  have hcount : (s.insertFromColumns ext columns).1.getTotalRowCount
      = (s.dataWithBlock columns).getTotalRowCount := by
    rw [Set.getTotalRowCount, hd]
  rw [hcount, hd]
  refine ⟨fun hcap => ?_, fun hcap => ?_, fun s0 columns0 h0 =>
    Set.insertFromColumns_fill_off ext s0 columns0 h0⟩
  · rw [(Set.insertFromColumns_retain ext s columns hfill hok).1 hcap]
    exact ⟨rfl, rfl⟩
  · obtain ⟨cols, heq, hl, hrows⟩ :=
      Set.insertFromColumns_retain_rows ext s columns hfill hwf hret hok hcap
    rw [heq]
    refine ⟨hfill, hl, fun i e he => ?_⟩
    obtain ⟨col, hc, _, hr⟩ := hrows i e he
    exact ⟨col, hc, hr⟩

/-- The witness of C12: with a cap of two elements, the block `{1, 2}` leaves the
elements retained (two rows are not more than two), and the block `{2, 3}` after it makes
three rows, so the retained column is dropped. -/
theorem retention_cap_witness :
    scenarioCap.fill_set_elements = true ∧
      (scenarioCap.insertFromColumns scenarioExternal
        [Column.vector TypeIndex.Int64 [2, 3]]).1.fill_set_elements = false ∧
      (scenarioCap.insertFromColumns scenarioExternal
        [Column.vector TypeIndex.Int64 [2, 3]]).1.set_elements = [] :=
  ⟨((retention_cap scenarioExternal scenarioCapHeader [Column.vector TypeIndex.Int64 [1, 2]]
      (by decide) (by decide) (by decide) (by decide)).2.1 (by decide)).1,
    (retention_cap scenarioExternal scenarioCap [Column.vector TypeIndex.Int64 [2, 3]]
      (by decide) (by decide) (by decide) (by decide)).1 (by decide)⟩


/-- Claim C13, single-point range against the set. The index of
`(a, a) IN ((1, 2), (3, 4))` over the primary key `a` has `has_all_keys` true and no chain
of functions; queried with the range `[1, 1]` of the key, both ends included,
`checkInRange` returns `{true, false}`, and the key point 1 placed at the two mapped
positions of the tuple is `(1, 1)`, which is not a row of the retained columns (nor is any
row of them the one cell 1). -/
theorem single_point_repeated_key :
    scenarioRepeatedKeyIndex.has_all_keys = true ∧
      scenarioRepeatedKeyIndex.hasMonotonicFunctionsChain = false ∧
      scenarioRepeatedKeyIndex.checkInRange scenarioApplyChain [int64Range 1 1 true true]
        [DataType.Int64] true = .ok { can_be_true := true, can_be_false := false } ∧
      tupleRows scenarioRepeatedKeyElements
        = [[Field.Int64 1, Field.Int64 2], [Field.Int64 3, Field.Int64 4]] ∧
      [Field.Int64 1, Field.Int64 1] ∉ tupleRows scenarioRepeatedKeyElements ∧
      [Field.Int64 1] ∉ tupleRows scenarioRepeatedKeyElements :=
  ⟨by decide, by decide, by decide, by decide, by decide, by decide⟩


/-- Claim C14. For sorted ordered columns, a mapping without chains of functions, ranges
whose ends are values of the classes of the columns or infinities, each end included or
not: if some stored row lies in the hyperrectangle (on every axis its cell is within the
range of that axis, an excluded end excluded), then `checkInRange` returns a mask with
`can_be_true` set. -/
theorem may_be_true_sound
    (applyMonotonicFunctionsChainToRange :
      Range → MonotonicFunctionsChain → DataType → Bool → Option Range)
    (hid : ChainIdentity applyMonotonicFunctionsChainToRange)
    (index : MergeTreeSetIndex) (key_ranges : List Range) (data_types : List DataType)
    (single_point : Bool) (hplain : index.PlainFor key_ranges data_types)
    (htyped : index.Typed key_ranges) (hsorted : index.Sorted)
    (row : Nat) (hrow : row < index.rows) (hin : index.inHyperrectangle key_ranges row) :
    ∃ mask,
      index.checkInRange applyMonotonicFunctionsChainToRange key_ranges data_types
        single_point = .ok mask ∧ mask.can_be_true = true := by
  obtain ⟨lp, rp, heq, hl, hr⟩ := MergeTreeSetIndex.checkInRange_eq
    applyMonotonicFunctionsChainToRange hid index key_ranges data_types single_point hplain
    htyped (MergeTreeSetIndex.ordered_set_ne_nil index (by omega))
  exact ⟨_, heq, MergeTreeSetIndex.checkInRangeDecide_sound index hsorted lp rp _ _
    (index.axisRanges key_ranges) hl hr rfl rfl row hrow hin⟩

/-- The witness of C14, scenario S6: over the rows `(1,'a'), (2,'b'), (3,'c')` the
ranges `(1, 3)` and `('a', 'c')`, all ends excluded, hold the row `(2,'b')`, and
`checkInRange` returns `{true, true}`. -/
theorem may_be_true_sound_witness :
    scenarioS5Index.inHyperrectangle
        [int64Range 1 3 false false, stringRange "a" "c" false false] 1 ∧
      scenarioS5Index.checkInRange scenarioApplyChain
        [int64Range 1 3 false false, stringRange "a" "c" false false] scenarioS5Types false
        = .ok { can_be_true := true, can_be_false := true } ∧
      ∃ mask,
        scenarioS5Index.checkInRange scenarioApplyChain
          [int64Range 1 3 false false, stringRange "a" "c" false false] scenarioS5Types false
          = .ok mask ∧ mask.can_be_true = true :=
  ⟨by decide, by decide,
    may_be_true_sound scenarioApplyChain scenarioApplyChain_identity scenarioS5Index
      [int64Range 1 3 false false, stringRange "a" "c" false false] scenarioS5Types false
      (by decide) (by decide) (MergeTreeSetIndex.sorted_create _ _) 1 (by decide) (by decide)⟩


/-- Against claim C15 as stated. Three indexes with sorted ordered columns, mappings
without functions and ranges of the classes of the columns, for which `checkInRange`
returns `can_be_true` although no stored row lies in the hyperrectangle: the one row
`(1, 5)` with the ranges `[1, 2]` and `[0, 1]` (the row is between the points `(1, 0)`
and `(2, 1)` in the lexicographic order, and 5 is not within `[0, 1]`); the ordered column
`5, 5` with the range `(5, 6)` (the second 5 is taken for a row between the bounds); the
ordered column `3, 7` with the ranges `[5, 3]` and `(3, 3]`, which are empty by their
ends. -/
theorem range_decision_exact_counterexample :
    (scenarioOneRowIndex.StrictlySorted ∧
      scenarioOneRowIndex.PlainFor [int64Range 1 2 true true, int64Range 0 1 true true]
        [DataType.Int64, DataType.Int64] ∧
      scenarioOneRowIndex.Typed [int64Range 1 2 true true, int64Range 0 1 true true] ∧
      scenarioOneRowIndex.checkInRange scenarioApplyChain
        [int64Range 1 2 true true, int64Range 0 1 true true] [DataType.Int64, DataType.Int64]
        false = .ok { can_be_true := true, can_be_false := true } ∧
      ∀ row, row < scenarioOneRowIndex.rows →
        ¬ scenarioOneRowIndex.inHyperrectangle
          [int64Range 1 2 true true, int64Range 0 1 true true] row) ∧
    (scenarioFirstKeyIndex.Sorted ∧
      scenarioFirstKeyIndex.PlainFor [int64Range 5 6 false false] [DataType.Int64] ∧
      scenarioFirstKeyIndex.Typed [int64Range 5 6 false false] ∧
      scenarioFirstKeyIndex.checkInRange scenarioApplyChain [int64Range 5 6 false false]
        [DataType.Int64] false = .ok { can_be_true := true, can_be_false := true } ∧
      ∀ row, row < scenarioFirstKeyIndex.rows →
        ¬ scenarioFirstKeyIndex.inHyperrectangle [int64Range 5 6 false false] row) ∧
    (scenarioTwoValueIndex.StrictlySorted ∧
      scenarioTwoValueIndex.PlainFor [int64Range 5 3 true true] [DataType.Int64] ∧
      scenarioTwoValueIndex.Typed [int64Range 5 3 true true] ∧
      scenarioTwoValueIndex.checkInRange scenarioApplyChain [int64Range 5 3 true true]
        [DataType.Int64] false = .ok { can_be_true := true, can_be_false := true } ∧
      (∀ row, row < scenarioTwoValueIndex.rows →
        ¬ scenarioTwoValueIndex.inHyperrectangle [int64Range 5 3 true true] row) ∧
      scenarioTwoValueIndex.checkInRange scenarioApplyChain [int64Range 3 3 false true]
        [DataType.Int64] false = .ok { can_be_true := true, can_be_false := true } ∧
      ∀ row, row < scenarioTwoValueIndex.rows →
        ¬ scenarioTwoValueIndex.inHyperrectangle [int64Range 3 3 false true] row) :=
  ⟨⟨by decide, by decide, by decide, by decide, by decide⟩,
    ⟨by decide, by decide, by decide, by decide, by decide⟩,
    ⟨by decide, by decide, by decide, by decide, by decide, by decide, by decide⟩⟩

/-- Claim C15, amended. For every index whose ordered columns are strictly increasing in
the lexicographic order of the tuples, with one ordered column per mapping entry and no
chain of functions, and every list of ranges of the classes of the columns none of which
is empty by its ends alone (the left end is below the right end, or equals it with both
ends included): if `checkInRange` returns a mask with `can_be_true` set, then some stored
row lies between the left point and the right point in the lexicographic order of the
tuples: it is not below the left point, it equals the left point only if every axis
includes its left end, and it is below the right point or equals it with every axis
including its right end. -/
theorem range_decision_lexicographic
    (applyMonotonicFunctionsChainToRange :
      Range → MonotonicFunctionsChain → DataType → Bool → Option Range)
    (hid : ChainIdentity applyMonotonicFunctionsChainToRange)
    (index : MergeTreeSetIndex) (key_ranges : List Range) (data_types : List DataType)
    (single_point : Bool) (hplain : index.PlainFor key_ranges data_types)
    (htyped : index.Typed key_ranges) (hstrict : index.StrictlySorted)
    (hproper : ∀ r ∈ index.axisRanges key_ranges, r.proper)
    (mask : BoolMask)
    (hmask : index.checkInRange applyMonotonicFunctionsChainToRange key_ranges data_types
      single_point = .ok mask)
    (htrue : mask.can_be_true = true) :
    ∃ row, row < index.rows ∧ index.inLexInterval key_ranges row := by
  have hne : index.ordered_set ≠ [] := by
    intro hos
    unfold MergeTreeSetIndex.checkInRange at hmask
    rw [hos] at hmask
    simp [MergeTreeSetIndex.checkInRangePoints, MergeTreeSetIndex.size, hos] at hmask
  obtain ⟨lp, rp, heq, hl, hr⟩ := MergeTreeSetIndex.checkInRange_eq
    applyMonotonicFunctionsChainToRange hid index key_ranges data_types single_point hplain
    htyped hne
  rw [heq] at hmask
  have hm := Except.ok.inj hmask
  rw [← hm] at htrue
  have hlen : index.ordered_set.length = (index.axisRanges key_ranges).length :=
    List.Forall₂.length_eq htyped
  exact MergeTreeSetIndex.checkInRangeDecide_interval index hstrict lp rp
    (index.axisRanges key_ranges) hl hr hlen hproper htrue

/-- The witness of C15 amended: over the rows `(1,'a'), (2,'b'), (3,'c')` and the ranges
`(1, 3)` and `('a', 'c')`, all ends excluded, `checkInRange` returns `{true, true}`, and
the row `(2,'b')` lies between the points `(1,'a')` and `(3,'c')`. -/
theorem range_decision_lexicographic_witness :
    scenarioS5Index.checkInRange scenarioApplyChain
        [int64Range 1 3 false false, stringRange "a" "c" false false] scenarioS5Types false
        = .ok { can_be_true := true, can_be_false := true } ∧
      scenarioS5Index.inLexInterval
        [int64Range 1 3 false false, stringRange "a" "c" false false] 1 ∧
      ∃ row, row < scenarioS5Index.rows ∧
        scenarioS5Index.inLexInterval
          [int64Range 1 3 false false, stringRange "a" "c" false false] row :=
  ⟨by decide, by decide,
    range_decision_lexicographic scenarioApplyChain scenarioApplyChain_identity
      scenarioS5Index [int64Range 1 3 false false, stringRange "a" "c" false false]
      scenarioS5Types false (by decide) (by decide) (by decide) (by decide)
      { can_be_true := true, can_be_false := true } (by decide) rfl⟩


/-- Claim C16, sortedness. For every list of retained columns and every mapping passed
to the `MergeTreeSetIndex` constructor, measured against the projected retained columns
read off these arguments (for every key index of the mapping, in ascending order, the
retained column at the smallest tuple index given for it): the index has one ordered
column per projected column and as many rows as they have, its ordered columns read
across are a permutation of the rows of the projected columns, and for every pair of
consecutive rows `r`, `r + 1` the tuple at `r` is at most the tuple at `r + 1` under the
lexicographic comparison with NULL ordered last. The projection the index itself records
through its mapping is this projection. -/
theorem ordered_set_sorted (set_elements : List Column)
    (indexes_mapping_ : List KeyTuplePositionMapping) :
    (MergeTreeSetIndex.create set_elements indexes_mapping_).ordered_set.length
        = (projectedRetainedColumns set_elements indexes_mapping_).length ∧
      (MergeTreeSetIndex.create set_elements indexes_mapping_).rows
        = blockRows (projectedRetainedColumns set_elements indexes_mapping_) ∧
      List.Perm (tupleRows (MergeTreeSetIndex.create set_elements indexes_mapping_).ordered_set)
        (tupleRows (projectedRetainedColumns set_elements indexes_mapping_)) ∧
      (∀ r, r + 1 < (MergeTreeSetIndex.create set_elements indexes_mapping_).rows →
        compareTuples ((MergeTreeSetIndex.create set_elements indexes_mapping_).tuple r)
          ((MergeTreeSetIndex.create set_elements indexes_mapping_).tuple (r + 1)) ≤ 0) ∧
      (MergeTreeSetIndex.create set_elements indexes_mapping_).projectedColumns set_elements
        = projectedRetainedColumns set_elements indexes_mapping_ := by
  have hos := MergeTreeSetIndex.ordered_set_create set_elements indexes_mapping_
  refine ⟨?_, ?_, ?_, MergeTreeSetIndex.sorted_create set_elements indexes_mapping_,
    MergeTreeSetIndex.projection_eq set_elements indexes_mapping_⟩
  · rw [hos, length_sortBlock]
  · unfold MergeTreeSetIndex.rows
    rw [hos, blockRows_sortBlock]
  · rw [hos]
    exact perm_tupleRows_sortBlock _

/-- The witness of C16: from the retained rows `(3, 20, 5)`, `(1, 10, 4)` and the
entries `(key 1, tuple 2)`, `(key 0, tuple 1)`, `(key 1, tuple 0)` the projected columns
are the retained columns 1 and 0, the rows `(20, 3)` and `(10, 1)`, and the ordered
columns hold the rows `(10, 1)`, `(20, 3)`; scenario S5 orders `(3,'c'), (1,'a'), (2,'b')`
into `(1,'a'), (2,'b'), (3,'c')`. -/
theorem ordered_set_sorted_witness :
    projectedRetainedColumns scenarioUnsortedElements scenarioShuffledMapping
        = [Column.vector TypeIndex.Int64 [20, 10], Column.vector TypeIndex.Int64 [3, 1]] ∧
      (MergeTreeSetIndex.create scenarioUnsortedElements scenarioShuffledMapping).ordered_set
        = [Column.vector TypeIndex.Int64 [10, 20], Column.vector TypeIndex.Int64 [1, 3]] ∧
      (MergeTreeSetIndex.create scenarioUnsortedElements scenarioShuffledMapping).rows = 2 ∧
      tupleRows scenarioS5Index.ordered_set
        = [[Field.Int64 1, Field.String "a"], [Field.Int64 2, Field.String "b"],
            [Field.Int64 3, Field.String "c"]] ∧
      ((MergeTreeSetIndex.create scenarioUnsortedElements
            scenarioShuffledMapping).ordered_set.length
          = (projectedRetainedColumns scenarioUnsortedElements scenarioShuffledMapping).length ∧
        (MergeTreeSetIndex.create scenarioUnsortedElements scenarioShuffledMapping).rows
          = blockRows (projectedRetainedColumns scenarioUnsortedElements
              scenarioShuffledMapping) ∧
        List.Perm
          (tupleRows (MergeTreeSetIndex.create scenarioUnsortedElements
            scenarioShuffledMapping).ordered_set)
          (tupleRows (projectedRetainedColumns scenarioUnsortedElements
            scenarioShuffledMapping)) ∧
        (∀ r, r + 1 < (MergeTreeSetIndex.create scenarioUnsortedElements
              scenarioShuffledMapping).rows →
          compareTuples
            ((MergeTreeSetIndex.create scenarioUnsortedElements scenarioShuffledMapping).tuple r)
            ((MergeTreeSetIndex.create scenarioUnsortedElements
              scenarioShuffledMapping).tuple (r + 1)) ≤ 0) ∧
        (MergeTreeSetIndex.create scenarioUnsortedElements
            scenarioShuffledMapping).projectedColumns scenarioUnsortedElements
          = projectedRetainedColumns scenarioUnsortedElements scenarioShuffledMapping) :=
  ⟨by decide, by decide, by decide, by decide,
    ordered_set_sorted scenarioUnsortedElements scenarioShuffledMapping⟩


/-- Claim C17, `has_all_keys`. The constructor records `has_all_keys` from the mapping as
it is passed in, before the mapping is sorted and deduplicated: it is the equality of the
number of retained columns and the number of entries passed in. For
`(a, a) IN ((1, 2), (3, 4))` over the primary key `a` the two retained columns meet two
entries, `has_all_keys` is recorded true, and the final mapping has the one entry of
`tuple_index` 0: the retained column 1 is the `tuple_index` of no entry of it. -/
theorem has_all_keys_before_deduplication :
    (∀ (set_elements : List Column) (indexes_mapping_ : List KeyTuplePositionMapping),
      (MergeTreeSetIndex.create set_elements indexes_mapping_).has_all_keys
        = decide (set_elements.length = indexes_mapping_.length)) ∧
      scenarioRepeatedKeyElements.length = 2 ∧
      scenarioRepeatedKeyIndex.has_all_keys = true ∧
      scenarioRepeatedKeyIndex.indexes_mapping
        = [{ tuple_index := 0, key_index := 0, functions := [] }] ∧
      ¬ ∃ m ∈ scenarioRepeatedKeyIndex.indexes_mapping, m.tuple_index = 1 :=
  ⟨fun _ _ => rfl, by decide, by decide, by decide, by decide⟩


/-- Claim C18, where the code departs from it. For an index that is not below the number
of key types `areTypesEqual` answers false without touching `data_types`, but
`checkTypesEqual` then does not end in `TYPE_MISMATCH`: while it builds the message of
the exception it evaluates `data_types[set_type_idx]`, a read out of bounds. -/
theorem checkTypesEqual_out_of_range (s : Set) (set_type_idx : Nat) (other_type : DataType)
    (h : s.data_types.length ≤ set_type_idx) :
    s.areTypesEqual set_type_idx other_type = false ∧
      s.checkTypesEqual set_type_idx other_type = CallOutcome.out_of_bounds_read ∧
      s.checkTypesEqual set_type_idx other_type ≠ CallOutcome.thrown ErrorCodes.TYPE_MISMATCH := by
  have heq : s.areTypesEqual set_type_idx other_type = false := by
    unfold Set.areTypesEqual
    rw [if_pos h]
  have hout : s.checkTypesEqual set_type_idx other_type = CallOutcome.out_of_bounds_read := by
    unfold Set.checkTypesEqual
    rw [heq, List.getElem?_eq_none h]
    rfl
  refine ⟨heq, hout, ?_⟩
  rw [hout]
  exact fun hne => CallOutcome.noConfusion hne

/-- The witness of C18: the set of scenario S1 has one key type, `Int64`; asked about
index 1 the check reads `data_types[1]`. -/
theorem checkTypesEqual_out_of_range_witness :
    scenarioS1.data_types = [DataType.Int64] ∧
      scenarioS1.checkTypesEqual 1 DataType.Int64 = CallOutcome.out_of_bounds_read :=
  ⟨by decide,
    (checkTypesEqual_out_of_range scenarioS1 1 DataType.Int64 (by decide)).2.1⟩


/-- Claim C19. With `transform_null_in` off and a filter of one byte per row handed in,
`insertFromColumns(columns, holder)` on a well-formed block leaves a filter of one byte
per row, each 0 or 1, in which the byte of row `i` is 1 exactly when the row has no NULL
cell and its tuple equals neither a stored key nor an earlier row of the block. Hence
after `setHeader`, `fillSetElements` and any sequence of inserts of well-formed blocks
that return `true`, if the elements are still retained, the retained rows are the
members of the set in the order they were stored (each at its first occurrence among the
rows that pass the null filter), pairwise distinct and without NULL. -/
theorem retained_rows_distinct (ext : External) :
    (∀ (s : Set) (columns : List Column) (f0 : List Nat),
      s.transform_null_in = false → s.data.type ≠ SetVariantsType.EMPTY →
      s.BlockWellFormed columns → f0.length = blockRows columns →
      ∃ f, (s.insertFromColumnsHolder ext columns
            { SetKeyColumns.new with filter := some f0 }).2.1.filter = some f ∧
        f.length = blockRows columns ∧
        ∀ i, i < blockRows columns →
          (f.getD i 0 = 0 ∨ f.getD i 0 = 1) ∧
          (f.getD i 0 = 1 ↔
            Field.Null ∉ SetVariants.keyAt (s.blockKeyColumns columns) i ∧
              SetVariants.keyAt (s.blockKeyColumns columns) i ∉ s.data.keys ∧
              ∀ j, j < i → SetVariants.keyAt (s.blockKeyColumns columns) j
                ≠ SetVariants.keyAt (s.blockKeyColumns columns) i)) ∧
    (∀ (limits : SizeLimits) (max_elements_to_fill : Nat) (header : List ColumnWithTypeAndName)
        (blocks : List (List Column)),
      ((Set.create limits max_elements_to_fill false).setHeader
        header).fillSetElements.insertsPass ext blocks →
      (((Set.create limits max_elements_to_fill false).setHeader
        header).fillSetElements.insertBlocks ext blocks).fill_set_elements = true →
      (((Set.create limits max_elements_to_fill false).setHeader
          header).fillSetElements.insertBlocks ext blocks).retainedRows
        = (((Set.create limits max_elements_to_fill false).setHeader
          header).fillSetElements.insertBlocks ext blocks).data.keys ∧
      (((Set.create limits max_elements_to_fill false).setHeader
          header).fillSetElements.insertBlocks ext blocks).data.keys
        = emplaceAll [] (blocks.flatMap
            ((Set.create limits max_elements_to_fill false).setHeader
              header).fillSetElements.insertedRows) ∧
      (((Set.create limits max_elements_to_fill false).setHeader
          header).fillSetElements.insertBlocks ext blocks).retainedRows.Nodup ∧
      ∀ row ∈ (((Set.create limits max_elements_to_fill false).setHeader
          header).fillSetElements.insertBlocks ext blocks).retainedRows,
        Field.Null ∉ row) := by
  constructor
  · intro s columns f0 htni hdata hwf hf0
    rw [Set.insertFromColumnsHolder_retain ext s columns f0 hdata hwf.1 hwf.2.1 hf0]
    refine ⟨_, rfl, by simp, fun i hi => ?_⟩
    have hget : ((List.range (blockRows columns)).map
        (insertedFilterByte s.data.keys (s.insertKeyColumns columns).1
          (s.insertKeyColumns columns).2)).getD i 0
        = insertedFilterByte s.data.keys (s.insertKeyColumns columns).1
          (s.insertKeyColumns columns).2 i := by
      rw [List.getD_eq_getElem?_getD, List.getElem?_map, List.getElem?_range hi]
      rfl
    rw [hget]
    exact Set.insertedFilterByte_off s columns htni hwf i hi
  · intro limits max_elements_to_fill header blocks hpass hfill
    obtain ⟨hstart, hkeys0, hfill0, htni0⟩ :=
      Set.retainedAreKeys_start limits max_elements_to_fill false header
    generalize hs0 : ((Set.create limits max_elements_to_fill false).setHeader
      header).fillSetElements = s0 at hpass hfill hstart hkeys0 hfill0 htni0 ⊢
    have hinv := Set.retainedAreKeys_insertBlocks ext blocks s0 hstart hfill0 hpass hfill
    have hrows := Set.retainedRows_eq_keys _ hinv
    have hkeys : (s0.insertBlocks ext blocks).data.keys
        = emplaceAll [] (blocks.flatMap s0.insertedRows) := by
      cases blocks with
      | nil => rw [← hkeys0]; rfl
      | cons b bs =>
        obtain ⟨hdata, _, _⟩ := Set.insertFromColumns_ok ext s0 b true hpass.2.1
        obtain ⟨fse, se, heq⟩ := Set.insertBlocks_eq ext (b :: bs) s0 hdata
          (Set.insertsPass_wellFormed ext (b :: bs) s0 hpass)
        rw [heq, hkeys0]
    rw [hrows, hkeys]
    refine ⟨rfl, rfl, emplaceAll_nodup _ _ List.nodup_nil, ?_⟩
    intro row hrow
    rw [mem_emplaceAll, List.mem_flatMap] at hrow
    rcases hrow with hrow | ⟨b, _, hb⟩
    · simp at hrow
    · unfold Set.insertedRows at hb
      rw [List.mem_filter] at hb
      have hp := hb.2
      unfold Set.passesNullFilter at hp
      rw [htni0] at hp
      simpa using hp

/-- The witness of C19: key type `Nullable(Int64)`, the blocks `{1, NULL, 3, 1}` and
`{3, 0, NULL}`. In the first block only the rows 0 and 2 are new (row 1 is NULL, row 3
repeats row 0); after both blocks the retained rows are `1, 3, 0`. -/
theorem retained_rows_distinct_witness :
    (∃ f, (scenarioS2Retain.insertFromColumnsHolder scenarioExternal
          [Column.nullable (Column.vector TypeIndex.Int64 [1, 0, 3, 1]) [0, 1, 0, 0]]
          { SetKeyColumns.new with filter := some [7, 7, 7, 7] }).2.1.filter = some f ∧
        f.length = 4 ∧ (f.getD 3 0 = 0 ∨ f.getD 3 0 = 1)) ∧
      (scenarioS2Retain.insertBlocks scenarioExternal scenarioS2Blocks).retainedRows
        = [[Field.Int64 1], [Field.Int64 3], [Field.Int64 0]] ∧
      (scenarioS2Retain.insertBlocks scenarioExternal scenarioS2Blocks).retainedRows
        = (scenarioS2Retain.insertBlocks scenarioExternal scenarioS2Blocks).data.keys :=
  ⟨((retained_rows_distinct scenarioExternal).1 scenarioS2Retain
      [Column.nullable (Column.vector TypeIndex.Int64 [1, 0, 3, 1]) [0, 1, 0, 0]] [7, 7, 7, 7]
      (by decide) (by decide) (by decide) (by decide)).imp
      (fun _ h => ⟨h.1, h.2.1, (h.2.2 3 (by decide)).1⟩),
    by decide,
    ((retained_rows_distinct scenarioExternal).2 scenarioLimits 0 [nullableInt64Column [] []]
      scenarioS2Blocks (by decide) (by decide)).1⟩


/-- Claim C22, header immutability. For every `Set` whose storage variant is not empty,
a further `setHeader` call with any header, and any `insertFromColumns` call (whatever it
returns or throws), leave `keys_size`, `data_types`, `set_elements_types` and the storage
variant `data.type` unchanged. -/
theorem header_immutable (ext : External) (s : Set)
    (hvariant : s.data.type ≠ SetVariantsType.EMPTY)
    (header : List ColumnWithTypeAndName) (columns : List Column) :
    ((s.setHeader header).keys_size = s.keys_size ∧
      (s.setHeader header).data_types = s.data_types ∧
      (s.setHeader header).set_elements_types = s.set_elements_types ∧
      (s.setHeader header).data.type = s.data.type) ∧
    ((s.insertFromColumns ext columns).1.keys_size = s.keys_size ∧
      (s.insertFromColumns ext columns).1.data_types = s.data_types ∧
      (s.insertFromColumns ext columns).1.set_elements_types = s.set_elements_types ∧
      (s.insertFromColumns ext columns).1.data.type = s.data.type) := by
  constructor
  · have hsame : s.setHeader header = s := by
      unfold Set.setHeader
      simp [SetVariants.empty, hvariant]
    rw [hsame]
    exact ⟨rfl, rfl, rfl, rfl⟩
  · obtain ⟨keys, fse, se, heq⟩ := Set.insertFromColumns_frame ext s columns
    rw [heq]
    exact ⟨rfl, rfl, rfl, rfl⟩

/-- The witness of C22: the set of scenario S1 (one `Int64` key) keeps its header when
`setHeader` is called with a `String` header and when the block `7, 8` is inserted. -/
theorem header_immutable_witness :
    scenarioS1.data.type ≠ SetVariantsType.EMPTY ∧
      (scenarioS1.setHeader
        [{ column := Column.string [], type := DataType.String, name := "" }]).data_types
        = [DataType.Int64] ∧
      ((scenarioS1.setHeader
          [{ column := Column.string [], type := DataType.String, name := "" }]).keys_size
          = scenarioS1.keys_size ∧
        (scenarioS1.setHeader
          [{ column := Column.string [], type := DataType.String, name := "" }]).data_types
          = scenarioS1.data_types ∧
        (scenarioS1.setHeader
          [{ column := Column.string [], type := DataType.String, name := "" }]
          ).set_elements_types = scenarioS1.set_elements_types ∧
        (scenarioS1.setHeader
          [{ column := Column.string [], type := DataType.String, name := "" }]).data.type
          = scenarioS1.data.type) ∧
      ((scenarioS1.insertFromColumns scenarioExternal
          [Column.vector TypeIndex.Int64 [7, 8]]).1.keys_size = scenarioS1.keys_size ∧
        (scenarioS1.insertFromColumns scenarioExternal
          [Column.vector TypeIndex.Int64 [7, 8]]).1.data_types = scenarioS1.data_types ∧
        (scenarioS1.insertFromColumns scenarioExternal
          [Column.vector TypeIndex.Int64 [7, 8]]).1.set_elements_types
          = scenarioS1.set_elements_types ∧
        (scenarioS1.insertFromColumns scenarioExternal
          [Column.vector TypeIndex.Int64 [7, 8]]).1.data.type = scenarioS1.data.type) :=
  ⟨by decide, by decide,
    header_immutable scenarioExternal scenarioS1 (by decide)
      [{ column := Column.string [], type := DataType.String, name := "" }]
      [Column.vector TypeIndex.Int64 [7, 8]]⟩


/-- Claim C23, mapping normalisation. For every input mapping, the mapping the
`MergeTreeSetIndex` constructor stores has strictly increasing `key_index`; a key index
occurs in it exactly when it occurs in the input; every stored entry is an input entry
whose `tuple_index` is the smallest among the input entries of its `key_index`; and the
ordered columns are one per stored entry, column `i` being the retained column
`set_elements[mapping[i].tuple_index]` with its rows rearranged by the one permutation of
the row numbers that sorts the block. -/
theorem mapping_normalised (set_elements : List Column)
    (indexes_mapping_ : List KeyTuplePositionMapping) :
    List.Pairwise (fun l r => l.key_index < r.key_index)
        (MergeTreeSetIndex.create set_elements indexes_mapping_).indexes_mapping ∧
      (∀ k, (∃ m ∈ indexes_mapping_, m.key_index = k) ↔
        ∃ m ∈ (MergeTreeSetIndex.create set_elements indexes_mapping_).indexes_mapping,
          m.key_index = k) ∧
      (∀ m ∈ (MergeTreeSetIndex.create set_elements indexes_mapping_).indexes_mapping,
        m ∈ indexes_mapping_ ∧
          ∀ m1 ∈ indexes_mapping_, m1.key_index = m.key_index →
            m.tuple_index ≤ m1.tuple_index) ∧
      (MergeTreeSetIndex.create set_elements indexes_mapping_).ordered_set.length
        = (MergeTreeSetIndex.create set_elements indexes_mapping_).indexes_mapping.length ∧
      ∃ permutation,
        List.Perm permutation
          (List.range (MergeTreeSetIndex.create set_elements indexes_mapping_).rows) ∧
        ∀ (i : Nat) (m : KeyTuplePositionMapping) (column : Column),
          (MergeTreeSetIndex.create set_elements indexes_mapping_).indexes_mapping[i]? = some m →
          set_elements[m.tuple_index]? = some column →
          (MergeTreeSetIndex.create set_elements indexes_mapping_).ordered_set[i]?
            = some (column.index permutation) := by
  obtain ⟨h1, h2, h3⟩ := MergeTreeSetIndex.normalizedMapping_spec indexes_mapping_
  refine ⟨h1, ?_, h3, ?_, ?_⟩
  · intro k
    constructor
    · rintro ⟨m, hm, hk⟩
      obtain ⟨m1, hm1, hk1⟩ := h2 m hm
      exact ⟨m1, hm1, hk1.trans hk⟩
    · rintro ⟨m, hm, hk⟩
      exact ⟨m, (h3 m hm).1, hk⟩
  · simp [MergeTreeSetIndex.create, sortBlock]
  · refine ⟨List.insertionSort
      (fun a b => compareRows ((MergeTreeSetIndex.normalizedMapping indexes_mapping_).map
        fun m => set_elements.getD m.tuple_index (Column.vector TypeIndex.UInt8 [])) a b ≤ 0)
      (List.range (blockRows ((MergeTreeSetIndex.normalizedMapping indexes_mapping_).map
        fun m => set_elements.getD m.tuple_index (Column.vector TypeIndex.UInt8 [])))), ?_, ?_⟩
    · have hrows : (MergeTreeSetIndex.create set_elements indexes_mapping_).rows
          = blockRows ((MergeTreeSetIndex.normalizedMapping indexes_mapping_).map
            fun m => set_elements.getD m.tuple_index (Column.vector TypeIndex.UInt8 [])) :=
        blockRows_sortBlock _
      rw [hrows]
      exact List.perm_insertionSort _ _
    · intro i m column hm hcol
      have hm1 : (MergeTreeSetIndex.normalizedMapping indexes_mapping_)[i]? = some m := hm
      simp only [MergeTreeSetIndex.create, sortBlock, List.getElem?_map, hm1,
        Option.map_some', List.getD_eq_getElem?_getD, hcol, Option.getD_some]

/-- The witness of C23: of the entries `(key 1, tuple 2)`, `(key 0, tuple 1)`,
`(key 1, tuple 0)` the constructor keeps `(key 0, tuple 1)` and `(key 1, tuple 0)`, and
the ordered columns are the retained columns 1 and 0 sorted together. -/
theorem mapping_normalised_witness :
    (MergeTreeSetIndex.create scenarioShuffledElements scenarioShuffledMapping).indexes_mapping
        = [{ tuple_index := 1, key_index := 0, functions := [] },
            { tuple_index := 0, key_index := 1, functions := [] }] ∧
      (MergeTreeSetIndex.create scenarioShuffledElements scenarioShuffledMapping).ordered_set
        = [Column.vector TypeIndex.Int64 [10, 20], Column.vector TypeIndex.Int64 [3, 1]] ∧
      List.Pairwise (fun l r => l.key_index < r.key_index)
        (MergeTreeSetIndex.create scenarioShuffledElements
          scenarioShuffledMapping).indexes_mapping :=
  ⟨by decide, by decide,
    (mapping_normalised scenarioShuffledElements scenarioShuffledMapping).1⟩


/-- Claim C24, one-dimensional exactness. For an index of one ordered column that is
strictly increasing (NULL, if any, ordered last), with one mapping entry without functions
and a range of the key whose left end is below its right end (each end included or
excluded, the ends values of the class of the column or infinities): `checkInRange`
returns a mask whose `can_be_true` is set if and only if some stored value lies in the
range, and whose `can_be_false` is set. -/
theorem one_dimensional_exact
    (applyMonotonicFunctionsChainToRange :
      Range → MonotonicFunctionsChain → DataType → Bool → Option Range)
    (hid : ChainIdentity applyMonotonicFunctionsChainToRange)
    (index : MergeTreeSetIndex) (key_ranges : List Range) (data_types : List DataType)
    (single_point : Bool) (column : Column) (mapping : KeyTuplePositionMapping)
    (range : Range)
    (hcolumn : index.ordered_set = [column]) (hmapping : index.indexes_mapping = [mapping])
    (hchain : mapping.functions = [])
    (hrange : key_ranges[mapping.key_index]? = some range)
    (htype : mapping.key_index < data_types.length)
    (hleft : column.accepts range.left = true) (hright : column.accepts range.right = true)
    (hstrict : index.StrictlySorted)
    (hlt : FieldRef.compare range.left range.right < 0) :
    ∃ mask,
      index.checkInRange applyMonotonicFunctionsChainToRange key_ranges data_types
        single_point = .ok mask ∧
      (mask.can_be_true = true ↔ ∃ row, row < column.size ∧ range.holds (column.get row)) ∧
      mask.can_be_false = true := by
  have haxes : index.axisRanges key_ranges = [range] := by
    simp [MergeTreeSetIndex.axisRanges, hmapping, hrange]
  have hkey : mapping.key_index < key_ranges.length := by
    by_contra hge
    rw [List.getElem?_eq_none (by omega)] at hrange
    cases hrange
  have hplain : index.PlainFor key_ranges data_types := by
    refine ⟨by rw [hcolumn, hmapping]; rfl, ?_⟩
    intro m hm
    rw [hmapping] at hm
    have hm1 : m = mapping := by simpa using hm
    subst hm1
    exact ⟨hchain, hkey, htype⟩
  have htyped : index.Typed key_ranges := by
    unfold MergeTreeSetIndex.Typed
    rw [hcolumn, haxes]
    exact List.Forall₂.cons ⟨hleft, hright⟩ List.Forall₂.nil
  have hne : index.ordered_set ≠ [] := by rw [hcolumn]; simp
  have hrows : index.rows = column.size := by
    simp [MergeTreeSetIndex.rows, hcolumn, blockRows]
  have htuple : ∀ row, index.tuple row = [column.get row] := by
    intro row
    simp [MergeTreeSetIndex.tuple, hcolumn, SetVariants.keyAt]
  obtain ⟨lp, rp, heq, hl, hr⟩ := MergeTreeSetIndex.checkInRange_eq
    applyMonotonicFunctionsChainToRange hid index key_ranges data_types single_point hplain
    htyped hne
  refine ⟨_, heq, ⟨?_, ?_⟩, ?_⟩
  · intro htrue
    have hlen : index.ordered_set.length = (index.axisRanges key_ranges).length := by
      rw [hcolumn, haxes]; rfl
    have hproper : ∀ r ∈ index.axisRanges key_ranges, r.proper := by
      intro r hr1
      rw [haxes] at hr1
      have hr2 : r = range := by simpa using hr1
      subst hr2
      exact Or.inl hlt
    obtain ⟨row, hrow, h1, h2, h3⟩ := MergeTreeSetIndex.checkInRangeDecide_interval index
      hstrict lp rp (index.axisRanges key_ranges) hl hr hlen hproper htrue
    rw [haxes, htuple] at h1 h2 h3
    exact ⟨row, by omega, (lexInterval_singleton _ range).mp ⟨h1, h2, h3⟩⟩
  · rintro ⟨row, hrow, hholds⟩
    refine MergeTreeSetIndex.checkInRangeDecide_sound index
      (MergeTreeSetIndex.StrictlySorted.sorted index hstrict) lp rp _ _
      (index.axisRanges key_ranges) hl hr rfl rfl row (by omega) ?_
    rw [haxes, htuple]
    exact List.Forall₂.cons hholds List.Forall₂.nil
  · rw [haxes] at hl hr
    exact MergeTreeSetIndex.checkInRangeDecide_can_be_false index _ lp rp _ _
      (MergeTreeSetIndex.oneElementRange_of_lt lp rp range hl hr hlt)

/-- The witness of C24: over the ordered column `3, 7` the range `(3, 7]` holds the
stored value 7 and gives `{true, true}`; the range `(3, 7)` holds no stored value and
gives `{false, true}`. -/
theorem one_dimensional_exact_witness :
    scenarioTwoValueIndex.checkInRange scenarioApplyChain [int64Range 3 7 false true]
        [DataType.Int64] false = .ok { can_be_true := true, can_be_false := true } ∧
      scenarioTwoValueIndex.checkInRange scenarioApplyChain [int64Range 3 7 false false]
        [DataType.Int64] false = .ok { can_be_true := false, can_be_false := true } ∧
      ∃ mask,
        scenarioTwoValueIndex.checkInRange scenarioApplyChain [int64Range 3 7 false true]
          [DataType.Int64] false = .ok mask ∧
        (mask.can_be_true = true ↔
          ∃ row, row < (Column.vector TypeIndex.Int64 [3, 7]).size ∧
            (int64Range 3 7 false true).holds ((Column.vector TypeIndex.Int64 [3, 7]).get row)) ∧
        mask.can_be_false = true :=
  ⟨by decide, by decide,
    one_dimensional_exact scenarioApplyChain scenarioApplyChain_identity scenarioTwoValueIndex
      [int64Range 3 7 false true] [DataType.Int64] false (Column.vector TypeIndex.Int64 [3, 7])
      { tuple_index := 0, key_index := 0, functions := [] } (int64Range 3 7 false true)
      (by decide) (by decide) rfl (by decide) (by decide) (by decide) (by decide) (by decide)
      (by decide)⟩


/-- Claim C25, the precision mask. For every `DateTime64` column of scale `s` with the
raw values `v_0 .. v_(n-1)`, `checkDateTimePrecision` returns a mask of exactly `n` bytes,
each 0 or 1, with `mask[i] = 1` if and only if `s ≥ 1` and `v_i mod 10^s ≠ 0` (the
mathematical remainder, so also for negative `v_i`); for `s = 0` the mask is all zeros.
A `ColumnNullable` around the column gives the mask of the nested column. -/
theorem precision_mask (scale : Nat) (values : List Int) (name : String) :
    (∃ mask,
      checkDateTimePrecision
          { column := Column.vector TypeIndex.DateTime64 values
            type := DataType.DateTime64 scale, name := name } = .ok mask ∧
        mask.length = values.length ∧
        (∀ i, i < values.length →
          (mask.getD i 0 = 0 ∨ mask.getD i 0 = 1) ∧
            (mask.getD i 0 = 1 ↔ 1 ≤ scale ∧ values.getD i 0 % (10 : Int) ^ scale ≠ 0)) ∧
        (scale = 0 → mask = List.replicate values.length 0)) ∧
      ∀ null_map,
        checkDateTimePrecision
            { column := Column.nullable (Column.vector TypeIndex.DateTime64 values) null_map
              type := DataType.DateTime64 scale, name := name }
          = checkDateTimePrecision
            { column := Column.vector TypeIndex.DateTime64 values
              type := DataType.DateTime64 scale, name := name } := by
  refine ⟨?_, fun _ => rfl⟩
  by_cases hscale : 1 ≤ scale
  · refine ⟨_, checkDateTimePrecision_vector values scale name hscale, by simp, ?_, ?_⟩
    · intro i hi
      rw [List.getD_eq_getElem?_getD, List.getElem?_map, List.getElem?_eq_getElem hi,
        List.getD_eq_getElem?_getD, List.getElem?_eq_getElem hi]
      simp only [Option.map_some', Option.getD_some]
      by_cases hv : Int.tmod values[i] (exp10_i32 scale) ≠ 0
      · rw [if_pos hv]
        exact ⟨Or.inr rfl, fun _ => ⟨hscale, (tmod_ne_zero_iff _ _).mp hv⟩, fun _ => rfl⟩
      · rw [if_neg hv]
        refine ⟨Or.inl rfl, fun h => by simp at h, fun h => ?_⟩
        exact absurd ((tmod_ne_zero_iff _ _).mpr h.2) hv
    · intro h0
      omega
  · have h0 : scale = 0 := by omega
    subst h0
    refine ⟨List.replicate values.length 0, ?_, by simp, ?_, fun _ => rfl⟩
    · simp [checkDateTimePrecision]
    · intro i hi
      rw [List.getD_replicate_of_lt _ _ _ hi]
      simp

/-- The witness of C25: at scale 3 the values 1500, -1500, 2000, -2000 and 0 give the
mask `[1, 1, 0, 0, 0]`, and at scale 0 the mask is all zeros. -/
theorem precision_mask_witness :
    checkDateTimePrecision (dateTime64Column 3 [1500, -1500, 2000, -2000, 0])
        = .ok [1, 1, 0, 0, 0] ∧
      checkDateTimePrecision (dateTime64Column 0 [1500, -1500]) = .ok [0, 0] ∧
      ∃ mask,
        checkDateTimePrecision
            { column := Column.vector TypeIndex.DateTime64 [1500, -1500, 2000, -2000, 0]
              type := DataType.DateTime64 3, name := "" } = .ok mask ∧
          mask.length = ([1500, -1500, 2000, -2000, 0] : List Int).length ∧
          (∀ i, i < ([1500, -1500, 2000, -2000, 0] : List Int).length →
            (mask.getD i 0 = 0 ∨ mask.getD i 0 = 1) ∧
              (mask.getD i 0 = 1 ↔
                1 ≤ 3 ∧ ([1500, -1500, 2000, -2000, 0] : List Int).getD i 0 % (10 : Int) ^ 3
                  ≠ 0)) ∧
          (3 = 0 → mask = List.replicate ([1500, -1500, 2000, -2000, 0] : List Int).length 0) :=
  ⟨by decide, by decide, (precision_mask 3 [1500, -1500, 2000, -2000, 0] "").1⟩


/-- Claim C26, `mergeNullMaps(a, b)`. When `a` is absent the result is `b`, and when `b`
is absent it is `a`; when both are present with different lengths the call raises
`LOGICAL_ERROR`; when both are present with the same length `n` the result is a mask of
length `n` whose entry `i` is 1 if `a[i]` or `b[i]` is non-zero and 0 otherwise. Hence
the merge is commutative, and idempotent on masks of zeros and ones. -/
theorem mergeNullMaps_spec :
    (∀ b, mergeNullMaps none b = .ok b) ∧
      (∀ a, mergeNullMaps a none = .ok a) ∧
      (∀ a b : List Nat, a.length ≠ b.length →
        mergeNullMaps (some a) (some b) = .error ErrorCodes.LOGICAL_ERROR) ∧
      (∀ a b : List Nat, a.length = b.length →
        ∃ m, mergeNullMaps (some a) (some b) = .ok (some m) ∧ m.length = a.length ∧
          ∀ i, i < a.length →
            m.getD i 0 = if a.getD i 0 ≠ 0 ∨ b.getD i 0 ≠ 0 then 1 else 0) ∧
      (∀ a b, mergeNullMaps a b = mergeNullMaps b a) ∧
      (∀ a : List Nat, (∀ x ∈ a, x = 0 ∨ x = 1) →
        mergeNullMaps (some a) (some a) = .ok (some a)) := by
  refine ⟨fun b => ?_, fun a => ?_, fun a b hne => ?_, fun a b heq => ?_, fun a b => ?_,
    fun a h01 => ?_⟩
  · cases b <;> rfl
  · cases a <;> rfl
  · simp [mergeNullMaps, hne]
  · refine ⟨(List.range a.length).map fun i =>
        if a.getD i 0 ≠ 0 ∨ b.getD i 0 ≠ 0 then 1 else 0, ?_, by simp, ?_⟩
    · simp only [mergeNullMaps]
      rw [if_neg (not_not.mpr heq)]
    intro i hi
    rw [List.getD_eq_getElem?_getD, List.getElem?_map, List.getElem?_range hi]
    rfl
  · cases a with
    | none => cases b <;> rfl
    | some a =>
      cases b with
      | none => rfl
      | some b =>
        by_cases hlen : a.length = b.length
        · simp only [mergeNullMaps, hlen, ne_eq, not_true_eq_false, if_false]
          congr 2
          apply List.map_congr_left
          intro i _
          simp only [or_comm]
        · have hlen2 : ¬ b.length = a.length := fun h => hlen h.symm
          simp [mergeNullMaps, hlen, hlen2]
  · simp only [mergeNullMaps, ne_eq, not_true_eq_false, if_false, or_self]
    congr 2
    apply List.ext_getElem
    · simp
    · intro i h1 h2
      simp only [List.getElem_map, List.getElem_range]
      have hx := h01 a[i] (List.getElem_mem _)
      rw [List.getD_eq_getElem?_getD, List.getElem?_eq_getElem h2, Option.getD_some]
      rcases hx with h | h <;> simp [h]

/-- The witness of C26: the masks `[0, 2]` and `[1, 0]` merge to `[1, 1]` in either
order, masks of lengths 1 and 2 raise `LOGICAL_ERROR`, and `[0, 1]` merged with itself
is `[0, 1]`. -/
theorem mergeNullMaps_spec_witness :
    mergeNullMaps (some [0, 2]) (some [1, 0]) = .ok (some [1, 1]) ∧
      mergeNullMaps (some [1]) (some [1, 0]) = .error ErrorCodes.LOGICAL_ERROR ∧
      (∃ m, mergeNullMaps (some [0, 2]) (some [1, 0]) = .ok (some m) ∧ m.length = 2 ∧
        ∀ i, i < 2 →
          m.getD i 0 = if ([0, 2] : List Nat).getD i 0 ≠ 0 ∨ ([1, 0] : List Nat).getD i 0 ≠ 0
            then 1 else 0) ∧
      mergeNullMaps (some [0, 1]) (some [0, 1]) = .ok (some [0, 1]) :=
  ⟨by decide, mergeNullMaps_spec.2.2.1 [1] [1, 0] (by decide),
    mergeNullMaps_spec.2.2.2.1 [0, 2] [1, 0] rfl,
    mergeNullMaps_spec.2.2.2.2.2 [0, 1] (by decide)⟩

end DB
